import Mathlib

/-!
# Hprose for Go: serialization codec and RPC envelope

A shallow embedding of the simple writer (`simple_writer.go`), the simple
reader (`simple_reader.go`), the raw reader (`raw_reader.go`), the service
(`service.go`) and the request writer of the client (`client.go`).

Conventions of the embedding.

* A byte is a `Nat` below 256; byte arithmetic is reduced `% 256` where Go
  wraps. `int` and `int64` are `Int`, reduced by `wrap64` where Go wraps.
* A Go `string` and a `[]byte` are lists of bytes.
* The `BufWriter` behind a writer is a `bytes.Buffer` (the sink `ReadRaw`
  itself allocates): the list of bytes written so far. Its writes do not
  fail, so the `err == nil` guards that follow a write are always taken.
* The `BufReader` behind a reader is an in-memory buffer: the list of bytes
  not yet read. `ReadByte` and `ReadRune` fail with `io.EOF` on the empty
  list; `Read(p)` copies `min(len(p), remaining)` bytes and fails with
  `io.EOF` only on the empty list.
* A run-time panic (index out of range) is `none`.
-/

namespace Hprose

/-! ## Tag alphabet -/

/-- Modelled from the spec: the tag constants of section 4.1 (their Go
declarations are not part of the source at hand). `TagInteger` is `i`. -/
abbrev TagInteger : Nat := 105
/-- Modelled from the spec: `TagLong` is `l`. -/
abbrev TagLong : Nat := 108
/-- Modelled from the spec: `TagDouble` is `d`. -/
abbrev TagDouble : Nat := 100
/-- Modelled from the spec: `TagNaN` is `N`. -/
abbrev TagNaN : Nat := 78
/-- Modelled from the spec: `TagInfinity` is `I`. -/
abbrev TagInfinity : Nat := 73
/-- Modelled from the spec: `TagNull` is `n`. -/
abbrev TagNull : Nat := 110
/-- Modelled from the spec: `TagEmpty` is `e`. -/
abbrev TagEmpty : Nat := 101
/-- Modelled from the spec: `TagTrue` is `t`. -/
abbrev TagTrue : Nat := 116
/-- Modelled from the spec: `TagFalse` is `f`. -/
abbrev TagFalse : Nat := 102
/-- Modelled from the spec: `TagDate` is `D`. -/
abbrev TagDate : Nat := 68
/-- Modelled from the spec: `TagTime` is `T`. -/
abbrev TagTime : Nat := 84
/-- Modelled from the spec: `TagBytes` is `b`. -/
abbrev TagBytes : Nat := 98
/-- Modelled from the spec: `TagUTF8Char` is `u`. -/
abbrev TagUTF8Char : Nat := 117
/-- Modelled from the spec: `TagString` is `s`. -/
abbrev TagString : Nat := 115
/-- Modelled from the spec: `TagGuid` is `g`. -/
abbrev TagGuid : Nat := 103
/-- Modelled from the spec: `TagList` is `a`. -/
abbrev TagList : Nat := 97
/-- Modelled from the spec: `TagMap` is `m`. -/
abbrev TagMap : Nat := 109
/-- Modelled from the spec: `TagClass` is `c`. -/
abbrev TagClass : Nat := 99
/-- Modelled from the spec: `TagObject` is `o`. -/
abbrev TagObject : Nat := 111
/-- Modelled from the spec: `TagRef` is `r`. -/
abbrev TagRef : Nat := 114
/-- Modelled from the spec: `TagError` is `E`. -/
abbrev TagError : Nat := 69
/-- Modelled from the spec: `TagSemicolon` is `;`. -/
abbrev TagSemicolon : Nat := 59
/-- Modelled from the spec: `TagQuote` is `"`. -/
abbrev TagQuote : Nat := 34
/-- Modelled from the spec: `TagOpenbrace` is the opening brace. -/
abbrev TagOpenbrace : Nat := 123
/-- Modelled from the spec: `TagClosebrace` is the closing brace. -/
abbrev TagClosebrace : Nat := 125
/-- Modelled from the spec: `TagUTC` is `Z`. -/
abbrev TagUTC : Nat := 90
/-- Modelled from the spec: `TagPos` is `+`. -/
abbrev TagPos : Nat := 43
/-- Modelled from the spec: `TagNeg` is `-`. -/
abbrev TagNeg : Nat := 45

/-! ## Machine integers -/

/-- Conversion of an integer to `byte`: the low eight bits. -/
def toByte (x : Int) : Nat := (x % 256).toNat

/-- Two's-complement reduction of an integer to `int64`. -/
def wrap64 (x : Int) : Int := (x + 2 ^ 63) % 2 ^ 64 - 2 ^ 63

/-- The values an `int64` holds. -/
def isInt64 (v : Int) : Prop := -(2 : Int) ^ 63 ≤ v ∧ v < (2 : Int) ^ 63

instance (v : Int) : Decidable (isInt64 v) := by unfold isInt64; infer_instance

/-! ## Errors -/

/-- The error values the codec returns. `errors.New` messages that are built
from a tag keep the tag; `EOF` is `io.EOF`; `text` is `errors.New` of a
text that is held as bytes. -/
inductive error where
  | EOF
  | unexpectedTag (tag : Nat)
  | tagExpected (expectTags : List Nat) (tag : Nat)
  | NilError
  | badEncodeError
  | cannotConvert (src : String) (dst : String)
  | other (msg : String)
  | text (msg : List Nat)
  deriving DecidableEq, Repr

/-- `unexpectedTag(tag, expectTags)`: with `expectTags == nil` (here `none`)
the error `Unexpected serialize tag '<tag>' in stream`; otherwise the error
`Tag '<expectTags>' expected, but '<tag>' found in stream` when `tag` is not
among `expectTags`, and `nil` when it is. -/
def unexpectedTag (tag : Nat) (expectTags : Option (List Nat)) : Option error :=
  match expectTags with
  | none => some (error.unexpectedTag tag)
  | some e => if tag ∈ e then none else some (error.tagExpected e tag)

/-- The package variable `refError = unexpectedTag(TagRef, nil)`. -/
def refError : Option error := unexpectedTag TagRef none

/-! ## Writer -/

/-- The only `writerRefer` of `simple_writer.go`. -/
inductive writerRefer where
  | fakeWriterRefer
  deriving DecidableEq, Repr

/-- The `writer` struct: `stream` holds the bytes written so far, `numbuf` is
the `[20]byte` scratch buffer. The class tables `classref` and `fieldsref`
are kept in a record of their own, `classTables`, which the operations on
classes and objects take and give back. -/
structure writer where
  stream : List Nat
  numbuf : List Nat
  refer : writerRefer
  deriving DecidableEq, Repr

/-- `NewSimpleWriter`: a writer over `stream` with the fake referer and a
zeroed scratch buffer. -/
def NewSimpleWriter (stream : List Nat) : writer :=
  { stream := stream, numbuf := List.replicate 20 0, refer := writerRefer.fakeWriterRefer }

/-- `w.stream.WriteByte(c)`. -/
def writer.WriteByte (w : writer) (c : Nat) : writer :=
  { w with stream := w.stream ++ [c] }

/-- `w.stream.Write(p)` and `w.stream.WriteString(s)`. -/
def writer.Write (w : writer) (p : List Nat) : writer :=
  { w with stream := w.stream ++ p }

/-- The digit loop of `writeInt64`: `for i != 0 { off--; numbuf[off] = ...;
i /= 10 }`. Go's `/` and `%` truncate toward zero. The recursion is on `off`:
at `off = 0` the decrement would index `numbuf[-1]`, a panic. -/
def writeInt64Loop : Nat → Int → Int → List Nat → Option (Nat × List Nat)
  | off, i, sign, numbuf =>
    if i = 0 then some (off, numbuf)
    else
      match off with
      | 0 => none
      | off + 1 =>
        if off < numbuf.length then
          writeInt64Loop off (Int.tdiv i 10) sign
            (numbuf.set off (toByte (Int.tmod i 10 * sign + 48)))
        else none

/-- `writer.writeInt64`. -/
def writer.writeInt64 (w : writer) (i : Int) : Option writer :=
  if 0 ≤ i ∧ i ≤ 9 then
    some (w.WriteByte (toByte (i + 48)))
  else
    let sign : Int := if i < 0 then -1 else 1
    match writeInt64Loop 20 i sign w.numbuf with
    | none => none
    | some (off, numbuf) =>
      if sign = -1 then
        match off with
        | 0 => none
        | off + 1 =>
          if off < numbuf.length then
            let numbuf := numbuf.set off 45
            some { w with numbuf := numbuf, stream := w.stream ++ numbuf.drop off }
          else none
      else
        some { w with numbuf := numbuf, stream := w.stream ++ numbuf.drop off }

/-- `writer.writeInt`: `w.writeInt64(int64(i))`. -/
def writer.writeInt (w : writer) (i : Int) : Option writer :=
  w.writeInt64 (wrap64 i)

/-- `writer.WriteInt64`. `math.MinInt32` is `-2^31`, `math.MaxInt32` is
`2^31 - 1`. -/
def writer.WriteInt64 (w : writer) (v : Int) : Option writer :=
  if 0 ≤ v ∧ v ≤ 9 then
    some (w.WriteByte (toByte (v + 48)))
  else
    let w := if -(2 : Int) ^ 31 ≤ v ∧ v ≤ 2 ^ 31 - 1 then w.WriteByte TagInteger
             else w.WriteByte TagLong
    match w.writeInt64 v with
    | none => none
    | some w => some (w.WriteByte TagSemicolon)

/-! ## Base-10 text -/

/-- The base-10 text of an integer as bytes: a `-` for a negative number,
then the decimal digits of its magnitude as the core library prints them. -/
def decimalText (v : Int) : List Nat :=
  (if v < 0 then [45] else []) ++ (Nat.toDigits 10 v.natAbs).map Char.toNat

/-- `writer.WriteNull`. -/
def writer.WriteNull (w : writer) : Option writer :=
  some (w.WriteByte TagNull)

/-- `writer.WriteBool`. -/
def writer.WriteBool (w : writer) (v : Bool) : Option writer :=
  if v then some (w.WriteByte TagTrue) else some (w.WriteByte TagFalse)

/-- `setRef` of the writer's referer; `fakeWriterRefer.setRef` does nothing. -/
def writer.setRef (w : writer) : writer :=
  match w.refer with
  | writerRefer.fakeWriterRefer => w

/-- `writeRef` of the writer's referer: the writer afterwards, `success` and
`err`. `fakeWriterRefer.writeRef` is `return false, nil`. -/
def writer.writeRef (w : writer) : writer × Bool × Option error :=
  match w.refer with
  | writerRefer.fakeWriterRefer => (w, false, none)

/-! ## UTF-8 (Go's `unicode/utf8`) -/

/-- `utf8.RuneError`, U+FFFD. -/
abbrev RuneError : Nat := 65533

/-- `utf8.UTFMax`. -/
abbrev UTFMax : Nat := 4

/-- The constant `rune3Max = 1<<16 - 1` of `simple_writer.go`. -/
abbrev rune3Max : Nat := 65535

/-- `utf8.DecodeRune` and `utf8.DecodeRuneInString`: the first rune of `p`
and its width in bytes; `(RuneError, 0)` on empty input and `(RuneError, 1)`
on an encoding that is truncated, ill-formed, over-long, a surrogate or
above U+10FFFF. -/
def DecodeRune : List Nat → Nat × Nat
  | [] => (RuneError, 0)
  | c0 :: p =>
    if c0 < 128 then (c0, 1)
    else if c0 < 192 then (RuneError, 1)
    else
      match p with
      | [] => (RuneError, 1)
      | c1 :: p =>
        if c1 < 128 ∨ 192 ≤ c1 then (RuneError, 1)
        else if c0 < 224 then
          let r := c0 % 32 * 64 + c1 % 64
          if r ≤ 127 then (RuneError, 1) else (r, 2)
        else
          match p with
          | [] => (RuneError, 1)
          | c2 :: p =>
            if c2 < 128 ∨ 192 ≤ c2 then (RuneError, 1)
            else if c0 < 240 then
              let r := c0 % 16 * 4096 + c1 % 64 * 64 + c2 % 64
              if r ≤ 2047 then (RuneError, 1)
              else if 55296 ≤ r ∧ r ≤ 57343 then (RuneError, 1)
              else (r, 3)
            else
              match p with
              | [] => (RuneError, 1)
              | c3 :: _ =>
                if c3 < 128 ∨ 192 ≤ c3 then (RuneError, 1)
                else if c0 < 248 then
                  let r := c0 % 8 * 262144 + c1 % 64 * 4096 + c2 % 64 * 64 + c3 % 64
                  if r ≤ 65535 ∨ 1114111 < r then (RuneError, 1) else (r, 4)
                else (RuneError, 1)

/-- `utf8.EncodeRune`: the UTF-8 bytes of rune `r`; a surrogate or a value
above U+10FFFF is written as `RuneError`. -/
def EncodeRune (r : Nat) : List Nat :=
  if r ≤ 127 then [r]
  else if r ≤ 2047 then [192 + r / 64, 128 + r % 64]
  else if 1114111 < r ∨ (55296 ≤ r ∧ r ≤ 57343) then [239, 191, 189]
  else if r ≤ 65535 then [224 + r / 4096, 128 + r / 64 % 64, 128 + r % 64]
  else [240 + r / 262144, 128 + r / 4096 % 64, 128 + r / 64 % 64, 128 + r % 64]

/-- The Go string that holds the code points `cs`: their UTF-8 bytes. Every
valid UTF-8 string is `utf8Bytes cs` for exactly one `cs`. -/
def utf8Bytes : List Char → List Nat
  | [] => []
  | c :: cs => EncodeRune c.toNat ++ utf8Bytes cs

/-- The loop of `utf8.RuneCountInString`; `fuel` bounds the iterations and
`len(s)` is enough, every rune being at least one byte wide. -/
def RuneCountLoop : Nat → List Nat → Nat → Nat
  | 0, _, n => n
  | fuel + 1, s, n =>
    match s with
    | [] => n
    | _ :: _ => RuneCountLoop fuel (s.drop (DecodeRune s).2) (n + 1)

/-- `utf8.RuneCountInString`. -/
def RuneCountInString (s : List Nat) : Nat := RuneCountLoop s.length s 0

/-- The loop of `utf8.Valid`. -/
def ValidLoop : Nat → List Nat → Bool
  | 0, _ => true
  | fuel + 1, p =>
    match p with
    | [] => true
    | c :: _ =>
      if c ≥ 128 ∧ (DecodeRune p).2 = 1 then false
      else ValidLoop fuel (p.drop (DecodeRune p).2)

/-- `utf8.Valid`. -/
def Valid (p : List Nat) : Bool := ValidLoop p.length p

/-- The loop of `ulen`: `for _, char := range str { n++; if char > rune3Max
{ n++ } }`. A `range` over a string decodes one rune per iteration; `fuel`
bounds the iterations and `len(str)` is enough. -/
def ulenLoop : Nat → List Nat → Nat → Nat
  | 0, _, n => n
  | fuel + 1, str, n =>
    match str with
    | [] => n
    | _ :: _ =>
      let char := (DecodeRune str).1
      let n := n + 1
      let n := if char > rune3Max then n + 1 else n
      ulenLoop fuel (str.drop (DecodeRune str).2) n

/-- `ulen`: the length of `str` in UTF-16 code units. -/
def ulen (str : List Nat) : Nat := ulenLoop str.length str 0

/-! ## Writer: strings, byte blobs, containers -/

/-- `writer.writeString`. -/
def writer.writeString (w : writer) (str : List Nat) : Option writer :=
  let w := w.setRef
  let w := w.WriteByte TagString
  let length := ulen str
  if length > 0 then
    match w.writeInt length with
    | none => none
    | some w => some (((w.WriteByte TagQuote).Write str).WriteByte TagQuote)
  else some ((w.WriteByte TagQuote).WriteByte TagQuote)

/-- `writer.writeStringWithRef`. -/
def writer.writeStringWithRef (w : writer) (str : List Nat) : Option writer :=
  match w.writeRef with
  | (w, success, err) =>
    if err = none ∧ success = false then w.writeString str else some w

/-- `writer.WriteStringWithRef`. -/
def writer.WriteStringWithRef (w : writer) (str : List Nat) : Option writer :=
  if str.length = 0 then some (w.WriteByte TagEmpty)
  else if str.length < UTFMax ∧ RuneCountInString str = 1 then
    some ((w.WriteByte TagUTF8Char).Write str)
  else w.writeStringWithRef str

/-- `writer.writeBytes`. -/
def writer.writeBytes (w : writer) (bytes : List Nat) : Option writer :=
  let w := w.setRef
  let w := w.WriteByte TagBytes
  if bytes.length > 0 then
    match w.writeInt bytes.length with
    | none => none
    | some w => some (((w.WriteByte TagQuote).Write bytes).WriteByte TagQuote)
  else some ((w.WriteByte TagQuote).WriteByte TagQuote)

/-- `writer.writeBytesWithRef`. -/
def writer.writeBytesWithRef (w : writer) (bytes : List Nat) : Option writer :=
  match w.writeRef with
  | (w, success, err) =>
    if err = none ∧ success = false then w.writeBytes bytes else some w

/-- `writer.WriteBytesWithRef`. -/
def writer.WriteBytesWithRef (w : writer) (bytes : List Nat) : Option writer :=
  if bytes.length = 0 then some (w.WriteByte TagEmpty)
  else w.writeBytesWithRef bytes

/-- The element loop of `writeStringSlice`:
`for i := 0; i < count; i++ { w.WriteStringWithRef(a[i]) }`. -/
def writer.writeStringSliceLoop (w : writer) : List (List Nat) → Option writer
  | [] => some w
  | s :: a =>
    match w.WriteStringWithRef s with
    | none => none
    | some w => w.writeStringSliceLoop a

/-- `writer.writeStringSlice`. -/
def writer.writeStringSlice (w : writer) (a : List (List Nat)) : Option writer :=
  let w := w.setRef
  let w := w.WriteByte TagList
  if a.length > 0 then
    match w.writeInt a.length with
    | none => none
    | some w =>
      match (w.WriteByte TagOpenbrace).writeStringSliceLoop a with
      | none => none
      | some w => some (w.WriteByte TagClosebrace)
  else some ((w.WriteByte TagOpenbrace).WriteByte TagClosebrace)

/-- `writer.writeStringSliceWithRef`. -/
def writer.writeStringSliceWithRef (w : writer) (a : List (List Nat)) : Option writer :=
  match w.writeRef with
  | (w, success, err) =>
    if err = none ∧ success = false then w.writeStringSlice a else some w

/-- The dynamic values the container theorems range over: `nil`, integers,
booleans, strings, `[]byte`, `[]interface{}` and `map[string]interface{}`
(a map is the list of its entries in the order `range` visits them). -/
inductive Value where
  | null
  | int (v : Int)
  | bool (b : Bool)
  | string (s : List Nat)
  | bytes (b : List Nat)
  | slice (a : List Value)
  | strObjMap (m : List (List Nat × Value))

/-- `writer.writeObjectSlice` for a slice of `count` elements; `elems` is its
loop `for i := 0; i < count; i++ { w.Serialize(a[i]) }`. -/
def writer.writeObjectSlice (w : writer) (count : Nat) (elems : writer → Option writer) :
    Option writer :=
  let w := w.setRef
  let w := w.WriteByte TagList
  if count > 0 then
    match w.writeInt count with
    | none => none
    | some w =>
      match elems (w.WriteByte TagOpenbrace) with
      | none => none
      | some w => some (w.WriteByte TagClosebrace)
  else some ((w.WriteByte TagOpenbrace).WriteByte TagClosebrace)

/-- `writer.writeObjectSliceWithRef`. -/
def writer.writeObjectSliceWithRef (w : writer) (count : Nat)
    (elems : writer → Option writer) : Option writer :=
  match w.writeRef with
  | (w, success, err) =>
    if err = none ∧ success = false then w.writeObjectSlice count elems else some w

/-- `writer.writeStrObjMap` for a map of `count` entries; `entries` is its
loop `for k, v := range m { w.writeStringWithRef(k, k); w.Serialize(v) }`. -/
def writer.writeStrObjMap (w : writer) (count : Nat) (entries : writer → Option writer) :
    Option writer :=
  let w := w.setRef
  let w := w.WriteByte TagMap
  if count > 0 then
    match w.writeInt count with
    | none => none
    | some w =>
      match entries (w.WriteByte TagOpenbrace) with
      | none => none
      | some w => some (w.WriteByte TagClosebrace)
  else some ((w.WriteByte TagOpenbrace).WriteByte TagClosebrace)

/-- `writer.writeStrObjMapWithRef`. -/
def writer.writeStrObjMapWithRef (w : writer) (count : Nat)
    (entries : writer → Option writer) : Option writer :=
  match w.writeRef with
  | (w, success, err) =>
    if err = none ∧ success = false then w.writeStrObjMap count entries else some w

mutual
/-- `writer.Serialize` through `fastSerialize`, on the cases `nil`, `int64`,
`bool`, `string`, `[]byte`, `[]interface{}` and `map[string]interface{}`. -/
def writer.Serialize (w : writer) : Value → Option writer
  | .null => w.WriteNull
  | .int v => w.WriteInt64 v
  | .bool b => w.WriteBool b
  | .string s => w.WriteStringWithRef s
  | .bytes b => w.WriteBytesWithRef b
  | .slice a =>
    w.writeObjectSliceWithRef a.length (fun w => writer.writeObjectSliceLoop w a)
  | .strObjMap m =>
    w.writeStrObjMapWithRef m.length (fun w => writer.writeStrObjMapLoop w m)
/-- The element loop of `writeObjectSlice`:
`for i := 0; i < count; i++ { w.Serialize(a[i]) }`. -/
def writer.writeObjectSliceLoop (w : writer) : List Value → Option writer
  | [] => some w
  | v :: a =>
    match writer.Serialize w v with
    | none => none
    | some w => writer.writeObjectSliceLoop w a
/-- The entry loop of `writeStrObjMap`:
`for k, v := range m { w.writeStringWithRef(k, k); w.Serialize(v) }`. -/
def writer.writeStrObjMapLoop (w : writer) : List (List Nat × Value) → Option writer
  | [] => some w
  | (k, v) :: m =>
    match w.writeStringWithRef k with
    | none => none
    | some w =>
      match writer.Serialize w v with
      | none => none
      | some w => writer.writeStrObjMapLoop w m
end

/-! ## Byte streams read by the readers -/

/-- `stream.Read(p)` with `len(p) = n`, on an in-memory buffer: the contents
of `p` after the call (the bytes copied, then the zeros `p` was made with),
the count, the error and the rest of the stream. -/
def Read (stream : List Nat) (n : Nat) : List Nat × Nat × Option error × List Nat :=
  match stream with
  | [] => if n = 0 then ([], 0, none, []) else (List.replicate n 0, 0, some error.EOF, [])
  | _ :: _ =>
    (stream.take n ++ List.replicate (n - stream.length) 0, min n stream.length, none,
      stream.drop n)

/-- `stream.ReadRune()`: the rune, its width, the error and the rest. -/
def ReadRune (stream : List Nat) : Nat × Nat × Option error × List Nat :=
  match stream with
  | [] => (0, 0, some error.EOF, [])
  | _ :: _ => ((DecodeRune stream).1, (DecodeRune stream).2, none,
      stream.drop (DecodeRune stream).2)

/-- `stream.ReadString(delim)`: the bytes up to and including the first
`delim`, or everything left and `io.EOF` when there is none. -/
def ReadStringDelim (delim : Nat) : List Nat → List Nat × Option error × List Nat
  | [] => ([], some error.EOF, [])
  | c :: s =>
    if c = delim then ([c], none, s)
    else
      match ReadStringDelim delim s with
      | (line, err, rest) => (c :: line, err, rest)

/-! ## Raw reader -/

/-- The loop of `RawReader.readUTF8String`; the first argument is
`length - i` at the loop test. A rune wider than three bytes counts twice. -/
def readUTF8StringLoop : Nat → List Nat → List Nat → List Nat × Option error × List Nat
  | 0, s, buf => (buf, none, s)
  | 1, s, buf =>
    match ReadRune s with
    | (_, _, some err, s) => ([], some err, s)
    | (r, _, none, s) => (buf ++ EncodeRune r, none, s)
  | k + 2, s, buf =>
    match ReadRune s with
    | (_, _, some err, s) => ([], some err, s)
    | (r, n, none, s) =>
      if n > 3 then readUTF8StringLoop k s (buf ++ EncodeRune r)
      else readUTF8StringLoop (k + 1) s (buf ++ EncodeRune r)

/-- `RawReader.readUTF8String`: the string, the error and the rest of the
stream. A negative `length` runs the loop zero times. -/
def readUTF8String (stream : List Nat) (length : Int) :
    List Nat × Option error × List Nat :=
  if length = 0 then ([], none, stream)
  else readUTF8StringLoop length.toNat stream []

/-- What a raw-reader call leaves behind: the input not yet read, the output
written so far, and the error it returns. -/
structure rawOut where
  stream : List Nat
  ostream : List Nat
  err : Option error
  deriving DecidableEq, Repr

/-- How a call of the recursive raw reader ends: it returns, it panics, or
the recursion budget of the embedding is used up. -/
inductive rawResult where
  | ret (out : rawOut)
  | panic
  | outOfFuel
  deriving DecidableEq, Repr

/-- The loop of `readNumberRaw`, after the tag has been written. -/
def readNumberRawLoop : List Nat → List Nat → rawOut
  | [], o => { stream := [], ostream := o, err := some error.EOF }
  | tag :: s, o =>
    if tag = TagSemicolon then { stream := s, ostream := o ++ [tag], err := none }
    else readNumberRawLoop s (o ++ [tag])

/-- `RawReader.readNumberRaw`. -/
def readNumberRaw (stream ostream : List Nat) (tag : Nat) : rawOut :=
  readNumberRawLoop stream (ostream ++ [tag])

/-- The loop of `readDateTimeRaw`, after the tag has been written. -/
def readDateTimeRawLoop : List Nat → List Nat → rawOut
  | [], o => { stream := [], ostream := o, err := some error.EOF }
  | tag :: s, o =>
    if tag = TagSemicolon ∨ tag = TagUTC then { stream := s, ostream := o ++ [tag], err := none }
    else readDateTimeRawLoop s (o ++ [tag])

/-- `RawReader.readDateTimeRaw`. -/
def readDateTimeRaw (stream ostream : List Nat) (tag : Nat) : rawOut :=
  readDateTimeRawLoop stream (ostream ++ [tag])

/-- `RawReader.readUTF8CharRaw`. -/
def readUTF8CharRaw (stream ostream : List Nat) (tag : Nat) : rawOut :=
  match ReadRune stream with
  | (_, _, some err, s) => { stream := s, ostream := ostream ++ [tag], err := some err }
  | (c, _, none, s) => { stream := s, ostream := ostream ++ [tag] ++ EncodeRune c, err := none }

/-- The count loop that `readBytesRaw` and `readStringRaw` both contain:
`for err == nil { count *= 10; count += int(tag - '0'); read a byte, copy
it, stop on the quote }`. `tag - '0'` is byte arithmetic. Returns the state
and `count`. -/
def readCountLoop : List Nat → List Nat → Nat → Int → rawOut × Int
  | [], o, tag, count =>
    ({ stream := [], ostream := o, err := some error.EOF },
      wrap64 (wrap64 (count * 10) + ((tag + 256 - 48) % 256 : Nat)))
  | t :: s, o, tag, count =>
    let count := wrap64 (wrap64 (count * 10) + ((tag + 256 - 48) % 256 : Nat))
    if t = TagQuote then ({ stream := s, ostream := o ++ [t], err := none }, count)
    else readCountLoop s (o ++ [t]) t count

/-- `RawReader.readBytesRaw`. `make([]byte, count+1)` panics on a negative
length. -/
def readBytesRaw (stream ostream : List Nat) (tag : Nat) : rawResult :=
  match readCountLoop stream (ostream ++ [tag]) 48 0 with
  | (out, count) =>
    if out.err = none then
      if wrap64 (count + 1) < 0 then rawResult.panic
      else
        match Read out.stream (wrap64 (count + 1)).toNat with
        | (b, _, none, s) => rawResult.ret { stream := s, ostream := out.ostream ++ b, err := none }
        | (_, _, some err, s) => rawResult.ret { stream := s, ostream := out.ostream, err := some err }
    else rawResult.ret out

/-- `RawReader.readStringRaw`. -/
def readStringRaw (stream ostream : List Nat) (tag : Nat) : rawOut :=
  match readCountLoop stream (ostream ++ [tag]) 48 0 with
  | (out, count) =>
    if out.err = none then
      match readUTF8String out.stream (wrap64 (count + 1)) with
      | (str, none, s) => { stream := s, ostream := out.ostream ++ str, err := none }
      | (_, some err, s) => { stream := s, ostream := out.ostream, err := some err }
    else out

/-- `RawReader.readGuidRaw`. The `err` that `r.stream.Read` and
`ostream.Write` assign is the one declared by `:=` in the `if` statement;
the function returns the outer `err`, which is `nil`. -/
def readGuidRaw (stream ostream : List Nat) (tag : Nat) : rawOut :=
  match Read stream 38 with
  | (guid, _, none, s) => { stream := s, ostream := ostream ++ [tag] ++ guid, err := none }
  | (_, _, some _, s) => { stream := s, ostream := ostream ++ [tag], err := none }

/-- The first loop of `readComplexRaw`, after the tag has been written:
copy bytes up to and including the opening brace. -/
def readComplexRawHead : List Nat → List Nat → rawOut
  | [], o => { stream := [], ostream := o, err := some error.EOF }
  | tag :: s, o =>
    if tag = TagOpenbrace then { stream := s, ostream := o ++ [tag], err := none }
    else readComplexRawHead s (o ++ [tag])

mutual
/-- `RawReader.ReadRawTo`. -/
def ReadRawTo : Nat → List Nat → List Nat → rawResult
  | 0, _, _ => rawResult.outOfFuel
  | fuel + 1, stream, ostream =>
    match stream with
    | [] => rawResult.ret { stream := [], ostream := ostream, err := some error.EOF }
    | tag :: s => readRaw fuel s ostream tag
/-- `RawReader.readRaw`. -/
def readRaw : Nat → List Nat → List Nat → Nat → rawResult
  | 0, _, _, _ => rawResult.outOfFuel
  | fuel + 1, stream, ostream, tag =>
    if (48 ≤ tag ∧ tag ≤ 57) ∨ tag = TagNull ∨ tag = TagEmpty ∨ tag = TagTrue
        ∨ tag = TagFalse ∨ tag = TagNaN then
      rawResult.ret { stream := stream, ostream := ostream ++ [tag], err := none }
    else if tag = TagInfinity then
      match stream with
      | [] => rawResult.ret { stream := [], ostream := ostream ++ [tag], err := some error.EOF }
      | t :: s => rawResult.ret { stream := s, ostream := ostream ++ [tag] ++ [t], err := none }
    else if tag = TagInteger ∨ tag = TagLong ∨ tag = TagDouble ∨ tag = TagRef then
      rawResult.ret (readNumberRaw stream ostream tag)
    else if tag = TagDate ∨ tag = TagTime then
      rawResult.ret (readDateTimeRaw stream ostream tag)
    else if tag = TagUTF8Char then rawResult.ret (readUTF8CharRaw stream ostream tag)
    else if tag = TagBytes then readBytesRaw stream ostream tag
    else if tag = TagString then rawResult.ret (readStringRaw stream ostream tag)
    else if tag = TagGuid then rawResult.ret (readGuidRaw stream ostream tag)
    else if tag = TagList ∨ tag = TagMap ∨ tag = TagObject then
      readComplexRaw fuel stream ostream tag
    else if tag = TagClass then
      match readComplexRaw fuel stream ostream tag with
      | rawResult.ret out =>
        if out.err = none then ReadRawTo fuel out.stream out.ostream
        else rawResult.ret out
      | res => res
    else if tag = TagError then ReadRawTo fuel stream (ostream ++ [tag])
    else rawResult.ret { stream := stream, ostream := ostream, err := unexpectedTag tag none }
/-- `RawReader.readComplexRaw`. -/
def readComplexRaw : Nat → List Nat → List Nat → Nat → rawResult
  | 0, _, _, _ => rawResult.outOfFuel
  | fuel + 1, stream, ostream, tag =>
    let out : rawOut :=
      if tag ≠ TagOpenbrace then readComplexRawHead stream (ostream ++ [tag])
      else { stream := stream, ostream := ostream ++ [tag], err := none }
    if out.err = none then readComplexRawBody fuel out.stream out.ostream
    else rawResult.ret out
/-- The rest of `readComplexRaw`, from the `ReadByte` that fetches the next
tag: `tag, err = ReadByte(); for err == nil && tag != TagClosebrace {
readRaw(ostream, tag); tag, err = ReadByte() }`, then the closing brace is
written. -/
def readComplexRawBody : Nat → List Nat → List Nat → rawResult
  | 0, _, _ => rawResult.outOfFuel
  | fuel + 1, stream, ostream =>
    match stream with
    | [] => rawResult.ret { stream := [], ostream := ostream, err := some error.EOF }
    | tag :: s =>
      if tag = TagClosebrace then
        rawResult.ret { stream := s, ostream := ostream ++ [tag], err := none }
      else
        match readRaw fuel s ostream tag with
        | rawResult.ret out =>
          if out.err = none then readComplexRawBody fuel out.stream out.ostream
          else rawResult.ret out
        | res => res
end

/-- `RawReader.ReadRaw`: a fresh output buffer, then `ReadRawTo`. The result
holds the bytes returned (`ostream`), the error and the input left unread.
The recursion makes at most three calls per byte read, so the budget
of three calls per input byte is never used up (`ReadRaw_fuel`). -/
def ReadRaw (stream : List Nat) : rawResult :=
  ReadRawTo (3 * stream.length + 3) stream []

/-! ## Simple reader -/

/-- The only `readerRefer` of `simple_reader.go`. -/
inductive readerRefer where
  | fakeReaderRefer
  deriving DecidableEq, Repr

/-- The `reader` struct: the stream of its `RawReader` and its referer. The
class tables `classref` and `fieldsref` are kept in a record of their own,
`readerClasses`, which the operations on classes and objects take and give
back. -/
structure reader where
  stream : List Nat
  refer : readerRefer
  deriving DecidableEq, Repr

/-- `NewSimpleReader`. -/
def NewSimpleReader (stream : List Nat) : reader :=
  { stream := stream, refer := readerRefer.fakeReaderRefer }

/-- The dynamic values a reference table can hand back: a string, or a value
of another type (its type name). -/
inductive refValue where
  | string (s : List Nat)
  | other (typeName : String)
  deriving DecidableEq, Repr

/-- `readRef` of the reader's referer; `fakeReaderRefer.readRef` is
`return nil, refError`. -/
def reader.readRef (r : reader) (_i : Int) (_err : Option error) :
    Option refValue × Option error :=
  match r.refer with
  | readerRefer.fakeReaderRefer => (none, refError)

/-- `setRef` of the reader's referer; `fakeReaderRefer.setRef` does nothing. -/
def reader.setRef (r : reader) : reader :=
  match r.refer with
  | readerRefer.fakeReaderRefer => r

/-- `reader.CheckTag`. -/
def reader.CheckTag (r : reader) (expectTag : Nat) : Option error × reader :=
  match r.stream with
  | [] => (some error.EOF, r)
  | tag :: s => (unexpectedTag tag (some [expectTag]), { r with stream := s })

/-- `tagToString`: the type name of a tag, `none` for the `default` case. -/
def tagToString (tag : Nat) : Option String :=
  if (48 ≤ tag ∧ tag ≤ 57) ∨ tag = TagInteger then some "int"
  else if tag = TagLong then some "big.Int"
  else if tag = TagDouble then some "float64"
  else if tag = TagNull then some "nil"
  else if tag = TagEmpty then some "empty string"
  else if tag = TagTrue then some "bool true"
  else if tag = TagFalse then some "bool false"
  else if tag = TagNaN then some "NaN"
  else if tag = TagInfinity then some "Infinity"
  else if tag = TagDate then some "time.Time"
  else if tag = TagTime then some "time.Time"
  else if tag = TagBytes then some "[]byte"
  else if tag = TagUTF8Char then some "string"
  else if tag = TagString then some "string"
  else if tag = TagGuid then some "uuid.UUID"
  else if tag = TagList then some "slice"
  else if tag = TagMap then some "map"
  else if tag = TagClass then some "struct type"
  else if tag = TagObject then some "struct value"
  else if tag = TagRef then some "value reference"
  else if tag = TagError then some "error"
  else none

/-- `convertError`. -/
def convertError (tag : Nat) (dst : String) : Option error :=
  match tagToString tag with
  | some src => some (error.cannotConvert src dst)
  | none => unexpectedTag tag none

/-- The loop of `reader.readInt`:
`for b != tag && err == nil { i *= 10; i += int64(b-'0') * sign; b, err =
s.ReadByte() }`. -/
def readIntLoop (tag : Nat) (sign : Int) : List Nat → Nat → Int → Int × Option error × List Nat
  | s, b, i =>
    if b = tag then (i, none, s)
    else
      let i := wrap64 (wrap64 (i * 10) + wrap64 (((b + 256 - 48) % 256 : Nat) * sign))
      match s with
      | [] => (i, some error.EOF, [])
      | b :: s => readIntLoop tag sign s b i

/-- `reader.readInt`. -/
def readInt (tag : Nat) (stream : List Nat) : Int × Option error × List Nat :=
  match stream with
  | [] => (0, some error.EOF, [])
  | b :: s =>
    if b = tag then (0, none, s)
    else if b = TagNeg then
      match s with
      | [] => (0, some error.EOF, [])
      | b :: s => readIntLoop tag (-1) s b 0
    else if b = TagPos then
      match s with
      | [] => (0, some error.EOF, [])
      | b :: s => readIntLoop tag 1 s b 0
    else readIntLoop tag 1 s b 0

/-- The loop of `reader.ReadInteger`, on `int` (64 bits wide). -/
def ReadIntegerLoop (tag : Nat) (sign : Int) :
    List Nat → Nat → Int → Int × Option error × List Nat
  | s, b, i =>
    if b = tag then (i, none, s)
    else
      let i := wrap64 (wrap64 (i * 10) + wrap64 (((b + 256 - 48) % 256 : Nat) * sign))
      match s with
      | [] => (i, some error.EOF, [])
      | b :: s => ReadIntegerLoop tag sign s b i

/-- `reader.ReadInteger`. -/
def ReadInteger (tag : Nat) (stream : List Nat) : Int × Option error × List Nat :=
  match stream with
  | [] => (0, some error.EOF, [])
  | b :: s =>
    if b = tag then (0, none, s)
    else if b = TagNeg then
      match s with
      | [] => (0, some error.EOF, [])
      | b :: s => ReadIntegerLoop tag (-1) s b 0
    else if b = TagPos then
      match s with
      | [] => (0, some error.EOF, [])
      | b :: s => ReadIntegerLoop tag 1 s b 0
    else ReadIntegerLoop tag 1 s b 0

/-- The parts of the typed readers that decode floating point numbers,
dates, times and GUIDs or call `strconv`: they are parameters of the
embedding, and the theorems hold for every choice of them.

* `ParseInt str` is `strconv.ParseInt(str, 10, 64)`.
* `Float64Int64 stream` is `ReadFloat64WithoutTag` followed by the
  conversion `int64(f)`: the integer, the error and the rest of the stream.
* `DateString`, `TimeString` and `UUIDString` are `ReadDateWithoutTag`,
  `ReadTimeWithoutTag` and `ReadUUIDWithoutTag` followed by `String()`. -/
structure Decoders where
  ParseInt : List Nat → Int × Option error
  Float64Int64 : List Nat → Int × Option error × List Nat
  DateString : List Nat → List Nat × Option error × List Nat
  TimeString : List Nat → List Nat × Option error × List Nat
  UUIDString : List Nat → List Nat × Option error × List Nat

/-- `reader.readUntil`. -/
def reader.readUntil (r : reader) (tag : Nat) : List Nat × Option error × reader :=
  match ReadStringDelim tag r.stream with
  | (s, none, rest) => (s.take (s.length - 1), none, { r with stream := rest })
  | (s, some err, rest) => (s, some err, { r with stream := rest })

/-- `reader.readStringWithoutTag`. -/
def reader.readStringWithoutTag (r : reader) : List Nat × Option error × reader :=
  match ReadInteger TagQuote r.stream with
  | (length, none, s) =>
    match readUTF8String s length with
    | (str, none, s) =>
      match reader.CheckTag { r with stream := s } TagQuote with
      | (err, r) => (str, err, r)
    | (str, some err, s) => (str, some err, { r with stream := s })
  | (_, some err, s) => ([], some err, { r with stream := s })

/-- `reader.ReadStringWithoutTag`. -/
def reader.ReadStringWithoutTag (r : reader) : List Nat × Option error × reader :=
  match r.readStringWithoutTag with
  | (str, none, r) => (str, none, r.setRef)
  | (str, some err, r) => (str, some err, r)

/-- `reader.ReadInt64WithoutTag`. -/
def reader.ReadInt64WithoutTag (r : reader) : Int × Option error × reader :=
  match readInt TagSemicolon r.stream with
  | (i, err, s) => (i, err, { r with stream := s })

/-- `reader.ReadInt64`. -/
def reader.ReadInt64 (d : Decoders) (r : reader) : Int × Option error × reader :=
  match r.stream with
  | [] => (0, some error.EOF, r)
  | tag :: s =>
    let r : reader := { r with stream := s }
    if 48 ≤ tag ∧ tag ≤ 57 then (((tag + 256 - 48) % 256 : Nat), none, r)
    else if tag = TagInteger ∨ tag = TagLong then r.ReadInt64WithoutTag
    else if tag = TagDouble then
      match d.Float64Int64 r.stream with
      | (f, err, s) => (f, err, { r with stream := s })
    else if tag = TagNull then (0, some error.NilError, r)
    else if tag = TagEmpty ∨ tag = TagFalse then (0, none, r)
    else if tag = TagTrue then (1, none, r)
    else if tag = TagUTF8Char then
      match ReadRune r.stream with
      | (c, _, err, s) => (c, err, { r with stream := s })
    else if tag = TagString then
      match r.ReadStringWithoutTag with
      | (str, none, r) => ((d.ParseInt str).1, (d.ParseInt str).2, r)
      | (_, some err, r) => (0, some err, r)
    else if tag = TagRef then
      match ReadInteger TagSemicolon r.stream with
      | (i, e, s) =>
        let r : reader := { r with stream := s }
        match r.readRef i e with
        | (some (refValue.string ref), none) => ((d.ParseInt ref).1, (d.ParseInt ref).2, r)
        | (some (refValue.other typeName), none) =>
          (0, some (error.cannotConvert typeName "int64"), r)
        | (none, none) => (0, some (error.cannotConvert "nil" "int64"), r)
        | (_, some err) => (0, some err, r)
    else (0, convertError tag "int64", r)

/-- `reader.ReadBytesWithoutTag`: `none` is the panic of `make([]byte,
length)` on a negative length. -/
def reader.ReadBytesWithoutTag (r : reader) : Option (List Nat × Option error × reader) :=
  match ReadInteger TagQuote r.stream with
  | (length, none, s) =>
    if length < 0 then none
    else
      match Read s length.toNat with
      | (b, _, none, s) =>
        match reader.CheckTag { r with stream := s } TagQuote with
        | (err, r) => some (b, err, r.setRef)
      | (b, _, some err, s) => some (b, some err, reader.setRef { r with stream := s })
  | (_, some err, s) => some ([], some err, { r with stream := s })

/-- `reader.ReadString`: `none` is a panic. In the `TagInfinity` and
`TagBytes` cases the `err` tested is declared by `:=` in the `if` statement,
so the `return` that follows a failure yields the outer `err`, `nil`. -/
def reader.ReadString (d : Decoders) (r : reader) :
    Option (List Nat × Option error × reader) :=
  match r.stream with
  | [] => some ([], some error.EOF, r)
  | tag :: s =>
    let r : reader := { r with stream := s }
    if 48 ≤ tag ∧ tag ≤ 57 then some ([tag], none, r)
    else if tag = TagInteger ∨ tag = TagLong ∨ tag = TagDouble then
      some (r.readUntil TagSemicolon)
    else if tag = TagNull then some ([], some error.NilError, r)
    else if tag = TagEmpty then some ([], none, r)
    else if tag = TagTrue then some ([116, 114, 117, 101], none, r)
    else if tag = TagFalse then some ([102, 97, 108, 115, 101], none, r)
    else if tag = TagNaN then some ([78, 97, 78], none, r)
    else if tag = TagInfinity then
      match r.stream with
      | sign :: s => some ([sign, 73, 110, 102], none, { r with stream := s })
      | [] => some ([73, 110, 102], none, r)
    else if tag = TagDate then
      match d.DateString r.stream with
      | (str, err, s) => some (str, err, { r with stream := s })
    else if tag = TagTime then
      match d.TimeString r.stream with
      | (str, err, s) => some (str, err, { r with stream := s })
    else if tag = TagUTF8Char then
      match readUTF8String r.stream 1 with
      | (str, err, s) => some (str, err, { r with stream := s })
    else if tag = TagString then some r.ReadStringWithoutTag
    else if tag = TagGuid then
      match d.UUIDString r.stream with
      | (str, err, s) => some (str, err, { r with stream := s })
    else if tag = TagBytes then
      match r.ReadBytesWithoutTag with
      | none => none
      | some (b, none, r) =>
        if Valid b then some (b, none, r) else some (b, some error.badEncodeError, r)
      | some (_, some _, r) => some ([], none, r)
    else if tag = TagRef then
      match ReadInteger TagSemicolon r.stream with
      | (i, e, s) =>
        let r : reader := { r with stream := s }
        match r.readRef i e with
        | (some (refValue.string ref), none) => some (ref, none, r)
        | (some (refValue.other typeName), none) =>
          some ([], some (error.cannotConvert typeName "string"), r)
        | (none, none) => some ([], some (error.cannotConvert "nil" "string"), r)
        | (_, some err) => some ([], some err, r)
    else some ([], convertError tag "string", r)


/-! ## The bytes of a value -/

/-- The counted form of a string, as `writeString` writes it: `s`, the
decimal UTF-16 length (left out when it is zero), and the bytes in quotes. -/
def encodeCounted (s : List Nat) : List Nat :=
  TagString :: ((if ulen s > 0 then decimalText (ulen s) else [])
    ++ TagQuote :: (s ++ [TagQuote]))

mutual
/-- The bytes the simple writer appends for a value (`Serialize_encode`
proves it): section 4.3 of the specification. -/
def encode : Value → List Nat
  | .null => [TagNull]
  | .int v =>
    if 0 ≤ v ∧ v ≤ 9 then [48 + v.toNat]
    else (if -(2 : Int) ^ 31 ≤ v ∧ v ≤ 2 ^ 31 - 1 then TagInteger else TagLong)
      :: (decimalText v ++ [TagSemicolon])
  | .bool b => if b then [TagTrue] else [TagFalse]
  | .string s =>
    if s.length = 0 then [TagEmpty]
    else if s.length < UTFMax ∧ RuneCountInString s = 1 then TagUTF8Char :: s
    else encodeCounted s
  | .bytes b =>
    if b.length = 0 then [TagEmpty]
    else TagBytes :: (decimalText b.length ++ TagQuote :: (b ++ [TagQuote]))
  | .slice a =>
    TagList :: ((if a.length > 0 then decimalText a.length else [])
      ++ TagOpenbrace :: (encodeList a ++ [TagClosebrace]))
  | .strObjMap m =>
    TagMap :: ((if m.length > 0 then decimalText m.length else [])
      ++ TagOpenbrace :: (encodeMap m ++ [TagClosebrace]))
/-- The bytes of the elements of a list, in order. -/
def encodeList : List Value → List Nat
  | [] => []
  | v :: a => encode v ++ encodeList a
/-- The bytes of the entries of a map, in order: each key in counted form,
then its value. -/
def encodeMap : List (List Nat × Value) → List Nat
  | [] => []
  | (k, v) :: m => encodeCounted k ++ (encode v ++ encodeMap m)
end

/-- A Go string that holds well-formed UTF-8 and is shorter than
`math.MaxInt64 = 2^63 - 1 = 9223372036854775807` bytes. A Go length is an
`int`, and a string or blob that sits inside a longer byte buffer is shorter
than the largest one. -/
def validString (s : List Nat) : Prop :=
  (∃ cs : List Char, s = utf8Bytes cs) ∧ s.length < 9223372036854775807

mutual
/-- The values Go can hold: integers are `int64`, strings are well-formed
UTF-8, and every length is below `math.MaxInt64`. -/
def Value.wellFormed : Value → Prop
  | .null => True
  | .int v => isInt64 v
  | .bool _ => True
  | .string s => validString s
  | .bytes b => b.length < 9223372036854775807
  | .slice a => a.length < 9223372036854775807 ∧ wellFormedList a
  | .strObjMap m => m.length < 9223372036854775807 ∧ wellFormedMap m
/-- Every element of a list is well formed. -/
def wellFormedList : List Value → Prop
  | [] => True
  | v :: a => Value.wellFormed v ∧ wellFormedList a
/-- Every key of a map is a valid string and every value is well formed. -/
def wellFormedMap : List (List Nat × Value) → Prop
  | [] => True
  | (k, v) :: m => validString k ∧ Value.wellFormed v ∧ wellFormedMap m
end

/-! ## Comparing what the raw reader wrote with what it read -/

/-- The bytes `written` stand for the bytes `consumed`: there are at least as
many of them, and when there are exactly as many they are the same bytes. -/
def sameOrLonger (written consumed : List Nat) : Prop :=
  consumed.length ≤ written.length ∧ (written.length = consumed.length → written = consumed)

/-- A raw-reader call that started on `stream` with the output `ostream` and
ended in `out` consumed a prefix of `stream` and appended bytes that stand for
that prefix. -/
def rawCopies (stream ostream : List Nat) (out : rawOut) : Prop :=
  ∃ consumed written, stream = consumed ++ out.stream ∧ out.ostream = ostream ++ written ∧
    sameOrLonger written consumed

/-! ## Writer: dates, times, byte blobs, integer slices -/

/-- Modelled from the spec: `TagPoint` is `.`, the byte before the fraction
of a second. -/
abbrev TagPoint : Nat := 46

/-- `formatDate`: the tag `D` and the eight bytes `byte('0' + (x / k % 10))`.
Go's `/` and `%` truncate toward zero. -/
def formatDate (year month day : Int) : List Nat :=
  [TagDate,
    toByte (48 + Int.tmod (Int.tdiv year 1000) 10),
    toByte (48 + Int.tmod (Int.tdiv year 100) 10),
    toByte (48 + Int.tmod (Int.tdiv year 10) 10),
    toByte (48 + Int.tmod year 10),
    toByte (48 + Int.tmod (Int.tdiv month 10) 10),
    toByte (48 + Int.tmod month 10),
    toByte (48 + Int.tmod (Int.tdiv day 10) 10),
    toByte (48 + Int.tmod day 10)]

/-- `formatTime`. -/
def formatTime (hour min sec nsec : Int) : List Nat :=
  let time : List Nat :=
    [TagTime,
      toByte (48 + Int.tmod (Int.tdiv hour 10) 10),
      toByte (48 + Int.tmod hour 10),
      toByte (48 + Int.tmod (Int.tdiv min 10) 10),
      toByte (48 + Int.tmod min 10),
      toByte (48 + Int.tmod (Int.tdiv sec 10) 10),
      toByte (48 + Int.tmod sec 10)]
  if nsec > 0 then
    if Int.tmod nsec 1000000 = 0 then
      time ++ [TagPoint,
        toByte (48 + Int.tmod (Int.tdiv nsec 100000000) 10),
        toByte (48 + Int.tmod (Int.tdiv nsec 10000000) 10),
        toByte (48 + Int.tmod (Int.tdiv nsec 1000000) 10)]
    else if Int.tmod nsec 1000 = 0 then
      time ++ [TagPoint,
        toByte (48 + Int.tmod (Int.tdiv nsec 100000000) 10),
        toByte (48 + Int.tmod (Int.tdiv nsec 10000000) 10),
        toByte (48 + Int.tmod (Int.tdiv nsec 1000000) 10),
        toByte (48 + Int.tmod (Int.tdiv nsec 100000) 10),
        toByte (48 + Int.tmod (Int.tdiv nsec 10000) 10),
        toByte (48 + Int.tmod (Int.tdiv nsec 1000) 10)]
    else
      time ++ [TagPoint,
        toByte (48 + Int.tmod (Int.tdiv nsec 100000000) 10),
        toByte (48 + Int.tmod (Int.tdiv nsec 10000000) 10),
        toByte (48 + Int.tmod (Int.tdiv nsec 1000000) 10),
        toByte (48 + Int.tmod (Int.tdiv nsec 100000) 10),
        toByte (48 + Int.tmod (Int.tdiv nsec 10000) 10),
        toByte (48 + Int.tmod (Int.tdiv nsec 1000) 10),
        toByte (48 + Int.tmod (Int.tdiv nsec 100) 10),
        toByte (48 + Int.tmod (Int.tdiv nsec 10) 10),
        toByte (48 + Int.tmod nsec 10)]
  else time

/-- What `writeTime` asks of a `time.Time`: the results of `t.Date()`,
`t.Clock()` and `t.Nanosecond()`, and whether `t.Location() == time.UTC`. -/
structure Time where
  year : Int
  month : Int
  day : Int
  hour : Int
  min : Int
  sec : Int
  nsec : Int
  utc : Bool
  deriving DecidableEq, Repr

/-- `writer.writeTime`. -/
def writer.writeTime (w : writer) (t : Time) : writer :=
  let w := w.setRef
  let tag := if t.utc then TagUTC else TagSemicolon
  if t.hour = 0 ∧ t.min = 0 ∧ t.sec = 0 ∧ t.nsec = 0 then
    (w.Write (formatDate t.year t.month t.day)).WriteByte tag
  else if t.year = 1 ∧ t.month = 1 ∧ t.day = 1 then
    (w.Write (formatTime t.hour t.min t.sec t.nsec)).WriteByte tag
  else
    ((w.Write (formatDate t.year t.month t.day)).Write
      (formatTime t.hour t.min t.sec t.nsec)).WriteByte tag

/-- `writer.WriteBytes`. -/
def writer.WriteBytes (w : writer) (bytes : List Nat) : Option writer :=
  w.writeBytes bytes

/-- The element loop of `writeIntSlice`:
`for i := 0; i < count; i++ { w.WriteInt64(int64(a[i])) }`. -/
def writer.writeIntSliceLoop (w : writer) : List Int → Option writer
  | [] => some w
  | x :: a =>
    match w.WriteInt64 (wrap64 x) with
    | none => none
    | some w => w.writeIntSliceLoop a

/-- `writer.writeIntSlice`. -/
def writer.writeIntSlice (w : writer) (a : List Int) : Option writer :=
  let w := w.setRef
  let w := w.WriteByte TagList
  if a.length > 0 then
    match w.writeInt a.length with
    | none => none
    | some w =>
      match (w.WriteByte TagOpenbrace).writeIntSliceLoop a with
      | none => none
      | some w => some (w.WriteByte TagClosebrace)
  else some ((w.WriteByte TagOpenbrace).WriteByte TagClosebrace)

/-- `writer.writeIntSliceWithRef`, which `Serialize` calls for a `[]int`. -/
def writer.writeIntSliceWithRef (w : writer) (a : List Int) : Option writer :=
  match w.writeRef with
  | (w, success, err) =>
    if err = none ∧ success = false then w.writeIntSlice a else some w

/-! ## Simple reader: the other typed reads -/

/-- `stream.ReadByte()`: the byte (0 at the end of the stream), the error and
the rest. -/
def ReadByte (stream : List Nat) : Nat × Option error × List Nat :=
  match stream with
  | [] => (0, some error.EOF, [])
  | b :: s => (b, none, s)

/-- The conversion `int(tag - '0')`: the subtraction is on bytes. -/
def byteDigit (tag : Nat) : Int := (((tag + 256 - 48) % 256 : Nat) : Int)

/-- The block of `reader.readTime` met twice after the first three digits of
the fraction: `if tag >= '0' && tag <= '9' { three more digits, then the next
byte } else { nsec *= 1000 }`. -/
def readTimeGroup (nsec : Int) (tag : Nat) (s : List Nat) :
    Int × Nat × Option error × List Nat :=
  if 48 ≤ tag ∧ tag ≤ 57 then
    let nsec := nsec * 10 + byteDigit tag
    match ReadByte s with
    | (tag, some err, s) => (nsec, tag, some err, s)
    | (tag, none, s) =>
      let nsec := nsec * 10 + byteDigit tag
      match ReadByte s with
      | (tag, some err, s) => (nsec, tag, some err, s)
      | (tag, none, s) =>
        let nsec := nsec * 10 + byteDigit tag
        match ReadByte s with
        | (tag, err, s) => (nsec, tag, err, s)
  else (nsec * 1000, tag, none, s)

/-- The first `if` of `reader.readTime`: the six digits `hhmmss` and the byte
after them. The result is hour, minute, second, the last byte read, the error
and the rest of the stream. -/
def readTimeClock (s : List Nat) : Int × Int × Int × Nat × Option error × List Nat :=
  match ReadByte s with
  | (tag, some err, s) => (0, 0, 0, tag, some err, s)
  | (tag, none, s) =>
    let hour := byteDigit tag
    match ReadByte s with
    | (tag, some err, s) => (hour, 0, 0, tag, some err, s)
    | (tag, none, s) =>
      let hour := hour * 10 + byteDigit tag
      match ReadByte s with
      | (tag, some err, s) => (hour, 0, 0, tag, some err, s)
      | (tag, none, s) =>
        let min := byteDigit tag
        match ReadByte s with
        | (tag, some err, s) => (hour, min, 0, tag, some err, s)
        | (tag, none, s) =>
          let min := min * 10 + byteDigit tag
          match ReadByte s with
          | (tag, some err, s) => (hour, min, 0, tag, some err, s)
          | (tag, none, s) =>
            let sec := byteDigit tag
            match ReadByte s with
            | (tag, some err, s) => (hour, min, sec, tag, some err, s)
            | (tag, none, s) =>
              let sec := sec * 10 + byteDigit tag
              match ReadByte s with
              | (tag, err, s) => (hour, min, sec, tag, err, s)

/-- The first three digits of the fraction in `reader.readTime`, read after
the point, and the byte after them. -/
def readTimeMilli (s : List Nat) : Int × Nat × Option error × List Nat :=
  match ReadByte s with
  | (tag, some err, s) => (0, tag, some err, s)
  | (tag, none, s) =>
    let nsec := byteDigit tag
    match ReadByte s with
    | (tag, some err, s) => (nsec, tag, some err, s)
    | (tag, none, s) =>
      let nsec := nsec * 10 + byteDigit tag
      match ReadByte s with
      | (tag, some err, s) => (nsec, tag, some err, s)
      | (tag, none, s) =>
        let nsec := nsec * 10 + byteDigit tag
        match ReadByte s with
        | (tag, err, s) => (nsec, tag, err, s)

/-- `reader.readTime`: hour, minute, second, nanosecond, the last byte read,
the error and the rest of the stream. -/
def readTime (s : List Nat) : Int × Int × Int × Int × Nat × Option error × List Nat :=
  match readTimeClock s with
  | (hour, min, sec, tag, some err, s) => (hour, min, sec, 0, tag, some err, s)
  | (hour, min, sec, tag, none, s) =>
    if tag = TagPoint then
      match readTimeMilli s with
      | (nsec, tag, some err, s) => (hour, min, sec, nsec, tag, some err, s)
      | (nsec, tag, none, s) =>
        match readTimeGroup nsec tag s with
        | (nsec, tag, some err, s) => (hour, min, sec, nsec, tag, some err, s)
        | (nsec, tag, none, s) =>
          match readTimeGroup nsec tag s with
          | (nsec, tag, err, s) => (hour, min, sec, nsec, tag, err, s)
    else (hour, min, sec, 0, tag, none, s)

/-- The eight digits of `reader.ReadDateWithoutTag` and the byte after them:
year, month, day, the last byte read, the error and the rest. -/
def readDateDigits (s : List Nat) : Int × Int × Int × Nat × Option error × List Nat :=
  match ReadByte s with
  | (tag, some err, s) => (0, 0, 0, tag, some err, s)
  | (tag, none, s) =>
    let year := byteDigit tag
    match ReadByte s with
    | (tag, some err, s) => (year, 0, 0, tag, some err, s)
    | (tag, none, s) =>
      let year := year * 10 + byteDigit tag
      match ReadByte s with
      | (tag, some err, s) => (year, 0, 0, tag, some err, s)
      | (tag, none, s) =>
        let year := year * 10 + byteDigit tag
        match ReadByte s with
        | (tag, some err, s) => (year, 0, 0, tag, some err, s)
        | (tag, none, s) =>
          let year := year * 10 + byteDigit tag
          match ReadByte s with
          | (tag, some err, s) => (year, 0, 0, tag, some err, s)
          | (tag, none, s) =>
            let month := byteDigit tag
            match ReadByte s with
            | (tag, some err, s) => (year, month, 0, tag, some err, s)
            | (tag, none, s) =>
              let month := month * 10 + byteDigit tag
              match ReadByte s with
              | (tag, some err, s) => (year, month, 0, tag, some err, s)
              | (tag, none, s) =>
                let day := byteDigit tag
                match ReadByte s with
                | (tag, some err, s) => (year, month, day, tag, some err, s)
                | (tag, none, s) =>
                  let day := day * 10 + byteDigit tag
                  match ReadByte s with
                  | (tag, err, s) => (year, month, day, tag, err, s)

/-- The values `readInterface` returns: `nil`, an `int`, a `*big.Int`, a
`float64`, a string, a boolean, a `time.Time`, a `*[]byte`, a `*uuid.UUID`, a
value built by a reflective reader, or a referenced value. -/
inductive Iface (F T O : Type) where
  | nil
  | int (i : Int)
  | bigInt (i : Int)
  | float64 (f : F)
  | string (s : List Nat)
  | bool (b : Bool)
  | time (t : T)
  | bytes (b : List Nat)
  | uuid (u : List Nat)
  | object (o : O)
  | ref (v : refValue)

/-- The library values and functions that the typed readers below use and
that this development does not interpret. `F` stands for `float64`, `T` for
`time.Time` and `O` for the values built by the reflective readers. The
theorems hold for every choice of them.

* `float64 i` is the conversion of an integer to `float64`, `mul` and `add`
  are the `float64` product and sum, `NaN` is `math.NaN()`, `Inf sign` is
  `math.Inf(sign)`, `isZero f` is `f == 0`, `uint64 f` is the conversion of a
  `float64` to `uint64`.
* `ParseFloat str`, `ParseUint str` and `ParseBool str` are
  `strconv.ParseFloat(str, 64)`, `strconv.ParseUint(str, 10, 64)` and
  `strconv.ParseBool(str)`.
* `Date` is `time.Date`; its last argument tells whether the location is
  `time.UTC` (otherwise it is `time.Local`). `ParseTime str` is
  `time.Parse(timeStringFormat, str)`.
* `uuidParse` is `uuid.Parse`, whose result is a byte slice.
* `asTime`, `asBytes` and `asList` are the type assertions of a referenced
  value to `time.Time`, `*[]byte` and `*list.List`.
* `SliceBytes` is `ReadSliceWithoutTag` into a `[]byte`;
  `ReadSliceWithoutTag`, `ReadMapWithoutTag`, `readClass`, `ReadObject` and
  `ReadObjectWithoutTag` are the reflective readers that `readInterface`
  calls. Each takes the stream and gives the value (`readClass` has none),
  the error and the rest of the stream. -/
structure Library (F T O : Type) where
  float64 : Int → F
  mul : F → F → F
  add : F → F → F
  NaN : F
  Inf : Int → F
  isZero : F → Bool
  uint64 : F → Nat
  ParseFloat : List Nat → F × Option error
  ParseUint : List Nat → Nat × Option error
  ParseBool : List Nat → Bool × Option error
  Date : Int → Int → Int → Int → Int → Int → Int → Bool → T
  ParseTime : List Nat → T × Option error
  uuidParse : List Nat → List Nat
  asTime : refValue → Option T
  asBytes : refValue → Option (List Nat)
  asList : refValue → Option (List (Iface F T O))
  SliceBytes : List Nat → List Nat × Option error × List Nat
  ReadSliceWithoutTag : List Nat → O × Option error × List Nat
  ReadMapWithoutTag : List Nat → O × Option error × List Nat
  readClass : List Nat → Option error × List Nat
  ReadObject : List Nat → O × Option error × List Nat
  ReadObjectWithoutTag : List Nat → O × Option error × List Nat

/-- The package variable `timeZero = time.Date(1, 1, 1, 0, 0, 0, 0, time.UTC)`. -/
def timeZero {F T O : Type} (lib : Library F T O) : T := lib.Date 1 1 1 0 0 0 0 true

/-- `reflect.TypeOf(ref).String()` of a referenced value. -/
def refValue.typeName : refValue → String
  | refValue.string _ => "string"
  | refValue.other typeName => typeName

/-- The end of `ReadDateWithoutTag` and `ReadTimeWithoutTag`: the location is
chosen by the last byte read, `time.Date` is called and the result is handed
to `setRef`. -/
def reader.makeTime {F T O : Type} (lib : Library F T O) (r : reader)
    (year month day hour min sec nsec : Int) (tag : Nat) : T × Option error × reader :=
  if tag = TagUTC then (lib.Date year month day hour min sec nsec true, none, r.setRef)
  else if tag = TagSemicolon then
    (lib.Date year month day hour min sec nsec false, none, r.setRef)
  else (timeZero lib, unexpectedTag tag (some [TagUTC, TagSemicolon]), r)

/-- `reader.ReadDateWithoutTag`. -/
def reader.ReadDateWithoutTag {F T O : Type} (lib : Library F T O) (r : reader) :
    T × Option error × reader :=
  match readDateDigits r.stream with
  | (_, _, _, _, some err, s) => (timeZero lib, some err, { r with stream := s })
  | (year, month, day, tag, none, s) =>
    if tag = TagTime then
      match readTime s with
      | (_, _, _, _, _, some err, s) => (timeZero lib, some err, { r with stream := s })
      | (hour, min, sec, nsec, tag, none, s) =>
        reader.makeTime lib { r with stream := s } year month day hour min sec nsec tag
    else reader.makeTime lib { r with stream := s } year month day 0 0 0 0 tag

/-- `reader.ReadTimeWithoutTag`. -/
def reader.ReadTimeWithoutTag {F T O : Type} (lib : Library F T O) (r : reader) :
    T × Option error × reader :=
  match readTime r.stream with
  | (_, _, _, _, _, some err, s) => (timeZero lib, some err, { r with stream := s })
  | (hour, min, sec, nsec, tag, none, s) =>
    reader.makeTime lib { r with stream := s } 1 1 1 hour min sec nsec tag

/-- `reader.ReadIntWithoutTag`. -/
def reader.ReadIntWithoutTag (r : reader) : Int × Option error × reader :=
  match ReadInteger TagSemicolon r.stream with
  | (i, err, s) => (i, err, { r with stream := s })

/-- `reader.ReadInt`. An `int` is 64 bits wide, so the conversions `int(f)`
and `int(i)` are those of `ReadInt64`. -/
def reader.ReadInt (d : Decoders) (r : reader) : Int × Option error × reader :=
  match r.stream with
  | [] => (0, some error.EOF, r)
  | tag :: s =>
    let r : reader := { r with stream := s }
    if 48 ≤ tag ∧ tag ≤ 57 then (((tag + 256 - 48) % 256 : Nat), none, r)
    else if tag = TagInteger ∨ tag = TagLong then r.ReadIntWithoutTag
    else if tag = TagDouble then
      match d.Float64Int64 r.stream with
      | (f, err, s) => (f, err, { r with stream := s })
    else if tag = TagNull then (0, some error.NilError, r)
    else if tag = TagEmpty ∨ tag = TagFalse then (0, none, r)
    else if tag = TagTrue then (1, none, r)
    else if tag = TagUTF8Char then
      match ReadRune r.stream with
      | (c, _, err, s) => (c, err, { r with stream := s })
    else if tag = TagString then
      match r.ReadStringWithoutTag with
      | (str, none, r) => ((d.ParseInt str).1, (d.ParseInt str).2, r)
      | (_, some err, r) => (0, some err, r)
    else if tag = TagRef then
      match ReadInteger TagSemicolon r.stream with
      | (i, e, s) =>
        let r : reader := { r with stream := s }
        match r.readRef i e with
        | (some (refValue.string ref), none) => ((d.ParseInt ref).1, (d.ParseInt ref).2, r)
        | (some (refValue.other typeName), none) =>
          (0, some (error.cannotConvert typeName "int"), r)
        | (none, none) => (0, some (error.cannotConvert "nil" "int"), r)
        | (_, some err) => (0, some err, r)
    else (0, convertError tag "int", r)

/-- `reader.ReadFloat64WithoutTag`. -/
def reader.ReadFloat64WithoutTag {F T O : Type} (lib : Library F T O) (r : reader) :
    F × Option error × reader :=
  match r.readUntil TagSemicolon with
  | (str, none, r) => ((lib.ParseFloat str).1, none, r)
  | (_, some err, r) => (lib.NaN, some err, r)

/-- `reader.ReadUint64WithoutTag`: `readUint`, the conversion to `uint64` of
what `readInt` returns. -/
def reader.ReadUint64WithoutTag (r : reader) : Nat × Option error × reader :=
  match readInt TagSemicolon r.stream with
  | (i, err, s) => ((i % 2 ^ 64).toNat, err, { r with stream := s })

/-- `reader.ReadUint64`. -/
def reader.ReadUint64 {F T O : Type} (lib : Library F T O) (r : reader) :
    Nat × Option error × reader :=
  match r.stream with
  | [] => (0, some error.EOF, r)
  | tag :: s =>
    let r : reader := { r with stream := s }
    if 48 ≤ tag ∧ tag ≤ 57 then ((tag + 256 - 48) % 256, none, r)
    else if tag = TagInteger ∨ tag = TagLong then r.ReadUint64WithoutTag
    else if tag = TagDouble then
      match reader.ReadFloat64WithoutTag lib r with
      | (f, err, r) => (lib.uint64 f, err, r)
    else if tag = TagNull then (0, some error.NilError, r)
    else if tag = TagEmpty ∨ tag = TagFalse then (0, none, r)
    else if tag = TagTrue then (1, none, r)
    else if tag = TagUTF8Char then
      match ReadRune r.stream with
      | (c, _, err, s) => (c, err, { r with stream := s })
    else if tag = TagString then
      match r.ReadStringWithoutTag with
      | (str, none, r) => ((lib.ParseUint str).1, (lib.ParseUint str).2, r)
      | (_, some err, r) => (0, some err, r)
    else if tag = TagRef then
      match ReadInteger TagSemicolon r.stream with
      | (i, e, s) =>
        let r : reader := { r with stream := s }
        match r.readRef i e with
        | (some (refValue.string ref), none) =>
          ((lib.ParseUint ref).1, (lib.ParseUint ref).2, r)
        | (some (refValue.other typeName), none) =>
          (0, some (error.cannotConvert typeName "uint64"), r)
        | (none, none) => (0, some (error.cannotConvert "nil" "uint64"), r)
        | (_, some err) => (0, some err, r)
    else (0, convertError tag "uint64", r)

/-- The loop of `reader.readIntAsFloat64`:
`for b != tag && err == nil { f *= 10; f += float64(b-'0') * sign; b, err =
s.ReadByte() }`. -/
def readIntAsFloat64Loop {F T O : Type} (lib : Library F T O) (tag : Nat) (sign : F) :
    List Nat → Nat → F → F × Option error × List Nat
  | s, b, f =>
    if b = tag then (f, none, s)
    else
      let f := lib.add (lib.mul f (lib.float64 10))
        (lib.mul (lib.float64 (((b + 256 - 48) % 256 : Nat) : Int)) sign)
      match s with
      | [] => (f, some error.EOF, [])
      | b :: s => readIntAsFloat64Loop lib tag sign s b f

/-- `reader.readIntAsFloat64`. -/
def readIntAsFloat64 {F T O : Type} (lib : Library F T O) (tag : Nat) (stream : List Nat) :
    F × Option error × List Nat :=
  match stream with
  | [] => (lib.float64 0, some error.EOF, [])
  | b :: s =>
    if b = tag then (lib.float64 0, none, s)
    else if b = TagNeg then
      match s with
      | [] => (lib.float64 0, some error.EOF, [])
      | b :: s => readIntAsFloat64Loop lib tag (lib.float64 (-1)) s b (lib.float64 0)
    else if b = TagPos then
      match s with
      | [] => (lib.float64 0, some error.EOF, [])
      | b :: s => readIntAsFloat64Loop lib tag (lib.float64 1) s b (lib.float64 0)
    else readIntAsFloat64Loop lib tag (lib.float64 1) s b (lib.float64 0)

/-- `reader.readInfinity`. -/
def reader.readInfinity {F T O : Type} (lib : Library F T O) (r : reader) :
    F × Option error × reader :=
  match r.stream with
  | [] => (lib.NaN, some error.EOF, r)
  | sign :: s =>
    let r : reader := { r with stream := s }
    if sign = TagPos then (lib.Inf 1, none, r)
    else if sign = TagNeg then (lib.Inf (-1), none, r)
    else (lib.NaN, unexpectedTag sign (some [TagPos, TagNeg]), r)

/-- `reader.ReadFloat64`. -/
def reader.ReadFloat64 {F T O : Type} (lib : Library F T O) (r : reader) :
    F × Option error × reader :=
  match r.stream with
  | [] => (lib.float64 0, some error.EOF, r)
  | tag :: s =>
    let r : reader := { r with stream := s }
    if 48 ≤ tag ∧ tag ≤ 57 then (lib.float64 (((tag + 256 - 48) % 256 : Nat) : Int), none, r)
    else if tag = TagInteger ∨ tag = TagLong then
      match readIntAsFloat64 lib TagSemicolon r.stream with
      | (f, err, s) => (f, err, { r with stream := s })
    else if tag = TagDouble then reader.ReadFloat64WithoutTag lib r
    else if tag = TagNull then (lib.float64 0, some error.NilError, r)
    else if tag = TagEmpty ∨ tag = TagFalse then (lib.float64 0, none, r)
    else if tag = TagTrue then (lib.float64 1, none, r)
    else if tag = TagNaN then (lib.NaN, none, r)
    else if tag = TagInfinity then reader.readInfinity lib r
    else if tag = TagUTF8Char then
      match ReadRune r.stream with
      | (c, _, err, s) => (lib.float64 c, err, { r with stream := s })
    else if tag = TagString then
      match r.ReadStringWithoutTag with
      | (str, none, r) => ((lib.ParseFloat str).1, (lib.ParseFloat str).2, r)
      | (_, some err, r) => (lib.float64 0, some err, r)
    else if tag = TagRef then
      match ReadInteger TagSemicolon r.stream with
      | (i, e, s) =>
        let r : reader := { r with stream := s }
        match r.readRef i e with
        | (some (refValue.string ref), none) =>
          ((lib.ParseFloat ref).1, (lib.ParseFloat ref).2, r)
        | (some (refValue.other typeName), none) =>
          (lib.float64 0, some (error.cannotConvert typeName "float64"), r)
        | (none, none) => (lib.float64 0, some (error.cannotConvert "nil" "float64"), r)
        | (_, some err) => (lib.float64 0, some err, r)
    else (lib.float64 0, convertError tag "float64", r)

/-- `reader.ReadBool`. -/
def reader.ReadBool {F T O : Type} (lib : Library F T O) (r : reader) :
    Bool × Option error × reader :=
  match r.stream with
  | [] => (false, some error.EOF, r)
  | tag :: s =>
    let r : reader := { r with stream := s }
    if tag = 48 then (false, none, r)
    else if 49 ≤ tag ∧ tag ≤ 57 then (true, none, r)
    else if tag = TagInteger ∨ tag = TagLong then
      match r.ReadInt64WithoutTag with
      | (i, err, r) => (decide (i ≠ 0), err, r)
    else if tag = TagDouble then
      match reader.ReadFloat64WithoutTag lib r with
      | (f, err, r) => (!lib.isZero f, err, r)
    else if tag = TagNull then (false, some error.NilError, r)
    else if tag = TagEmpty ∨ tag = TagFalse then (false, none, r)
    else if tag = TagTrue ∨ tag = TagNaN then (true, none, r)
    else if tag = TagInfinity then
      match reader.readInfinity lib r with
      | (_, err, r) => (true, err, r)
    else if tag = TagUTF8Char then
      match readUTF8String r.stream 1 with
      | (str, none, s) => ((lib.ParseBool str).1, (lib.ParseBool str).2, { r with stream := s })
      | (_, some err, s) => (false, some err, { r with stream := s })
    else if tag = TagString then
      match r.ReadStringWithoutTag with
      | (str, none, r) => ((lib.ParseBool str).1, (lib.ParseBool str).2, r)
      | (_, some err, r) => (false, some err, r)
    else if tag = TagRef then
      match ReadInteger TagSemicolon r.stream with
      | (i, e, s) =>
        let r : reader := { r with stream := s }
        match r.readRef i e with
        | (some (refValue.string ref), none) =>
          ((lib.ParseBool ref).1, (lib.ParseBool ref).2, r)
        | (some (refValue.other typeName), none) =>
          (false, some (error.cannotConvert typeName "bool"), r)
        | (none, none) => (false, some (error.cannotConvert "nil" "bool"), r)
        | (_, some err) => (false, some err, r)
    else (false, convertError tag "bool", r)

/-- `reader.ReadDateTime`. -/
def reader.ReadDateTime {F T O : Type} (lib : Library F T O) (r : reader) :
    T × Option error × reader :=
  match r.stream with
  | [] => (timeZero lib, some error.EOF, r)
  | tag :: s =>
    let r : reader := { r with stream := s }
    if tag = 48 ∨ tag = TagEmpty then (timeZero lib, none, r)
    else if tag = TagNull then (timeZero lib, some error.NilError, r)
    else if tag = TagString then
      match r.ReadStringWithoutTag with
      | (str, none, r) => ((lib.ParseTime str).1, (lib.ParseTime str).2, r)
      | (_, some err, r) => (timeZero lib, some err, r)
    else if tag = TagDate then reader.ReadDateWithoutTag lib r
    else if tag = TagTime then reader.ReadTimeWithoutTag lib r
    else if tag = TagRef then
      match ReadInteger TagSemicolon r.stream with
      | (i, e, s) =>
        let r : reader := { r with stream := s }
        match r.readRef i e with
        | (some ref, none) =>
          match lib.asTime ref with
          | some t => (t, none, r)
          | none =>
            match ref with
            | refValue.string str => ((lib.ParseTime str).1, (lib.ParseTime str).2, r)
            | refValue.other typeName =>
              (timeZero lib, some (error.cannotConvert typeName "time.Time"), r)
        | (none, none) => (timeZero lib, some (error.cannotConvert "nil" "time.Time"), r)
        | (_, some err) => (timeZero lib, some err, r)
    else (timeZero lib, convertError tag "time.Time", r)

/-- `reader.ReadUUIDWithoutTag`; a `uuid.UUID` is a byte slice, and
`new(uuid.UUID)` is the empty one. -/
def reader.ReadUUIDWithoutTag {F T O : Type} (lib : Library F T O) (r : reader) :
    List Nat × Option error × reader :=
  match r.CheckTag TagOpenbrace with
  | (some err, r) => ([], some err, r)
  | (none, r) =>
    match Read r.stream 36 with
    | (_, _, some err, s) => ([], some err, { r with stream := s })
    | (b, _, none, s) =>
      match reader.CheckTag { r with stream := s } TagClosebrace with
      | (err, r) => (lib.uuidParse b, err, r.setRef)

/-- `reader.ReadBytes`: `none` is a panic. -/
def reader.ReadBytes {F T O : Type} (lib : Library F T O) (r : reader) :
    Option (List Nat × Option error × reader) :=
  match r.stream with
  | [] => some ([], some error.EOF, r)
  | tag :: s =>
    let r : reader := { r with stream := s }
    if tag = TagNull then some ([], some error.NilError, r)
    else if tag = TagEmpty then some ([], none, r)
    else if tag = TagUTF8Char then
      match readUTF8String r.stream 1 with
      | (c, err, s) => some (c, err, { r with stream := s })
    else if tag = TagString then some r.ReadStringWithoutTag
    else if tag = TagGuid then some (reader.ReadUUIDWithoutTag lib r)
    else if tag = TagBytes then r.ReadBytesWithoutTag
    else if tag = TagList then
      match lib.SliceBytes r.stream with
      | (b, err, s) => some (b, err, { r with stream := s })
    else if tag = TagRef then
      match ReadInteger TagSemicolon r.stream with
      | (i, e, s) =>
        let r : reader := { r with stream := s }
        match r.readRef i e with
        | (some ref, none) =>
          match lib.asBytes ref with
          | some b => some (b, none, r)
          | none => some ([], some (error.cannotConvert ref.typeName "bytes"), r)
        | (none, none) => some ([], some (error.cannotConvert "nil" "bytes"), r)
        | (_, some err) => some ([], some err, r)
    else some ([], convertError tag "bytes", r)

/-- The loop of `reader.ReadBigIntWithoutTag`:
`for b != tag && err == nil { i = i.Mul(i, bigTen); i = i.Add(i,
bigDigit[b-'0']); b, err = s.ReadByte() }`. The table `bigDigit` has ten
entries, so a byte that is not a digit is an index out of range: `none`. -/
def ReadBigIntLoop (tag : Nat) : List Nat → Nat → Int → Option (Int × Option error × List Nat)
  | s, b, i =>
    if b = tag then some (i, none, s)
    else if (b + 256 - 48) % 256 < 10 then
      let i := i * 10 + (((b + 256 - 48) % 256 : Nat) : Int)
      match s with
      | [] => some (i, some error.EOF, [])
      | b :: s => ReadBigIntLoop tag s b i
    else none

/-- `reader.ReadBigIntWithoutTag`: `none` is a panic. The sign is applied
after the loop. -/
def ReadBigIntWithoutTag (stream : List Nat) : Option (Int × Option error × List Nat) :=
  match stream with
  | [] => some (0, some error.EOF, [])
  | b :: s =>
    if b = TagSemicolon then some (0, none, s)
    else if b = TagNeg then
      match s with
      | [] => some (0, some error.EOF, [])
      | b :: s =>
        match ReadBigIntLoop TagSemicolon s b 0 with
        | none => none
        | some (i, err, s) => some (-i, err, s)
    else if b = TagPos then
      match s with
      | [] => some (0, some error.EOF, [])
      | b :: s => ReadBigIntLoop TagSemicolon s b 0
    else ReadBigIntLoop TagSemicolon s b 0

/-- `reader.readInterface`: `none` is a panic. -/
def reader.readInterface {F T O : Type} (lib : Library F T O) (r : reader) :
    Option (Iface F T O × Option error × reader) :=
  match r.stream with
  | [] => some (Iface.nil, some error.EOF, r)
  | tag :: s =>
    let r : reader := { r with stream := s }
    if 48 ≤ tag ∧ tag ≤ 57 then some (Iface.int (((tag + 256 - 48) % 256 : Nat) : Int), none, r)
    else if tag = TagInteger then
      match r.ReadIntWithoutTag with
      | (i, err, r) => some (Iface.int i, err, r)
    else if tag = TagLong then
      match ReadBigIntWithoutTag r.stream with
      | none => none
      | some (i, err, s) => some (Iface.bigInt i, err, { r with stream := s })
    else if tag = TagDouble then
      match reader.ReadFloat64WithoutTag lib r with
      | (f, err, r) => some (Iface.float64 f, err, r)
    else if tag = TagNull then some (Iface.nil, none, r)
    else if tag = TagEmpty then some (Iface.string [], none, r)
    else if tag = TagTrue then some (Iface.bool true, none, r)
    else if tag = TagFalse then some (Iface.bool false, none, r)
    else if tag = TagNaN then some (Iface.float64 lib.NaN, none, r)
    else if tag = TagInfinity then
      match reader.readInfinity lib r with
      | (f, err, r) => some (Iface.float64 f, err, r)
    else if tag = TagDate then
      match reader.ReadDateWithoutTag lib r with
      | (t, err, r) => some (Iface.time t, err, r)
    else if tag = TagTime then
      match reader.ReadTimeWithoutTag lib r with
      | (t, err, r) => some (Iface.time t, err, r)
    else if tag = TagBytes then
      match r.ReadBytesWithoutTag with
      | none => none
      | some (b, err, r) => some (Iface.bytes b, err, r)
    else if tag = TagUTF8Char then
      match readUTF8String r.stream 1 with
      | (str, err, s) => some (Iface.string str, err, { r with stream := s })
    else if tag = TagString then
      match r.ReadStringWithoutTag with
      | (str, err, r) => some (Iface.string str, err, r)
    else if tag = TagGuid then
      match reader.ReadUUIDWithoutTag lib r with
      | (u, err, r) => some (Iface.uuid u, err, r)
    else if tag = TagList then
      match lib.ReadSliceWithoutTag r.stream with
      | (e, err, s) => some (Iface.object e, err, { r with stream := s })
    else if tag = TagMap then
      match lib.ReadMapWithoutTag r.stream with
      | (e, err, s) => some (Iface.object e, err, { r with stream := s })
    else if tag = TagClass then
      match lib.readClass r.stream with
      | (none, s) =>
        match lib.ReadObject s with
        | (e, err, s) => some (Iface.object e, err, { r with stream := s })
      | (some err, s) => some (Iface.nil, some err, { r with stream := s })
    else if tag = TagObject then
      match lib.ReadObjectWithoutTag r.stream with
      | (e, err, s) => some (Iface.object e, err, { r with stream := s })
    else if tag = TagRef then
      match ReadInteger TagSemicolon r.stream with
      | (i, e, s) =>
        let r : reader := { r with stream := s }
        match r.readRef i e with
        | (some ref, err) => some (Iface.ref ref, err, r)
        | (none, err) => some (Iface.nil, err, r)
    else some (Iface.nil, unexpectedTag tag none, r)

/-- The loop of `reader.ReadListWithoutTag`: `for i := 0; i < length; i++`
with `readInterface` in its body; the first argument is the number of rounds
left. The result is the elements pushed, the error and the reader. -/
def reader.ReadListLoop {F T O : Type} (lib : Library F T O) :
    Nat → reader → List (Iface F T O) → Option (List (Iface F T O) × Option error × reader)
  | 0, r, l => some (l, none, r)
  | n + 1, r, l =>
    match reader.readInterface lib r with
    | none => none
    | some (e, none, r) => reader.ReadListLoop lib n r (l ++ [e])
    | some (_, some err, r) => some (l, some err, r)

/-- `reader.ReadListWithoutTag`: `none` is a panic. -/
def reader.ReadListWithoutTag {F T O : Type} (lib : Library F T O) (r : reader) :
    Option (List (Iface F T O) × Option error × reader) :=
  let r := r.setRef
  match ReadInteger TagOpenbrace r.stream with
  | (_, some err, s) => some ([], some err, { r with stream := s })
  | (length, none, s) =>
    match reader.ReadListLoop lib length.toNat { r with stream := s } [] with
    | none => none
    | some (l, some err, r) => some (l, some err, r)
    | some (l, none, r) =>
      match r.CheckTag TagClosebrace with
      | (err, r) => some (l, err, r)

/-- `reader.ReadList`: `none` is a panic. -/
def reader.ReadList {F T O : Type} (lib : Library F T O) (r : reader) :
    Option (List (Iface F T O) × Option error × reader) :=
  match r.stream with
  | [] => some ([], some error.EOF, r)
  | tag :: s =>
    let r : reader := { r with stream := s }
    if tag = TagNull then some ([], some error.NilError, r)
    else if tag = TagList then reader.ReadListWithoutTag lib r
    else if tag = TagRef then
      match ReadInteger TagSemicolon r.stream with
      | (i, e, s) =>
        let r : reader := { r with stream := s }
        match r.readRef i e with
        | (some ref, none) =>
          match lib.asList ref with
          | some l => some (l, none, r)
          | none => some ([], some (error.cannotConvert ref.typeName "List"), r)
        | (none, none) => some ([], some (error.cannotConvert "nil" "List"), r)
        | (_, some err) => some ([], some err, r)
    else some ([], convertError tag "List", r)

/-- The destinations of `Unserialize` embedded here: `int` to `list` stand
for `*int`, `*int64`, `*uint64`, `*float64`, `*bool`, `*time.Time`,
`*string`, `*[]byte` and `*list.List`; `ptrInt` to `ptrList` stand for the
pointers to pointers `**int` to `**list.List`; `iface` is `*interface{}`.
The cases for the narrower integers, `float32`, `big.Int`, `uuid.UUID` and
the reflective `default` are not embedded. -/
inductive Dest where
  | int | int64 | uint64 | float64 | bool | time | string | bytes | list
  | ptrInt | ptrInt64 | ptrUint64 | ptrFloat64 | ptrBool | ptrTime | ptrString
  | ptrBytes | ptrList
  | iface
  deriving DecidableEq, Repr

/-- The statement `if ...; err == NilError { err = nil }` on the named result
`err`. -/
def clearNil (err : Option error) : Option error :=
  if err = some error.NilError then none else err

/-- `reader.Unserialize`: the error returned and the reader afterwards (the
value stored through `p` is left out); `none` is a panic. In the cases that
read with `if x, err := ...` the `err` assigned is a new variable of the `if`
statement, and the `return err` after it returns the named result, which is
still `nil`. -/
def reader.Unserialize {F T O : Type} (d : Decoders) (lib : Library F T O) (r : reader) :
    Dest → Option (Option error × reader)
  | Dest.int =>
    match reader.ReadInt d r with
    | (_, err, r) => some (clearNil err, r)
  | Dest.int64 =>
    match reader.ReadInt64 d r with
    | (_, err, r) => some (clearNil err, r)
  | Dest.uint64 =>
    match reader.ReadUint64 lib r with
    | (_, err, r) => some (clearNil err, r)
  | Dest.float64 =>
    match reader.ReadFloat64 lib r with
    | (_, err, r) => some (clearNil err, r)
  | Dest.bool =>
    match reader.ReadBool lib r with
    | (_, err, r) => some (clearNil err, r)
  | Dest.time =>
    match reader.ReadDateTime lib r with
    | (_, err, r) => some (clearNil err, r)
  | Dest.string =>
    match reader.ReadString d r with
    | none => none
    | some (_, err, r) => some (clearNil err, r)
  | Dest.bytes =>
    match reader.ReadBytes lib r with
    | none => none
    | some (_, _, r) => some (none, r)
  | Dest.list =>
    match reader.ReadList lib r with
    | none => none
    | some (_, _, r) => some (none, r)
  | Dest.ptrInt =>
    match reader.ReadInt d r with
    | (_, _, r) => some (none, r)
  | Dest.ptrInt64 =>
    match reader.ReadInt64 d r with
    | (_, _, r) => some (none, r)
  | Dest.ptrUint64 =>
    match reader.ReadUint64 lib r with
    | (_, _, r) => some (none, r)
  | Dest.ptrFloat64 =>
    match reader.ReadFloat64 lib r with
    | (_, _, r) => some (none, r)
  | Dest.ptrBool =>
    match reader.ReadBool lib r with
    | (_, _, r) => some (none, r)
  | Dest.ptrTime =>
    match reader.ReadDateTime lib r with
    | (_, _, r) => some (none, r)
  | Dest.ptrString =>
    match reader.ReadString d r with
    | none => none
    | some (_, _, r) => some (none, r)
  | Dest.ptrBytes =>
    match reader.ReadBytes lib r with
    | none => none
    | some (_, err, r) => some (clearNil err, r)
  | Dest.ptrList =>
    match reader.ReadList lib r with
    | none => none
    | some (_, err, r) => some (clearNil err, r)
  | Dest.iface =>
    match reader.readInterface lib r with
    | none => none
    | some (_, err, r) => some (clearNil err, r)

/-- An instance of the library parameters on which the readers can be
run: floating point numbers are stood for by integers, a time is the record
of the fields `time.Date` was given, and reflective values carry nothing. -/
def exampleLibrary : Library Int Time Unit :=
  { float64 := fun i => i, mul := fun a b => a * b, add := fun a b => a + b, NaN := 0,
    Inf := fun s => s, isZero := fun f => decide (f = 0), uint64 := fun f => f.toNat,
    ParseFloat := fun _ => (0, none), ParseUint := fun _ => (0, none),
    ParseBool := fun _ => (false, none),
    Date := fun year month day hour min sec nsec utc =>
      { year := year, month := month, day := day, hour := hour, min := min, sec := sec,
        nsec := nsec, utc := utc },
    ParseTime := fun _ =>
      ({ year := 1, month := 1, day := 1, hour := 0, min := 0, sec := 0, nsec := 0,
         utc := true }, none),
    uuidParse := fun b => b, asTime := fun _ => none, asBytes := fun _ => none,
    asList := fun _ => none, SliceBytes := fun s => ([], none, s),
    ReadSliceWithoutTag := fun s => ((), none, s),
    ReadMapWithoutTag := fun s => ((), none, s), readClass := fun s => (none, s),
    ReadObject := fun s => ((), none, s),
    ReadObjectWithoutTag := fun s => ((), none, s) }

/-- An instance of the decoder parameters on which the readers can be run. -/
def exampleDecoders : Decoders :=
  { ParseInt := fun _ => (0, none), Float64Int64 := fun s => (0, none, s),
    DateString := fun s => ([], none, s), TimeString := fun s => ([], none, s),
    UUIDString := fun s => ([], none, s) }

/-- The decimal text of a natural number, padded with `0` on the left to
`width` digits. -/
def zeroPad (width n : Nat) : List Nat :=
  List.replicate (width - (decimalText (n : Int)).length) 48 ++ decimalText (n : Int)

/-! ## Writer: class descriptors and objects -/

/-- A Go `map[string]V`, kept as the list of its entries, the latest first:
`mapGet m k` is `m[k]` with its `found` flag. -/
def mapGet {V : Type} (m : List (List Nat × V)) (k : List Nat) : Option V :=
  match m with
  | [] => none
  | (k', v) :: m => if k' = k then some v else mapGet m k

/-- The assignment `m[k] = v` on a Go map. -/
def mapSet {V : Type} (m : List (List Nat × V)) (k : List Nat) (v : V) : List (List Nat × V) :=
  (k, v) :: m.filter (fun p => decide (p.1 ≠ k))

/-- The `field` struct: the name of a struct field as it is written, and its
index path for `FieldByIndex`. -/
structure field where
  Name : List Nat
  Index : List Int
  deriving DecidableEq, Repr

/-- The class tables of the `writer` struct, kept apart from `writer`:
`classref` maps a class name to its index (`none` is the `nil` map) and
`fieldsref` holds the field list of every class, by index. -/
structure classTables where
  classref : Option (List (List Nat × Nat))
  fieldsref : List (List field)
  deriving DecidableEq, Repr

/-- The class tables of a new writer: both are `nil`. -/
def classTables.new : classTables := { classref := none, fieldsref := [] }

/-- What `writer.Reset` does to the class tables (`resetRef` of the fake
referer does nothing). -/
def classTables.Reset (t : classTables) : classTables :=
  if t.classref ≠ none then { classref := none, fieldsref := [] } else t

/-- `writer.WriteString`: `w.writeString(str, str)`. -/
def writer.WriteString (w : writer) (str : List Nat) : Option writer :=
  w.writeString str

/-- The loop of `writeClass` over the fields:
`for _, f := range fields { w.WriteString(f.Name) }`. -/
def writer.writeClassFields (w : writer) : List field → Option writer
  | [] => some w
  | f :: fields =>
    match w.WriteString f.Name with
    | none => none
    | some w => w.writeClassFields fields

/-- The bytes of `writeClass` from the field count to the closing brace. -/
def writer.writeClassBody (w : writer) (fields : List field) : Option writer :=
  if fields.length > 0 then
    match w.writeInt fields.length with
    | none => none
    | some w =>
      match (w.WriteByte TagOpenbrace).writeClassFields fields with
      | none => none
      | some w => some (w.WriteByte TagClosebrace)
  else some ((w.WriteByte TagOpenbrace).WriteByte TagClosebrace)

/-- `writer.writeClass`: the writer, the class tables and the index returned;
`none` is a panic (the assignment `w.classref[classname] = index` panics on a
`nil` map). -/
def writer.writeClass (w : writer) (t : classTables) (classname : List Nat)
    (fields : List field) : Option (writer × classTables × Nat) :=
  ((w.WriteByte TagClass).writeInt (ulen classname)).bind fun w =>
    match writer.writeClassBody (((w.WriteByte TagQuote).Write classname).WriteByte TagQuote)
        fields with
    | none => none
    | some w =>
      match t.classref with
      | none => none
      | some classref =>
        some (w, { classref := some (mapSet classref classname t.fieldsref.length),
                   fieldsref := t.fieldsref ++ [fields] }, t.fieldsref.length)

/-- The loop of `writeObject` over the fields:
`for _, f := range fields { w.WriteValue(rv.FieldByIndex(f.Index)) }`;
`WriteField index` stands for writing the field at an index path. -/
def writer.writeObjectFields
    (WriteField : List Int → writer → classTables → Option (writer × classTables)) :
    List field → writer → classTables → Option (writer × classTables)
  | [], w, t => some (w, t)
  | f :: fields, w, t =>
    match WriteField f.Index w t with
    | none => none
    | some (w, t) => writer.writeObjectFields WriteField fields w t

/-- The end of `writeObject`, from `w.setRef(v)`: the tag `o`, the class
index, and the fields in braces. -/
def writer.writeObjectBody (w : writer) (t : classTables) (index : Nat) (fields : List field)
    (WriteField : List Int → writer → classTables → Option (writer × classTables)) :
    Option (writer × classTables) :=
  ((w.setRef.WriteByte TagObject).writeInt index).bind fun w =>
    match writer.writeObjectFields WriteField fields (w.WriteByte TagOpenbrace) t with
    | none => none
    | some (w, t) => some (w.WriteByte TagClosebrace, t)

/-- `writer.writeObject`, for a struct value known by what reflection tells
of it: its class name (the alias registered for its type, or the name of the
type), the fields of its type, whether the type has an anonymous field, and
`WriteField`, the writing of the field at an index path. `writeObjectAsMap`,
taken by a type with an anonymous field, is a parameter. `none` is a panic
(`w.fieldsref[index]` out of range). -/
def writer.writeObject (w : writer) (t : classTables) (classname : List Nat)
    (typeFields : List field) (hasAnonymousField : Bool)
    (WriteField : List Int → writer → classTables → Option (writer × classTables))
    (writeObjectAsMap : writer → classTables → List field → Option (writer × classTables)) :
    Option (writer × classTables) :=
  let t : classTables := if t.classref = none then { classref := some [], fieldsref := [] } else t
  match t.classref with
  | none => none
  | some classref =>
    match mapGet classref classname with
    | some index =>
      match t.fieldsref.get? index with
      | none => none
      | some fields => writer.writeObjectBody w t index fields WriteField
    | none =>
      if hasAnonymousField = false then
        match w.writeClass t classname typeFields with
        | none => none
        | some (w, t, index) => writer.writeObjectBody w t index typeFields WriteField
      else writeObjectAsMap w.setRef t typeFields

/-- `writer.writeObjectWithRef`. -/
def writer.writeObjectWithRef (w : writer) (t : classTables) (classname : List Nat)
    (typeFields : List field) (hasAnonymousField : Bool)
    (WriteField : List Int → writer → classTables → Option (writer × classTables))
    (writeObjectAsMap : writer → classTables → List field → Option (writer × classTables)) :
    Option (writer × classTables) :=
  match w.writeRef with
  | (w, success, err) =>
    if err = none ∧ success = false then
      w.writeObject t classname typeFields hasAnonymousField WriteField writeObjectAsMap
    else some (w, t)

/-- The values whose writing uses the class tables: a value of the universe
`Value`, or a struct without anonymous fields, known by its class name, the
fields of its type and its field values by index path. -/
inductive OValue where
  | plain (v : Value)
  | object (classname : List Nat) (typeFields : List field) (FieldByIndex : List Int → OValue)

/-- `writer.WriteValue` on these values: `fastSerialize` sends a struct to
`writeObjectWithRef` and a value of the universe `Value` where `Serialize`
sends it. -/
def writer.WriteValue : OValue → writer → classTables → Option (writer × classTables)
  | OValue.plain v, w, t =>
    match w.Serialize v with
    | none => none
    | some w => some (w, t)
  | OValue.object classname typeFields FieldByIndex, w, t =>
    w.writeObjectWithRef t classname typeFields false
      (fun index w t => writer.WriteValue (FieldByIndex index) w t)
      (fun _ _ _ => none)

/-- The bytes of a class descriptor: `c`, the UTF-16 length of the class
name, the name in quotes, the number of fields (left out when there are
none), and the field names in braces, each in counted form. -/
def descriptor (classname : List Nat) (fields : List field) : List Nat :=
  TagClass :: (decimalText (ulen classname) ++ TagQuote :: (classname ++ TagQuote ::
    ((if fields.length > 0 then decimalText fields.length else [])
      ++ TagOpenbrace :: ((fields.map (fun f => encodeCounted f.Name)).flatten ++ [TagClosebrace]))))

/-- The byte strings `ds` occur in `s` one after the other, in this order. -/
def emitted : List Nat → List (List Nat) → Prop
  | _, [] => True
  | s, d :: ds => ∃ pre post, s = pre ++ (d ++ post) ∧ emitted post ds

/-- The state of the class tables after the descriptors `descs` (class name
and fields, in the order written) and the bytes `stream`: the field table
holds the field lists in that order, every class index stored under a name
is the position of a descriptor of that name, and the descriptors stand in
the stream in that order; while the class map is `nil` no descriptor has been
written. -/
def classInvariant (stream : List Nat) (t : classTables)
    (descs : List (List Nat × List field)) : Prop :=
  (t.classref = none → descs = []) ∧
  t.fieldsref = descs.map (fun d => d.2) ∧
  (∀ classref name index, t.classref = some classref → mapGet classref name = some index →
    ∃ fields, descs.get? index = some (name, fields)) ∧
  emitted stream (descs.map (fun d => descriptor d.1 d.2))

/-- The class descriptor in the words of the specification: `c`, the decimal
UTF-16 length of the class name, the name in quotes, the decimal field
count, and in braces every field name as `s`, its decimal UTF-16 length and
the name in quotes. -/
def specDescriptor (classname : List Nat) (fieldNames : List (List Nat)) : List Nat :=
  TagClass :: (decimalText (ulen classname) ++ TagQuote :: (classname ++ TagQuote ::
    (decimalText fieldNames.length ++ TagOpenbrace ::
      ((fieldNames.map
          (fun name => TagString :: (decimalText (ulen name) ++ TagQuote :: (name ++ [TagQuote])))).flatten
        ++ [TagClosebrace]))))

/-- A way of writing the field of an object keeps the class tables in order:
from every state in which the invariant holds and the class map is made, it
returns, only appends to the stream, and leaves the invariant in force for a
list of descriptors that extends the former one. -/
def keepsClassInvariant
    (WriteField : List Int → writer → classTables → Option (writer × classTables)) : Prop :=
  ∀ index w t descs, classInvariant w.stream t descs → t.classref ≠ none →
    w.numbuf.length = 20 →
    ∃ w' t' out more, WriteField index w t = some (w', t') ∧ w'.stream = w.stream ++ out ∧
      classInvariant w'.stream t' (descs ++ more) ∧ t'.classref ≠ none ∧
      w'.numbuf.length = 20

/-- The values of `OValue` that Go can hold: the plain values are well
formed, class and field names are valid strings, and field counts are below
`math.MaxInt64`. -/
def OValue.wellFormed : OValue → Prop
  | OValue.plain v => Value.wellFormed v
  | OValue.object classname typeFields FieldByIndex =>
    validString classname ∧ typeFields.length < 9223372036854775807 ∧
      (∀ f ∈ typeFields, validString f.Name) ∧ ∀ index, (FieldByIndex index).wellFormed

/-! ## Service (`service.go`)

The service embedded here is the one `NewBaseService` makes: it has no
`ServiceEvent` and no `Filter`. Its `ostream` is a buffer, the list of the
bytes written to it, and a write to it does not fail. An `error` that
reaches `sendError` is kept as its text, `err.Error()`.

`NewReader`, `NewWriter`, the `reflect` package and `strings.ToLower` are not
interpreted: what `doInvoke` and `doOutput` take from them is a parameter of
the embedding (`ServiceLibrary`), and the values that travel as arguments
and results are those of `Value`. -/

/-- Modelled from the spec: `TagCall` is `C`. -/
abbrev TagCall : Nat := 67
/-- Modelled from the spec: `TagResult` is `R`. -/
abbrev TagResult : Nat := 82
/-- Modelled from the spec: `TagArgument` is `A`. -/
abbrev TagArgument : Nat := 65
/-- Modelled from the spec: `TagFunctions` is `F`. -/
abbrev TagFunctions : Nat := 70
/-- Modelled from the spec: `TagEnd` is `z`. -/
abbrev TagEnd : Nat := 122

/-- Modelled from the spec: the result modes a method declares, `Normal`,
`Serialized`, `Raw` and `RawWithEndTag` (their Go declaration is not part of
the source at hand). -/
inductive ResultMode where
  | Normal
  | Serialized
  | Raw
  | RawWithEndTag
  deriving DecidableEq, Repr

/-- The bytes of a Go string literal. -/
def stringBytes (s : String) : List Nat := utf8Bytes s.data

/-- `err.Error()` for the errors of the codec. -/
def error.Error : error → List Nat
  | error.EOF => stringBytes "EOF"
  | error.unexpectedTag tag =>
    stringBytes "Unexpected serialize tag '" ++ ([tag] ++ stringBytes "' in stream")
  | error.tagExpected expectTags tag =>
    stringBytes "Tag '" ++ (expectTags ++ (stringBytes "' expected, but '"
      ++ ([tag] ++ stringBytes "' found in stream")))
  | error.NilError => stringBytes "nil"
  | error.badEncodeError => stringBytes "bad utf-8 encoding"
  | error.cannotConvert src dst =>
    stringBytes "cannot convert type " ++ (stringBytes src ++ (stringBytes " to type "
      ++ stringBytes dst))
  | error.other msg => stringBytes msg
  | error.text msg => msg

/-- `reader.CheckTags`: the tag, the error and the rest of the stream. -/
def CheckTags (stream : List Nat) (expectTags : List Nat) : Nat × Option error × List Nat :=
  match stream with
  | [] => (0, some error.EOF, [])
  | tag :: s =>
    match unexpectedTag tag (some expectTags) with
    | none => (tag, none, s)
    | some err => (0, some err, s)

/-- `writer.WriteArray` on values of `Value`, for which `WriteValue(v[i])`,
that is `fastSerialize(v[i].Interface(), v[i], 0)`, is `Serialize`. -/
def writer.WriteArray (w : writer) (v : List Value) : Option writer :=
  let w := w.setRef
  let w := w.WriteByte TagList
  if v.length > 0 then
    match w.writeInt v.length with
    | none => none
    | some w =>
      match writer.writeObjectSliceLoop (w.WriteByte TagOpenbrace) v with
      | none => none
      | some w => some (w.WriteByte TagClosebrace)
  else some ((w.WriteByte TagOpenbrace).WriteByte TagClosebrace)

/-- What a call of a function value gives: a panic, kept as the text that
`fmt.Errorf("%v", e)` makes of its (non-nil) value, or the results together
with the argument values as the call leaves them (a call can change what a
slice or a map argument holds). -/
inductive Outcome (ρ : Type) where
  | panics (text : List Nat)
  | returns (result : ρ) (args : List Value)

/-- What `reflect` tells of a function value (`Method.Function`).

* `NumIn` and `IsVariadic` are those of `Function.Type()`.
* `Call args` is `Function.Call(args)`. The functions embedded are those
  whose results are values of `Value`, followed or not by one result of type
  `error`: the results are these values and, when the function type declares
  the trailing `error`, its value (`some none` for `nil`, `some (some m)` for
  an error whose `Error()` is `m`).
* `MissingMethod` is the type assertion `Function.Interface().(MissingMethod)`:
  `some f` for a function of that type, whose results are values of `Value`. -/
structure Func where
  NumIn : Nat
  IsVariadic : Bool
  Call : List Value → Outcome (List Value × Option (Option (List Nat)))
  MissingMethod : Option (List Nat → List Value → Outcome (List Value))

/-- The `Method` struct. -/
structure Method where
  Function : Func
  ResultMode : ResultMode
  SimpleMode : Bool

/-- The `Methods` struct; the map `RemoteMethods` is the list of its entries. -/
structure Methods where
  MethodNames : List (List Nat)
  RemoteMethods : List (List Nat × Method)

/-- `NewMethods`. -/
def NewMethods : Methods := { MethodNames := [], RemoteMethods := [] }

/-- The `function interface{}` argument of `AddFunction`: `nil`, a value
whose kind is not `reflect.Func`, or a function. -/
inductive FunctionArg where
  | nil
  | notFunc
  | func (f : Func)

/-- An element of the `options ...interface{}` of `AddFunction`: a
`ResultMode`, a `bool`, a `string`, or a value of another type. -/
inductive AddOption where
  | resultMode (opt : ResultMode)
  | bool (opt : Bool)
  | string (opt : List Nat)
  | other

/-- The loop of `AddFunction` over its options, from the result mode, the
simple mode and the name space (in Go, `prefix`) set so far; `none` is
`panic("unknown options")`. -/
def addOptions : List AddOption → ResultMode × Bool × List Nat →
    Option (ResultMode × Bool × List Nat)
  | [], acc => some acc
  | AddOption.resultMode opt :: options, (_, simpleMode, ns) =>
    addOptions options (opt, simpleMode, ns)
  | AddOption.bool opt :: options, (resultMode, _, ns) =>
    addOptions options (resultMode, opt, ns)
  | AddOption.string opt :: options, (resultMode, simpleMode, _) =>
    addOptions options (resultMode, simpleMode, opt)
  | AddOption.other :: _, _ => none

/-- `Methods.AddFunction`; `none` is a panic. `ToLower` is `strings.ToLower`,
`[42]` is `"*"` and `[95]` is `"_"`. -/
def Methods.AddFunction (ToLower : List Nat → List Nat) (methods : Methods) (name : List Nat)
    (function : FunctionArg) (options : List AddOption) : Option Methods :=
  if name = [] then none
  else
    match function with
    | FunctionArg.nil => none
    | FunctionArg.notFunc => none
    | FunctionArg.func f =>
      match addOptions options (ResultMode.Normal, false, []) with
      | none => none
      | some (resultMode, simpleMode, ns) =>
        let name := if ns ≠ [] ∧ name ≠ [42] then ns ++ ([95] ++ name) else name
        some { MethodNames := methods.MethodNames ++ [name],
               RemoteMethods := mapSet methods.RemoteMethods (ToLower name)
                 { Function := f, ResultMode := resultMode, SimpleMode := simpleMode } }

/-- `Methods.AddMethods`: `obj` is `none` for `nil`, and otherwise the method
set of the object in the order of `t.Method(i)`, each method with its name
and its function value. -/
def Methods.AddMethods (ToLower : List Nat → List Nat) (methods : Methods)
    (obj : Option (List (List Nat × FunctionArg))) (options : List AddOption) : Option Methods :=
  match obj with
  | none => none
  | some ms =>
    ms.foldl (fun acc m => acc.bind (fun methods =>
      methods.AddFunction ToLower m.1 m.2 options)) (some methods)

/-- `Methods.AddMissingMethod`, for a function that is not `nil`. -/
def Methods.AddMissingMethod (ToLower : List Nat → List Nat) (methods : Methods) (method : Func)
    (options : List AddOption) : Option Methods :=
  methods.AddFunction ToLower [42] (FunctionArg.func method) options

/-- The `BaseService` struct of `NewBaseService`: the embedded `*Methods`
and `IOError`. -/
structure BaseService where
  Methods : Methods
  IOError : Option error

/-- `NewBaseService`. -/
def NewBaseService : BaseService := { Methods := NewMethods, IOError := none }

/-- The run-time panics of `doInvoke` itself: `make` with a negative length,
an index out of range, `Type().Out(i)` out of range, and a panic of the
reader or writer library. -/
inductive RuntimePanic where
  | makeslice
  | index (i : Int) (length : Int)
  | typeOut (i : Int)
  | codec
  deriving DecidableEq, Repr

/-- What `doInvoke` and `doOutput` take from the parts of the package and of
the Go library that are not interpreted.

* `ToLower` is `strings.ToLower`.
* `ReadString stream` is `reader.ReadString()` on a `NewReader` whose
  reference table is empty (it has just been `Reset`): the string, the error
  and the number of bytes read; `none` is a panic.
* `ReadArray remoteMethod count stream` is `reader.ReadArray(args)` on such a
  reader, with the `count` destinations `doInvoke` prepares from the
  parameter types of the method (`interface{}` destinations when there is no
  method): the values read, the error and the number of bytes read.
* `WriteValue v` and `WriteArray a` are the bytes that `WriteValue` and
  `WriteArray` append on a `NewWriter` whose reference table is empty;
  `none` is a panic.
* `Errorf p` is the text `fmt.Errorf("%v", e)` makes of a run-time panic. -/
structure ServiceLibrary where
  ToLower : List Nat → List Nat
  ReadString : List Nat → Option (List Nat × Option error × Nat)
  ReadArray : Option Method → Nat → List Nat → Option (List Value × Option error × Nat)
  WriteValue : Value → Option (List Nat)
  WriteArray : List Value → Option (List Nat)
  Errorf : RuntimePanic → List Nat

/-- How `doInvoke`, `doFunctionList` and the body of `Handle` end: `return
nil`, `return err` (the text is `err.Error()`), a panic (the text is what
`%v` prints of its value), or the loop of the embedding ran out of fuel. -/
inductive Flow where
  | nil
  | err (msg : List Nat)
  | panic (text : List Nat)
  | outOfFuel
  deriving DecidableEq, Repr

/-- `BaseService.responseEnd` without filter and events: `ostream.Write(buf)`. -/
def BaseService.responseEnd (_service : BaseService) (ostream : List Nat) (buf : List Nat) :
    List Nat :=
  ostream ++ buf

/-- `BaseService.sendError` for an error whose `Error()` is `msg`: the
stream afterwards; `none` is a panic (the `defer recover()` of the source
does not stop one: `recover` is not called by a deferred function there). -/
def BaseService.sendError (service : BaseService) (ostream : List Nat) (msg : List Nat) :
    Option (List Nat) :=
  let writer := NewSimpleWriter []
  let writer := writer.WriteByte TagError
  match writer.WriteString msg with
  | none => none
  | some writer =>
    let writer := writer.WriteByte TagEnd
    some (service.responseEnd ostream writer.stream)

/-- The reading of the arguments in `doInvoke`, from the lookup of the method
to the call: the arguments, `byref`, the last tag and the rest of the
stream, or an error (which goes to `IOError`), or a panic. -/
inductive argsRead where
  | ok (args : List Value) (byref : Bool) (tag : Nat) (istream : List Nat)
  | err (e : error)
  | panic (p : RuntimePanic)

/-- The part of `doInvoke` between `args = make([]reflect.Value, count)` and
the tags after the list: the destinations are prepared from the method and
`ReadArray` fills them. With more parameters than arguments the loop
`for i := 0; i < n; i++ { args[i] = ... }` leaves the slice at index
`count`. -/
def readArray (lib : ServiceLibrary) (remoteMethod : Option Method) (count : Nat)
    (istream : List Nat) : Except RuntimePanic (List Value × Option error × List Nat) :=
  match remoteMethod with
  | none =>
    match lib.ReadArray remoteMethod count istream with
    | none => Except.error RuntimePanic.codec
    | some (args, err, n) => Except.ok (args, err, istream.drop n)
  | some m =>
    let ft := m.Function
    let n := if ft.IsVariadic then ft.NumIn - 1 else ft.NumIn
    if n < count then
      match lib.ReadArray remoteMethod count istream with
      | none => Except.error RuntimePanic.codec
      | some (args, err, k) =>
        if ft.IsVariadic then Except.ok (args, err, istream.drop k)
        else Except.ok (args.take n, err, istream.drop k)
    else if count < n then Except.error (RuntimePanic.index count count)
    else
      match lib.ReadArray remoteMethod count istream with
      | none => Except.error RuntimePanic.codec
      | some (args, err, k) => Except.ok (args, err, istream.drop k)

/-- The part of `doInvoke` from `reader.CheckTags([]byte{TagList, TagEnd,
TagCall})` to the call of the method. -/
def readArguments (lib : ServiceLibrary) (remoteMethod : Option Method) (istream : List Nat) :
    argsRead :=
  match CheckTags istream [TagList, TagEnd, TagCall] with
  | (_, some err, _) => argsRead.err err
  | (tag, none, istream) =>
    if tag = TagList then
      match ReadInteger TagOpenbrace istream with
      | (_, some err, _) => argsRead.err err
      | (count, none, istream) =>
        if count < 0 then argsRead.panic RuntimePanic.makeslice
        else
          match readArray lib remoteMethod count.toNat istream with
          | Except.error p => argsRead.panic p
          | Except.ok (_, some err, _) => argsRead.err err
          | Except.ok (args, none, istream) =>
            match CheckTags istream [TagTrue, TagEnd, TagCall] with
            | (_, some err, _) => argsRead.err err
            | (tag, none, istream) =>
              if tag = TagTrue then
                match CheckTags istream [TagEnd, TagCall] with
                | (_, some err, _) => argsRead.err err
                | (tag, none, istream) => argsRead.ok args true tag istream
              else argsRead.ok args false tag istream
    else argsRead.ok [] false tag istream

/-- What the closure of `doInvoke` that calls the method gives, with the
method it leaves in `remoteMethod`: an error (also the one its deferred
`recover` makes of a panic), the results of `Function.Call`, or the results
of the catch-all called as a `MissingMethod`. -/
inductive invoked where
  | err (msg : List Nat)
  | called (remoteMethod : Method) (result : List Value) (last : Option (Option (List Nat)))
      (args : List Value)
  | missing (remoteMethod : Method) (result : List Value) (args : List Value)

/-- The closure of `doInvoke` that calls the method. -/
def BaseService.invoke (service : BaseService) (name : List Nat)
    (remoteMethod : Option Method) (args : List Value) : invoked :=
  match remoteMethod with
  | none =>
    match mapGet service.Methods.RemoteMethods [42] with
    | none => invoked.err (stringBytes "Can't find this method " ++ name)
    | some remoteMethod =>
      match remoteMethod.Function.MissingMethod with
      | some missingMethod =>
        match missingMethod name args with
        | Outcome.panics text => invoked.err text
        | Outcome.returns result args => invoked.missing remoteMethod result args
      | none => invoked.err (stringBytes "Can't find this method " ++ name)
  | some remoteMethod =>
    match remoteMethod.Function.Call args with
    | Outcome.panics text => invoked.err text
    | Outcome.returns (result, last) args => invoked.called remoteMethod result last args

/-- The payload of a method whose mode is not `Normal`: the type switch on
`result[0].Interface()`, of which `[]byte` and `string` are values of `Value`. -/
def resultData (result : List Value) : Except (List Nat) (List Nat) :=
  match result with
  | [] => Except.error (stringBytes "can't find the result value")
  | Value.bytes r :: _ => Except.ok r
  | Value.string r :: _ => Except.ok r
  | _ :: _ => Except.error (stringBytes "the result type is wrong")

/-- The `switch resultLength` of `doInvoke` on the simple writer. -/
def writer.writeResults (w : writer) (result : List Value) : Option writer :=
  match result with
  | [] => w.Serialize Value.null
  | [v] => w.Serialize v
  | _ => w.WriteArray result

/-- The `switch resultLength` of `doInvoke` on `NewWriter(buf)`: the bytes
appended; `Serialize(nil)` is `WriteNull`, which appends `n`. -/
def ServiceLibrary.writeResults (lib : ServiceLibrary) (result : List Value) :
    Option (List Nat) :=
  match result with
  | [] => some [TagNull]
  | [v] => lib.WriteValue v
  | _ => lib.WriteArray result

/-- The part of `doInvoke` that writes the answer of one call to `buf`, for
a mode other than `RawWithEndTag`: the buffer afterwards; `none` is a panic.
With `SimpleMode` the writer is `NewSimpleWriter(buf)`; otherwise it is
`NewWriter(buf)`. `writer.Reset()` leaves nothing to do on the simple writer
for values of `Value`. -/
def writeResponse (lib : ServiceLibrary) (remoteMethod : Method) (result : List Value)
    (data : List Nat) (byref : Bool) (args : List Value) (buf : List Nat) : Option (List Nat) :=
  if remoteMethod.ResultMode = ResultMode.Raw then some (buf ++ data)
  else if remoteMethod.SimpleMode then
    let writer := (NewSimpleWriter buf).WriteByte TagResult
    match (if remoteMethod.ResultMode = ResultMode.Serialized then some (writer.Write data)
           else writer.writeResults result) with
    | none => none
    | some writer =>
      if byref then
        match (writer.WriteByte TagArgument).WriteArray args with
        | none => none
        | some writer => some writer.stream
      else some writer.stream
  else
    let buf := buf ++ [TagResult]
    match (if remoteMethod.ResultMode = ResultMode.Serialized then some (buf ++ data)
           else (lib.writeResults result).map (fun b => buf ++ b)) with
    | none => none
    | some buf =>
      if byref then (lib.WriteArray args).map (fun b => buf ++ ([TagArgument] ++ b))
      else some buf

/-- How one round of the loop of `doInvoke` ends: the loop goes on to its
test `tag != TagCall` with the buffer and the rest of the stream, or
`doInvoke` returns. -/
inductive callFlow where
  | next (service : BaseService) (buf : List Nat) (tag : Nat) (istream : List Nat)
  | stop (service : BaseService) (ostream : List Nat) (flow : Flow)

/-- The part of `doInvoke` after the call of the method: the error slot, the
result mode and the writing of the answer. -/
def BaseService.answer (service : BaseService) (lib : ServiceLibrary) (ostream buf : List Nat)
    (byref : Bool) (tag : Nat) (istream : List Nat) : invoked → callFlow
  | invoked.err msg => callFlow.stop service ostream (Flow.err msg)
  | invoked.called _ _ (some (some msg)) _ => callFlow.stop service ostream (Flow.err msg)
  | invoked.called remoteMethod result _ args =>
    if remoteMethod.ResultMode ≠ ResultMode.Normal then
      match resultData result with
      | Except.error msg => callFlow.stop service ostream (Flow.err msg)
      | Except.ok data =>
        if remoteMethod.ResultMode = ResultMode.RawWithEndTag then
          callFlow.stop service (service.responseEnd ostream data) Flow.nil
        else
          match writeResponse lib remoteMethod result data byref args buf with
          | none => callFlow.stop service ostream (Flow.panic (lib.Errorf RuntimePanic.codec))
          | some buf => callFlow.next service buf tag istream
    else
      match writeResponse lib remoteMethod result [] byref args buf with
      | none => callFlow.stop service ostream (Flow.panic (lib.Errorf RuntimePanic.codec))
      | some buf => callFlow.next service buf tag istream
  | invoked.missing remoteMethod result args =>
    if result.length > 1 then
      callFlow.stop service ostream
        (Flow.panic (lib.Errorf (RuntimePanic.typeOut (result.length - 1 : Nat))))
    else if remoteMethod.ResultMode ≠ ResultMode.Normal then
      match resultData result with
      | Except.error msg => callFlow.stop service ostream (Flow.err msg)
      | Except.ok data =>
        if remoteMethod.ResultMode = ResultMode.RawWithEndTag then
          callFlow.stop service (service.responseEnd ostream data) Flow.nil
        else
          match writeResponse lib remoteMethod result data byref args buf with
          | none => callFlow.stop service ostream (Flow.panic (lib.Errorf RuntimePanic.codec))
          | some buf => callFlow.next service buf tag istream
    else
      match writeResponse lib remoteMethod result [] byref args buf with
      | none => callFlow.stop service ostream (Flow.panic (lib.Errorf RuntimePanic.codec))
      | some buf => callFlow.next service buf tag istream

/-- One round of the loop of `doInvoke`. -/
def BaseService.doInvokeCall (service : BaseService) (lib : ServiceLibrary)
    (istream ostream buf : List Nat) : callFlow :=
  match lib.ReadString istream with
  | none => callFlow.stop service ostream (Flow.panic (lib.Errorf RuntimePanic.codec))
  | some (_, some err, _) =>
    callFlow.stop { service with IOError := some err } ostream (Flow.err err.Error)
  | some (name, none, n) =>
    let istream := istream.drop n
    let remoteMethod := mapGet service.Methods.RemoteMethods (lib.ToLower name)
    match readArguments lib remoteMethod istream with
    | argsRead.err err =>
      callFlow.stop { service with IOError := some err } ostream (Flow.err err.Error)
    | argsRead.panic p => callFlow.stop service ostream (Flow.panic (lib.Errorf p))
    | argsRead.ok args byref tag istream =>
      service.answer lib ostream buf byref tag istream (service.invoke name remoteMethod args)

/-- The loop of `doInvoke`, `for { ...; if tag != TagCall { break } }`, and
what follows it; the first argument bounds the number of rounds. -/
def BaseService.doInvokeLoop (lib : ServiceLibrary) :
    Nat → BaseService → List Nat → List Nat → List Nat → BaseService × List Nat × Flow
  | 0, service, _, ostream, _ => (service, ostream, Flow.outOfFuel)
  | fuel + 1, service, istream, ostream, buf =>
    match service.doInvokeCall lib istream ostream buf with
    | callFlow.stop service ostream flow => (service, ostream, flow)
    | callFlow.next service buf tag istream =>
      if tag ≠ TagCall then
        (service, service.responseEnd ostream (buf ++ [TagEnd]), Flow.nil)
      else BaseService.doInvokeLoop lib fuel service istream ostream buf

/-- `BaseService.doInvoke`: the service, the output stream and the way it
ends. Every round reads at least one byte, so `len(istream) + 1` rounds are
enough. -/
def BaseService.doInvoke (service : BaseService) (lib : ServiceLibrary)
    (istream ostream : List Nat) : BaseService × List Nat × Flow :=
  BaseService.doInvokeLoop lib (istream.length + 1) service istream ostream []

/-- `BaseService.doFunctionList`; `Serialize(service.MethodNames)` goes to
the `[]string` case of `fastSerialize`. -/
def BaseService.doFunctionList (service : BaseService) (lib : ServiceLibrary)
    (ostream : List Nat) : BaseService × List Nat × Flow :=
  let writer := NewSimpleWriter []
  let writer := writer.WriteByte TagFunctions
  match writer.writeStringSliceWithRef service.Methods.MethodNames with
  | none => (service, ostream, Flow.panic (lib.Errorf RuntimePanic.codec))
  | some writer =>
    let writer := writer.WriteByte TagEnd
    (service, service.responseEnd ostream writer.stream, Flow.nil)

/-- The body of `BaseService.Handle`, before its deferred function runs. -/
def BaseService.handleBody (service : BaseService) (lib : ServiceLibrary)
    (istream ostream : List Nat) : BaseService × List Nat × Flow :=
  match Read istream 1 with
  | (_, _, some err, _) => ({ service with IOError := some err }, ostream, Flow.err err.Error)
  | (buf, _, none, istream) =>
    if buf = [TagCall] then service.doInvoke lib istream ostream
    else if buf = [TagEnd] then service.doFunctionList lib ostream
    else (service, ostream, Flow.err (stringBytes "Unknown Tag: " ++ buf))

/-- `BaseService.Handle`: the service and the output stream afterwards. The
deferred function turns a panic into an error and sends the error with
`sendError`; `none` is a panic that leaves `Handle`, or a loop out of fuel. -/
def BaseService.Handle (service : BaseService) (lib : ServiceLibrary)
    (istream ostream : List Nat) : Option (BaseService × List Nat) :=
  match service.handleBody lib istream ostream with
  | (service, ostream, Flow.nil) => some (service, ostream)
  | (service, ostream, Flow.err msg) => (service.sendError ostream msg).map (fun o => (service, o))
  | (service, ostream, Flow.panic text) =>
    (service.sendError ostream text).map (fun o => (service, o))
  | (_, _, Flow.outOfFuel) => none

/-! ## Client (`client.go`) -/

/-- The `InvokeOptions` struct; `ByRef` and `SimpleMode` are `interface{}`
values that hold `true`, `false` or `nil`. -/
structure InvokeOptions where
  ByRef : Option Bool
  SimpleMode : Option Bool
  ResultMode : ResultMode

/-- The `BaseClient` struct without transporter and filter. -/
structure BaseClient where
  ByRef : Bool
  SimpleMode : Bool

/-- `BaseClient.doOutput`: the bytes of the buffer that the deferred function
hands to `SendData`; `none` is a panic. `args` is `none` for a `nil` slice.
`WriteString` and `WriteBool` append the same bytes on a `NewWriter` as on
the simple writer: they do not read the reference table, which `Reset`
empties before the arguments are written. -/
def BaseClient.doOutput (client : BaseClient) (lib : ServiceLibrary) (name : List Nat)
    (args : Option (List Value)) (options : InvokeOptions) : Option (List Nat) :=
  let simple := options.SimpleMode.getD client.SimpleMode
  let byref := options.ByRef.getD client.ByRef
  let writer := (NewSimpleWriter []).WriteByte TagCall
  match writer.WriteString name with
  | none => none
  | some writer =>
    match args with
    | some args =>
      if args.length > 0 ∨ byref = true then
        match (if simple then writer.WriteArray args
               else (lib.WriteArray args).map (fun b => writer.Write b)) with
        | none => none
        | some writer =>
          if byref then
            match writer.WriteBool true with
            | none => none
            | some writer => some (writer.WriteByte TagEnd).stream
          else some (writer.WriteByte TagEnd).stream
      else some (writer.WriteByte TagEnd).stream
    | none => some (writer.WriteByte TagEnd).stream

/-- The case `TagError` of the loop of `BaseClient.doIntput` in the modes
`Normal` and `Serialized`, on the stream after the tag: the text of the
error that `doIntput` returns; `none` is a panic. -/
def doIntputError (lib : ServiceLibrary) (istream : List Nat) : Option (List Nat) :=
  match lib.ReadString istream with
  | none => none
  | some (_, some err, _) => some err.Error
  | some (e, none, n) =>
    match (NewSimpleReader (istream.drop n)).CheckTag TagEnd with
    | (some err, _) => some err.Error
    | (none, _) => some e

/-! ## The forms of the specification -/

/-- The bytes that stand for the results of a method in `Normal` mode, in
the words of the specification: `n` for no result, the encoding of the one
result, or the list of the results. -/
def encodeResults : List Value → List Nat
  | [] => [TagNull]
  | [v] => encode v
  | result => encode (Value.slice result)

/-- A counted string in the words of the specification: `s`, the decimal
UTF-16 length and the text in quotes. -/
def specCounted (s : List Nat) : List Nat :=
  TagString :: (decimalText (ulen s) ++ TagQuote :: (s ++ [TagQuote]))

/-- The error frame in the words of the specification: `E`, the message as
a counted string, `z`. -/
def specErrorFrame (m : List Nat) : List Nat :=
  TagError :: (specCounted m ++ [TagEnd])

/-- The call frame in the words of the specification: `C`, the name as a
counted string, the list of the arguments and `t` as told, `z`; `list` is
the encoding of the argument list. -/
def specCallFrame (name : List Nat) (list : List Nat) (withArgs byref : Bool) : List Nat :=
  TagCall :: (specCounted name ++ ((if withArgs then list ++ (if byref then [TagTrue] else [])
    else []) ++ [TagEnd]))

/-! ## Instances to run the service on -/

/-- An instance of `strings.ToLower` on ASCII text. -/
def exampleToLower (s : List Nat) : List Nat :=
  s.map (fun c => if 65 ≤ c ∧ c ≤ 90 then c + 32 else c)

/-- The values of `Value` that stand for what `readInterface` returns in the
example library. -/
def exampleValue : Iface Int Time Unit → Value
  | Iface.nil => Value.null
  | Iface.int i => Value.int i
  | Iface.bigInt i => Value.int i
  | Iface.float64 f => Value.int f
  | Iface.string s => Value.string s
  | Iface.bool b => Value.bool b
  | Iface.bytes b => Value.bytes b
  | _ => Value.null

/-- An instance of the service parameters on which the service can be run:
the readers and writers are the simple ones, and arguments are read as
`interface{}` values. -/
def exampleServiceLibrary : ServiceLibrary :=
  { ToLower := exampleToLower,
    ReadString := fun stream =>
      match reader.ReadString exampleDecoders (NewSimpleReader stream) with
      | none => none
      | some (s, err, r) => some (s, err, stream.length - r.stream.length),
    ReadArray := fun _ count stream =>
      match reader.ReadListLoop exampleLibrary count (NewSimpleReader stream) [] with
      | none => none
      | some (l, some err, r) =>
        some (l.map exampleValue, some err, stream.length - r.stream.length)
      | some (l, none, r) =>
        match r.CheckTag TagClosebrace with
        | (err, r) => some (l.map exampleValue, err, stream.length - r.stream.length),
    WriteValue := fun v => ((NewSimpleWriter []).Serialize v).map (fun w => w.stream),
    WriteArray := fun a => ((NewSimpleWriter []).WriteArray a).map (fun w => w.stream),
    Errorf := fun _ => stringBytes "runtime error" }

/-- The function `hello` of `service_test.go`: `"Hello " + name + "!"`. -/
def helloFunc : Func :=
  { NumIn := 1, IsVariadic := false,
    Call := fun args =>
      match args with
      | [Value.string name] =>
        Outcome.returns ([Value.string (stringBytes "Hello " ++ (name ++ stringBytes "!"))], none)
          args
      | _ => Outcome.panics (stringBytes "reflect: Call with wrong arguments"),
    MissingMethod := none }

/-- The method `Swap` of `service_test.go`. -/
def SwapFunc : Func :=
  { NumIn := 2, IsVariadic := false,
    Call := fun args =>
      match args with
      | [Value.int a, Value.int b] => Outcome.returns ([Value.int b, Value.int a], none) args
      | _ => Outcome.panics (stringBytes "reflect: Call with wrong arguments"),
    MissingMethod := none }

/-- The integers of a list of values, when all are integers. -/
def intArgs : List Value → Option (List Int)
  | [] => some []
  | Value.int a :: args => (intArgs args).map (fun l => a :: l)
  | _ :: _ => none

/-- The method `Sum` of `service_test.go`. -/
def SumFunc : Func :=
  { NumIn := 1, IsVariadic := true,
    Call := fun args =>
      match intArgs args with
      | none => Outcome.panics (stringBytes "reflect: Call with wrong arguments")
      | some [] =>
        Outcome.returns ([Value.int 0], some (some (stringBytes "Requires at least two parameters")))
          args
      | some [_] =>
        Outcome.returns ([Value.int 0], some (some (stringBytes "Requires at least two parameters")))
          args
      | some (a :: l) =>
        Outcome.returns ([Value.int (l.foldl (fun a x => wrap64 (a + x)) a)], some none) args,
    MissingMethod := none }

/-- The method `PanicTest` of `service_test.go`. -/
def PanicTestFunc : Func :=
  { NumIn := 0, IsVariadic := false,
    Call := fun _ => Outcome.panics (stringBytes "I'm crazy"),
    MissingMethod := none }

/-- A function without parameters that returns the error `errors.New("")`. -/
def emptyErrorFunc : Func :=
  { NumIn := 0, IsVariadic := false,
    Call := fun args => Outcome.returns ([], some (some [])) args,
    MissingMethod := none }

/-- A function without parameters that returns the bytes `d` and a `nil`
error. -/
def dataFunc (d : List Nat) : Func :=
  { NumIn := 0, IsVariadic := false,
    Call := fun args => Outcome.returns ([Value.bytes d], some none) args,
    MissingMethod := none }

/-- A catch-all of type `MissingMethod` that returns the name it is given. -/
def echoMissingMethod : Func :=
  { NumIn := 2, IsVariadic := false,
    Call := fun _ => Outcome.panics (stringBytes "reflect: Call with wrong arguments"),
    MissingMethod := some (fun name args => Outcome.returns [Value.string name] args) }

/-- The service made by `NewBaseService` and one `AddFunction(name, f,
options...)`. -/
def serviceOf (name : List Nat) (f : Func) (options : List AddOption) : BaseService :=
  match NewMethods.AddFunction exampleToLower name (FunctionArg.func f) options with
  | none => NewBaseService
  | some methods => { Methods := methods, IOError := none }

/-- The method table of the service of `TestHttpService`:
`service.AddFunction("hello", hello)` and `service.AddMethods(new(testServe))`. -/
def testMethods : Option Methods :=
  (NewMethods.AddFunction exampleToLower (stringBytes "hello") (FunctionArg.func helloFunc) []).bind
    (fun methods => methods.AddMethods exampleToLower
      (some [(stringBytes "PanicTest", FunctionArg.func PanicTestFunc),
             (stringBytes "Sum", FunctionArg.func SumFunc),
             (stringBytes "Swap", FunctionArg.func SwapFunc)]) [])

/-- The service of `TestHttpService`, and the same with every method in
simple mode. -/
def testService (simpleMode : Bool) : BaseService :=
  match testMethods with
  | none => NewBaseService
  | some methods =>
    { Methods :=
        { MethodNames := methods.MethodNames,
          RemoteMethods := methods.RemoteMethods.map
            (fun m => (m.1, { m.2 with SimpleMode := simpleMode })) },
      IOError := none }

/-! ## Unsigned, narrow and arbitrary-precision integers -/

/-- The digit loop of `writeUint64`: `for i != 0 { off--; numbuf[off] =
(byte)((i % 10) + '0'); i /= 10 }`, on a `uint64`. At `off = 0` the
decrement would index `numbuf[-1]`, a panic. -/
def writeUint64Loop : Nat → Nat → List Nat → Option (Nat × List Nat)
  | off, i, numbuf =>
    if i = 0 then some (off, numbuf)
    else
      match off with
      | 0 => none
      | off + 1 =>
        if off < numbuf.length then
          writeUint64Loop off (i / 10) (numbuf.set off ((i % 10 + 48) % 256))
        else none

/-- `writer.writeUint64`. -/
def writer.writeUint64 (w : writer) (i : Nat) : Option writer :=
  if i ≤ 9 then
    some (w.WriteByte ((i + 48) % 256))
  else
    match writeUint64Loop 20 i w.numbuf with
    | none => none
    | some (off, numbuf) =>
      some { w with numbuf := numbuf, stream := w.stream ++ numbuf.drop off }

/-- `writer.WriteUint64`. `math.MaxInt32` is `2^31 - 1`. -/
def writer.WriteUint64 (w : writer) (v : Nat) : Option writer :=
  if v ≤ 9 then
    some (w.WriteByte ((v + 48) % 256))
  else
    let w := if v ≤ 2147483647 then w.WriteByte TagInteger else w.WriteByte TagLong
    match w.writeUint64 v with
    | none => none
    | some w => some (w.WriteByte TagSemicolon)

/-- `writer.WriteBigInt`: the tag, `v.String()` and the semicolon.
`big.Int.String` gives the base-10 text of the number. -/
def writer.WriteBigInt (w : writer) (v : Int) : writer :=
  ((w.WriteByte TagLong).Write (decimalText v)).WriteByte TagSemicolon

/-- Two's-complement reduction of an integer to `int8`. -/
def wrap8 (x : Int) : Int := (x + 128) % 256 - 128

/-- The loop of `reader.readInt8`:
`for b != tag && err == nil { i *= 10; i += int8(b-'0') * sign; b, err =
s.ReadByte() }`, on an `int8`. -/
def readInt8Loop (tag : Nat) (sign : Int) : List Nat → Nat → Int → Int × Option error × List Nat
  | s, b, i =>
    if b = tag then (i, none, s)
    else
      let i := wrap8 (wrap8 (i * 10) + wrap8 (wrap8 ((b + 256 - 48) % 256 : Nat) * sign))
      match s with
      | [] => (i, some error.EOF, [])
      | b :: s => readInt8Loop tag sign s b i

/-- `reader.readInt8`. -/
def readInt8 (tag : Nat) (stream : List Nat) : Int × Option error × List Nat :=
  match stream with
  | [] => (0, some error.EOF, [])
  | b :: s =>
    if b = tag then (0, none, s)
    else if b = TagNeg then
      match s with
      | [] => (0, some error.EOF, [])
      | b :: s => readInt8Loop tag (-1) s b 0
    else if b = TagPos then
      match s with
      | [] => (0, some error.EOF, [])
      | b :: s => readInt8Loop tag 1 s b 0
    else readInt8Loop tag 1 s b 0

/-- `reader.readUint8`: the conversion to `uint8` of what `readInt8`
returns. -/
def readUint8 (tag : Nat) (stream : List Nat) : Nat × Option error × List Nat :=
  match readInt8 tag stream with
  | (i, err, s) => ((i % 256).toNat, err, s)

/-- `reader.ReadInt8WithoutTag`. -/
def reader.ReadInt8WithoutTag (r : reader) : Int × Option error × reader :=
  match readInt8 TagSemicolon r.stream with
  | (i, err, s) => (i, err, { r with stream := s })

/-- `reader.ReadUint8WithoutTag`. -/
def reader.ReadUint8WithoutTag (r : reader) : Nat × Option error × reader :=
  match readUint8 TagSemicolon r.stream with
  | (i, err, s) => (i, err, { r with stream := s })

/-- The parts of the narrow readers that go through floating point or
`strconv`: parameters of the embedding.

* `Float64Int8 stream` and `Float64Uint8 stream` are `ReadFloat64WithoutTag`
  followed by the conversions `int8(f)` and `uint8(f)`.
* `ParseUint str` is `strconv.ParseUint(str, 10, 64)`.
* `SetString str` is `new(big.Int).SetString(str, 0)`, `none` when it does
  not succeed. -/
structure NarrowDecoders where
  Float64Int8 : List Nat → Int × Option error × List Nat
  Float64Uint8 : List Nat → Nat × Option error × List Nat
  ParseUint : List Nat → Nat × Option error
  SetString : List Nat → Option Int

/-- `reader.ReadInt8`. The conversion `int8(i)` of an `int64` or of a rune
keeps the low eight bits. -/
def reader.ReadInt8 (d : Decoders) (n : NarrowDecoders) (r : reader) :
    Int × Option error × reader :=
  match r.stream with
  | [] => (0, some error.EOF, r)
  | tag :: s =>
    let r : reader := { r with stream := s }
    if 48 ≤ tag ∧ tag ≤ 57 then (wrap8 ((tag + 256 - 48) % 256 : Nat), none, r)
    else if tag = TagInteger ∨ tag = TagLong then r.ReadInt8WithoutTag
    else if tag = TagDouble then
      match n.Float64Int8 r.stream with
      | (f, err, s) => (f, err, { r with stream := s })
    else if tag = TagNull then (0, some error.NilError, r)
    else if tag = TagEmpty ∨ tag = TagFalse then (0, none, r)
    else if tag = TagTrue then (1, none, r)
    else if tag = TagUTF8Char then
      match ReadRune r.stream with
      | (c, _, err, s) => (wrap8 c, err, { r with stream := s })
    else if tag = TagString then
      match r.ReadStringWithoutTag with
      | (str, none, r) => (wrap8 (d.ParseInt str).1, (d.ParseInt str).2, r)
      | (_, some err, r) => (0, some err, r)
    else if tag = TagRef then
      match ReadInteger TagSemicolon r.stream with
      | (i, e, s) =>
        let r : reader := { r with stream := s }
        match r.readRef i e with
        | (some (refValue.string ref), none) =>
          (wrap8 (d.ParseInt ref).1, (d.ParseInt ref).2, r)
        | (some (refValue.other typeName), none) =>
          (0, some (error.cannotConvert typeName "int8"), r)
        | (none, none) => (0, some (error.cannotConvert "nil" "int8"), r)
        | (_, some err) => (0, some err, r)
    else (0, convertError tag "int8", r)

/-- `reader.ReadUint8`. The conversion `uint8(i)` of a `uint64` or of a rune
keeps the low eight bits. -/
def reader.ReadUint8 (n : NarrowDecoders) (r : reader) : Nat × Option error × reader :=
  match r.stream with
  | [] => (0, some error.EOF, r)
  | tag :: s =>
    let r : reader := { r with stream := s }
    if 48 ≤ tag ∧ tag ≤ 57 then ((tag + 256 - 48) % 256, none, r)
    else if tag = TagInteger ∨ tag = TagLong then r.ReadUint8WithoutTag
    else if tag = TagDouble then
      match n.Float64Uint8 r.stream with
      | (f, err, s) => (f, err, { r with stream := s })
    else if tag = TagNull then (0, some error.NilError, r)
    else if tag = TagEmpty ∨ tag = TagFalse then (0, none, r)
    else if tag = TagTrue then (1, none, r)
    else if tag = TagUTF8Char then
      match ReadRune r.stream with
      | (c, _, err, s) => (c % 256, err, { r with stream := s })
    else if tag = TagString then
      match r.ReadStringWithoutTag with
      | (str, none, r) => ((n.ParseUint str).1 % 256, (n.ParseUint str).2, r)
      | (_, some err, r) => (0, some err, r)
    else if tag = TagRef then
      match ReadInteger TagSemicolon r.stream with
      | (i, e, s) =>
        let r : reader := { r with stream := s }
        match r.readRef i e with
        | (some (refValue.string ref), none) =>
          ((n.ParseUint ref).1 % 256, (n.ParseUint ref).2, r)
        | (some (refValue.other typeName), none) =>
          (0, some (error.cannotConvert typeName "uint8"), r)
        | (none, none) => (0, some (error.cannotConvert "nil" "uint8"), r)
        | (_, some err) => (0, some err, r)
    else (0, convertError tag "uint8", r)

/-- `stringToBigInt`: the number when `SetString` succeeds, otherwise zero
and the error `cannot convert string "<str>" to type big.Int`. -/
def stringToBigInt (n : NarrowDecoders) (str : List Nat) : Int × Option error :=
  match n.SetString str with
  | some bigint => (bigint, none)
  | none =>
    (0, some (error.text (stringBytes "cannot convert string \"" ++ (str
      ++ stringBytes "\" to type big.Int"))))

/-- `reader.ReadBigInt`: the `*big.Int` (`none` is the `nil` pointer), the
error and the reader; the outer `none` is a panic. -/
def reader.ReadBigInt (d : Decoders) (n : NarrowDecoders) (r : reader) :
    Option (Option Int × Option error × reader) :=
  match r.stream with
  | [] => some (none, some error.EOF, r)
  | tag :: s =>
    let r : reader := { r with stream := s }
    if 48 ≤ tag ∧ tag ≤ 57 then some (some (((tag + 256 - 48) % 256 : Nat) : Int), none, r)
    else if tag = TagInteger ∨ tag = TagLong then
      match ReadBigIntWithoutTag r.stream with
      | none => none
      | some (i, err, s) => some (some i, err, { r with stream := s })
    else if tag = TagDouble then
      match d.Float64Int64 r.stream with
      | (f, err, s) => some (some f, err, { r with stream := s })
    else if tag = TagNull then some (some 0, some error.NilError, r)
    else if tag = TagEmpty ∨ tag = TagFalse then some (some 0, none, r)
    else if tag = TagTrue then some (some 1, none, r)
    else if tag = TagUTF8Char then
      match ReadRune r.stream with
      | (c, _, err, s) => some (some (c : Int), err, { r with stream := s })
    else if tag = TagString then
      match r.ReadStringWithoutTag with
      | (str, none, r) => some (some (stringToBigInt n str).1, (stringToBigInt n str).2, r)
      | (_, some err, r) => some (none, some err, r)
    else if tag = TagRef then
      match ReadInteger TagSemicolon r.stream with
      | (i, e, s) =>
        let r : reader := { r with stream := s }
        match r.readRef i e with
        | (some (refValue.string ref), none) =>
          some (some (stringToBigInt n ref).1, (stringToBigInt n ref).2, r)
        | (some (refValue.other typeName), none) =>
          some (none, some (error.cannotConvert typeName "big.Int"), r)
        | (none, none) => some (none, some (error.cannotConvert "nil" "big.Int"), r)
        | (_, some err) => some (none, some err, r)
    else some (none, convertError tag "big.Int", r)

/-- An instance of the narrow decoders, for the examples. -/
def exampleNarrowDecoders : NarrowDecoders :=
  { Float64Int8 := fun s => (0, none, s), Float64Uint8 := fun s => (0, none, s),
    ParseUint := fun _ => (0, none), SetString := fun _ => none }

/-! ## Reader: class table -/

/-- An entry of `reader.classref`: the registered type of the class, or,
for a class that is not registered, the position of the entry. -/
inductive classKey (C : Type) where
  | type (c : C)
  | index (n : Nat)

/-- The fields `classref` and `fieldsref` of the `reader` struct; `none` is
the `nil` slice. -/
structure readerClasses (C : Type) where
  classref : Option (List (classKey C))
  fieldsref : List (List (List Nat))

/-- The class tables of a new reader. -/
def readerClasses.new (C : Type) : readerClasses C :=
  { classref := none, fieldsref := [] }

/-- The class tables after `reader.Reset`. -/
def readerClasses.Reset {C : Type} (t : readerClasses C) : readerClasses C :=
  match t.classref with
  | some _ => { classref := none, fieldsref := [] }
  | none => t

/-- The loop of `readClass` over the field names:
`for i := 0; i < count; i++ { fields[i], err = r.ReadString() }`. -/
def reader.readClassFields (d : Decoders) :
    Nat → reader → List (List Nat) → Option (List (List Nat) × Option error × reader)
  | 0, r, fields => some (fields, none, r)
  | count + 1, r, fields =>
    match reader.ReadString d r with
    | none => none
    | some (str, none, r) => reader.readClassFields d count r (fields ++ [str])
    | some (_, some err, r) => some (fields, some err, r)

/-- `reader.readClass`: the error, the reader and the class tables; `none`
is a panic (`make([]string, count)` on a negative count, or a panic of
`ReadString`). `GetClass` is `ClassManager.GetClass`. -/
def reader.readClass {C : Type} (d : Decoders) (GetClass : List Nat → Option C)
    (r : reader) (t : readerClasses C) : Option (Option error × reader × readerClasses C) :=
  match r.readStringWithoutTag with
  | (_, some err, r) => some (some err, r, t)
  | (className, none, r) =>
    match ReadInteger TagOpenbrace r.stream with
    | (_, some err, s) => some (some err, { r with stream := s }, t)
    | (count, none, s) =>
      if count < 0 then none
      else
        match reader.readClassFields d count.toNat { r with stream := s } [] with
        | none => none
        | some (_, some err, r) => some (some err, r, t)
        | some (fields, none, r) =>
          match r.CheckTag TagClosebrace with
          | (some err, r) => some (some err, r, t)
          | (none, r) =>
            let classref := t.classref.getD []
            let fieldsref := if t.classref.isNone then [] else t.fieldsref
            let key : classKey C :=
              match GetClass className with
              | some c => classKey.type c
              | none => classKey.index classref.length
            some (none, r, { classref := some (classref ++ [key]),
                             fieldsref := fieldsref ++ [fields] })

/-- `reader.readObjectWithoutTag` up to the lookup `r.classref[index]`: the
index is read and the table is indexed with it, with no test of the index
against the length of the table; an index out of range is a run-time panic
(`none`). What follows the lookup, the choice of the type, the reading of the
fields and the closing brace, is the parameter `readObjectBody`, which gets
the key, the index and the tables. -/
def reader.readObjectWithoutTag {C : Type}
    (readObjectBody : classKey C → Nat → readerClasses C → reader → Option (Option error × reader))
    (r : reader) (t : readerClasses C) : Option (Option error × reader) :=
  match ReadInteger TagOpenbrace r.stream with
  | (_, some err, s) => some (some err, { r with stream := s })
  | (index, none, s) =>
    if index < 0 then none
    else
      match (t.classref.getD [])[index.toNat]? with
      | none => none
      | some key => readObjectBody key index.toNat t { r with stream := s }

/-! ## Client: stubs and calls -/

/-- The loop that `getByRef` and `getSimpleMode` both contain:
`for _, key := range keys { switch strings.ToLower(sf.Tag.Get(key)) { case
"true", "t", "1": return true; case "false", "f", "0": return false } };
return nil`. `Tag` is `sf.Tag.Get`, which gives the empty string for a key
that the tag does not hold. -/
def getFlag (ToLower : List Nat → List Nat) (Tag : List Nat → List Nat) :
    List (List Nat) → Option Bool
  | [] => none
  | key :: keys =>
    if ToLower (Tag key) = stringBytes "true" ∨ ToLower (Tag key) = stringBytes "t"
        ∨ ToLower (Tag key) = stringBytes "1" then some true
    else if ToLower (Tag key) = stringBytes "false" ∨ ToLower (Tag key) = stringBytes "f"
        ∨ ToLower (Tag key) = stringBytes "0" then some false
    else getFlag ToLower Tag keys

/-- `getByRef`: `true`, `false` or `nil`. -/
def getByRef (ToLower : List Nat → List Nat) (Tag : List Nat → List Nat) : Option Bool :=
  getFlag ToLower Tag
    [stringBytes "byref", stringBytes "byRef", stringBytes "Byref", stringBytes "ByRef"]

/-- `getSimpleMode`: `true`, `false` or `nil`. -/
def getSimpleMode (ToLower : List Nat → List Nat) (Tag : List Nat → List Nat) : Option Bool :=
  getFlag ToLower Tag
    [stringBytes "simple", stringBytes "Simple", stringBytes "simpleMode",
     stringBytes "SimpleMode"]

/-- The loop of `getResultMode`; after the loop the function returns
`Normal`. -/
def getResultModeLoop (ToLower : List Nat → List Nat) (Tag : List Nat → List Nat) :
    List (List Nat) → ResultMode
  | [] => ResultMode.Normal
  | key :: keys =>
    if ToLower (Tag key) = stringBytes "normal" then ResultMode.Normal
    else if ToLower (Tag key) = stringBytes "serialized" then ResultMode.Serialized
    else if ToLower (Tag key) = stringBytes "raw" then ResultMode.Raw
    else if ToLower (Tag key) = stringBytes "rawwithendtag" then ResultMode.RawWithEndTag
    else getResultModeLoop ToLower Tag keys

/-- `getResultMode`. -/
def getResultMode (ToLower : List Nat → List Nat) (Tag : List Nat → List Nat) : ResultMode :=
  getResultModeLoop ToLower Tag
    [stringBytes "result", stringBytes "Result", stringBytes "resultMode",
     stringBytes "ResultMode"]

/-- The arguments `UseService` tells apart, by dynamic type: the `nil`
interface, a `string`, a `*string` (`none` is the nil pointer), a pointer of
another type (nil or not, to a struct or a struct pointer or not; `ro` is
what it points to), a value of another kind that has a nil (chan, func, map,
slice, interface), and a value of a kind that has none (numbers, structs,
arrays). -/
inductive Argument (R : Type) where
  | nil
  | string (s : List Nat)
  | stringPointer (s : Option (List Nat))
  | pointer (isNil : Bool) (toStruct : Bool) (ro : R)
  | nilable (isNil : Bool)
  | value

/-- What a panic of `UseService` carries: one of the three texts of
`client.go`, or a run-time error (a nil dereference, `reflect.Value.IsNil`
on a value that has no nil, or a panic of `createRemoteObject`). -/
inductive UsePanic where
  | text (msg : String)
  | runtime
  deriving DecidableEq, Repr

/-- `isStructPointer`; `none` is the panic of `v.IsNil()` on a value whose
kind has no nil. -/
def isStructPointer {R : Type} : Argument R → Option Bool
  | Argument.nil => some false
  | Argument.string _ => none
  | Argument.stringPointer _ => some false
  | Argument.pointer isNil toStruct _ => some (!isNil && toStruct)
  | Argument.nilable _ => some false
  | Argument.value => none

/-- The state `UseService` works on: the field `uri` of the client and the
remote object that has been filled in, if any. -/
structure UseState (U R : Type) where
  uri : Option U
  remoteObject : Option R

/-- How `UseService` ends: it returns, or it panics; either way with the
state reached. -/
inductive UseResult (U R : Type) where
  | returns (state : UseState U R)
  | panics (p : UsePanic) (state : UseState U R)

/-- `BaseClient.SetUri`; `Parse` is `url.Parse`, `none` when it fails. -/
def BaseClient.SetUri {U R : Type} (Parse : List Nat → Option U) (state : UseState U R)
    (uri : List Nat) : Except UsePanic (UseState U R) :=
  match Parse uri with
  | some u => Except.ok { state with uri := some u }
  | none => Except.error (UsePanic.text "The uri can't be parsed.")

/-- The use of `createRemoteObject` in `UseService`; the parameter gives the
filled object, `none` when the reflection panics. -/
def BaseClient.createRemoteObject {U R : Type} (create : R → Option R) (state : UseState U R)
    (ro : R) : Except UsePanic (UseState U R) :=
  match create ro with
  | some o => Except.ok { state with remoteObject := some o }
  | none => Except.error UsePanic.runtime

/-- `BaseClient.UseService`. In `case 1` every branch that succeeds ends in
`return`; in `case 2` no branch does, and the control reaches the
`panic("Wrong arguments.")` that closes the function. -/
def BaseClient.UseService {U R : Type} (Parse : List Nat → Option U) (create : R → Option R)
    (state : UseState U R) (args : List (Argument R)) : UseResult U R :=
  match args with
  | [arg0] =>
    match arg0 with
    | Argument.nil => UseResult.panics (UsePanic.text "The arguments can't be nil.") state
    | Argument.string s =>
      match BaseClient.SetUri Parse state s with
      | Except.ok state => UseResult.returns state
      | Except.error p => UseResult.panics p state
    | Argument.stringPointer none => UseResult.panics UsePanic.runtime state
    | Argument.stringPointer (some s) =>
      match BaseClient.SetUri Parse state s with
      | Except.ok state => UseResult.returns state
      | Except.error p => UseResult.panics p state
    | Argument.pointer isNil toStruct ro =>
      if !isNil && toStruct then
        match BaseClient.createRemoteObject create state ro with
        | Except.ok state => UseResult.returns state
        | Except.error p => UseResult.panics p state
      else UseResult.panics (UsePanic.text "Wrong arguments.") state
    | Argument.nilable _ => UseResult.panics (UsePanic.text "Wrong arguments.") state
    | Argument.value => UseResult.panics UsePanic.runtime state
  | [arg0, arg1] =>
    let first : Except UsePanic (UseState U R) :=
      match arg0 with
      | Argument.nil => Except.error (UsePanic.text "The arguments can't be nil.")
      | Argument.string s => BaseClient.SetUri Parse state s
      | Argument.stringPointer none => Except.error UsePanic.runtime
      | Argument.stringPointer (some s) => BaseClient.SetUri Parse state s
      | _ => Except.error (UsePanic.text "Wrong arguments.")
    match first with
    | Except.error p => UseResult.panics p state
    | Except.ok state =>
      match arg1 with
      | Argument.nil => UseResult.panics (UsePanic.text "The arguments can't be nil.") state
      | arg1 =>
        match isStructPointer arg1 with
        | none => UseResult.panics UsePanic.runtime state
        | some false => UseResult.panics (UsePanic.text "Wrong arguments.") state
        | some true =>
          match arg1 with
          | Argument.pointer _ _ ro =>
            match BaseClient.createRemoteObject create state ro with
            | Except.ok state => UseResult.panics (UsePanic.text "Wrong arguments.") state
            | Except.error p => UseResult.panics p state
          | _ => UseResult.panics (UsePanic.text "Wrong arguments.") state
  | _ => UseResult.panics (UsePanic.text "Wrong arguments.") state

/-- The kinds of `reflect.Value` that `invoke` tells apart. -/
inductive Kind where
  | Chan
  | Ptr
  | Other
  deriving DecidableEq, Repr

/-- The loop of `invoke` over the results: `for i := 0; i < length; i++ { if
result[i].Kind() == reflect.Chan { async = true } else if async { panic(...)
} }`; the value of `async` after the loop, `none` for the panic. -/
def invokeAsync : List Kind → Bool → Option Bool
  | [], async => some async
  | k :: result, async =>
    if k = Kind.Chan then invokeAsync result true
    else if async then none
    else invokeAsync result async

/-- `checkRefArgs`. -/
def checkRefArgs (args : List Kind) : Bool :=
  args.all (fun k => decide (k = Kind.Ptr))

/-- How `BaseClient.invoke` goes on: one of its two panics, or the call of
`asyncInvoke` or of `syncInvoke`. -/
inductive invokePath where
  | panics (msg : String)
  | asyncInvoke
  | syncInvoke
  deriving DecidableEq, Repr

/-- `new(InvokeOptions)`: the zero value. -/
def InvokeOptions.new : InvokeOptions :=
  { ByRef := none, SimpleMode := none, ResultMode := ResultMode.Normal }

/-- `BaseClient.invoke`, on the kinds of the arguments and of the results;
`options` is `none` for the nil pointer, which stands for
`new(InvokeOptions)`. -/
def BaseClient.invoke (client : BaseClient) (args : List Kind) (options : Option InvokeOptions)
    (result : List Kind) : invokePath :=
  let options : InvokeOptions := options.getD InvokeOptions.new
  match invokeAsync result false with
  | none => invokePath.panics "The out parameters must be all chan or all non-chan type."
  | some async =>
    let byref := options.ByRef.getD client.ByRef
    if byref && !checkRefArgs args then
      invokePath.panics "The elements in args must be pointer when options.ByRef is true."
    else if async then invokePath.asyncInvoke
    else invokePath.syncInvoke

/-! ## Client: the response -/

/-- The reflective parts of `doIntput`, parameters of the embedding.

* `ReadResult length stream` is the `Normal` case of a `TagResult` block,
  from `reader.Reset()` to the test of `err`, for `length` results: the
  error and the number of bytes read; `none` is a panic.
* `ReadArguments length stream` is the same for a `TagArgument` block.
* `setResult buf` is `setResult(result[0], buf)`. -/
structure ClientLibrary where
  ReadResult : Nat → List Nat → Option (Option error × Nat)
  ReadArguments : Nat → List Nat → Option (Option error × Nat)
  setResult : List Nat → Option error

/-- How `doIntput` ends: it returns `err` (with the buffer it has filled),
it panics, or the budget of the embedding is used up. -/
inductive inputFlow where
  | returns (err : Option error) (buf : List Nat)
  | panic
  | outOfFuel
  deriving DecidableEq, Repr

/-- The raw copy `reader.ReadRawTo(buf)` inside the loop of `doIntput`,
followed by `next` on what is left when it succeeds. -/
def inputRaw (istream buf : List Nat) (next : List Nat → List Nat → inputFlow) : inputFlow :=
  match ReadRawTo (3 * istream.length + 3) istream buf with
  | rawResult.ret out =>
    match out.err with
    | some err => inputFlow.returns (some err) out.ostream
    | none => next out.stream out.ostream
  | rawResult.panic => inputFlow.panic
  | rawResult.outOfFuel => inputFlow.outOfFuel

/-- One round of the loop of `BaseClient.doIntput`, from the call of
`CheckTags` that opens it, and what follows the loop when the tag is
`TagEnd`; `next` is the loop on what is left.

Modelled from the spec: `NewReader` is not in the sources at hand. It gives
the `reader` of `simple_reader.go` a referer that records the values read;
`ReadString` asks the referer for a value only on the tag `r`, so on the
other tags it returns what it returns on a simple reader, which stands for
it here. -/
def doIntputRound (lib : ClientLibrary) (d : Decoders) (resultMode : ResultMode)
    (lenResult lenArgs : Nat) (istream buf : List Nat)
    (next : List Nat → List Nat → inputFlow) : inputFlow :=
  match CheckTags istream [TagResult, TagArgument, TagError, TagEnd] with
  | (_, some err, _) => inputFlow.returns (some err) buf
  | (tag, none, istream) =>
    if tag = TagEnd then
      match resultMode with
      | ResultMode.RawWithEndTag =>
        inputFlow.returns (lib.setResult (buf ++ [TagEnd])) (buf ++ [TagEnd])
      | ResultMode.Raw => inputFlow.returns (lib.setResult buf) buf
      | _ => inputFlow.returns none buf
    else if tag = TagResult then
      match resultMode with
      | ResultMode.Normal =>
        match lib.ReadResult lenResult istream with
        | none => inputFlow.panic
        | some (some err, _) => inputFlow.returns (some err) buf
        | some (none, n) => next (istream.drop n) buf
      | ResultMode.Serialized =>
        inputRaw istream buf (fun istream buf =>
          match lib.setResult buf with
          | some err => inputFlow.returns (some err) buf
          | none => next istream buf)
      | _ => inputRaw istream (buf ++ [TagResult]) next
    else if tag = TagArgument then
      match resultMode with
      | ResultMode.Normal | ResultMode.Serialized =>
        match lib.ReadArguments lenArgs istream with
        | none => inputFlow.panic
        | some (some err, _) => inputFlow.returns (some err) buf
        | some (none, n) => next (istream.drop n) buf
      | _ => inputRaw istream (buf ++ [TagArgument]) next
    else if tag = TagError then
      match resultMode with
      | ResultMode.Normal | ResultMode.Serialized =>
        match reader.ReadString d (NewSimpleReader istream) with
        | none => inputFlow.panic
        | some (_, some err, _) => inputFlow.returns (some err) buf
        | some (e, none, r) =>
          match r.CheckTag TagEnd with
          | (some err, _) => inputFlow.returns (some err) buf
          | (none, _) => inputFlow.returns (some (error.text e)) buf
      | _ => inputRaw istream (buf ++ [TagError]) next
    else next istream buf

/-- The loop of `BaseClient.doIntput`,
`for tag, err = reader.CheckTags(expectTags); err == nil && tag != TagEnd;
tag, err = reader.CheckTags(expectTags) { ... }`, and what follows it; the
first argument bounds the number of rounds. -/
def doIntputLoop (lib : ClientLibrary) (d : Decoders) (resultMode : ResultMode)
    (lenResult lenArgs : Nat) : Nat → List Nat → List Nat → inputFlow
  | 0, _, _ => inputFlow.outOfFuel
  | fuel + 1, istream, buf =>
    doIntputRound lib d resultMode lenResult lenArgs istream buf
      (doIntputLoop lib d resultMode lenResult lenArgs fuel)

/-- `BaseClient.doIntput` on the bytes of the response, for `lenResult`
results and `lenArgs` arguments, without transport and filter: the deferred
`EndInvoke` replaces the error only when it is `nil`. Every round reads at
least one byte, so `len(istream) + 1` rounds are enough. -/
def BaseClient.doIntput (_client : BaseClient) (lib : ClientLibrary) (d : Decoders)
    (options : InvokeOptions) (lenResult lenArgs : Nat) (istream : List Nat) : inputFlow :=
  doIntputLoop lib d options.ResultMode lenResult lenArgs (istream.length + 1) istream []

/-- An instance of the client parameters, for the examples: result and
argument blocks are skipped with the raw reader. -/
def exampleClientLibrary : ClientLibrary :=
  { ReadResult := fun _ stream =>
      match ReadRaw stream with
      | rawResult.ret out => some (out.err, stream.length - out.stream.length)
      | _ => none,
    ReadArguments := fun _ stream =>
      match ReadRaw stream with
      | rawResult.ret out => some (out.err, stream.length - out.stream.length)
      | _ => none,
    setResult := fun _ => none }

/-- The value of a `byref` or `simple` declaration tag in the words of the
specification, on the tag value in lower case: `true` for `true`, `t`, `1`;
`false` for `false`, `f`, `0`; unset for any other value. -/
def specFlag (lowered : List Nat) : Option Bool :=
  if lowered ∈ [stringBytes "true", stringBytes "t", stringBytes "1"] then some true
  else if lowered ∈ [stringBytes "false", stringBytes "f", stringBytes "0"] then some false
  else none

/-- The value of a `result` declaration tag in the words of the
specification, on the tag value in lower case; `none` for a value that is
not recognised. -/
def specResultMode (lowered : List Nat) : Option ResultMode :=
  if lowered = stringBytes "normal" then some ResultMode.Normal
  else if lowered = stringBytes "serialized" then some ResultMode.Serialized
  else if lowered = stringBytes "raw" then some ResultMode.Raw
  else if lowered = stringBytes "rawwithendtag" then some ResultMode.RawWithEndTag
  else none

/-- A struct tag that holds the one key `key` with the value `value`, as
`sf.Tag.Get` sees it. -/
def exampleTag (key value : List Nat) : List Nat → List Nat :=
  fun k => if k = key then value else []

/-- The calls of a pipelined request that are answered before the call at
hand. A round of the loop of `doInvoke` that answers its call and ends on
the tag `C` leads to the next round; `answered lib ostream s i b s' i' b'`
says that the rounds that start with the service `s`, the stream `i` and the
buffer `b` lead, after any number of such calls, to `s'`, `i'` and `b'`. -/
inductive answered (lib : ServiceLibrary) (ostream : List Nat) :
    BaseService → List Nat → List Nat → BaseService → List Nat → List Nat → Prop where
  | none (s : BaseService) (i b : List Nat) : answered lib ostream s i b s i b
  | call (s : BaseService) (i b : List Nat) (s1 : BaseService) (i1 b1 : List Nat)
      (s2 : BaseService) (i2 b2 : List Nat)
      (first : s.doInvokeCall lib i ostream b = callFlow.next s1 b1 TagCall i1)
      (others : answered lib ostream s1 i1 b1 s2 i2 b2) :
      answered lib ostream s i b s2 i2 b2

/-! ## The calendar of `time.Date` -/

/-- Whether a year is a leap year in the calendar of Go's `time` package. -/
def isLeap (year : Int) : Bool :=
  decide (year % 4 = 0 ∧ (year % 100 ≠ 0 ∨ year % 400 = 0))

/-- The number of days of a month in a year. -/
def daysIn (year month : Int) : Int :=
  if month = 2 then (if isLeap year then 29 else 28)
  else if month = 4 ∨ month = 6 ∨ month = 9 ∨ month = 11 then 30
  else 31

/-- The fields that `t.Date()`, `t.Clock()` and `t.Nanosecond()` give for
`t = time.Date(year, month, day, hour, min, sec, nsec, loc)`, as Go's `time`
package documents them, for a month in 1..12, a day in 1..31 and a time of
day in range: the values are normalised, so a day that the month does not
have runs over into the next month (October 32 converts to November 1).
The location is UTC, or a local zone whose clocks are not changed at that
time: a wall-clock time that a change of clocks skips is not embedded.
`none` stands for fields outside these ranges, whose normalisation is not
embedded. -/
def dateFields (year month day hour min sec nsec : Int) (utc : Bool) : Option Time :=
  if 1 ≤ month ∧ month ≤ 12 ∧ 1 ≤ day ∧ day ≤ 31 ∧ 0 ≤ hour ∧ hour ≤ 23 ∧ 0 ≤ min ∧ min ≤ 59
      ∧ 0 ≤ sec ∧ sec ≤ 59 ∧ 0 ≤ nsec ∧ nsec ≤ 999999999 then
    if day ≤ daysIn year month then
      some { year := year, month := month, day := day, hour := hour, min := min, sec := sec,
             nsec := nsec, utc := utc }
    else
      some { year := year, month := month + 1, day := day - daysIn year month, hour := hour,
             min := min, sec := sec, nsec := nsec, utc := utc }
  else none

/-- The library parameters with the calendar of `time.Date`: a time is the
record of the fields it reports; the other parameters are those of
`exampleLibrary`. -/
def calendarLibrary : Library Int (Option Time) Unit :=
  { float64 := fun i => i, mul := fun a b => a * b, add := fun a b => a + b, NaN := 0,
    Inf := fun s => s, isZero := fun f => decide (f = 0), uint64 := fun f => f.toNat,
    ParseFloat := fun _ => (0, none), ParseUint := fun _ => (0, none),
    ParseBool := fun _ => (false, none),
    Date := dateFields,
    ParseTime := fun _ => (dateFields 1 1 1 0 0 0 0 true, none),
    uuidParse := fun b => b, asTime := fun _ => none, asBytes := fun _ => none,
    asList := fun _ => none, SliceBytes := fun s => ([], none, s),
    ReadSliceWithoutTag := fun s => ((), none, s),
    ReadMapWithoutTag := fun s => ((), none, s), readClass := fun s => (none, s),
    ReadObject := fun s => ((), none, s),
    ReadObjectWithoutTag := fun s => ((), none, s) }

theorem digitChar_toNat (d : Nat) (h : d < 10) : (Nat.digitChar d).toNat = d + 48 := by
  interval_cases d <;> rfl

theorem toDigitsCore_eq (fuel : Nat) : ∀ (n : Nat) (ds : List Char), n < fuel →
    Nat.toDigitsCore 10 fuel n ds = Nat.toDigitsCore 10 (n + 1) n [] ++ ds := by
  induction fuel using Nat.strong_induction_on with
  | _ fuel ih =>
    intro n ds hn
    cases fuel with
    | zero => omega
    | succ fuel =>
      simp only [Nat.toDigitsCore]
      by_cases h0 : n / 10 = 0
      · simp [h0]
      · simp only [h0, if_false]
        have hlt : n / 10 < n := by omega
        rw [ih fuel (by omega) (n / 10) _ (by omega)]
        rw [ih n (by omega) (n / 10) [Nat.digitChar (n % 10)] hlt]
        simp

theorem toDigits_lt (n : Nat) (h : n < 10) : Nat.toDigits 10 n = [Nat.digitChar n] := by
  have h0 : n / 10 = 0 := by omega
  have h1 : n % 10 = n := by omega
  simp [Nat.toDigits, Nat.toDigitsCore, h0, h1]

theorem toDigits_ge (n : Nat) (h : 10 ≤ n) :
    Nat.toDigits 10 n = Nat.toDigits 10 (n / 10) ++ [Nat.digitChar (n % 10)] := by
  have h0 : n / 10 ≠ 0 := by omega
  have hlt : n / 10 < n := by omega
  have e1 : Nat.toDigits 10 n
      = Nat.toDigitsCore 10 n (n / 10) [Nat.digitChar (n % 10)] := by
    simp [Nat.toDigits, Nat.toDigitsCore, h0]
  rw [e1, toDigitsCore_eq n (n / 10) _ hlt]
  rfl

/-- The text of a number below ten is its one digit. -/
theorem natText_lt (n : Nat) (h : n < 10) :
    (Nat.toDigits 10 n).map Char.toNat = [n + 48] := by
  rw [toDigits_lt n h]; simp [digitChar_toNat n h]

theorem natText_ge (n : Nat) (h : 10 ≤ n) :
    (Nat.toDigits 10 n).map Char.toNat
      = (Nat.toDigits 10 (n / 10)).map Char.toNat ++ [n % 10 + 48] := by
  rw [toDigits_ge n h]; simp [digitChar_toNat (n % 10) (Nat.mod_lt _ (by decide))]

theorem tmod_sign_digit (i sign : Int) (hneg : i < 0 → sign = -1) (hpos : 0 < i → sign = 1) :
    toByte (Int.tmod i 10 * sign + 48) = i.natAbs % 10 + 48 := by
  rcases i with m | m
  · rcases Nat.eq_zero_or_pos m with h0 | hp
    · subst h0; simp [toByte]
    · have hs : sign = 1 := hpos (Int.ofNat_pos.mpr hp)
      subst hs
      have : Int.tmod (Int.ofNat m) 10 = ((m % 10 : Nat) : Int) := rfl
      rw [this]; simp only [toByte, Int.ofNat_eq_coe, Int.natAbs_ofNat]; omega
  · have hs : sign = -1 := hneg (Int.negSucc_lt_zero m)
    subst hs
    have : Int.tmod (Int.negSucc m) 10 = -(((m + 1) % 10 : Nat) : Int) := rfl
    rw [this]; simp only [toByte, Int.natAbs_negSucc]; omega

theorem drop_set_self : ∀ (l : List Nat) (n x : Nat), n < l.length →
    (l.set n x).drop n = x :: l.drop (n + 1)
  | [], n, x, h => by simp at h
  | a :: l, 0, x, _ => by simp
  | a :: l, n + 1, x, h => by
    simp only [List.set_cons_succ, List.drop_succ_cons]
    exact drop_set_self l n x (by simpa using h)

theorem natAbs_tdiv_ten (i : Int) : (Int.tdiv i 10).natAbs = i.natAbs / 10 := by
  rw [Int.natAbs_tdiv]; rfl

theorem writeInt64Loop_spec : ∀ (off : Nat) (i sign : Int) (numbuf : List Nat),
    (i < 0 → sign = -1) → (0 < i → sign = 1) → off ≤ numbuf.length → i.natAbs < 10 ^ off →
    ∃ off' numbuf', writeInt64Loop off i sign numbuf = some (off', numbuf') ∧
      numbuf'.length = numbuf.length ∧ off' ≤ off ∧
      numbuf'.drop off' =
        (if i = 0 then [] else (Nat.toDigits 10 i.natAbs).map Char.toNat) ++ numbuf.drop off := by
  intro off
  induction off with
  | zero =>
    intro i sign numbuf _ _ _ hlt
    have hi : i = 0 := by
      have : i.natAbs = 0 := by simpa using hlt
      exact Int.natAbs_eq_zero.mp this
    subst hi
    exact ⟨0, numbuf, by simp [writeInt64Loop], rfl, le_refl _, by simp⟩
  | succ off ih =>
    intro i sign numbuf hneg hpos hlen hlt
    by_cases hi : i = 0
    · subst hi
      exact ⟨off + 1, numbuf, by simp [writeInt64Loop], rfl, le_refl _, by simp⟩
    · have hoff : off < numbuf.length := by omega
      have hstep : writeInt64Loop (off + 1) i sign numbuf
          = writeInt64Loop off (Int.tdiv i 10) sign
              (numbuf.set off (toByte (Int.tmod i 10 * sign + 48))) := by
        rw [writeInt64Loop]; simp [hi, hoff]
      have habs : (Int.tdiv i 10).natAbs = i.natAbs / 10 := natAbs_tdiv_ten i
      have hneg' : Int.tdiv i 10 < 0 → sign = -1 := by
        intro h
        apply hneg
        by_contra hc
        have : 0 ≤ Int.tdiv i 10 := Int.tdiv_nonneg (by omega) (by decide)
        omega
      have hpos' : 0 < Int.tdiv i 10 → sign = 1 := by
        intro h
        apply hpos
        by_contra hc
        have h1 : i = -(-i) := by omega
        have : Int.tdiv i 10 ≤ 0 := by
          rw [h1, Int.neg_tdiv]
          have : 0 ≤ Int.tdiv (-i) 10 := Int.tdiv_nonneg (by omega) (by decide)
          omega
        omega
      have hlt' : (Int.tdiv i 10).natAbs < 10 ^ off := by
        rw [habs]; rw [pow_succ] at hlt; omega
      obtain ⟨off', numbuf', hrun, hlen', hle, hdrop⟩ :=
        ih (Int.tdiv i 10) sign (numbuf.set off (toByte (Int.tmod i 10 * sign + 48)))
          hneg' hpos' (by simp; omega) hlt'
      refine ⟨off', numbuf', by rw [hstep, hrun], by simpa using hlen', by omega, ?_⟩
      rw [hdrop, tmod_sign_digit i sign hneg hpos]
      rw [drop_set_self numbuf off _ hoff, if_neg hi]
      have hz : Int.tdiv i 10 = 0 ↔ i.natAbs < 10 := by
        rw [← Int.natAbs_eq_zero, habs]; omega
      by_cases hsmall : i.natAbs < 10
      · rw [if_pos (hz.mpr hsmall), natText_lt _ hsmall]
        have : i.natAbs % 10 = i.natAbs := by omega
        simp [this]
      · rw [if_neg (fun h => hsmall (hz.mp h)), habs, natText_ge i.natAbs (by omega)]
        simp

theorem natText_length (n k : Nat) (h : n < 10 ^ k) (hk : 0 < k) :
    ((Nat.toDigits 10 n).map Char.toNat).length ≤ k := by
  rw [List.length_map]
  exact Nat.toDigitsCore_length 10 (by decide) (n + 1) n k h hk

theorem writeInt64_spec (w : writer) (i : Int) (hv : isInt64 i) (hbuf : w.numbuf.length = 20) :
    ∃ w', w.writeInt64 i = some w' ∧ w'.stream = w.stream ++ decimalText i ∧
      w'.numbuf.length = 20 ∧ w'.refer = w.refer ∧
      (¬(0 ≤ i ∧ i ≤ 9) → w'.numbuf.drop (20 - (decimalText i).length) = decimalText i) := by
  obtain ⟨hlo, hhi⟩ := hv
  by_cases hd : 0 ≤ i ∧ i ≤ 9
  · refine ⟨w.WriteByte (toByte (i + 48)), by simp [writer.writeInt64, hd], ?_, hbuf, rfl,
      fun h => absurd hd h⟩
    have h1 : i.natAbs < 10 := by omega
    have h2 : ¬ i < 0 := by omega
    simp only [writer.WriteByte, decimalText, h2, if_false, natText_lt _ h1, List.nil_append,
      toByte]
    congr 2; omega
  · have hi0 : i ≠ 0 := by omega
    have habs : i.natAbs < 10 ^ 19 := by
      have : (10 : Int) ^ 19 > 2 ^ 63 := by norm_num
      have h3 : (i.natAbs : Int) < 10 ^ 19 := by omega
      exact_mod_cast h3
    obtain ⟨off, numbuf, hrun, hlen, _, hdrop⟩ :=
      writeInt64Loop_spec 20 i (if i < 0 then -1 else 1) w.numbuf
        (fun h => by simp [h]) (fun h => by simp [not_lt.mpr (le_of_lt h)]) (by omega)
        (lt_trans habs (by norm_num))
    have hdrop20 : w.numbuf.drop 20 = [] := by rw [← hbuf]; exact List.drop_length _
    rw [if_neg hi0, hdrop20, List.append_nil] at hdrop
    have hlenle := natText_length i.natAbs 19 habs (by decide)
    have hofflen : numbuf.length - off = ((Nat.toDigits 10 i.natAbs).map Char.toNat).length := by
      rw [← hdrop, List.length_drop]
    rw [hlen, hbuf] at hofflen
    by_cases hneg : i < 0
    · obtain ⟨off1, rfl⟩ : ∃ k, off = k + 1 := ⟨off - 1, by omega⟩
      have hlt1 : off1 < numbuf.length := by omega
      rw [if_pos hneg] at hrun
      refine ⟨{ w with numbuf := numbuf.set off1 45,
                       stream := w.stream ++ (numbuf.set off1 45).drop off1 }, ?_, ?_, ?_, rfl, ?_⟩
      · simp [writer.writeInt64, hd, hrun, hneg, hlt1]
      · simp [decimalText, hneg, drop_set_self numbuf off1 45 hlt1, hdrop]
      · simp [hlen, hbuf]
      · intro _
        have hl : (decimalText i).length = 20 - off1 := by
          simp only [decimalText, hneg, if_true, List.length_append, List.length_cons,
            List.length_nil]
          omega
        rw [hl, show 20 - (20 - off1) = off1 by omega]
        simp [decimalText, hneg, drop_set_self numbuf off1 45 hlt1, hdrop]
    · rw [if_neg hneg] at hrun
      refine ⟨{ w with numbuf := numbuf, stream := w.stream ++ numbuf.drop off }, ?_, ?_, ?_,
        rfl, ?_⟩
      · simp [writer.writeInt64, hd, hrun, hneg]
      · simp [decimalText, hneg, hdrop]
      · simp [hlen, hbuf]
      · intro _
        have hl : (decimalText i).length = 20 - off := by
          simp only [decimalText, hneg, if_false, List.nil_append]
          omega
        rw [hl, show 20 - (20 - off) = off by omega]
        simp [decimalText, hneg, hdrop]

/-- The bytes `WriteInt64` appends, for every `int64`. -/
theorem WriteInt64_stream (w : writer) (v : Int) (hv : isInt64 v)
    (hbuf : w.numbuf.length = 20) :
    ∃ w', w.WriteInt64 v = some w' ∧
      w'.stream = w.stream ++
        (if 0 ≤ v ∧ v ≤ 9 then [48 + v.toNat]
         else (if -(2 : Int) ^ 31 ≤ v ∧ v ≤ 2 ^ 31 - 1 then TagInteger else TagLong)
                :: (decimalText v ++ [TagSemicolon])) ∧
      w'.numbuf.length = 20 := by
  by_cases hd : 0 ≤ v ∧ v ≤ 9
  · refine ⟨w.WriteByte (toByte (v + 48)), by simp [writer.WriteInt64, hd], ?_, hbuf⟩
    simp only [writer.WriteByte, hd, and_self, if_true, toByte]
    congr 2; omega
  · obtain ⟨w1, hw1, hs1, hl1, _, _⟩ :=
      writeInt64_spec
        (if -(2 : Int) ^ 31 ≤ v ∧ v ≤ 2 ^ 31 - 1 then w.WriteByte TagInteger
         else w.WriteByte TagLong) v hv (by split <;> simpa [writer.WriteByte] using hbuf)
    refine ⟨w1.WriteByte TagSemicolon, by simp only [writer.WriteInt64, if_neg hd, hw1],
      ?_, hl1⟩
    simp only [writer.WriteByte, hs1, if_neg hd]
    split <;> simp [writer.WriteByte]

/-! ## C1: integers written -/

/-- C1. For every int64 `v` and every writer whose scratch buffer has its 20
bytes, `WriteInt64 v` does not panic and appends exactly: the single ASCII
digit of `v` when `0 ≤ v ≤ 9`; otherwise the tag `i` when `v` fits in 32 bits
and `l` when not, the base-10 text of `v`, and `;`. For `v = -2^63` the text
fills the whole scratch buffer, from index 0. -/
theorem WriteInt64_exact (w : writer) (v : Int) (hv : isInt64 v)
    (hbuf : w.numbuf.length = 20) :
    ∃ w', w.WriteInt64 v = some w' ∧
      w'.stream = w.stream ++
        (if 0 ≤ v ∧ v ≤ 9 then [48 + v.toNat]
         else (if -(2 : Int) ^ 31 ≤ v ∧ v ≤ 2 ^ 31 - 1 then TagInteger else TagLong)
                :: (decimalText v ++ [TagSemicolon])) ∧
      w'.numbuf.length = 20 ∧
      (v = -(2 : Int) ^ 63 → w'.numbuf = decimalText v) := by
  by_cases hd : 0 ≤ v ∧ v ≤ 9
  · refine ⟨w.WriteByte (toByte (v + 48)), by simp [writer.WriteInt64, hd], ?_, hbuf, ?_⟩
    · simp only [writer.WriteByte, hd, and_self, if_true, toByte]
      congr 2; omega
    · intro h; omega
  · obtain ⟨w1, hw1, hs1, hl1, _, hfill⟩ :=
      writeInt64_spec
        (if -(2 : Int) ^ 31 ≤ v ∧ v ≤ 2 ^ 31 - 1 then w.WriteByte TagInteger
         else w.WriteByte TagLong) v hv (by split <;> simpa [writer.WriteByte] using hbuf)
    refine ⟨w1.WriteByte TagSemicolon, by simp only [writer.WriteInt64, if_neg hd, hw1],
      ?_, hl1, ?_⟩
    · simp only [writer.WriteByte, hs1, if_neg hd]
      split <;> simp [writer.WriteByte]
    · intro h
      have h20 : (decimalText v).length = 20 := by subst h; decide
      have := hfill hd
      rw [h20] at this
      simpa [writer.WriteByte] using this

theorem WriteInt64_exact_witness :
    ∃ w', (NewSimpleWriter []).WriteInt64 (-(2 : Int) ^ 63) = some w' ∧
      w'.stream = (NewSimpleWriter []).stream ++
        (if 0 ≤ -(2 : Int) ^ 63 ∧ -(2 : Int) ^ 63 ≤ 9 then [48 + (-(2 : Int) ^ 63).toNat]
         else (if -(2 : Int) ^ 31 ≤ -(2 : Int) ^ 63 ∧ -(2 : Int) ^ 63 ≤ 2 ^ 31 - 1
                then TagInteger else TagLong)
                :: (decimalText (-(2 : Int) ^ 63) ++ [TagSemicolon])) ∧
      w'.numbuf.length = 20 ∧
      (-(2 : Int) ^ 63 = -(2 : Int) ^ 63 → w'.numbuf = decimalText (-(2 : Int) ^ 63)) :=
  WriteInt64_exact (NewSimpleWriter []) (-(2 : Int) ^ 63) (by decide) (by decide)

/-! ## C2: integers read back -/

theorem wrap64_eq (x : Int) (h : isInt64 x) : wrap64 x = x := by
  unfold isInt64 at h
  unfold wrap64
  omega

/-- Every byte of a printed natural number is an ASCII digit. -/
theorem natText_digits : ∀ (n : Nat), ∀ x ∈ (Nat.toDigits 10 n).map Char.toNat, 48 ≤ x ∧ x ≤ 57 := by
  intro n
  induction n using Nat.strong_induction_on with
  | _ n ih =>
    intro x hx
    by_cases h : n < 10
    · rw [natText_lt n h] at hx
      simp at hx
      omega
    · rw [natText_ge n (by omega)] at hx
      rcases List.mem_append.mp hx with h1 | h1
      · exact ih (n / 10) (by omega) x h1
      · simp at h1
        omega

theorem natText_ne_nil (n : Nat) : (Nat.toDigits 10 n).map Char.toNat ≠ [] := by
  by_cases h : n < 10
  · rw [natText_lt n h]; simp
  · rw [natText_ge n (by omega)]; simp

theorem readIntLoop_digits (tag : Nat) (sign : Int) (t : List Nat) (htag : tag < 48 ∨ 57 < tag) :
    ∀ (ds : List Nat) (b : Nat) (i : Int), (48 ≤ b ∧ b ≤ 57) → (∀ x ∈ ds, 48 ≤ x ∧ x ≤ 57) →
    readIntLoop tag sign (ds ++ tag :: t) b i
      = ((b :: ds).foldl
          (fun i b => wrap64 (wrap64 (i * 10) + wrap64 (((b + 256 - 48) % 256 : Nat) * sign))) i,
         none, t) := by
  intro ds
  induction ds with
  | nil =>
    intro b i hb _
    have hbt : b ≠ tag := by omega
    simp [readIntLoop, hbt]
  | cons x ds ih =>
    intro b i hb hds
    have hbt : b ≠ tag := by omega
    rw [List.cons_append, readIntLoop]
    simp only [hbt, if_false]
    rw [ih x _ (hds x (List.mem_cons_self _ _)) (fun y hy => hds y (List.mem_cons_of_mem _ hy))]
    simp

theorem foldl_natText (sign : Int) (hs : sign = 1 ∨ sign = -1) :
    ∀ (n : Nat), isInt64 (sign * n) →
    ((Nat.toDigits 10 n).map Char.toNat).foldl
      (fun i b => wrap64 (wrap64 (i * 10) + wrap64 (((b + 256 - 48) % 256 : Nat) * sign))) 0
      = sign * n := by
  intro n
  induction n using Nat.strong_induction_on with
  | _ n ih =>
    intro hn
    by_cases h : n < 10
    · rw [natText_lt n h]
      simp only [List.foldl_cons, List.foldl_nil]
      have e : ((n + 48 + 256 - 48) % 256 : Nat) = n := by omega
      rw [e]
      have h1 : wrap64 (0 * 10) = 0 := by decide
      rw [h1, Int.zero_add]
      have hn' : isInt64 ((n : Int) * sign) := by rw [Int.mul_comm]; exact hn
      rw [wrap64_eq ((n : Int) * sign) hn', wrap64_eq ((n : Int) * sign) hn']
      exact Int.mul_comm _ _
    · rw [natText_ge n (by omega), List.foldl_append]
      have hsub : isInt64 (sign * ((n / 10 : Nat) : Int)) := by
        unfold isInt64 at hn ⊢
        rcases hs with rfl | rfl <;> omega
      rw [ih (n / 10) (by omega) hsub]
      simp only [List.foldl_cons, List.foldl_nil]
      have e : ((n % 10 + 48 + 256 - 48) % 256 : Nat) = n % 10 := by omega
      rw [e]
      have h1 : isInt64 (sign * ((n / 10 : Nat) : Int) * 10) := by
        unfold isInt64 at hn ⊢
        rcases hs with rfl | rfl <;> omega
      have h2 : isInt64 (((n % 10 : Nat) : Int) * sign) := by
        unfold isInt64
        rcases hs with rfl | rfl <;> omega
      have h3 : sign * ((n / 10 : Nat) : Int) * 10 + ((n % 10 : Nat) : Int) * sign = sign * n := by
        rcases hs with rfl | rfl <;> omega
      rw [wrap64_eq _ h1, wrap64_eq _ h2, h3, wrap64_eq _ hn]

theorem readInt_decimalText (tag : Nat) (htag : tag < 48 ∨ 57 < tag) (h45 : tag ≠ 45)
    (v : Int) (hv : isInt64 v) (t : List Nat) :
    readInt tag (decimalText v ++ tag :: t) = (v, none, t) := by
  obtain ⟨b, ds, hbd⟩ := List.exists_cons_of_ne_nil (natText_ne_nil v.natAbs)
  have hdig := natText_digits v.natAbs
  rw [hbd] at hdig
  have hb := hdig b (List.mem_cons_self _ _)
  have hds : ∀ x ∈ ds, 48 ≤ x ∧ x ≤ 57 := fun x hx => hdig x (List.mem_cons_of_mem _ hx)
  by_cases hneg : v < 0
  · have hfold := foldl_natText (-1) (Or.inr rfl) v.natAbs
      (by unfold isInt64 at hv ⊢; omega)
    rw [hbd] at hfold
    have e : decimalText v = 45 :: b :: ds := by simp [decimalText, hneg, hbd]
    rw [e]
    have hrd : readInt tag ((45 :: b :: ds) ++ tag :: t)
        = readIntLoop tag (-1) (ds ++ tag :: t) b 0 := by
      simp [readInt, Ne.symm h45]
    rw [hrd, readIntLoop_digits tag (-1) t htag ds b 0 hb hds, hfold]
    congr 1; omega
  · have hfold := foldl_natText 1 (Or.inl rfl) v.natAbs (by unfold isInt64 at hv ⊢; omega)
    rw [hbd] at hfold
    have e : decimalText v = b :: ds := by simp [decimalText, hneg, hbd]
    rw [e]
    have hrd : readInt tag ((b :: ds) ++ tag :: t)
        = readIntLoop tag 1 (ds ++ tag :: t) b 0 := by
      have h1 : b ≠ tag := by omega
      have h2 : b ≠ 45 := by omega
      have h3 : b ≠ 43 := by omega
      simp [readInt, h1, h2, h3]
    rw [hrd, readIntLoop_digits tag 1 t htag ds b 0 hb hds, hfold]
    congr 1; omega

/-- C2. For every int64 `v`, every choice of the parameters and every
trailing bytes `t`: `ReadInt64` on the bytes `WriteInt64 v` wrote, followed by
`t`, returns `v` with no error and leaves exactly `t` unread. The bytes
written for 7 are the one byte `7`. -/
theorem ReadInt64_WriteInt64 (d : Decoders) (v : Int) (t : List Nat) (hv : isInt64 v) :
    ∃ w', (NewSimpleWriter []).WriteInt64 v = some w' ∧
      reader.ReadInt64 d (NewSimpleReader (w'.stream ++ t)) = (v, none, NewSimpleReader t) ∧
      (v = 7 → w'.stream = [55]) := by
  obtain ⟨w', hw, hs, _⟩ := WriteInt64_stream (NewSimpleWriter []) v hv (by decide)
  refine ⟨w', hw, ?_, ?_⟩
  · rw [hs]
    by_cases hd : 0 ≤ v ∧ v ≤ 9
    · simp only [NewSimpleWriter, List.nil_append, if_pos hd, List.cons_append, reader.ReadInt64,
        NewSimpleReader]
      have h1 : 48 ≤ 48 + v.toNat ∧ 48 + v.toNat ≤ 57 := by omega
      rw [if_pos h1]
      congr 1
      omega
    · rw [if_neg hd]
      by_cases h32 : -(2 : Int) ^ 31 ≤ v ∧ v ≤ 2 ^ 31 - 1
      · rw [if_pos h32]
        simp [NewSimpleWriter, reader.ReadInt64, NewSimpleReader, reader.ReadInt64WithoutTag,
          readInt_decimalText TagSemicolon (by decide) (by decide) v hv t, TagInteger, TagLong]
      · rw [if_neg h32]
        simp [NewSimpleWriter, reader.ReadInt64, NewSimpleReader, reader.ReadInt64WithoutTag,
          readInt_decimalText TagSemicolon (by decide) (by decide) v hv t, TagInteger, TagLong]
  · intro h7
    subst h7
    rw [hs]
    decide

theorem ReadInt64_WriteInt64_witness :
    ∃ w', (NewSimpleWriter []).WriteInt64 7 = some w' ∧
      reader.ReadInt64
          { ParseInt := fun _ => (0, none), Float64Int64 := fun s => (0, none, s),
            DateString := fun s => ([], none, s), TimeString := fun s => ([], none, s),
            UUIDString := fun s => ([], none, s) }
          (NewSimpleReader (w'.stream ++ [122])) = (7, none, NewSimpleReader [122]) ∧
      ((7 : Int) = 7 → w'.stream = [55]) :=
  ReadInt64_WriteInt64 _ 7 [122] (by decide)

/-! ## C3: UTF-16 length -/

/-- The code points a Go string may hold in well-formed UTF-8: the Unicode
scalar values. -/
theorem char_scalar (c : Char) : c.toNat < 55296 ∨ (57343 < c.toNat ∧ c.toNat < 1114112) :=
  c.valid

theorem EncodeRune_ne_nil (r : Nat) : EncodeRune r ≠ [] := by
  unfold EncodeRune
  split_ifs <;> simp

theorem EncodeRune_length_pos (r : Nat) : 0 < (EncodeRune r).length :=
  List.length_pos.mpr (EncodeRune_ne_nil r)

theorem EncodeRune_length_le (r : Nat) : (EncodeRune r).length ≤ 4 := by
  unfold EncodeRune
  split_ifs <;> simp

theorem DecodeRune_EncodeRune (c : Nat) (hc : c < 55296 ∨ (57343 < c ∧ c < 1114112))
    (rest : List Nat) : DecodeRune (EncodeRune c ++ rest) = (c, (EncodeRune c).length) := by
  unfold EncodeRune
  by_cases h1 : c ≤ 127
  · simp only [if_pos h1, List.singleton_append, DecodeRune]
    rw [if_pos (by omega)]; rfl
  · by_cases h2 : c ≤ 2047
    · simp only [if_neg h1, if_pos h2, List.cons_append, List.nil_append, DecodeRune]
      rw [if_neg (by omega), if_neg (by omega), if_neg (by omega), if_pos (by omega),
        if_neg (by omega)]
      simp only [List.length_cons, List.length_nil, Prod.mk.injEq, and_true]
      omega
    · have h3 : ¬ (1114111 < c ∨ (55296 ≤ c ∧ c ≤ 57343)) := by omega
      by_cases h4 : c ≤ 65535
      · simp only [if_neg h1, if_neg h2, if_neg h3, if_pos h4, List.cons_append,
          List.nil_append, DecodeRune]
        rw [if_neg (by omega), if_neg (by omega), if_neg (by omega)]
        rw [if_neg (by omega), if_neg (by omega), if_pos (by omega)]
        rw [if_neg (by omega), if_neg (by omega)]
        simp only [List.length_cons, List.length_nil, Prod.mk.injEq, and_true]
        omega
      · simp only [if_neg h1, if_neg h2, if_neg h3, if_neg h4, List.cons_append,
          List.nil_append, DecodeRune]
        rw [if_neg (by omega), if_neg (by omega), if_neg (by omega)]
        rw [if_neg (by omega), if_neg (by omega), if_neg (by omega)]
        rw [if_neg (by omega), if_pos (by omega), if_neg (by omega)]
        simp only [List.length_cons, List.length_nil, Prod.mk.injEq, and_true]
        omega

theorem EncodeRune_length_gt3 (c : Nat) (hc : c < 55296 ∨ (57343 < c ∧ c < 1114112)) :
    3 < (EncodeRune c).length ↔ 65535 < c := by
  unfold EncodeRune
  split_ifs <;> simp <;> omega

/-- The bytes of a non-empty sequence of code points start with the bytes of
its first code point. -/
theorem utf8Bytes_cons (c : Char) (cs : List Char) :
    utf8Bytes (c :: cs) = EncodeRune c.toNat ++ utf8Bytes cs := rfl

theorem drop_EncodeRune (c : Nat) (rest : List Nat) :
    (EncodeRune c ++ rest).drop (EncodeRune c).length = rest := by
  simp

theorem ulenLoop_utf8Bytes : ∀ (cs : List Char) (fuel n : Nat),
    (utf8Bytes cs).length ≤ fuel →
    ulenLoop fuel (utf8Bytes cs) n
      = n + ((cs.filter (fun c => c.toNat ≤ 65535)).length
              + 2 * (cs.filter (fun c => 65535 < c.toNat)).length) := by
  intro cs
  induction cs with
  | nil =>
    intro fuel n _
    cases fuel <;> simp [ulenLoop, utf8Bytes]
  | cons c cs ih =>
    intro fuel n hfuel
    rw [utf8Bytes_cons] at hfuel ⊢
    have hpos := EncodeRune_length_pos c.toNat
    rw [List.length_append] at hfuel
    obtain ⟨fuel, rfl⟩ : ∃ k, fuel = k + 1 := ⟨fuel - 1, by omega⟩
    obtain ⟨x, xs, hx⟩ := List.exists_cons_of_ne_nil (EncodeRune_ne_nil c.toNat)
    have hdec := DecodeRune_EncodeRune c.toNat (char_scalar c) (utf8Bytes cs)
    have hstep : ulenLoop (fuel + 1) (EncodeRune c.toNat ++ utf8Bytes cs) n
        = ulenLoop fuel (utf8Bytes cs) (if c.toNat > rune3Max then n + 1 + 1 else n + 1) := by
      have hne : EncodeRune c.toNat ++ utf8Bytes cs = x :: (xs ++ utf8Bytes cs) := by
        rw [hx]; rfl
      conv_lhs => rw [hne, ulenLoop]
      rw [← hne, hdec, drop_EncodeRune]
    rw [hstep, ih fuel _ (by omega)]
    simp only [List.filter_cons]
    by_cases hbig : 65535 < c.toNat
    · have h1 : ¬ c.toNat ≤ 65535 := by omega
      simp [hbig, h1]
      omega
    · have h1 : c.toNat ≤ 65535 := by omega
      simp [hbig, h1]
      omega

/-- C3. For every valid UTF-8 string `s` (the UTF-8 bytes of a sequence of
Unicode scalar values), `ulen` is the number of UTF-16 code units of `s`: the
number of code points up to U+FFFF plus twice the number of code points
above U+FFFF; and `ulen` of "A", U+1D11E, "B" is 4. -/
theorem ulen_utf16_units (s : String) :
    ulen (utf8Bytes s.data)
      = (s.data.filter (fun c => c.toNat ≤ 65535)).length
          + 2 * (s.data.filter (fun c => 65535 < c.toNat)).length
    ∧ ulen (utf8Bytes [Char.ofNat 65, Char.ofNat 119070, Char.ofNat 66]) = 4 := by
  refine ⟨?_, by decide⟩
  unfold ulen
  rw [ulenLoop_utf8Bytes s.data _ 0 (le_refl _)]
  omega

/-! ## C4: strings written -/

theorem RuneCountLoop_utf8Bytes : ∀ (cs : List Char) (fuel n : Nat),
    (utf8Bytes cs).length ≤ fuel →
    RuneCountLoop fuel (utf8Bytes cs) n = n + cs.length := by
  intro cs
  induction cs with
  | nil =>
    intro fuel n _
    cases fuel <;> simp [RuneCountLoop, utf8Bytes]
  | cons c cs ih =>
    intro fuel n hfuel
    rw [utf8Bytes_cons] at hfuel ⊢
    have hpos := EncodeRune_length_pos c.toNat
    rw [List.length_append] at hfuel
    obtain ⟨fuel, rfl⟩ : ∃ k, fuel = k + 1 := ⟨fuel - 1, by omega⟩
    obtain ⟨x, xs, hx⟩ := List.exists_cons_of_ne_nil (EncodeRune_ne_nil c.toNat)
    have hdec := DecodeRune_EncodeRune c.toNat (char_scalar c) (utf8Bytes cs)
    have hstep : RuneCountLoop (fuel + 1) (EncodeRune c.toNat ++ utf8Bytes cs) n
        = RuneCountLoop fuel (utf8Bytes cs) (n + 1) := by
      have hne : EncodeRune c.toNat ++ utf8Bytes cs = x :: (xs ++ utf8Bytes cs) := by
        rw [hx]; rfl
      conv_lhs => rw [hne, RuneCountLoop]
      rw [← hne, hdec, drop_EncodeRune]
    rw [hstep, ih fuel _ (by omega)]
    simp only [List.length_cons]
    omega

theorem RuneCountInString_utf8Bytes (cs : List Char) :
    RuneCountInString (utf8Bytes cs) = cs.length := by
  unfold RuneCountInString
  rw [RuneCountLoop_utf8Bytes cs _ 0 (le_refl _)]
  omega

theorem ulen_utf8Bytes (cs : List Char) :
    ulen (utf8Bytes cs)
      = (cs.filter (fun c => c.toNat ≤ 65535)).length
          + 2 * (cs.filter (fun c => 65535 < c.toNat)).length := by
  unfold ulen
  rw [ulenLoop_utf8Bytes cs _ 0 (le_refl _)]
  omega

theorem utf8Bytes_eq_nil (cs : List Char) : utf8Bytes cs = [] ↔ cs = [] := by
  cases cs with
  | nil => simp [utf8Bytes]
  | cons c cs =>
    simp only [utf8Bytes_cons, List.append_eq_nil, reduceCtorEq, iff_false, not_and]
    intro h
    exact absurd h (EncodeRune_ne_nil _)

/-- The UTF-16 length of a string is at least its number of code points and
at most its number of bytes. -/
theorem ulen_bounds : ∀ (cs : List Char),
    cs.length ≤ ulen (utf8Bytes cs) ∧ ulen (utf8Bytes cs) ≤ (utf8Bytes cs).length := by
  intro cs
  rw [ulen_utf8Bytes]
  induction cs with
  | nil => simp [utf8Bytes]
  | cons c cs ih =>
    rw [utf8Bytes_cons, List.length_append]
    have h3 := EncodeRune_length_gt3 c.toNat (char_scalar c)
    have hpos := EncodeRune_length_pos c.toNat
    simp only [List.filter_cons, List.length_cons]
    by_cases hbig : 65535 < c.toNat
    · have h1 : ¬ c.toNat ≤ 65535 := by omega
      have := h3.mpr hbig
      simp only [hbig, h1, decide_True, decide_False, if_true, List.length_cons]
      simp only [Bool.false_eq_true, if_false]
      omega
    · have h1 : c.toNat ≤ 65535 := by omega
      simp only [hbig, h1, decide_True, decide_False, if_true, List.length_cons]
      simp only [Bool.false_eq_true, if_false]
      omega

/-- What `writeString` appends. -/
theorem writeString_spec (w : writer) (cs : List Char) (hne : cs ≠ [])
    (hbuf : w.numbuf.length = 20) (hlen : (utf8Bytes cs).length < 2 ^ 63) :
    ∃ w', w.writeString (utf8Bytes cs) = some w' ∧
      w'.stream = w.stream ++ TagString ::
        (decimalText (ulen (utf8Bytes cs)) ++ TagQuote :: (utf8Bytes cs ++ [TagQuote])) ∧
      w'.numbuf.length = 20 := by
  have hb := ulen_bounds cs
  have hpos : 0 < ulen (utf8Bytes cs) := by
    have : 0 < cs.length := List.length_pos.mpr hne
    omega
  have hint : isInt64 (ulen (utf8Bytes cs) : Int) := by
    unfold isInt64; omega
  obtain ⟨w1, hw1, hs1, hl1, _, _⟩ :=
    writeInt64_spec (w.setRef.WriteByte TagString) (ulen (utf8Bytes cs) : Int) hint
      (by cases w with | mk s n r => cases r; simpa [writer.setRef, writer.WriteByte] using hbuf)
  refine ⟨((w1.WriteByte TagQuote).Write (utf8Bytes cs)).WriteByte TagQuote, ?_, ?_, ?_⟩
  · have hwi : (w.setRef.WriteByte TagString).writeInt (ulen (utf8Bytes cs) : Int) = some w1 := by
      unfold writer.writeInt
      rw [wrap64_eq _ hint, hw1]
    unfold writer.writeString
    simp only [gt_iff_lt, hpos, if_true, hwi]
  · cases w with
    | mk s n r =>
      cases r
      simp [writer.WriteByte, writer.Write, hs1, writer.setRef]
  · simpa [writer.WriteByte, writer.Write] using hl1

/-- The test `length < utf8.UTFMax && utf8.RuneCountInString(str) == 1` holds
exactly for a single code point up to U+FFFF. -/
theorem utf8Char_test (cs : List Char) :
    ((utf8Bytes cs).length < UTFMax ∧ RuneCountInString (utf8Bytes cs) = 1)
      ↔ (cs.length = 1 ∧ cs.all (fun c => decide (c.toNat ≤ 65535)) = true) := by
  rw [RuneCountInString_utf8Bytes, show UTFMax = 4 from rfl]
  constructor
  · rintro ⟨hlt, h1⟩
    refine ⟨h1, ?_⟩
    match cs, h1 with
    | [c], _ =>
      have h3 := EncodeRune_length_gt3 c.toNat (char_scalar c)
      simp only [utf8Bytes, List.append_nil] at hlt
      simp only [List.all_cons, List.all_nil, Bool.and_true, decide_eq_true_eq]
      by_contra hc
      have := h3.mpr (by omega)
      omega
  · rintro ⟨h1, hall⟩
    refine ⟨?_, h1⟩
    match cs, h1 with
    | [c], _ =>
      have h3 := EncodeRune_length_gt3 c.toNat (char_scalar c)
      simp only [List.all_cons, List.all_nil, Bool.and_true, decide_eq_true_eq] at hall
      simp only [utf8Bytes, List.append_nil]
      by_contra hc
      have := h3.mp (by omega)
      omega

/-- The bytes `WriteStringWithRef` appends, for every valid UTF-8 string. -/
theorem WriteStringWithRef_stream (w : writer) (s : String) (hbuf : w.numbuf.length = 20)
    (hlen : (utf8Bytes s.data).length < 2 ^ 63) :
    ∃ w', w.WriteStringWithRef (utf8Bytes s.data) = some w' ∧
      w'.stream = w.stream ++
        (if s.data = [] then [TagEmpty]
         else if s.data.length = 1 ∧ s.data.all (fun c => decide (c.toNat ≤ 65535)) = true then
           TagUTF8Char :: utf8Bytes s.data
         else TagString :: (decimalText (ulen (utf8Bytes s.data))
                ++ TagQuote :: (utf8Bytes s.data ++ [TagQuote]))) ∧
      w'.numbuf.length = 20 := by
  by_cases hnil : s.data = []
  · refine ⟨w.WriteByte TagEmpty, ?_, ?_, hbuf⟩
    · simp [writer.WriteStringWithRef, hnil, utf8Bytes]
    · simp [writer.WriteByte, hnil]
  · have hne : (utf8Bytes s.data).length ≠ 0 := by
      intro h
      exact hnil ((utf8Bytes_eq_nil _).mp (List.length_eq_zero.mp h))
    by_cases hu : s.data.length = 1 ∧ s.data.all (fun c => decide (c.toNat ≤ 65535)) = true
    · refine ⟨(w.WriteByte TagUTF8Char).Write (utf8Bytes s.data), ?_, ?_, hbuf⟩
      · unfold writer.WriteStringWithRef
        rw [if_neg hne, if_pos ((utf8Char_test _).mpr hu)]
      · rw [if_neg hnil, if_pos hu]
        simp [writer.WriteByte, writer.Write]
    · obtain ⟨w', hw', hs', hl'⟩ := writeString_spec w s.data hnil hbuf hlen
      refine ⟨w', ?_, ?_, hl'⟩
      · unfold writer.WriteStringWithRef
        rw [if_neg hne, if_neg (fun h => hu ((utf8Char_test _).mp h))]
        cases w with
        | mk st n r =>
          cases r
          simpa [writer.writeStringWithRef, writer.writeRef] using hw'
      · rw [if_neg hnil, if_neg hu, hs']

/-- C4. For every valid UTF-8 string `s` (shorter than `2^63` bytes, as every
Go string is) and every writer with its 20-byte scratch buffer,
`WriteStringWithRef s` appends exactly: `e` when `s` is empty; `u` and the
UTF-8 bytes of `s` when `s` is one code point up to U+FFFF; otherwise `s`,
the decimal text of `ulen s`, a quote, the UTF-8 bytes of `s` and a quote.
The string that is the one code point U+1D11E is written as `s2"..."`. -/
theorem WriteStringWithRef_exact (w : writer) (s : String) (hbuf : w.numbuf.length = 20)
    (hlen : (utf8Bytes s.data).length < 2 ^ 63) :
    (∃ w', w.WriteStringWithRef (utf8Bytes s.data) = some w' ∧
      w'.stream = w.stream ++
        (if s.data = [] then [TagEmpty]
         else if s.data.length = 1 ∧ s.data.all (fun c => decide (c.toNat ≤ 65535)) = true then
           TagUTF8Char :: utf8Bytes s.data
         else TagString :: (decimalText (ulen (utf8Bytes s.data))
                ++ TagQuote :: (utf8Bytes s.data ++ [TagQuote]))) ∧
      w'.numbuf.length = 20) ∧
    ((NewSimpleWriter []).WriteStringWithRef (utf8Bytes [Char.ofNat 119070])).map
        (fun w' => w'.stream) = some [115, 50, 34, 240, 157, 132, 158, 34] := by
  refine ⟨?_, by decide⟩
  by_cases hnil : s.data = []
  · refine ⟨w.WriteByte TagEmpty, ?_, ?_, hbuf⟩
    · simp [writer.WriteStringWithRef, hnil, utf8Bytes]
    · simp [writer.WriteByte, hnil]
  · have hne : (utf8Bytes s.data).length ≠ 0 := by
      intro h
      exact hnil ((utf8Bytes_eq_nil _).mp (List.length_eq_zero.mp h))
    by_cases hu : s.data.length = 1 ∧ s.data.all (fun c => decide (c.toNat ≤ 65535)) = true
    · refine ⟨(w.WriteByte TagUTF8Char).Write (utf8Bytes s.data), ?_, ?_, hbuf⟩
      · unfold writer.WriteStringWithRef
        rw [if_neg hne, if_pos ((utf8Char_test _).mpr hu)]
      · rw [if_neg hnil, if_pos hu]
        simp [writer.WriteByte, writer.Write]
    · obtain ⟨w', hw', hs', hl'⟩ := writeString_spec w s.data hnil hbuf hlen
      refine ⟨w', ?_, ?_, hl'⟩
      · unfold writer.WriteStringWithRef
        rw [if_neg hne, if_neg (fun h => hu ((utf8Char_test _).mp h))]
        cases w with
        | mk st n r =>
          cases r
          simpa [writer.writeStringWithRef, writer.writeRef] using hw'
      · rw [if_neg hnil, if_neg hu, hs']

theorem WriteStringWithRef_exact_witness :
    (∃ w', (NewSimpleWriter []).WriteStringWithRef (utf8Bytes "ab".data) = some w' ∧
      w'.stream = (NewSimpleWriter []).stream ++
        (if "ab".data = [] then [TagEmpty]
         else if "ab".data.length = 1 ∧ "ab".data.all (fun c => decide (c.toNat ≤ 65535)) = true
         then TagUTF8Char :: utf8Bytes "ab".data
         else TagString :: (decimalText (ulen (utf8Bytes "ab".data))
                ++ TagQuote :: (utf8Bytes "ab".data ++ [TagQuote]))) ∧
      w'.numbuf.length = 20) ∧
    ((NewSimpleWriter []).WriteStringWithRef (utf8Bytes [Char.ofNat 119070])).map
        (fun w' => w'.stream) = some [115, 50, 34, 240, 157, 132, 158, 34] :=
  WriteStringWithRef_exact (NewSimpleWriter []) "ab" (by decide) (by decide)

/-! ## C5: strings read back -/

theorem ReadIntegerLoop_eq (tag : Nat) (sign : Int) : ∀ (s : List Nat) (b : Nat) (i : Int),
    ReadIntegerLoop tag sign s b i = readIntLoop tag sign s b i := by
  intro s
  induction s with
  | nil => intro b i; simp [ReadIntegerLoop, readIntLoop]
  | cons x s ih =>
    intro b i
    rw [ReadIntegerLoop, readIntLoop]
    simp only [ih]

theorem ReadInteger_eq (tag : Nat) (s : List Nat) : ReadInteger tag s = readInt tag s := by
  unfold ReadInteger readInt
  simp only [ReadIntegerLoop_eq]

theorem ReadRune_EncodeRune (c : Char) (rest : List Nat) :
    ReadRune (EncodeRune c.toNat ++ rest)
      = (c.toNat, (EncodeRune c.toNat).length, none, rest) := by
  obtain ⟨x, xs, hx⟩ := List.exists_cons_of_ne_nil (EncodeRune_ne_nil c.toNat)
  have hdec := DecodeRune_EncodeRune c.toNat (char_scalar c) rest
  have hne : EncodeRune c.toNat ++ rest = x :: (xs ++ rest) := by rw [hx]; rfl
  unfold ReadRune
  conv_lhs => rw [hne]
  simp only
  rw [← hne, hdec, drop_EncodeRune]

theorem readUTF8StringLoop_narrow (c : Char) (hc : c.toNat ≤ 65535) (m : Nat)
    (rest buf : List Nat) :
    readUTF8StringLoop (m + 1) (EncodeRune c.toNat ++ rest) buf
      = readUTF8StringLoop m rest (buf ++ EncodeRune c.toNat) := by
  have h3 := EncodeRune_length_gt3 c.toNat (char_scalar c)
  have hn : ¬ (EncodeRune c.toNat).length > 3 := fun h => by have := h3.mp h; omega
  cases m with
  | zero => simp [readUTF8StringLoop, ReadRune_EncodeRune]
  | succ m => simp [readUTF8StringLoop, ReadRune_EncodeRune, hn]

theorem readUTF8StringLoop_wide (c : Char) (hc : 65535 < c.toNat) (m : Nat)
    (rest buf : List Nat) :
    readUTF8StringLoop (m + 2) (EncodeRune c.toNat ++ rest) buf
      = readUTF8StringLoop m rest (buf ++ EncodeRune c.toNat) := by
  have h3 := EncodeRune_length_gt3 c.toNat (char_scalar c)
  have hn : (EncodeRune c.toNat).length > 3 := h3.mpr hc
  simp [readUTF8StringLoop, ReadRune_EncodeRune, hn]

theorem ulen_cons (c : Char) (cs : List Char) :
    ulen (utf8Bytes (c :: cs))
      = (if 65535 < c.toNat then 2 else 1) + ulen (utf8Bytes cs) := by
  rw [ulen_utf8Bytes, ulen_utf8Bytes]
  simp only [List.filter_cons]
  by_cases hbig : 65535 < c.toNat
  · have h1 : ¬ c.toNat ≤ 65535 := by omega
    simp [hbig, h1]
    omega
  · have h1 : c.toNat ≤ 65535 := by omega
    simp [hbig, h1]
    omega

/-- Reading `ulen s` code units off a stream that starts with the valid
string `s` consumes exactly the bytes of `s`. -/
theorem readUTF8StringLoop_utf8Bytes : ∀ (cs : List Char) (k : Nat) (rest buf : List Nat),
    readUTF8StringLoop (ulen (utf8Bytes cs) + k) (utf8Bytes cs ++ rest) buf
      = readUTF8StringLoop k rest (buf ++ utf8Bytes cs) := by
  intro cs
  induction cs with
  | nil => intro k rest buf; simp [utf8Bytes, ulen, ulenLoop]
  | cons c cs ih =>
    intro k rest buf
    rw [ulen_cons, utf8Bytes_cons, List.append_assoc]
    by_cases hbig : 65535 < c.toNat
    · rw [if_pos hbig, show 2 + ulen (utf8Bytes cs) + k = (ulen (utf8Bytes cs) + k) + 2 by omega,
        readUTF8StringLoop_wide c hbig, ih, List.append_assoc]
    · rw [if_neg hbig, show 1 + ulen (utf8Bytes cs) + k = (ulen (utf8Bytes cs) + k) + 1 by omega,
        readUTF8StringLoop_narrow c (by omega), ih, List.append_assoc]

theorem readStringWithoutTag_spec (cs : List Char) (hne : cs ≠ []) (t : List Nat)
    (hlen : (utf8Bytes cs).length < 2 ^ 63) (r : reader) :
    reader.ReadStringWithoutTag
        { r with stream := decimalText (ulen (utf8Bytes cs))
                    ++ TagQuote :: (utf8Bytes cs ++ TagQuote :: t) }
      = (utf8Bytes cs, none, { r with stream := t }) := by
  have hb := ulen_bounds cs
  have hpos : 0 < ulen (utf8Bytes cs) := by
    have : 0 < cs.length := List.length_pos.mpr hne
    omega
  have hint : isInt64 (ulen (utf8Bytes cs) : Int) := by
    unfold isInt64; omega
  have hri := readInt_decimalText TagQuote (by decide) (by decide) _ hint
    (utf8Bytes cs ++ TagQuote :: t)
  have hloop := readUTF8StringLoop_utf8Bytes cs 0 (TagQuote :: t) []
  simp only [Nat.add_zero, List.nil_append] at hloop
  have hstr : readUTF8String (utf8Bytes cs ++ TagQuote :: t) (ulen (utf8Bytes cs) : Int)
      = (utf8Bytes cs, none, TagQuote :: t) := by
    unfold readUTF8String
    rw [if_neg (by omega), Int.toNat_ofNat, hloop]
    rfl
  cases r with
  | mk st rf =>
    cases rf
    simp [reader.ReadStringWithoutTag, reader.readStringWithoutTag, ReadInteger_eq, hri, hstr,
      reader.CheckTag, unexpectedTag, reader.setRef]

/-- C5. For every valid UTF-8 string `s` (shorter than `2^63` bytes), every
choice of the parameters and every trailing bytes `t`: `ReadString` on the
bytes `WriteStringWithRef s` wrote, followed by `t`, returns `s` with no error
and leaves exactly `t` unread. The string "A", U+1D11E, "B" is written as
`s4"..."` around its six UTF-8 bytes. -/
theorem ReadString_WriteStringWithRef (d : Decoders) (s : String) (t : List Nat)
    (hlen : (utf8Bytes s.data).length < 2 ^ 63) :
    (∃ w', (NewSimpleWriter []).WriteStringWithRef (utf8Bytes s.data) = some w' ∧
      reader.ReadString d (NewSimpleReader (w'.stream ++ t))
        = some (utf8Bytes s.data, none, NewSimpleReader t)) ∧
    ((NewSimpleWriter []).WriteStringWithRef
        (utf8Bytes [Char.ofNat 65, Char.ofNat 119070, Char.ofNat 66])).map (fun w' => w'.stream)
      = some [115, 52, 34, 65, 240, 157, 132, 158, 66, 34] := by
  refine ⟨?_, by decide⟩
  obtain ⟨w', hw, hs, _⟩ := WriteStringWithRef_stream (NewSimpleWriter []) s (by decide) hlen
  refine ⟨w', hw, ?_⟩
  rw [hs]
  by_cases hnil : s.data = []
  · rw [if_pos hnil, hnil]
    simp [NewSimpleWriter, NewSimpleReader, reader.ReadString, utf8Bytes, TagEmpty]
  · rw [if_neg hnil]
    by_cases hu : s.data.length = 1 ∧ s.data.all (fun c => decide (c.toNat ≤ 65535)) = true
    · rw [if_pos hu]
      obtain ⟨h1, hall⟩ := hu
      match hd : s.data, h1 with
      | [c], _ =>
        rw [hd] at hall
        simp only [List.all_cons, List.all_nil, Bool.and_true, decide_eq_true_eq] at hall
        have hrd : readUTF8String (EncodeRune c.toNat ++ t) 1 = (EncodeRune c.toNat, none, t) := by
          unfold readUTF8String
          rw [if_neg (by decide)]
          have := readUTF8StringLoop_narrow c hall 0 t []
          simpa [readUTF8StringLoop] using this
        simp [NewSimpleWriter, NewSimpleReader, reader.ReadString, utf8Bytes, TagUTF8Char, hrd]
    · rw [if_neg hu]
      have hrs := readStringWithoutTag_spec s.data hnil t hlen (NewSimpleReader [])
      simp only [NewSimpleReader] at hrs
      simp [NewSimpleWriter, NewSimpleReader, reader.ReadString, TagString, hrs]

theorem ReadString_WriteStringWithRef_witness :
    (∃ w', (NewSimpleWriter []).WriteStringWithRef (utf8Bytes "héllo".data) = some w' ∧
      reader.ReadString
          { ParseInt := fun _ => (0, none), Float64Int64 := fun s => (0, none, s),
            DateString := fun s => ([], none, s), TimeString := fun s => ([], none, s),
            UUIDString := fun s => ([], none, s) }
          (NewSimpleReader (w'.stream ++ [122]))
        = some (utf8Bytes "héllo".data, none, NewSimpleReader [122])) ∧
    ((NewSimpleWriter []).WriteStringWithRef
        (utf8Bytes [Char.ofNat 65, Char.ofNat 119070, Char.ofNat 66])).map (fun w' => w'.stream)
      = some [115, 52, 34, 65, 240, 157, 132, 158, 66, 34] :=
  ReadString_WriteStringWithRef _ "héllo" [122] (by decide)

/-! ## C6: raw reading of written values -/

/-! ### Unfolding equations of the recursive definitions over values -/

theorem Serialize_null (w : writer) : writer.Serialize w .null = w.WriteNull := rfl

theorem Serialize_int (w : writer) (v : Int) : writer.Serialize w (.int v) = w.WriteInt64 v := rfl

theorem Serialize_bool (w : writer) (b : Bool) : writer.Serialize w (.bool b) = w.WriteBool b :=
  rfl

theorem Serialize_string (w : writer) (s : List Nat) :
    writer.Serialize w (.string s) = w.WriteStringWithRef s := rfl

theorem Serialize_bytes (w : writer) (b : List Nat) :
    writer.Serialize w (.bytes b) = w.WriteBytesWithRef b := rfl

theorem Serialize_slice (w : writer) (a : List Value) :
    writer.Serialize w (.slice a)
      = w.writeObjectSliceWithRef a.length (fun w => writer.writeObjectSliceLoop w a) := rfl

theorem Serialize_strObjMap (w : writer) (m : List (List Nat × Value)) :
    writer.Serialize w (.strObjMap m)
      = w.writeStrObjMapWithRef m.length (fun w => writer.writeStrObjMapLoop w m) := rfl

theorem writeObjectSliceLoop_nil (w : writer) : writer.writeObjectSliceLoop w [] = some w := rfl

theorem writeObjectSliceLoop_cons (w : writer) (v : Value) (a : List Value) :
    writer.writeObjectSliceLoop w (v :: a) =
      (match writer.Serialize w v with
      | none => none
      | some w => writer.writeObjectSliceLoop w a) := rfl

theorem writeStrObjMapLoop_nil (w : writer) : writer.writeStrObjMapLoop w [] = some w := rfl

theorem writeStrObjMapLoop_cons (w : writer) (k : List Nat) (v : Value)
    (m : List (List Nat × Value)) :
    writer.writeStrObjMapLoop w ((k, v) :: m) =
      (match w.writeStringWithRef k with
      | none => none
      | some w =>
        match writer.Serialize w v with
        | none => none
        | some w => writer.writeStrObjMapLoop w m) := rfl

theorem encode_null : encode .null = [TagNull] := rfl

theorem encode_int (v : Int) :
    encode (.int v) =
      (if 0 ≤ v ∧ v ≤ 9 then [48 + v.toNat]
       else (if -(2 : Int) ^ 31 ≤ v ∧ v ≤ 2 ^ 31 - 1 then TagInteger else TagLong)
        :: (decimalText v ++ [TagSemicolon])) := rfl

theorem encode_bool (b : Bool) : encode (.bool b) = (if b then [TagTrue] else [TagFalse]) := rfl

theorem encode_string (s : List Nat) :
    encode (.string s) =
      (if s.length = 0 then [TagEmpty]
       else if s.length < UTFMax ∧ RuneCountInString s = 1 then TagUTF8Char :: s
       else encodeCounted s) := rfl

theorem encode_bytes (b : List Nat) :
    encode (.bytes b) =
      (if b.length = 0 then [TagEmpty]
       else TagBytes :: (decimalText b.length ++ TagQuote :: (b ++ [TagQuote]))) := rfl

theorem encode_slice (a : List Value) :
    encode (.slice a) =
      TagList :: ((if a.length > 0 then decimalText a.length else [])
        ++ TagOpenbrace :: (encodeList a ++ [TagClosebrace])) := rfl

theorem encode_strObjMap (m : List (List Nat × Value)) :
    encode (.strObjMap m) =
      TagMap :: ((if m.length > 0 then decimalText m.length else [])
        ++ TagOpenbrace :: (encodeMap m ++ [TagClosebrace])) := rfl

theorem encodeList_nil : encodeList [] = [] := rfl

theorem encodeList_cons (v : Value) (a : List Value) :
    encodeList (v :: a) = encode v ++ encodeList a := rfl

theorem encodeMap_nil : encodeMap [] = [] := rfl

theorem encodeMap_cons (k : List Nat) (v : Value) (m : List (List Nat × Value)) :
    encodeMap ((k, v) :: m) = encodeCounted k ++ (encode v ++ encodeMap m) := rfl

theorem wellFormed_int (v : Int) : Value.wellFormed (.int v) = isInt64 v := rfl

theorem wellFormed_string (s : List Nat) : Value.wellFormed (.string s) = validString s := rfl

theorem wellFormed_bytes (b : List Nat) :
    Value.wellFormed (.bytes b) = (b.length < 9223372036854775807) := rfl

theorem wellFormed_slice (a : List Value) :
    Value.wellFormed (.slice a) = (a.length < 9223372036854775807 ∧ wellFormedList a) := rfl

theorem wellFormed_strObjMap (m : List (List Nat × Value)) :
    Value.wellFormed (.strObjMap m) = (m.length < 9223372036854775807 ∧ wellFormedMap m) := rfl

theorem wellFormedList_cons (v : Value) (a : List Value) :
    wellFormedList (v :: a) = (Value.wellFormed v ∧ wellFormedList a) := rfl

theorem wellFormedMap_cons (k : List Nat) (v : Value) (m : List (List Nat × Value)) :
    wellFormedMap ((k, v) :: m) = (validString k ∧ Value.wellFormed v ∧ wellFormedMap m) := rfl


theorem writer_setRef (w : writer) : w.setRef = w := by
  cases w with
  | mk s n r => cases r; rfl

theorem writer_writeRef (w : writer) : w.writeRef = (w, false, none) := by
  cases w with
  | mk s n r => cases r; rfl

theorem writeInt_spec (w : writer) (n : Nat) (hn : n < 2 ^ 63) (hbuf : w.numbuf.length = 20) :
    ∃ w', w.writeInt n = some w' ∧ w'.stream = w.stream ++ decimalText n ∧
      w'.numbuf.length = 20 := by
  have hint : isInt64 (n : Int) := by unfold isInt64; omega
  obtain ⟨w', h1, h2, h3, _, _⟩ := writeInt64_spec w n hint hbuf
  refine ⟨w', ?_, h2, h3⟩
  unfold writer.writeInt
  rw [wrap64_eq _ hint, h1]

theorem ulen_nil : ulen [] = 0 := rfl

theorem writeStringWithRef_encodeCounted (w : writer) (s : List Nat) (hs : validString s)
    (hbuf : w.numbuf.length = 20) :
    ∃ w', w.writeStringWithRef s = some w' ∧ w'.stream = w.stream ++ encodeCounted s ∧
      w'.numbuf.length = 20 := by
  obtain ⟨⟨cs, rfl⟩, hlen⟩ := hs
  by_cases hnil : cs = []
  · subst hnil
    refine ⟨(w.WriteByte TagString |>.WriteByte TagQuote).WriteByte TagQuote, ?_, ?_, ?_⟩
    · simp [writer.writeStringWithRef, writer_writeRef, writer.writeString, writer_setRef,
        utf8Bytes, ulen_nil]
    · simp [writer.WriteByte, encodeCounted, utf8Bytes, ulen_nil]
    · simpa [writer.WriteByte] using hbuf
  · obtain ⟨w', hw', hs', hl'⟩ := writeString_spec w cs hnil hbuf (by omega)
    have hpos : 0 < ulen (utf8Bytes cs) := by
      have := (ulen_bounds cs).1
      have : 0 < cs.length := List.length_pos.mpr hnil
      omega
    refine ⟨w', ?_, ?_, hl'⟩
    · simpa [writer.writeStringWithRef, writer_writeRef] using hw'
    · rw [hs']; simp [encodeCounted, hpos]

theorem WriteStringWithRef_encode (w : writer) (s : List Nat) (hs : validString s)
    (hbuf : w.numbuf.length = 20) :
    ∃ w', w.WriteStringWithRef s = some w' ∧ w'.stream = w.stream ++ encode (.string s) ∧
      w'.numbuf.length = 20 := by
  by_cases h0 : s.length = 0
  · exact ⟨w.WriteByte TagEmpty, by simp [writer.WriteStringWithRef, h0],
      by rw [encode_string]; simp [writer.WriteByte, h0], by simpa [writer.WriteByte] using hbuf⟩
  · by_cases hu : s.length < UTFMax ∧ RuneCountInString s = 1
    · exact ⟨(w.WriteByte TagUTF8Char).Write s, by simp [writer.WriteStringWithRef, h0, hu],
        by rw [encode_string]; simp [writer.WriteByte, writer.Write, h0, hu],
        by simpa [writer.WriteByte, writer.Write] using hbuf⟩
    · obtain ⟨w', hw', hs', hl'⟩ := writeStringWithRef_encodeCounted w s hs hbuf
      refine ⟨w', ?_, ?_, hl'⟩
      · unfold writer.WriteStringWithRef
        rw [if_neg h0, if_neg hu, hw']
      · rw [hs', encode_string]; simp [h0, hu]

theorem WriteBytesWithRef_encode (w : writer) (b : List Nat) (hb : b.length < 2 ^ 63)
    (hbuf : w.numbuf.length = 20) :
    ∃ w', w.WriteBytesWithRef b = some w' ∧ w'.stream = w.stream ++ encode (.bytes b) ∧
      w'.numbuf.length = 20 := by
  by_cases h0 : b.length = 0
  · exact ⟨w.WriteByte TagEmpty, by simp [writer.WriteBytesWithRef, h0],
      by rw [encode_bytes]; simp [writer.WriteByte, h0], by simpa [writer.WriteByte] using hbuf⟩
  · obtain ⟨w1, hw1, hs1, hl1⟩ := writeInt_spec (w.WriteByte TagBytes) b.length hb
      (by simpa [writer.WriteByte] using hbuf)
    have hpos : 0 < b.length := by omega
    refine ⟨((w1.WriteByte TagQuote).Write b).WriteByte TagQuote, ?_, ?_, ?_⟩
    · unfold writer.WriteBytesWithRef
      rw [if_neg h0]
      unfold writer.writeBytesWithRef
      rw [writer_writeRef]
      simp only [and_self, if_true]
      unfold writer.writeBytes
      rw [writer_setRef]
      simp only [gt_iff_lt, hpos, if_true, hw1]
    · rw [encode_bytes]; simp [writer.WriteByte, writer.Write, hs1, h0]
    · simpa [writer.WriteByte, writer.Write] using hl1


theorem writeObjectSliceWithRef_pos (w : writer) (count : Nat) (elems : writer → Option writer)
    (h : 0 < count) (w1 w2 : writer)
    (hw1 : (w.WriteByte TagList).writeInt count = some w1)
    (hw2 : elems (w1.WriteByte TagOpenbrace) = some w2) :
    w.writeObjectSliceWithRef count elems = some (w2.WriteByte TagClosebrace) := by
  unfold writer.writeObjectSliceWithRef
  rw [writer_writeRef]
  simp only [and_self, if_true]
  unfold writer.writeObjectSlice
  rw [writer_setRef]
  simp only [gt_iff_lt, h, if_true, hw1, hw2]

theorem writeObjectSliceWithRef_zero (w : writer) (elems : writer → Option writer) :
    w.writeObjectSliceWithRef 0 elems
      = some (((w.WriteByte TagList).WriteByte TagOpenbrace).WriteByte TagClosebrace) := by
  unfold writer.writeObjectSliceWithRef
  rw [writer_writeRef]
  simp only [and_self, if_true]
  unfold writer.writeObjectSlice
  rw [writer_setRef]
  simp

theorem writeStrObjMapWithRef_pos (w : writer) (count : Nat) (entries : writer → Option writer)
    (h : 0 < count) (w1 w2 : writer)
    (hw1 : (w.WriteByte TagMap).writeInt count = some w1)
    (hw2 : entries (w1.WriteByte TagOpenbrace) = some w2) :
    w.writeStrObjMapWithRef count entries = some (w2.WriteByte TagClosebrace) := by
  unfold writer.writeStrObjMapWithRef
  rw [writer_writeRef]
  simp only [and_self, if_true]
  unfold writer.writeStrObjMap
  rw [writer_setRef]
  simp only [gt_iff_lt, h, if_true, hw1, hw2]

theorem writeStrObjMapWithRef_zero (w : writer) (entries : writer → Option writer) :
    w.writeStrObjMapWithRef 0 entries
      = some (((w.WriteByte TagMap).WriteByte TagOpenbrace).WriteByte TagClosebrace) := by
  unfold writer.writeStrObjMapWithRef
  rw [writer_writeRef]
  simp only [and_self, if_true]
  unfold writer.writeStrObjMap
  rw [writer_setRef]
  simp

mutual
theorem Serialize_encode : ∀ (v : Value) (w : writer), Value.wellFormed v →
    w.numbuf.length = 20 →
    ∃ w', w.Serialize v = some w' ∧ w'.stream = w.stream ++ encode v ∧
      w'.numbuf.length = 20
  | .null, w, _, hbuf =>
    ⟨w.WriteByte TagNull, by rw [Serialize_null]; rfl,
      by rw [encode_null]; rfl, by simpa [writer.WriteByte] using hbuf⟩
  | .int v, w, hv, hbuf => by
    rw [wellFormed_int] at hv
    obtain ⟨w', h1, h2, h3⟩ := WriteInt64_stream w v hv hbuf
    exact ⟨w', by rw [Serialize_int, h1], by rw [h2, encode_int], h3⟩
  | .bool b, w, _, hbuf => by
    cases b
    · exact ⟨w.WriteByte TagFalse, by rw [Serialize_bool]; rfl,
        by rw [encode_bool]; rfl, by simpa [writer.WriteByte] using hbuf⟩
    · exact ⟨w.WriteByte TagTrue, by rw [Serialize_bool]; rfl,
        by rw [encode_bool]; rfl, by simpa [writer.WriteByte] using hbuf⟩
  | .string s, w, hv, hbuf => by
    rw [wellFormed_string] at hv
    obtain ⟨w', h1, h2, h3⟩ := WriteStringWithRef_encode w s hv hbuf
    exact ⟨w', by rw [Serialize_string, h1], h2, h3⟩
  | .bytes b, w, hv, hbuf => by
    rw [wellFormed_bytes] at hv
    obtain ⟨w', h1, h2, h3⟩ := WriteBytesWithRef_encode w b (by omega) hbuf
    exact ⟨w', by rw [Serialize_bytes, h1], h2, h3⟩
  | .slice a, w, hv, hbuf => by
    rw [wellFormed_slice] at hv
    obtain ⟨hlen, hwf⟩ := hv
    by_cases h0 : a.length > 0
    · obtain ⟨w1, hw1, hs1, hl1⟩ := writeInt_spec (w.WriteByte TagList) a.length (by omega)
        (by simpa [writer.WriteByte] using hbuf)
      obtain ⟨w2, hw2, hs2, hl2⟩ := writeObjectSliceLoop_encode a (w1.WriteByte TagOpenbrace) hwf
        (by simpa [writer.WriteByte] using hl1)
      refine ⟨w2.WriteByte TagClosebrace, ?_, ?_, by simpa [writer.WriteByte] using hl2⟩
      · rw [Serialize_slice]
        exact writeObjectSliceWithRef_pos w _ _ h0 w1 w2 hw1 hw2
      · rw [encode_slice]
        simp [writer.WriteByte, hs2, hs1, h0]
    · refine ⟨(w.WriteByte TagList |>.WriteByte TagOpenbrace).WriteByte TagClosebrace, ?_, ?_,
        by simpa [writer.WriteByte] using hbuf⟩
      · have : a = [] := List.length_eq_zero.mp (by omega)
        subst this
        rw [Serialize_slice]
        exact writeObjectSliceWithRef_zero w _
      · have : a = [] := List.length_eq_zero.mp (by omega)
        subst this
        rw [encode_slice, encodeList_nil]
        simp [writer.WriteByte]
  | .strObjMap m, w, hv, hbuf => by
    rw [wellFormed_strObjMap] at hv
    obtain ⟨hlen, hwf⟩ := hv
    by_cases h0 : m.length > 0
    · obtain ⟨w1, hw1, hs1, hl1⟩ := writeInt_spec (w.WriteByte TagMap) m.length (by omega)
        (by simpa [writer.WriteByte] using hbuf)
      obtain ⟨w2, hw2, hs2, hl2⟩ := writeStrObjMapLoop_encode m (w1.WriteByte TagOpenbrace) hwf
        (by simpa [writer.WriteByte] using hl1)
      refine ⟨w2.WriteByte TagClosebrace, ?_, ?_, by simpa [writer.WriteByte] using hl2⟩
      · rw [Serialize_strObjMap]
        exact writeStrObjMapWithRef_pos w _ _ h0 w1 w2 hw1 hw2
      · rw [encode_strObjMap]
        simp [writer.WriteByte, hs2, hs1, h0]
    · refine ⟨(w.WriteByte TagMap |>.WriteByte TagOpenbrace).WriteByte TagClosebrace, ?_, ?_,
        by simpa [writer.WriteByte] using hbuf⟩
      · have : m = [] := List.length_eq_zero.mp (by omega)
        subst this
        rw [Serialize_strObjMap]
        exact writeStrObjMapWithRef_zero w _
      · have : m = [] := List.length_eq_zero.mp (by omega)
        subst this
        rw [encode_strObjMap, encodeMap_nil]
        simp [writer.WriteByte]
theorem writeObjectSliceLoop_encode : ∀ (a : List Value) (w : writer), wellFormedList a →
    w.numbuf.length = 20 →
    ∃ w', writer.writeObjectSliceLoop w a = some w' ∧ w'.stream = w.stream ++ encodeList a ∧
      w'.numbuf.length = 20
  | [], w, _, hbuf => ⟨w, writeObjectSliceLoop_nil w, by rw [encodeList_nil]; simp, hbuf⟩
  | v :: a, w, hv, hbuf => by
    rw [wellFormedList_cons] at hv
    obtain ⟨w1, hw1, hs1, hl1⟩ := Serialize_encode v w hv.1 hbuf
    obtain ⟨w2, hw2, hs2, hl2⟩ := writeObjectSliceLoop_encode a w1 hv.2 hl1
    exact ⟨w2, by rw [writeObjectSliceLoop_cons, hw1]; exact hw2,
      by rw [encodeList_cons, hs2, hs1, List.append_assoc], hl2⟩
theorem writeStrObjMapLoop_encode : ∀ (m : List (List Nat × Value)) (w : writer),
    wellFormedMap m → w.numbuf.length = 20 →
    ∃ w', writer.writeStrObjMapLoop w m = some w' ∧ w'.stream = w.stream ++ encodeMap m ∧
      w'.numbuf.length = 20
  | [], w, _, hbuf => ⟨w, writeStrObjMapLoop_nil w, by rw [encodeMap_nil]; simp, hbuf⟩
  | (k, v) :: m, w, hv, hbuf => by
    rw [wellFormedMap_cons] at hv
    obtain ⟨w0, hw0, hs0, hl0⟩ := writeStringWithRef_encodeCounted w k hv.1 hbuf
    obtain ⟨w1, hw1, hs1, hl1⟩ := Serialize_encode v w0 hv.2.1 hl0
    obtain ⟨w2, hw2, hs2, hl2⟩ := writeStrObjMapLoop_encode m w1 hv.2.2 hl1
    exact ⟨w2, by rw [writeStrObjMapLoop_cons, hw0]; simp only [hw1]; exact hw2,
      by rw [encodeMap_cons, hs2, hs1, hs0]; simp only [List.append_assoc], hl2⟩
end

/-! ### Unfolding equations of the raw reader -/

theorem ReadRawTo_zero (stream ostream : List Nat) :
    ReadRawTo 0 stream ostream = rawResult.outOfFuel := rfl

theorem ReadRawTo_nil (fuel : Nat) (ostream : List Nat) :
    ReadRawTo (fuel + 1) [] ostream
      = rawResult.ret { stream := [], ostream := ostream, err := some error.EOF } := rfl

theorem ReadRawTo_cons (fuel tag : Nat) (s ostream : List Nat) :
    ReadRawTo (fuel + 1) (tag :: s) ostream = readRaw fuel s ostream tag := rfl

theorem readRaw_succ (fuel : Nat) (stream ostream : List Nat) (tag : Nat) :
    readRaw (fuel + 1) stream ostream tag =
      (if (48 ≤ tag ∧ tag ≤ 57) ∨ tag = TagNull ∨ tag = TagEmpty ∨ tag = TagTrue
          ∨ tag = TagFalse ∨ tag = TagNaN then
        rawResult.ret { stream := stream, ostream := ostream ++ [tag], err := none }
      else if tag = TagInfinity then
        match stream with
        | [] => rawResult.ret { stream := [], ostream := ostream ++ [tag], err := some error.EOF }
        | t :: s => rawResult.ret { stream := s, ostream := ostream ++ [tag] ++ [t], err := none }
      else if tag = TagInteger ∨ tag = TagLong ∨ tag = TagDouble ∨ tag = TagRef then
        rawResult.ret (readNumberRaw stream ostream tag)
      else if tag = TagDate ∨ tag = TagTime then
        rawResult.ret (readDateTimeRaw stream ostream tag)
      else if tag = TagUTF8Char then rawResult.ret (readUTF8CharRaw stream ostream tag)
      else if tag = TagBytes then readBytesRaw stream ostream tag
      else if tag = TagString then rawResult.ret (readStringRaw stream ostream tag)
      else if tag = TagGuid then rawResult.ret (readGuidRaw stream ostream tag)
      else if tag = TagList ∨ tag = TagMap ∨ tag = TagObject then
        readComplexRaw fuel stream ostream tag
      else if tag = TagClass then
        match readComplexRaw fuel stream ostream tag with
        | rawResult.ret out =>
          if out.err = none then ReadRawTo fuel out.stream out.ostream
          else rawResult.ret out
        | res => res
      else if tag = TagError then ReadRawTo fuel stream (ostream ++ [tag])
      else rawResult.ret { stream := stream, ostream := ostream, err := unexpectedTag tag none })
    := rfl

theorem readComplexRaw_succ (fuel : Nat) (stream ostream : List Nat) (tag : Nat) :
    readComplexRaw (fuel + 1) stream ostream tag =
      (if (if tag ≠ TagOpenbrace then readComplexRawHead stream (ostream ++ [tag])
            else { stream := stream, ostream := ostream ++ [tag], err := none }).err = none then
        readComplexRawBody fuel
          (if tag ≠ TagOpenbrace then readComplexRawHead stream (ostream ++ [tag])
            else { stream := stream, ostream := ostream ++ [tag], err := none }).stream
          (if tag ≠ TagOpenbrace then readComplexRawHead stream (ostream ++ [tag])
            else { stream := stream, ostream := ostream ++ [tag], err := none }).ostream
      else rawResult.ret
          (if tag ≠ TagOpenbrace then readComplexRawHead stream (ostream ++ [tag])
            else { stream := stream, ostream := ostream ++ [tag], err := none })) := rfl

theorem readComplexRawBody_nil (fuel : Nat) (ostream : List Nat) :
    readComplexRawBody (fuel + 1) [] ostream
      = rawResult.ret { stream := [], ostream := ostream, err := some error.EOF } := rfl

theorem readComplexRawBody_cons (fuel tag : Nat) (s ostream : List Nat) :
    readComplexRawBody (fuel + 1) (tag :: s) ostream =
      (if tag = TagClosebrace then
        rawResult.ret { stream := s, ostream := ostream ++ [tag], err := none }
      else
        match readRaw fuel s ostream tag with
        | rawResult.ret out =>
          if out.err = none then readComplexRawBody fuel out.stream out.ostream
          else rawResult.ret out
        | res => res) := rfl

/-! ### The copying loops on well-formed input -/

theorem readNumberRawLoop_copy (t : List Nat) : ∀ (ds o : List Nat), TagSemicolon ∉ ds →
    readNumberRawLoop (ds ++ TagSemicolon :: t) o
      = { stream := t, ostream := o ++ (ds ++ [TagSemicolon]), err := none } := by
  intro ds
  induction ds with
  | nil => intro o _; simp [readNumberRawLoop]
  | cons x ds ih =>
    intro o hx
    have hx1 : x ≠ TagSemicolon := fun h => hx (h ▸ List.mem_cons_self _ _)
    have hx2 : TagSemicolon ∉ ds := fun h => hx (List.mem_cons_of_mem _ h)
    rw [List.cons_append, readNumberRawLoop, if_neg hx1, ih _ hx2]
    simp

theorem readComplexRawHead_copy (t : List Nat) : ∀ (ds o : List Nat), TagOpenbrace ∉ ds →
    readComplexRawHead (ds ++ TagOpenbrace :: t) o
      = { stream := t, ostream := o ++ (ds ++ [TagOpenbrace]), err := none } := by
  intro ds
  induction ds with
  | nil => intro o _; simp [readComplexRawHead]
  | cons x ds ih =>
    intro o hx
    have hx1 : x ≠ TagOpenbrace := fun h => hx (h ▸ List.mem_cons_self _ _)
    have hx2 : TagOpenbrace ∉ ds := fun h => hx (List.mem_cons_of_mem _ h)
    rw [List.cons_append, readComplexRawHead, if_neg hx1, ih _ hx2]
    simp

theorem readCountLoop_copy (t : List Nat) : ∀ (ds o : List Nat) (tag : Nat) (count : Int),
    TagQuote ∉ ds →
    readCountLoop (ds ++ TagQuote :: t) o tag count
      = ({ stream := t, ostream := o ++ (ds ++ [TagQuote]), err := none },
          (tag :: ds).foldl
            (fun c b => wrap64 (wrap64 (c * 10) + ((b + 256 - 48) % 256 : Nat))) count) := by
  intro ds
  induction ds with
  | nil => intro o tag count _; simp [readCountLoop]
  | cons x ds ih =>
    intro o tag count hx
    have hx1 : x ≠ TagQuote := fun h => hx (h ▸ List.mem_cons_self _ _)
    have hx2 : TagQuote ∉ ds := fun h => hx (List.mem_cons_of_mem _ h)
    rw [List.cons_append, readCountLoop]
    simp only [hx1, if_false]
    rw [ih _ _ _ hx2]
    simp

/-- The bytes of a printed integer are digits or a minus sign. -/
theorem decimalText_bytes (v : Int) : ∀ x ∈ decimalText v, (48 ≤ x ∧ x ≤ 57) ∨ x = 45 := by
  intro x hx
  unfold decimalText at hx
  rcases List.mem_append.mp hx with h | h
  · split at h
    · simp at h; exact Or.inr h
    · simp at h
  · exact Or.inl (natText_digits _ x h)

theorem decimalText_not_mem (v : Int) (c : Nat) (hc : c < 45 ∨ 57 < c) : c ∉ decimalText v := by
  intro h
  rcases decimalText_bytes v c h with h1 | h1 <;> omega

theorem decimalText_ne_nil (v : Int) : decimalText v ≠ [] := by
  unfold decimalText
  intro h
  exact natText_ne_nil _ (List.append_eq_nil.mp h).2

theorem decimalText_ofNat (n : Nat) : decimalText (n : Int) = (Nat.toDigits 10 n).map Char.toNat := by
  unfold decimalText
  have : ¬ ((n : Int) < 0) := by omega
  simp [this]

/-- The count that `readCountLoop` accumulates over the decimal text of `n`. -/
theorem count_decimalText (n : Nat) (hn : n < 2 ^ 63) :
    (48 :: decimalText (n : Int)).foldl
        (fun c b => wrap64 (wrap64 (c * 10) + ((b + 256 - 48) % 256 : Nat))) 0 = n := by
  have hf : (fun (c : Int) (b : Nat) => wrap64 (wrap64 (c * 10) + ((b + 256 - 48) % 256 : Nat)))
      = (fun (i : Int) (b : Nat) =>
          wrap64 (wrap64 (i * 10) + wrap64 (((b + 256 - 48) % 256 : Nat) * 1))) := by
    funext c b
    have hb : isInt64 ((((b + 256 - 48) % 256 : Nat) : Int) * 1) := by
      unfold isInt64; omega
    rw [wrap64_eq _ hb, Int.mul_one]
  rw [hf, List.foldl_cons, decimalText_ofNat]
  have h0 : wrap64 (wrap64 (0 * 10) + wrap64 (((48 + 256 - 48) % 256 : Nat) * 1)) = 0 := by decide
  rw [h0]
  have := foldl_natText 1 (Or.inl rfl) n (by unfold isInt64; omega)
  rw [this]; omega

/-! ### Raw reading of the leaves -/

theorem wrap64_succ (n : Nat) (hn : n + 1 < 2 ^ 63) : wrap64 ((n : Int) + 1) = ((n + 1 : Nat) : Int) := by
  rw [wrap64_eq _ (by unfold isInt64; omega)]
  omega

theorem readUTF8String_quoted (cs : List Char) (t : List Nat)
    (hlen : (utf8Bytes cs).length + 1 < 2 ^ 63) :
    readUTF8String (utf8Bytes cs ++ TagQuote :: t) (wrap64 ((ulen (utf8Bytes cs) : Int) + 1))
      = (utf8Bytes cs ++ [TagQuote], none, t) := by
  have hb := (ulen_bounds cs).2
  rw [wrap64_succ _ (by omega)]
  unfold readUTF8String
  rw [if_neg (by omega), Int.toNat_ofNat, readUTF8StringLoop_utf8Bytes cs 1 (TagQuote :: t) []]
  simp [readUTF8StringLoop, ReadRune, DecodeRune, EncodeRune, TagQuote]

theorem readStringRaw_of (stream o : List Nat) (tag : Nat) (out : rawOut) (count : Int)
    (str rest : List Nat)
    (h1 : readCountLoop stream (o ++ [tag]) 48 0 = (out, count)) (h2 : out.err = none)
    (h3 : readUTF8String out.stream (wrap64 (count + 1)) = (str, none, rest)) :
    readStringRaw stream o tag
      = { stream := rest, ostream := out.ostream ++ str, err := none } := by
  unfold readStringRaw
  rw [h1]
  simp only [h2, if_true]
  rw [h3]

theorem readBytesRaw_of (stream o : List Nat) (tag : Nat) (out : rawOut) (count : Int)
    (b rest : List Nat) (n : Nat)
    (h1 : readCountLoop stream (o ++ [tag]) 48 0 = (out, count)) (h2 : out.err = none)
    (h3 : ¬ wrap64 (count + 1) < 0)
    (h4 : Read out.stream (wrap64 (count + 1)).toNat = (b, n, none, rest)) :
    readBytesRaw stream o tag
      = rawResult.ret { stream := rest, ostream := out.ostream ++ b, err := none } := by
  unfold readBytesRaw
  rw [h1]
  simp only [h2, if_true, h3, if_false]
  rw [h4]

theorem readStringRaw_counted (cs : List Char) (o t : List Nat)
    (hlen : (utf8Bytes cs).length + 1 < 2 ^ 63) :
    readStringRaw
        ((if ulen (utf8Bytes cs) > 0 then decimalText (ulen (utf8Bytes cs)) else [])
          ++ TagQuote :: (utf8Bytes cs ++ TagQuote :: t)) o TagString
      = { stream := t, ostream := o ++ encodeCounted (utf8Bytes cs), err := none } := by
  have hb := (ulen_bounds cs).2
  have hq : TagQuote ∉ (if ulen (utf8Bytes cs) > 0 then decimalText (ulen (utf8Bytes cs)) else [])
      := by
    split
    · exact decimalText_not_mem _ _ (by decide)
    · simp
  have hcount : (48 :: (if ulen (utf8Bytes cs) > 0 then decimalText (ulen (utf8Bytes cs))
        else [])).foldl
        (fun c b => wrap64 (wrap64 (c * 10) + ((b + 256 - 48) % 256 : Nat))) (0 : Int)
      = (ulen (utf8Bytes cs) : Int) := by
    by_cases hp : ulen (utf8Bytes cs) > 0
    · rw [if_pos hp]
      exact count_decimalText _ (by omega)
    · rw [if_neg hp]
      have h0 : ulen (utf8Bytes cs) = 0 := by omega
      rw [h0]
      decide
  have h1 := readCountLoop_copy (utf8Bytes cs ++ TagQuote :: t)
    (if ulen (utf8Bytes cs) > 0 then decimalText (ulen (utf8Bytes cs)) else []) (o ++ [TagString])
    48 0 hq
  rw [hcount] at h1
  rw [readStringRaw_of _ o TagString _ _ _ _ h1 rfl (readUTF8String_quoted cs t hlen)]
  simp [encodeCounted]

theorem ReadRawTo_counted (cs : List Char) (fuel : Nat) (o t : List Nat)
    (hlen : (utf8Bytes cs).length + 1 < 2 ^ 63) :
    ReadRawTo (fuel + 2) (encodeCounted (utf8Bytes cs) ++ t) o
      = rawResult.ret { stream := t, ostream := o ++ encodeCounted (utf8Bytes cs), err := none }
    := by
  have e : encodeCounted (utf8Bytes cs) ++ t
      = TagString :: ((if ulen (utf8Bytes cs) > 0 then decimalText (ulen (utf8Bytes cs)) else [])
          ++ TagQuote :: (utf8Bytes cs ++ TagQuote :: t)) := by
    simp [encodeCounted]
  rw [e, ReadRawTo_cons, readRaw_succ]
  simp only [TagString, TagNull, TagEmpty, TagTrue, TagFalse, TagNaN, TagInfinity, TagInteger,
    TagLong, TagDouble, TagRef, TagDate, TagTime, TagUTF8Char, TagBytes]
  norm_num
  have := readStringRaw_counted cs o t hlen
  simp only [TagString] at this
  exact this

theorem Read_full (s : List Nat) (n : Nat) (hpos : 0 < n) (hn : n ≤ s.length) :
    Read s n = (s.take n, n, none, s.drop n) := by
  cases s with
  | nil => simp at hn; omega
  | cons x s =>
    unfold Read
    have h0 : n - (x :: s).length = 0 := by omega
    simp only [h0, List.replicate_zero, List.append_nil, Nat.min_eq_left hn]

theorem ReadRawTo_null (fuel : Nat) (o t : List Nat) :
    ReadRawTo (fuel + 2) (encode .null ++ t) o
      = rawResult.ret { stream := t, ostream := o ++ encode .null, err := none } := by
  rw [encode_null]
  simp [ReadRawTo_cons, readRaw_succ]

theorem ReadRawTo_bool (b : Bool) (fuel : Nat) (o t : List Nat) :
    ReadRawTo (fuel + 2) (encode (.bool b) ++ t) o
      = rawResult.ret { stream := t, ostream := o ++ encode (.bool b), err := none } := by
  rw [encode_bool]
  cases b <;> simp [ReadRawTo_cons, readRaw_succ]

theorem ReadRawTo_int (v : Int) (fuel : Nat) (o t : List Nat) :
    ReadRawTo (fuel + 2) (encode (.int v) ++ t) o
      = rawResult.ret { stream := t, ostream := o ++ encode (.int v), err := none } := by
  rw [encode_int]
  have hsemi := decimalText_not_mem v TagSemicolon (by decide)
  by_cases hd : 0 ≤ v ∧ v ≤ 9
  · rw [if_pos hd]
    have h1 : 48 ≤ 48 + v.toNat ∧ 48 + v.toNat ≤ 57 := by omega
    simp [ReadRawTo_cons, readRaw_succ, h1]
  · rw [if_neg hd]
    have hnum := readNumberRawLoop_copy t (decimalText v)
    by_cases h32 : -(2 : Int) ^ 31 ≤ v ∧ v ≤ 2 ^ 31 - 1
    · rw [if_pos h32]
      simp only [List.cons_append, List.append_assoc, List.singleton_append, ReadRawTo_cons,
        readRaw_succ]
      simp only [TagString, TagNull, TagEmpty, TagTrue, TagFalse, TagNaN, TagInfinity,
        TagInteger, TagLong, TagDouble, TagRef]
      norm_num
      have := hnum (o ++ [105]) hsemi
      simpa [readNumberRaw, TagSemicolon] using this
    · rw [if_neg h32]
      simp only [List.cons_append, List.append_assoc, List.singleton_append, ReadRawTo_cons,
        readRaw_succ]
      simp only [TagString, TagNull, TagEmpty, TagTrue, TagFalse, TagNaN, TagInfinity,
        TagInteger, TagLong, TagDouble, TagRef]
      norm_num
      have := hnum (o ++ [108]) hsemi
      simpa [readNumberRaw, TagSemicolon] using this

theorem ReadRawTo_string (s : List Nat) (hs : validString s) (fuel : Nat) (o t : List Nat) :
    ReadRawTo (fuel + 2) (encode (.string s) ++ t) o
      = rawResult.ret { stream := t, ostream := o ++ encode (.string s), err := none } := by
  obtain ⟨⟨cs, rfl⟩, hlen⟩ := hs
  rw [encode_string]
  by_cases h0 : (utf8Bytes cs).length = 0
  · rw [if_pos h0]
    simp [ReadRawTo_cons, readRaw_succ]
  · rw [if_neg h0]
    by_cases hu : (utf8Bytes cs).length < UTFMax ∧ RuneCountInString (utf8Bytes cs) = 1
    · rw [if_pos hu]
      obtain ⟨h1, hall⟩ := (utf8Char_test cs).mp hu
      match cs, h1 with
      | [c], _ =>
        have hrr := ReadRune_EncodeRune c t
        simp only [utf8Bytes, List.append_nil, List.cons_append, ReadRawTo_cons, readRaw_succ]
        simp only [TagString, TagNull, TagEmpty, TagTrue, TagFalse, TagNaN, TagInfinity,
          TagInteger, TagLong, TagDouble, TagRef, TagDate, TagTime, TagUTF8Char]
        norm_num
        simp [readUTF8CharRaw, hrr]
    · rw [if_neg hu]
      exact ReadRawTo_counted cs fuel o t (by omega)

theorem ReadRawTo_bytes (b : List Nat) (hb : b.length < 9223372036854775807) (fuel : Nat)
    (o t : List Nat) :
    ReadRawTo (fuel + 2) (encode (.bytes b) ++ t) o
      = rawResult.ret { stream := t, ostream := o ++ encode (.bytes b), err := none } := by
  rw [encode_bytes]
  by_cases h0 : b.length = 0
  · rw [if_pos h0]
    simp [ReadRawTo_cons, readRaw_succ]
  · rw [if_neg h0]
    have hq := decimalText_not_mem (b.length : Int) TagQuote (by decide)
    have hcount := count_decimalText b.length (by omega)
    have hrd : Read (b ++ TagQuote :: t) (b.length + 1) = (b ++ [TagQuote], b.length + 1, none, t)
        := by
      rw [Read_full _ _ (by omega) (by simp)]
      simp [List.take_append_eq_append_take, List.drop_append_eq_append_drop]
    have hloop := readCountLoop_copy (b ++ TagQuote :: t) (decimalText (b.length : Int))
      (o ++ [TagBytes]) 48 0 hq
    rw [hcount] at hloop
    have hbr : readBytesRaw (decimalText (b.length : Int) ++ TagQuote :: (b ++ TagQuote :: t)) o
        TagBytes
        = rawResult.ret (rawOut.mk t
            (o ++ TagBytes :: (decimalText b.length ++ TagQuote :: (b ++ [TagQuote]))) none) := by
      have hw : wrap64 ((b.length : Int) + 1) = ((b.length + 1 : Nat) : Int) :=
        wrap64_succ _ (by omega)
      rw [readBytesRaw_of _ o TagBytes _ _ (b ++ [TagQuote]) t (b.length + 1) hloop rfl
        (by rw [hw]; omega) (by rw [hw, Int.toNat_ofNat]; exact hrd)]
      simp
    simp only [List.cons_append, List.append_assoc, ReadRawTo_cons, readRaw_succ]
    simp only [TagString, TagNull, TagEmpty, TagTrue, TagFalse, TagNaN, TagInfinity,
      TagInteger, TagLong, TagDouble, TagRef, TagDate, TagTime, TagUTF8Char, TagBytes]
    norm_num
    simpa [TagBytes, TagQuote] using hbr

/-! ### Raw reading of containers -/

/-- Every encoding starts with a tag, and the tag is not the closing brace. -/
theorem encode_head (v : Value) :
    ∃ tag body, encode v = tag :: body ∧ tag ≠ TagClosebrace := by
  cases v with
  | null => exact ⟨_, _, encode_null, by decide⟩
  | int v =>
    rw [encode_int]
    split
    · exact ⟨_, _, rfl, by show 48 + v.toNat ≠ 125; omega⟩
    · split
      · exact ⟨_, _, rfl, by decide⟩
      · exact ⟨_, _, rfl, by decide⟩
  | bool b => cases b <;> exact ⟨_, _, by rw [encode_bool]; rfl, by decide⟩
  | string s =>
    rw [encode_string]
    split
    · exact ⟨_, _, rfl, by decide⟩
    · split
      · exact ⟨_, _, rfl, by decide⟩
      · exact ⟨_, _, rfl, by decide⟩
  | bytes b =>
    rw [encode_bytes]
    split
    · exact ⟨_, _, rfl, by decide⟩
    · exact ⟨_, _, rfl, by decide⟩
  | slice a => exact ⟨_, _, encode_slice a, by decide⟩
  | strObjMap m => exact ⟨_, _, encode_strObjMap m, by decide⟩

theorem encode_length_pos (v : Value) : 0 < (encode v).length := by
  obtain ⟨tag, body, h, _⟩ := encode_head v
  rw [h]; simp

theorem encodeCounted_length_pos (s : List Nat) : 0 < (encodeCounted s).length := by
  simp [encodeCounted]

/-- One turn of the element loop of `readComplexRaw` over a value that
`ReadRawTo` copies whole. -/
theorem readComplexRawBody_step (x rest o : List Nat) (g : Nat) (tag : Nat) (body : List Nat)
    (hx : x = tag :: body) (htag : tag ≠ TagClosebrace)
    (hread : ReadRawTo (g + 1) (x ++ rest) o
      = rawResult.ret { stream := rest, ostream := o ++ x, err := none }) :
    readComplexRawBody (g + 1) (x ++ rest) o = readComplexRawBody g rest (o ++ x) := by
  subst hx
  rw [List.cons_append, ReadRawTo_cons] at hread
  rw [List.cons_append, readComplexRawBody_cons, if_neg htag, hread]
  simp

theorem readComplexRaw_container (tag : Nat) (htag : tag = TagList ∨ tag = TagMap)
    (ds elems o t : List Nat) (f : Nat) (hds : TagOpenbrace ∉ ds)
    (hbody : readComplexRawBody f (elems ++ TagClosebrace :: t) (o ++ tag :: (ds ++ [TagOpenbrace]))
      = rawResult.ret { stream := t, ostream := o ++ tag :: (ds ++ [TagOpenbrace]) ++ (elems ++ [TagClosebrace]), err := none }) :
    ReadRawTo (f + 3) (tag :: (ds ++ TagOpenbrace :: (elems ++ [TagClosebrace])) ++ t) o
      = rawResult.ret { stream := t, ostream := o ++ tag :: (ds ++ TagOpenbrace :: (elems ++ [TagClosebrace])), err := none } := by
  have hne : tag ≠ TagOpenbrace := by rcases htag with h | h <;> subst h <;> decide
  have hhead := readComplexRawHead_copy (elems ++ TagClosebrace :: t) ds (o ++ [tag]) hds
  have e : tag :: (ds ++ TagOpenbrace :: (elems ++ [TagClosebrace])) ++ t
      = tag :: (ds ++ TagOpenbrace :: (elems ++ TagClosebrace :: t)) := by simp
  have hcr : readComplexRaw (f + 1) (ds ++ TagOpenbrace :: (elems ++ TagClosebrace :: t)) o tag
      = rawResult.ret { stream := t, ostream := o ++ tag :: (ds ++ TagOpenbrace :: (elems ++ [TagClosebrace])), err := none } := by
    rw [readComplexRaw_succ]
    simp only [hne, ne_eq, not_false_eq_true, if_true, hhead]
    have e2 : o ++ [tag] ++ (ds ++ [TagOpenbrace]) = o ++ tag :: (ds ++ [TagOpenbrace]) := by simp
    rw [e2, hbody]
    simp
  rw [e, ReadRawTo_cons, readRaw_succ]
  rcases htag with h | h <;> subst h
  · simp only [TagString, TagNull, TagEmpty, TagTrue, TagFalse, TagNaN, TagInfinity,
      TagInteger, TagLong, TagDouble, TagRef, TagDate, TagTime, TagUTF8Char, TagBytes, TagGuid,
      TagList, TagMap, TagObject]
    norm_num
    simpa [TagList, TagOpenbrace, TagClosebrace] using hcr
  · simp only [TagString, TagNull, TagEmpty, TagTrue, TagFalse, TagNaN, TagInfinity,
      TagInteger, TagLong, TagDouble, TagRef, TagDate, TagTime, TagUTF8Char, TagBytes, TagGuid,
      TagList, TagMap, TagObject]
    norm_num
    simpa [TagMap, TagOpenbrace, TagClosebrace] using hcr

theorem count_prefix_no_brace (n : Nat) :
    TagOpenbrace ∉ (if n > 0 then decimalText (n : Int) else []) := by
  split
  · exact decimalText_not_mem _ _ (by decide)
  · simp

mutual
theorem ReadRawTo_encode : ∀ (v : Value), Value.wellFormed v → ∀ (fuel : Nat) (o t : List Nat),
    3 * (encode v).length ≤ fuel →
    ReadRawTo fuel (encode v ++ t) o
      = rawResult.ret { stream := t, ostream := o ++ encode v, err := none }
  | .null, _, fuel, o, t, hf => by
    have := encode_length_pos .null
    obtain ⟨f, rfl⟩ : ∃ f, fuel = f + 2 := ⟨fuel - 2, by omega⟩
    exact ReadRawTo_null f o t
  | .int v, _, fuel, o, t, hf => by
    have := encode_length_pos (.int v)
    obtain ⟨f, rfl⟩ : ∃ f, fuel = f + 2 := ⟨fuel - 2, by omega⟩
    exact ReadRawTo_int v f o t
  | .bool b, _, fuel, o, t, hf => by
    have := encode_length_pos (.bool b)
    obtain ⟨f, rfl⟩ : ∃ f, fuel = f + 2 := ⟨fuel - 2, by omega⟩
    exact ReadRawTo_bool b f o t
  | .string s, hv, fuel, o, t, hf => by
    have := encode_length_pos (.string s)
    obtain ⟨f, rfl⟩ : ∃ f, fuel = f + 2 := ⟨fuel - 2, by omega⟩
    rw [wellFormed_string] at hv
    exact ReadRawTo_string s hv f o t
  | .bytes b, hv, fuel, o, t, hf => by
    have := encode_length_pos (.bytes b)
    obtain ⟨f, rfl⟩ : ∃ f, fuel = f + 2 := ⟨fuel - 2, by omega⟩
    rw [wellFormed_bytes] at hv
    exact ReadRawTo_bytes b hv f o t
  | .slice a, hv, fuel, o, t, hf => by
    rw [wellFormed_slice] at hv
    rw [encode_slice] at hf ⊢
    simp only [List.length_cons, List.length_append, List.length_nil] at hf
    obtain ⟨f, rfl⟩ : ∃ f, fuel = f + 3 := ⟨fuel - 3, by omega⟩
    apply readComplexRaw_container TagList (Or.inl rfl) _ _ _ _ _ (count_prefix_no_brace _)
    have := readComplexRawBody_encodeList a hv.2 f
      (o ++ TagList :: ((if a.length > 0 then decimalText (a.length : Int) else [])
        ++ [TagOpenbrace])) t (by omega)
    rw [this]
  | .strObjMap m, hv, fuel, o, t, hf => by
    rw [wellFormed_strObjMap] at hv
    rw [encode_strObjMap] at hf ⊢
    simp only [List.length_cons, List.length_append, List.length_nil] at hf
    obtain ⟨f, rfl⟩ : ∃ f, fuel = f + 3 := ⟨fuel - 3, by omega⟩
    apply readComplexRaw_container TagMap (Or.inr rfl) _ _ _ _ _ (count_prefix_no_brace _)
    have := readComplexRawBody_encodeMap m hv.2 f
      (o ++ TagMap :: ((if m.length > 0 then decimalText (m.length : Int) else [])
        ++ [TagOpenbrace])) t (by omega)
    rw [this]
theorem readComplexRawBody_encodeList : ∀ (a : List Value), wellFormedList a →
    ∀ (fuel : Nat) (o t : List Nat), 3 * (encodeList a).length + 1 ≤ fuel →
    readComplexRawBody fuel (encodeList a ++ TagClosebrace :: t) o
      = rawResult.ret { stream := t, ostream := o ++ (encodeList a ++ [TagClosebrace]), err := none }
  | [], _, fuel, o, t, hf => by
    obtain ⟨f, rfl⟩ : ∃ f, fuel = f + 1 := ⟨fuel - 1, by omega⟩
    rw [encodeList_nil, List.nil_append, readComplexRawBody_cons, if_pos rfl]
    simp
  | v :: a, hv, fuel, o, t, hf => by
    rw [wellFormedList_cons] at hv
    rw [encodeList_cons] at hf ⊢
    rw [List.length_append] at hf
    have hpos := encode_length_pos v
    obtain ⟨g, rfl⟩ : ∃ g, fuel = g + 1 := ⟨fuel - 1, by omega⟩
    obtain ⟨tag, body, hx, htag⟩ := encode_head v
    have hread := ReadRawTo_encode v hv.1 (g + 1) o (encodeList a ++ TagClosebrace :: t)
      (by omega)
    rw [List.append_assoc,
      readComplexRawBody_step (encode v) _ o g tag body hx htag hread,
      readComplexRawBody_encodeList a hv.2 g (o ++ encode v) t (by omega)]
    simp
theorem readComplexRawBody_encodeMap : ∀ (m : List (List Nat × Value)), wellFormedMap m →
    ∀ (fuel : Nat) (o t : List Nat), 3 * (encodeMap m).length + 1 ≤ fuel →
    readComplexRawBody fuel (encodeMap m ++ TagClosebrace :: t) o
      = rawResult.ret { stream := t, ostream := o ++ (encodeMap m ++ [TagClosebrace]), err := none }
  | [], _, fuel, o, t, hf => by
    obtain ⟨f, rfl⟩ : ∃ f, fuel = f + 1 := ⟨fuel - 1, by omega⟩
    rw [encodeMap_nil, List.nil_append, readComplexRawBody_cons, if_pos rfl]
    simp
  | (k, v) :: m, hv, fuel, o, t, hf => by
    rw [wellFormedMap_cons] at hv
    rw [encodeMap_cons] at hf ⊢
    simp only [List.length_append] at hf
    have hpos := encode_length_pos v
    have hkpos := encodeCounted_length_pos k
    obtain ⟨g, rfl⟩ : ∃ g, fuel = g + 2 := ⟨fuel - 2, by omega⟩
    obtain ⟨tag, body, hx, htag⟩ := encode_head v
    obtain ⟨⟨cs, rfl⟩, hklen⟩ := hv.1
    have hkey := ReadRawTo_counted cs g o (encode v ++ encodeMap m ++ TagClosebrace :: t)
      (by omega)
    have hread := ReadRawTo_encode v hv.2.1 (g + 1) (o ++ encodeCounted (utf8Bytes cs))
      (encodeMap m ++ TagClosebrace :: t) (by omega)
    have e : encodeCounted (utf8Bytes cs) ++ (encode v ++ encodeMap m) ++ TagClosebrace :: t
        = encodeCounted (utf8Bytes cs) ++ (encode v ++ encodeMap m ++ TagClosebrace :: t) := by
      simp
    rw [e, readComplexRawBody_step (encodeCounted (utf8Bytes cs)) _ o (g + 1) TagString _ rfl
        (by decide) hkey,
      List.append_assoc,
      readComplexRawBody_step (encode v) _ _ g tag body hx htag hread,
      readComplexRawBody_encodeMap m hv.2.2 g _ t (by omega)]
    simp
end

/-- C6 (amended). For every value `v` built from `nil`, integers, booleans,
strings, byte blobs and nested lists and string-keyed maps of these, in which
every string and every map key is well-formed UTF-8 (integers in `int64`,
lengths below `math.MaxInt64`), and every trailing bytes `t`: the simple
writer encodes `v`, and `ReadRaw` on the encoding followed by `t` returns
exactly the encoding with no error and leaves exactly `t` unread. -/
theorem ReadRaw_Serialize (v : Value) (t : List Nat) (hv : Value.wellFormed v) :
    ∃ w', (NewSimpleWriter []).Serialize v = some w' ∧
      ReadRaw (w'.stream ++ t)
        = rawResult.ret { stream := t, ostream := w'.stream, err := none } := by
  obtain ⟨w', hw, hs, _⟩ := Serialize_encode v (NewSimpleWriter []) hv (by decide)
  refine ⟨w', hw, ?_⟩
  have hs' : w'.stream = encode v := by rw [hs]; simp [NewSimpleWriter]
  rw [hs']
  unfold ReadRaw
  rw [ReadRawTo_encode v hv _ [] t (by rw [List.length_append]; omega)]
  simp

theorem ReadRaw_Serialize_witness :
    ∃ w', (NewSimpleWriter []).Serialize
        (.slice [.int 12, .bool true, .string (utf8Bytes "hé".data), .bytes [0, 255],
          .strObjMap [(utf8Bytes "k".data, .null)]]) = some w' ∧
      ReadRaw (w'.stream ++ [122])
        = rawResult.ret { stream := [122], ostream := w'.stream, err := none } :=
  ReadRaw_Serialize _ [122]
    ⟨by decide, (by decide : isInt64 12), trivial, ⟨⟨"hé".data, rfl⟩, by decide⟩,
      (by decide : [0, 255].length < 9223372036854775807),
      ⟨by decide, ⟨⟨"k".data, rfl⟩, by decide⟩, trivial, trivial⟩, trivial⟩

/-! ## C7: what `ReadRaw` returns against what it consumed -/

theorem EncodeRune_two (c0 c1 : Nat) (h0 : 192 ≤ c0 ∧ c0 < 224) (h1 : 128 ≤ c1 ∧ c1 < 192)
    (hr : ¬ c0 % 32 * 64 + c1 % 64 ≤ 127) :
    EncodeRune (c0 % 32 * 64 + c1 % 64) = [c0, c1] := by
  unfold EncodeRune
  rw [if_neg hr, if_pos (by omega)]
  congr 1
  · omega
  · congr 1; omega

theorem EncodeRune_three (c0 c1 c2 : Nat) (h0 : 224 ≤ c0 ∧ c0 < 240) (h1 : 128 ≤ c1 ∧ c1 < 192)
    (h2 : 128 ≤ c2 ∧ c2 < 192)
    (hr : ¬ c0 % 16 * 4096 + c1 % 64 * 64 + c2 % 64 ≤ 2047)
    (hs : ¬ (55296 ≤ c0 % 16 * 4096 + c1 % 64 * 64 + c2 % 64
              ∧ c0 % 16 * 4096 + c1 % 64 * 64 + c2 % 64 ≤ 57343)) :
    EncodeRune (c0 % 16 * 4096 + c1 % 64 * 64 + c2 % 64) = [c0, c1, c2] := by
  unfold EncodeRune
  rw [if_neg (by omega), if_neg (by omega), if_neg (by omega), if_pos (by omega)]
  congr 1
  · omega
  · congr 1
    · omega
    · congr 1; omega

theorem EncodeRune_four (c0 c1 c2 c3 : Nat) (h0 : 240 ≤ c0 ∧ c0 < 248)
    (h1 : 128 ≤ c1 ∧ c1 < 192) (h2 : 128 ≤ c2 ∧ c2 < 192) (h3 : 128 ≤ c3 ∧ c3 < 192)
    (hr : ¬ (c0 % 8 * 262144 + c1 % 64 * 4096 + c2 % 64 * 64 + c3 % 64 ≤ 65535
              ∨ 1114111 < c0 % 8 * 262144 + c1 % 64 * 4096 + c2 % 64 * 64 + c3 % 64)) :
    EncodeRune (c0 % 8 * 262144 + c1 % 64 * 4096 + c2 % 64 * 64 + c3 % 64)
      = [c0, c1, c2, c3] := by
  unfold EncodeRune
  rw [if_neg (by omega), if_neg (by omega), if_neg (by omega), if_neg (by omega)]
  congr 1
  · omega
  · congr 1
    · omega
    · congr 1
      · omega
      · congr 1; omega

/-- What `DecodeRune` returns on a non-empty input: a rune whose encoding is
the bytes consumed, or `RuneError` with width one. -/
theorem DecodeRune_cases (p : List Nat) (hp : p ≠ []) :
    (EncodeRune (DecodeRune p).1 = p.take (DecodeRune p).2 ∧ (DecodeRune p).2 ≤ p.length
        ∧ 1 ≤ (DecodeRune p).2)
      ∨ ((DecodeRune p).2 = 1 ∧ (DecodeRune p).1 = 65533) := by
  rcases p with _ | ⟨c0, p⟩
  · exact absurd rfl hp
  by_cases h128 : c0 < 128
  · left
    have hd : DecodeRune (c0 :: p) = (c0, 1) := by simp only [DecodeRune, h128, if_true]
    rw [hd]
    refine ⟨?_, by simp, le_refl _⟩
    simp [EncodeRune, show c0 ≤ 127 by omega]
  by_cases h192 : c0 < 192
  · right
    have hd : DecodeRune (c0 :: p) = (RuneError, 1) := by
      simp only [DecodeRune, h128, h192, if_true, if_false]
    rw [hd]; exact ⟨rfl, rfl⟩
  rcases p with _ | ⟨c1, p⟩
  · right
    have hd : DecodeRune [c0] = (RuneError, 1) := by
      simp only [DecodeRune, h128, h192, if_false]
    rw [hd]; exact ⟨rfl, rfl⟩
  by_cases hc1 : c1 < 128 ∨ 192 ≤ c1
  · right
    have hd : DecodeRune (c0 :: c1 :: p) = (RuneError, 1) := by
      simp only [DecodeRune, h128, h192, hc1, if_true, if_false]
    rw [hd]; exact ⟨rfl, rfl⟩
  by_cases h224 : c0 < 224
  · by_cases hr : c0 % 32 * 64 + c1 % 64 ≤ 127
    · right
      have hd : DecodeRune (c0 :: c1 :: p) = (RuneError, 1) := by
        simp only [DecodeRune, h128, h192, hc1, h224, hr, if_true, if_false]
      rw [hd]; exact ⟨rfl, rfl⟩
    · left
      have hd : DecodeRune (c0 :: c1 :: p) = (c0 % 32 * 64 + c1 % 64, 2) := by
        simp only [DecodeRune, h128, h192, hc1, h224, hr, if_true, if_false]
      rw [hd]
      refine ⟨?_, by simp, by omega⟩
      rw [EncodeRune_two c0 c1 (by omega) (by omega) hr]
      rfl
  rcases p with _ | ⟨c2, p⟩
  · right
    have hd : DecodeRune [c0, c1] = (RuneError, 1) := by
      simp only [DecodeRune, h128, h192, hc1, h224, if_false]
    rw [hd]; exact ⟨rfl, rfl⟩
  by_cases hc2 : c2 < 128 ∨ 192 ≤ c2
  · right
    have hd : DecodeRune (c0 :: c1 :: c2 :: p) = (RuneError, 1) := by
      simp only [DecodeRune, h128, h192, hc1, h224, hc2, if_true, if_false]
    rw [hd]; exact ⟨rfl, rfl⟩
  by_cases h240 : c0 < 240
  · by_cases hr : c0 % 16 * 4096 + c1 % 64 * 64 + c2 % 64 ≤ 2047
    · right
      have hd : DecodeRune (c0 :: c1 :: c2 :: p) = (RuneError, 1) := by
        simp only [DecodeRune, h128, h192, hc1, h224, hc2, h240, hr, if_true, if_false]
      rw [hd]; exact ⟨rfl, rfl⟩
    · by_cases hs : 55296 ≤ c0 % 16 * 4096 + c1 % 64 * 64 + c2 % 64
          ∧ c0 % 16 * 4096 + c1 % 64 * 64 + c2 % 64 ≤ 57343
      · right
        have hd : DecodeRune (c0 :: c1 :: c2 :: p) = (RuneError, 1) := by
          simp only [DecodeRune, h128, h192, hc1, h224, hc2, h240, hr, hs, and_self, if_true,
            if_false]
        rw [hd]; exact ⟨rfl, rfl⟩
      · left
        have hd : DecodeRune (c0 :: c1 :: c2 :: p)
            = (c0 % 16 * 4096 + c1 % 64 * 64 + c2 % 64, 3) := by
          simp only [DecodeRune, h128, h192, hc1, h224, hc2, h240, hr, hs, if_true, if_false]
        rw [hd]
        refine ⟨?_, by simp, by omega⟩
        rw [EncodeRune_three c0 c1 c2 (by omega) (by omega) (by omega) hr hs]
        rfl
  rcases p with _ | ⟨c3, p⟩
  · right
    have hd : DecodeRune [c0, c1, c2] = (RuneError, 1) := by
      simp only [DecodeRune, h128, h192, hc1, h224, hc2, h240, if_false]
    rw [hd]; exact ⟨rfl, rfl⟩
  by_cases hc3 : c3 < 128 ∨ 192 ≤ c3
  · right
    have hd : DecodeRune (c0 :: c1 :: c2 :: c3 :: p) = (RuneError, 1) := by
      simp only [DecodeRune, h128, h192, hc1, h224, hc2, h240, hc3, if_true, if_false]
    rw [hd]; exact ⟨rfl, rfl⟩
  by_cases h248 : c0 < 248
  · by_cases hr : c0 % 8 * 262144 + c1 % 64 * 4096 + c2 % 64 * 64 + c3 % 64 ≤ 65535
        ∨ 1114111 < c0 % 8 * 262144 + c1 % 64 * 4096 + c2 % 64 * 64 + c3 % 64
    · right
      have hd : DecodeRune (c0 :: c1 :: c2 :: c3 :: p) = (RuneError, 1) := by
        simp only [DecodeRune, h128, h192, hc1, h224, hc2, h240, hc3, h248, hr, if_true,
          if_false]
      rw [hd]; exact ⟨rfl, rfl⟩
    · left
      have hd : DecodeRune (c0 :: c1 :: c2 :: c3 :: p)
          = (c0 % 8 * 262144 + c1 % 64 * 4096 + c2 % 64 * 64 + c3 % 64, 4) := by
        simp only [DecodeRune, h128, h192, hc1, h224, hc2, h240, hc3, h248, hr, if_true,
          if_false]
      rw [hd]
      refine ⟨?_, by simp, by omega⟩
      rw [EncodeRune_four c0 c1 c2 c3 (by omega) (by omega) (by omega) (by omega) hr]
      rfl
  · right
    have hd : DecodeRune (c0 :: c1 :: c2 :: c3 :: p) = (RuneError, 1) := by
      simp only [DecodeRune, h128, h192, hc1, h224, hc2, h240, hc3, h248, if_false]
    rw [hd]; exact ⟨rfl, rfl⟩

theorem sameOrLonger_refl (c : List Nat) : sameOrLonger c c := ⟨le_refl _, fun _ => rfl⟩

theorem sameOrLonger_append {a b c d : List Nat} (h1 : sameOrLonger a c)
    (h2 : sameOrLonger b d) : sameOrLonger (a ++ b) (c ++ d) := by
  obtain ⟨l1, e1⟩ := h1
  obtain ⟨l2, e2⟩ := h2
  refine ⟨by simp only [List.length_append]; omega, fun h => ?_⟩
  simp only [List.length_append] at h
  rw [e1 (by omega), e2 (by omega)]

theorem rawCopies_exact (stream ostream c : List Nat) (out : rawOut)
    (h1 : stream = c ++ out.stream) (h2 : out.ostream = ostream ++ c) :
    rawCopies stream ostream out :=
  ⟨c, c, h1, h2, sameOrLonger_refl c⟩

theorem rawCopies_trans {s o : List Nat} {mid out : rawOut} (h1 : rawCopies s o mid)
    (h2 : rawCopies mid.stream mid.ostream out) : rawCopies s o out := by
  obtain ⟨c1, w1, hs1, ho1, r1⟩ := h1
  obtain ⟨c2, w2, hs2, ho2, r2⟩ := h2
  refine ⟨c1 ++ c2, w1 ++ w2, ?_, ?_, sameOrLonger_append r1 r2⟩
  · rw [hs1, hs2, List.append_assoc]
  · rw [ho2, ho1, List.append_assoc]

/-- A call that first writes the tag its caller has read. -/
theorem rawCopies_tag {s o : List Nat} {tag : Nat} {out : rawOut}
    (h : rawCopies s (o ++ [tag]) out) : rawCopies (tag :: s) o out := by
  obtain ⟨c, w, hs, ho, r⟩ := h
  refine ⟨tag :: c, tag :: w, by rw [hs]; rfl, by rw [ho]; simp, ?_⟩
  have := sameOrLonger_append (sameOrLonger_refl [tag]) r
  simpa using this

theorem readNumberRawLoop_copies : ∀ (s o : List Nat), (readNumberRawLoop s o).err = none →
    ∃ c, s = c ++ (readNumberRawLoop s o).stream ∧ (readNumberRawLoop s o).ostream = o ++ c := by
  intro s
  induction s with
  | nil => intro o h; simp [readNumberRawLoop] at h
  | cons x s ih =>
    intro o h
    rw [readNumberRawLoop] at h ⊢
    by_cases hx : x = TagSemicolon
    · rw [if_pos hx]
      exact ⟨[x], rfl, rfl⟩
    · rw [if_neg hx] at h ⊢
      obtain ⟨c, h1, h2⟩ := ih (o ++ [x]) h
      exact ⟨x :: c, by rw [List.cons_append, ← h1], by rw [h2]; simp⟩

theorem readDateTimeRawLoop_copies : ∀ (s o : List Nat), (readDateTimeRawLoop s o).err = none →
    ∃ c, s = c ++ (readDateTimeRawLoop s o).stream
      ∧ (readDateTimeRawLoop s o).ostream = o ++ c := by
  intro s
  induction s with
  | nil => intro o h; simp [readDateTimeRawLoop] at h
  | cons x s ih =>
    intro o h
    rw [readDateTimeRawLoop] at h ⊢
    by_cases hx : x = TagSemicolon ∨ x = TagUTC
    · rw [if_pos hx]
      exact ⟨[x], rfl, rfl⟩
    · rw [if_neg hx] at h ⊢
      obtain ⟨c, h1, h2⟩ := ih (o ++ [x]) h
      exact ⟨x :: c, by rw [List.cons_append, ← h1], by rw [h2]; simp⟩

theorem readComplexRawHead_copies : ∀ (s o : List Nat), (readComplexRawHead s o).err = none →
    ∃ c, s = c ++ (readComplexRawHead s o).stream
      ∧ (readComplexRawHead s o).ostream = o ++ c := by
  intro s
  induction s with
  | nil => intro o h; simp [readComplexRawHead] at h
  | cons x s ih =>
    intro o h
    rw [readComplexRawHead] at h ⊢
    by_cases hx : x = TagOpenbrace
    · rw [if_pos hx]
      exact ⟨[x], rfl, rfl⟩
    · rw [if_neg hx] at h ⊢
      obtain ⟨c, h1, h2⟩ := ih (o ++ [x]) h
      exact ⟨x :: c, by rw [List.cons_append, ← h1], by rw [h2]; simp⟩

theorem readCountLoop_copies : ∀ (s o : List Nat) (tag : Nat) (count : Int),
    (readCountLoop s o tag count).1.err = none →
    ∃ c, s = c ++ (readCountLoop s o tag count).1.stream
      ∧ (readCountLoop s o tag count).1.ostream = o ++ c := by
  intro s
  induction s with
  | nil => intro o tag count h; simp [readCountLoop] at h
  | cons x s ih =>
    intro o tag count h
    rw [readCountLoop] at h ⊢
    by_cases hx : x = TagQuote
    · simp only [hx, if_true]
      exact ⟨[TagQuote], rfl, rfl⟩
    · simp only [hx, if_false] at h ⊢
      obtain ⟨c, h1, h2⟩ := ih (o ++ [x]) x _ h
      exact ⟨x :: c, by rw [List.cons_append, ← h1], by rw [h2]; simp⟩

theorem ReadRune_copies (s : List Nat) (r n : Nat) (rest : List Nat)
    (h : ReadRune s = (r, n, none, rest)) :
    ∃ c, s = c ++ rest ∧ sameOrLonger (EncodeRune r) c := by
  cases s with
  | nil => simp [ReadRune] at h
  | cons x s =>
    simp only [ReadRune, Prod.mk.injEq, true_and] at h
    obtain ⟨hr, hn, hrest⟩ := h
    rcases DecodeRune_cases (x :: s) (by simp) with ⟨he, hle, _⟩ | ⟨h1, h65⟩
    · refine ⟨(x :: s).take (DecodeRune (x :: s)).2, ?_, ?_⟩
      · rw [← hrest]; exact (List.take_append_drop _ _).symm
      · rw [← hr, he]; exact sameOrLonger_refl _
    · refine ⟨[x], ?_, ?_⟩
      · rw [← hrest, h1]; rfl
      · rw [← hr, h65]
        have e : EncodeRune 65533 = [239, 191, 189] := by decide
        rw [e]
        exact ⟨by simp, fun h => by simp at h⟩

theorem readUTF8StringLoop_copies : ∀ (k : Nat) (s buf str rest : List Nat),
    readUTF8StringLoop k s buf = (str, none, rest) →
    ∃ c w, s = c ++ rest ∧ str = buf ++ w ∧ sameOrLonger w c := by
  intro k
  induction k using Nat.strong_induction_on with
  | _ k ih =>
    intro s buf str rest h
    match k, ih with
    | 0, _ =>
      simp only [readUTF8StringLoop, Prod.mk.injEq, true_and] at h
      exact ⟨[], [], by simp [h.2], by simp [h.1], sameOrLonger_refl _⟩
    | 1, _ =>
      rw [readUTF8StringLoop] at h
      rcases hrr : ReadRune s with ⟨r, n, e, s'⟩
      rw [hrr] at h
      cases e with
      | some e => simp at h
      | none =>
        simp only [Prod.mk.injEq, true_and] at h
        obtain ⟨c, hc, hR⟩ := ReadRune_copies s r n s' hrr
        exact ⟨c, EncodeRune r, by rw [hc, h.2], h.1.symm, hR⟩
    | k + 2, ih =>
      rw [readUTF8StringLoop] at h
      rcases hrr : ReadRune s with ⟨r, n, e, s'⟩
      rw [hrr] at h
      cases e with
      | some e => simp at h
      | none =>
        obtain ⟨c, hc, hR⟩ := ReadRune_copies s r n s' hrr
        simp only at h
        by_cases hn : n > 3
        · rw [if_pos hn] at h
          obtain ⟨c2, w2, h1, h2, h3⟩ := ih k (by omega) s' _ str rest h
          exact ⟨c ++ c2, EncodeRune r ++ w2, by rw [hc, h1, List.append_assoc],
            by rw [h2, List.append_assoc], sameOrLonger_append hR h3⟩
        · rw [if_neg hn] at h
          obtain ⟨c2, w2, h1, h2, h3⟩ := ih (k + 1) (by omega) s' _ str rest h
          exact ⟨c ++ c2, EncodeRune r ++ w2, by rw [hc, h1, List.append_assoc],
            by rw [h2, List.append_assoc], sameOrLonger_append hR h3⟩

theorem readUTF8String_copies (s : List Nat) (length : Int) (str rest : List Nat)
    (h : readUTF8String s length = (str, none, rest)) :
    ∃ c, s = c ++ rest ∧ sameOrLonger str c := by
  unfold readUTF8String at h
  by_cases h0 : length = 0
  · rw [if_pos h0] at h
    simp only [Prod.mk.injEq, true_and] at h
    exact ⟨[], by simp [h.2], by rw [← h.1]; exact sameOrLonger_refl _⟩
  · rw [if_neg h0] at h
    obtain ⟨c, w, h1, h2, h3⟩ := readUTF8StringLoop_copies _ s [] str rest h
    exact ⟨c, h1, by rw [h2]; simpa using h3⟩

theorem Read_copies (s : List Nat) (n : Nat) (b : List Nat) (k : Nat) (rest : List Nat)
    (h : Read s n = (b, k, none, rest)) :
    ∃ c, s = c ++ rest ∧ sameOrLonger b c := by
  cases s with
  | nil =>
    unfold Read at h
    by_cases hn : n = 0
    · simp only [hn, if_true, Prod.mk.injEq, true_and] at h
      exact ⟨[], by simp [h.2.2], by rw [← h.1]; exact sameOrLonger_refl _⟩
    · simp [hn] at h
  | cons x s =>
    simp only [Read, Prod.mk.injEq, true_and] at h
    obtain ⟨hb, _, hrest⟩ := h
    refine ⟨(x :: s).take n, by rw [← hrest]; exact (List.take_append_drop _ _).symm, ?_⟩
    rw [← hb]
    have := sameOrLonger_refl ((x :: s).take n)
    refine ⟨by simp, fun hl => ?_⟩
    simp only [List.length_append, List.length_replicate] at hl
    have h0 : n - (x :: s).length = 0 := by omega
    rw [h0]; simp

theorem readNumberRaw_copies (s o : List Nat) (tag : Nat)
    (h : (readNumberRaw s o tag).err = none) : rawCopies s (o ++ [tag]) (readNumberRaw s o tag) := by
  unfold readNumberRaw at h ⊢
  obtain ⟨c, h1, h2⟩ := readNumberRawLoop_copies s (o ++ [tag]) h
  exact rawCopies_exact _ _ c _ h1 h2

theorem readDateTimeRaw_copies (s o : List Nat) (tag : Nat)
    (h : (readDateTimeRaw s o tag).err = none) :
    rawCopies s (o ++ [tag]) (readDateTimeRaw s o tag) := by
  unfold readDateTimeRaw at h ⊢
  obtain ⟨c, h1, h2⟩ := readDateTimeRawLoop_copies s (o ++ [tag]) h
  exact rawCopies_exact _ _ c _ h1 h2

theorem readUTF8CharRaw_ok (s o : List Nat) (tag r n : Nat) (rest : List Nat)
    (hrr : ReadRune s = (r, n, none, rest)) :
    readUTF8CharRaw s o tag
      = { stream := rest, ostream := o ++ [tag] ++ EncodeRune r, err := none } := by
  unfold readUTF8CharRaw
  rw [hrr]

theorem readUTF8CharRaw_err (s o : List Nat) (tag r n : Nat) (err : error) (rest : List Nat)
    (hrr : ReadRune s = (r, n, some err, rest)) :
    readUTF8CharRaw s o tag = { stream := rest, ostream := o ++ [tag], err := some err } := by
  unfold readUTF8CharRaw
  rw [hrr]

theorem readUTF8CharRaw_copies (s o : List Nat) (tag : Nat)
    (h : (readUTF8CharRaw s o tag).err = none) :
    rawCopies s (o ++ [tag]) (readUTF8CharRaw s o tag) := by
  obtain ⟨r, n, e, rest, hrr⟩ : ∃ r n e rest, ReadRune s = (r, n, e, rest) :=
    ⟨_, _, _, _, rfl⟩
  cases e with
  | some e =>
    rw [readUTF8CharRaw_err s o tag r n e rest hrr] at h
    simp at h
  | none =>
    rw [readUTF8CharRaw_ok s o tag r n rest hrr]
    obtain ⟨c, hc, hR⟩ := ReadRune_copies s r n rest hrr
    exact ⟨c, EncodeRune r, hc, rfl, hR⟩

theorem readStringRaw_ok (s o : List Nat) (tag : Nat) (out : rawOut) (count : Int)
    (str rest : List Nat)
    (hcl : readCountLoop s (o ++ [tag]) 48 0 = (out, count)) (he : out.err = none)
    (hus : readUTF8String out.stream (wrap64 (count + 1)) = (str, none, rest)) :
    readStringRaw s o tag = { stream := rest, ostream := out.ostream ++ str, err := none } := by
  unfold readStringRaw
  rw [hcl]
  simp only [he, if_true]
  rw [hus]

theorem readStringRaw_err (s o : List Nat) (tag : Nat) (out : rawOut) (count : Int)
    (str : List Nat) (err : error) (rest : List Nat)
    (hcl : readCountLoop s (o ++ [tag]) 48 0 = (out, count)) (he : out.err = none)
    (hus : readUTF8String out.stream (wrap64 (count + 1)) = (str, some err, rest)) :
    readStringRaw s o tag = { stream := rest, ostream := out.ostream, err := some err } := by
  unfold readStringRaw
  rw [hcl]
  simp only [he, if_true]
  rw [hus]

theorem readStringRaw_fail (s o : List Nat) (tag : Nat) (out : rawOut) (count : Int)
    (hcl : readCountLoop s (o ++ [tag]) 48 0 = (out, count)) (he : ¬ out.err = none) :
    readStringRaw s o tag = out := by
  unfold readStringRaw
  rw [hcl]
  simp only [he, if_false]

theorem readStringRaw_copies (s o : List Nat) (tag : Nat)
    (h : (readStringRaw s o tag).err = none) :
    rawCopies s (o ++ [tag]) (readStringRaw s o tag) := by
  obtain ⟨out, count, hcl⟩ : ∃ out count, readCountLoop s (o ++ [tag]) 48 0 = (out, count) :=
    ⟨_, _, rfl⟩
  obtain ⟨str, e, rest, hus⟩ : ∃ str e rest,
      readUTF8String out.stream (wrap64 (count + 1)) = (str, e, rest) := ⟨_, _, _, rfl⟩
  have hcp := readCountLoop_copies s (o ++ [tag]) 48 0
  rw [hcl] at hcp
  by_cases he : out.err = none
  · obtain ⟨c, h1, h2⟩ := hcp he
    cases e with
    | some e =>
      rw [readStringRaw_err s o tag out count str e rest hcl he hus] at h
      simp at h
    | none =>
      rw [readStringRaw_ok s o tag out count str rest hcl he hus]
      obtain ⟨c2, hc2, hR⟩ := readUTF8String_copies _ _ str rest hus
      exact rawCopies_trans (rawCopies_exact s (o ++ [tag]) c out h1 h2)
        ⟨c2, str, hc2, rfl, hR⟩
  · rw [readStringRaw_fail s o tag out count hcl he] at h
    exact absurd h he

theorem readBytesRaw_ok (s o : List Nat) (tag : Nat) (out : rawOut) (count : Int)
    (b : List Nat) (k : Nat) (rest : List Nat)
    (hcl : readCountLoop s (o ++ [tag]) 48 0 = (out, count)) (he : out.err = none)
    (hneg : ¬ wrap64 (count + 1) < 0)
    (hrd : Read out.stream (wrap64 (count + 1)).toNat = (b, k, none, rest)) :
    readBytesRaw s o tag
      = rawResult.ret { stream := rest, ostream := out.ostream ++ b, err := none } := by
  unfold readBytesRaw
  rw [hcl]
  simp only [he, if_true, hneg, if_false]
  rw [hrd]

theorem readBytesRaw_err (s o : List Nat) (tag : Nat) (out : rawOut) (count : Int)
    (b : List Nat) (k : Nat) (err : error) (rest : List Nat)
    (hcl : readCountLoop s (o ++ [tag]) 48 0 = (out, count)) (he : out.err = none)
    (hneg : ¬ wrap64 (count + 1) < 0)
    (hrd : Read out.stream (wrap64 (count + 1)).toNat = (b, k, some err, rest)) :
    readBytesRaw s o tag
      = rawResult.ret { stream := rest, ostream := out.ostream, err := some err } := by
  unfold readBytesRaw
  rw [hcl]
  simp only [he, if_true, hneg, if_false]
  rw [hrd]

theorem readBytesRaw_panic (s o : List Nat) (tag : Nat) (out : rawOut) (count : Int)
    (hcl : readCountLoop s (o ++ [tag]) 48 0 = (out, count)) (he : out.err = none)
    (hneg : wrap64 (count + 1) < 0) :
    readBytesRaw s o tag = rawResult.panic := by
  unfold readBytesRaw
  rw [hcl]
  simp only [he, if_true, hneg]

theorem readBytesRaw_fail (s o : List Nat) (tag : Nat) (out : rawOut) (count : Int)
    (hcl : readCountLoop s (o ++ [tag]) 48 0 = (out, count)) (he : ¬ out.err = none) :
    readBytesRaw s o tag = rawResult.ret out := by
  unfold readBytesRaw
  rw [hcl]
  simp only [he, if_false]

theorem readBytesRaw_copies (s o : List Nat) (tag : Nat) (res : rawOut)
    (hres : readBytesRaw s o tag = rawResult.ret res) (h : res.err = none) :
    rawCopies s (o ++ [tag]) res := by
  obtain ⟨out, count, hcl⟩ : ∃ out count, readCountLoop s (o ++ [tag]) 48 0 = (out, count) :=
    ⟨_, _, rfl⟩
  obtain ⟨b, k, e, rest, hrd⟩ : ∃ b k e rest,
      Read out.stream (wrap64 (count + 1)).toNat = (b, k, e, rest) := ⟨_, _, _, _, rfl⟩
  have hcp := readCountLoop_copies s (o ++ [tag]) 48 0
  rw [hcl] at hcp
  by_cases he : out.err = none
  · obtain ⟨c, h1, h2⟩ := hcp he
    by_cases hneg : wrap64 (count + 1) < 0
    · rw [readBytesRaw_panic s o tag out count hcl he hneg] at hres
      exact absurd hres (by simp)
    · cases e with
      | some e =>
        rw [readBytesRaw_err s o tag out count b k e rest hcl he hneg hrd] at hres
        simp only [rawResult.ret.injEq] at hres
        rw [← hres] at h
        simp at h
      | none =>
        rw [readBytesRaw_ok s o tag out count b k rest hcl he hneg hrd] at hres
        simp only [rawResult.ret.injEq] at hres
        obtain ⟨c2, hc2, hR⟩ := Read_copies _ _ b k rest hrd
        rw [← hres]
        exact rawCopies_trans (rawCopies_exact s (o ++ [tag]) c out h1 h2)
          ⟨c2, b, hc2, rfl, hR⟩
  · rw [readBytesRaw_fail s o tag out count hcl he] at hres
    simp only [rawResult.ret.injEq] at hres
    rw [← hres] at h
    exact absurd h he

theorem readGuidRaw_ok (s o : List Nat) (tag : Nat) (b : List Nat) (k : Nat)
    (rest : List Nat) (hrd : Read s 38 = (b, k, none, rest)) :
    readGuidRaw s o tag = { stream := rest, ostream := o ++ [tag] ++ b, err := none } := by
  unfold readGuidRaw
  rw [hrd]

theorem readGuidRaw_err (s o : List Nat) (tag : Nat) (b : List Nat) (k : Nat) (err : error)
    (rest : List Nat) (hrd : Read s 38 = (b, k, some err, rest)) :
    readGuidRaw s o tag = { stream := rest, ostream := o ++ [tag], err := none } := by
  unfold readGuidRaw
  rw [hrd]

theorem readGuidRaw_copies (s o : List Nat) (tag : Nat) :
    rawCopies s (o ++ [tag]) (readGuidRaw s o tag) := by
  obtain ⟨b, k, e, rest, hrd⟩ : ∃ b k e rest, Read s 38 = (b, k, e, rest) :=
    ⟨_, _, _, _, rfl⟩
  cases e with
  | none =>
    rw [readGuidRaw_ok s o tag b k rest hrd]
    obtain ⟨c2, hc2, hR⟩ := Read_copies _ _ b k rest hrd
    exact ⟨c2, b, hc2, rfl, hR⟩
  | some e =>
    rw [readGuidRaw_err s o tag b k e rest hrd]
    cases s with
    | nil =>
      simp only [Read] at hrd
      simp only [show (38 : Nat) ≠ 0 by decide, if_false, Prod.mk.injEq] at hrd
      obtain ⟨_, _, _, hs'⟩ := hrd
      subst hs'
      exact ⟨[], [], rfl, by simp, sameOrLonger_refl _⟩
    | cons x s => simp [Read] at hrd

theorem rawResult_ret_copies {s o : List Nat} {res out : rawOut}
    (h : rawResult.ret res = rawResult.ret out) (he : out.err = none)
    (hc : res.err = none → rawCopies s o res) : rawCopies s o out := by
  simp only [rawResult.ret.injEq] at h
  subst h
  exact hc he

/-- A call followed, when it succeeded, by a second one on what it left. -/
theorem rawCopies_then {s o : List Nat} {first : rawResult} {next : rawOut → rawResult}
    {out : rawOut}
    (h : (match first with
          | rawResult.ret mid => if mid.err = none then next mid else rawResult.ret mid
          | res => res) = rawResult.ret out)
    (he : out.err = none)
    (h1 : ∀ mid, first = rawResult.ret mid → mid.err = none → rawCopies s o mid)
    (h2 : ∀ mid, next mid = rawResult.ret out → rawCopies mid.stream mid.ostream out) :
    rawCopies s o out := by
  cases first with
  | ret mid =>
    simp only at h
    by_cases hm : mid.err = none
    · rw [if_pos hm] at h
      exact rawCopies_trans (h1 mid rfl hm) (h2 mid h)
    · rw [if_neg hm] at h
      simp only [rawResult.ret.injEq] at h
      subst h
      exact absurd he hm
  | panic => exact absurd h (by simp)
  | outOfFuel => exact absurd h (by simp)

theorem readRaw_copies_step (n : Nat)
    (ih1 : ∀ (s o : List Nat) (out : rawOut), ReadRawTo n s o = rawResult.ret out →
      out.err = none → rawCopies s o out)
    (ih3 : ∀ (s o : List Nat) (tag : Nat) (out : rawOut),
      readComplexRaw n s o tag = rawResult.ret out →
      out.err = none → rawCopies s (o ++ [tag]) out)
    (s o : List Nat) (tag : Nat) (out : rawOut)
    (h : readRaw (n + 1) s o tag = rawResult.ret out) (he : out.err = none) :
    rawCopies s (o ++ [tag]) out := by
  rw [readRaw_succ] at h
  by_cases h1 : (48 ≤ tag ∧ tag ≤ 57) ∨ tag = TagNull ∨ tag = TagEmpty ∨ tag = TagTrue
      ∨ tag = TagFalse ∨ tag = TagNaN
  · rw [if_pos h1] at h
    exact rawResult_ret_copies h he (fun _ => rawCopies_exact _ _ [] _ rfl (by simp))
  rw [if_neg h1] at h
  by_cases h2 : tag = TagInfinity
  · rw [if_pos h2] at h
    cases s with
    | nil =>
      simp only [rawResult.ret.injEq] at h
      subst h
      simp at he
    | cons t s =>
      exact rawResult_ret_copies h he
        (fun _ => rawCopies_exact _ _ [t] _ rfl (by simp))
  rw [if_neg h2] at h
  by_cases h3 : tag = TagInteger ∨ tag = TagLong ∨ tag = TagDouble ∨ tag = TagRef
  · rw [if_pos h3] at h
    exact rawResult_ret_copies h he (readNumberRaw_copies s o tag)
  rw [if_neg h3] at h
  by_cases h4 : tag = TagDate ∨ tag = TagTime
  · rw [if_pos h4] at h
    exact rawResult_ret_copies h he (readDateTimeRaw_copies s o tag)
  rw [if_neg h4] at h
  by_cases h5 : tag = TagUTF8Char
  · rw [if_pos h5] at h
    exact rawResult_ret_copies h he (readUTF8CharRaw_copies s o tag)
  rw [if_neg h5] at h
  by_cases h6 : tag = TagBytes
  · rw [if_pos h6] at h
    exact readBytesRaw_copies s o tag out h he
  rw [if_neg h6] at h
  by_cases h7 : tag = TagString
  · rw [if_pos h7] at h
    exact rawResult_ret_copies h he (readStringRaw_copies s o tag)
  rw [if_neg h7] at h
  by_cases h8 : tag = TagGuid
  · rw [if_pos h8] at h
    exact rawResult_ret_copies h he (fun _ => readGuidRaw_copies s o tag)
  rw [if_neg h8] at h
  by_cases h9 : tag = TagList ∨ tag = TagMap ∨ tag = TagObject
  · rw [if_pos h9] at h
    exact ih3 s o tag out h he
  rw [if_neg h9] at h
  by_cases h10 : tag = TagClass
  · rw [if_pos h10] at h
    exact rawCopies_then h he (fun mid hm hme => ih3 s o tag mid hm hme)
      (fun mid hm => ih1 _ _ out hm he)
  rw [if_neg h10] at h
  by_cases h11 : tag = TagError
  · rw [if_pos h11] at h
    exact ih1 s (o ++ [tag]) out h he
  rw [if_neg h11] at h
  simp only [rawResult.ret.injEq] at h
  subst h
  simp [unexpectedTag] at he

theorem readComplexRaw_copies_step (n : Nat)
    (ih4 : ∀ (s o : List Nat) (out : rawOut), readComplexRawBody n s o = rawResult.ret out →
      out.err = none → rawCopies s o out)
    (s o : List Nat) (tag : Nat) (out : rawOut)
    (h : readComplexRaw (n + 1) s o tag = rawResult.ret out) (he : out.err = none) :
    rawCopies s (o ++ [tag]) out := by
  rw [readComplexRaw_succ] at h
  by_cases hb : tag ≠ TagOpenbrace
  · simp only [if_pos hb] at h
    by_cases hm : (readComplexRawHead s (o ++ [tag])).err = none
    · rw [if_pos hm] at h
      obtain ⟨c, hc1, hc2⟩ := readComplexRawHead_copies s (o ++ [tag]) hm
      exact rawCopies_trans (rawCopies_exact _ _ c _ hc1 hc2) (ih4 _ _ out h he)
    · rw [if_neg hm] at h
      simp only [rawResult.ret.injEq] at h
      subst h
      exact absurd he hm
  · simp only [if_neg hb, if_true] at h
    exact rawCopies_trans
      (rawCopies_exact s (o ++ [tag]) [] ⟨s, o ++ [tag], none⟩ rfl (by simp))
      (ih4 _ _ out h he)

theorem readComplexRawBody_copies_step (n : Nat)
    (ih2 : ∀ (s o : List Nat) (tag : Nat) (out : rawOut),
      readRaw n s o tag = rawResult.ret out → out.err = none → rawCopies s (o ++ [tag]) out)
    (ih4 : ∀ (s o : List Nat) (out : rawOut), readComplexRawBody n s o = rawResult.ret out →
      out.err = none → rawCopies s o out)
    (s o : List Nat) (out : rawOut)
    (h : readComplexRawBody (n + 1) s o = rawResult.ret out) (he : out.err = none) :
    rawCopies s o out := by
  cases s with
  | nil =>
    rw [readComplexRawBody_nil] at h
    simp only [rawResult.ret.injEq] at h
    subst h
    simp at he
  | cons tag s =>
    rw [readComplexRawBody_cons] at h
    by_cases hb : tag = TagClosebrace
    · rw [if_pos hb] at h
      exact rawResult_ret_copies h he (fun _ => rawCopies_exact _ _ [tag] _ rfl rfl)
    · rw [if_neg hb] at h
      exact rawCopies_then h he (fun mid hm hme => rawCopies_tag (ih2 s o tag mid hm hme))
        (fun mid hm => ih4 _ _ out hm he)

/-- Every successful call of the four mutually recursive functions of the raw
reader has written at least as many bytes as it consumed, and the same bytes
when the two counts agree. -/
theorem raw_copies_all : ∀ (fuel : Nat),
    (∀ (s o : List Nat) (out : rawOut), ReadRawTo fuel s o = rawResult.ret out →
      out.err = none → rawCopies s o out) ∧
    (∀ (s o : List Nat) (tag : Nat) (out : rawOut), readRaw fuel s o tag = rawResult.ret out →
      out.err = none → rawCopies s (o ++ [tag]) out) ∧
    (∀ (s o : List Nat) (tag : Nat) (out : rawOut),
      readComplexRaw fuel s o tag = rawResult.ret out →
      out.err = none → rawCopies s (o ++ [tag]) out) ∧
    (∀ (s o : List Nat) (out : rawOut), readComplexRawBody fuel s o = rawResult.ret out →
      out.err = none → rawCopies s o out) := by
  intro fuel
  induction fuel with
  | zero =>
    refine ⟨?_, ?_, ?_, ?_⟩
    · intro s o out h _
      have e : ReadRawTo 0 s o = rawResult.outOfFuel := rfl
      rw [e] at h; exact absurd h (by simp)
    · intro s o tag out h _
      have e : readRaw 0 s o tag = rawResult.outOfFuel := rfl
      rw [e] at h; exact absurd h (by simp)
    · intro s o tag out h _
      have e : readComplexRaw 0 s o tag = rawResult.outOfFuel := rfl
      rw [e] at h; exact absurd h (by simp)
    · intro s o out h _
      have e : readComplexRawBody 0 s o = rawResult.outOfFuel := rfl
      rw [e] at h; exact absurd h (by simp)
  | succ n ih =>
    obtain ⟨ih1, ih2, ih3, ih4⟩ := ih
    refine ⟨?_, readRaw_copies_step n ih1 ih3, readComplexRaw_copies_step n ih4,
      readComplexRawBody_copies_step n ih2 ih4⟩
    intro s o out h he
    cases s with
    | nil =>
      rw [ReadRawTo_nil] at h
      simp only [rawResult.ret.injEq] at h
      subst h
      simp at he
    | cons tag s =>
      rw [ReadRawTo_cons] at h
      exact rawCopies_tag (ih2 s o tag out h he)

/-! ## The recursion budget of `ReadRaw` is never used up -/

theorem rawCopies_length {s o : List Nat} {out : rawOut} (h : rawCopies s o out) :
    out.stream.length ≤ s.length := by
  obtain ⟨c, _, hs, _, _⟩ := h
  rw [hs, List.length_append]
  omega

theorem readBytesRaw_ne_outOfFuel (s o : List Nat) (tag : Nat) :
    readBytesRaw s o tag ≠ rawResult.outOfFuel := by
  obtain ⟨out, count, hcl⟩ : ∃ out count, readCountLoop s (o ++ [tag]) 48 0 = (out, count) :=
    ⟨_, _, rfl⟩
  obtain ⟨b, k, e, rest, hrd⟩ : ∃ b k e rest,
      Read out.stream (wrap64 (count + 1)).toNat = (b, k, e, rest) := ⟨_, _, _, _, rfl⟩
  by_cases he : out.err = none
  · by_cases hneg : wrap64 (count + 1) < 0
    · rw [readBytesRaw_panic s o tag out count hcl he hneg]
      simp
    · cases e with
      | some e =>
        rw [readBytesRaw_err s o tag out count b k e rest hcl he hneg hrd]
        simp
      | none =>
        rw [readBytesRaw_ok s o tag out count b k rest hcl he hneg hrd]
        simp
  · rw [readBytesRaw_fail s o tag out count hcl he]
    simp

/-- A call followed, when it succeeded, by a second one: the budget is not
used up when neither call uses it up. -/
theorem then_ne_outOfFuel {first : rawResult} {next : rawOut → rawResult} {res : rawResult}
    (hres : res = (match first with
      | rawResult.ret mid => if mid.err = none then next mid else rawResult.ret mid
      | r => r))
    (h1 : first ≠ rawResult.outOfFuel)
    (h2 : ∀ mid, first = rawResult.ret mid → mid.err = none →
      next mid ≠ rawResult.outOfFuel) :
    res ≠ rawResult.outOfFuel := by
  subst hres
  cases first with
  | ret mid =>
    simp only
    by_cases hm : mid.err = none
    · rw [if_pos hm]
      exact h2 mid rfl hm
    · rw [if_neg hm]
      simp
  | panic => simp
  | outOfFuel => exact absurd rfl h1

theorem readRaw_fuel_step (n : Nat)
    (ih1 : ∀ (s o : List Nat), 3 * s.length + 1 ≤ n → ReadRawTo n s o ≠ rawResult.outOfFuel)
    (ih3 : ∀ (s o : List Nat) (tag : Nat), 3 * s.length + 2 ≤ n →
      readComplexRaw n s o tag ≠ rawResult.outOfFuel)
    (s o : List Nat) (tag : Nat) (hf : 3 * s.length + 3 ≤ n + 1) :
    readRaw (n + 1) s o tag ≠ rawResult.outOfFuel := by
  rw [readRaw_succ]
  by_cases h1 : (48 ≤ tag ∧ tag ≤ 57) ∨ tag = TagNull ∨ tag = TagEmpty ∨ tag = TagTrue
      ∨ tag = TagFalse ∨ tag = TagNaN
  · rw [if_pos h1]; simp
  rw [if_neg h1]
  by_cases h2 : tag = TagInfinity
  · rw [if_pos h2]
    cases s with
    | nil => simp
    | cons t s => simp
  rw [if_neg h2]
  by_cases h3 : tag = TagInteger ∨ tag = TagLong ∨ tag = TagDouble ∨ tag = TagRef
  · rw [if_pos h3]; simp
  rw [if_neg h3]
  by_cases h4 : tag = TagDate ∨ tag = TagTime
  · rw [if_pos h4]; simp
  rw [if_neg h4]
  by_cases h5 : tag = TagUTF8Char
  · rw [if_pos h5]; simp
  rw [if_neg h5]
  by_cases h6 : tag = TagBytes
  · rw [if_pos h6]
    exact readBytesRaw_ne_outOfFuel s o tag
  rw [if_neg h6]
  by_cases h7 : tag = TagString
  · rw [if_pos h7]; simp
  rw [if_neg h7]
  by_cases h8 : tag = TagGuid
  · rw [if_pos h8]; simp
  rw [if_neg h8]
  by_cases h9 : tag = TagList ∨ tag = TagMap ∨ tag = TagObject
  · rw [if_pos h9]
    exact ih3 s o tag (by omega)
  rw [if_neg h9]
  by_cases h10 : tag = TagClass
  · rw [if_pos h10]
    have hfirst := ih3 s o tag (by omega)
    have hnext : ∀ mid, readComplexRaw n s o tag = rawResult.ret mid → mid.err = none →
        ReadRawTo n mid.stream mid.ostream ≠ rawResult.outOfFuel := by
      intro mid hm hme
      have hl := rawCopies_length ((raw_copies_all n).2.2.1 s o tag mid hm hme)
      exact ih1 _ _ (by omega)
    exact @then_ne_outOfFuel (readComplexRaw n s o tag)
      (fun mid => ReadRawTo n mid.stream mid.ostream) _ rfl hfirst hnext
  rw [if_neg h10]
  by_cases h11 : tag = TagError
  · rw [if_pos h11]
    exact ih1 s _ (by omega)
  rw [if_neg h11]
  simp

theorem readComplexRaw_fuel_step (n : Nat)
    (ih4 : ∀ (s o : List Nat), 3 * s.length + 1 ≤ n →
      readComplexRawBody n s o ≠ rawResult.outOfFuel)
    (s o : List Nat) (tag : Nat) (hf : 3 * s.length + 2 ≤ n + 1) :
    readComplexRaw (n + 1) s o tag ≠ rawResult.outOfFuel := by
  rw [readComplexRaw_succ]
  by_cases hb : tag ≠ TagOpenbrace
  · simp only [if_pos hb]
    by_cases hm : (readComplexRawHead s (o ++ [tag])).err = none
    · rw [if_pos hm]
      obtain ⟨c, hc1, _⟩ := readComplexRawHead_copies s (o ++ [tag]) hm
      have hl : (readComplexRawHead s (o ++ [tag])).stream.length ≤ s.length := by
        have := congrArg List.length hc1
        rw [List.length_append] at this
        omega
      exact ih4 _ _ (by omega)
    · rw [if_neg hm]
      simp
  · simp only [if_neg hb, if_true]
    exact ih4 _ _ (by omega)

theorem readComplexRawBody_fuel_step (n : Nat)
    (ih2 : ∀ (s o : List Nat) (tag : Nat), 3 * s.length + 3 ≤ n →
      readRaw n s o tag ≠ rawResult.outOfFuel)
    (ih4 : ∀ (s o : List Nat), 3 * s.length + 1 ≤ n →
      readComplexRawBody n s o ≠ rawResult.outOfFuel)
    (s o : List Nat) (hf : 3 * s.length + 1 ≤ n + 1) :
    readComplexRawBody (n + 1) s o ≠ rawResult.outOfFuel := by
  cases s with
  | nil => rw [readComplexRawBody_nil]; simp
  | cons tag s =>
    simp only [List.length_cons] at hf
    rw [readComplexRawBody_cons]
    by_cases hb : tag = TagClosebrace
    · rw [if_pos hb]; simp
    · rw [if_neg hb]
      have hfirst := ih2 s o tag (by omega)
      have hnext : ∀ mid, readRaw n s o tag = rawResult.ret mid → mid.err = none →
          readComplexRawBody n mid.stream mid.ostream ≠ rawResult.outOfFuel := by
        intro mid hm hme
        have hl := rawCopies_length ((raw_copies_all n).2.1 s o tag mid hm hme)
        exact ih4 _ _ (by omega)
      exact @then_ne_outOfFuel (readRaw n s o tag)
        (fun mid => readComplexRawBody n mid.stream mid.ostream) _ rfl hfirst hnext

/-- With a budget of three calls per byte of input (and one to three more),
none of the four mutually recursive functions of the raw reader uses its
budget up. -/
theorem raw_fuel_all : ∀ (fuel : Nat),
    (∀ (s o : List Nat), 3 * s.length + 1 ≤ fuel → ReadRawTo fuel s o ≠ rawResult.outOfFuel) ∧
    (∀ (s o : List Nat) (tag : Nat), 3 * s.length + 3 ≤ fuel →
      readRaw fuel s o tag ≠ rawResult.outOfFuel) ∧
    (∀ (s o : List Nat) (tag : Nat), 3 * s.length + 2 ≤ fuel →
      readComplexRaw fuel s o tag ≠ rawResult.outOfFuel) ∧
    (∀ (s o : List Nat), 3 * s.length + 1 ≤ fuel →
      readComplexRawBody fuel s o ≠ rawResult.outOfFuel) := by
  intro fuel
  induction fuel with
  | zero =>
    refine ⟨?_, ?_, ?_, ?_⟩
    · intro s o hf; omega
    · intro s o tag hf; omega
    · intro s o tag hf; omega
    · intro s o hf; omega
  | succ n ih =>
    obtain ⟨ih1, ih2, ih3, ih4⟩ := ih
    refine ⟨?_, readRaw_fuel_step n ih1 ih3, readComplexRaw_fuel_step n ih4,
      readComplexRawBody_fuel_step n ih2 ih4⟩
    intro s o hf
    cases s with
    | nil => rw [ReadRawTo_nil]; simp
    | cons tag s =>
      simp only [List.length_cons] at hf
      rw [ReadRawTo_cons]
      exact ih2 s o tag (by omega)

/-- `ReadRaw` returns or panics on every input: its budget is enough. -/
theorem ReadRaw_fuel (input : List Nat) : ReadRaw input ≠ rawResult.outOfFuel :=
  (raw_fuel_all _).1 input [] (by omega)

/-- C8. On a stream whose first byte is not a digit and not one of the tags
`i l d N I n e t f D T b u s g a m c o r E`, `ReadRaw` returns the error
`Unexpected serialize tag` for that byte and no output bytes. -/
theorem ReadRaw_unexpectedTag (tag : Nat) (s : List Nat) (hd : ¬ (48 ≤ tag ∧ tag ≤ 57))
    (ht : tag ∉ [TagInteger, TagLong, TagDouble, TagNaN, TagInfinity, TagNull, TagEmpty, TagTrue,
      TagFalse, TagDate, TagTime, TagBytes, TagUTF8Char, TagString, TagGuid, TagList, TagMap,
      TagClass, TagObject, TagRef, TagError]) :
    ReadRaw (tag :: s)
      = rawResult.ret { stream := s, ostream := [], err := some (error.unexpectedTag tag) } := by
  simp only [List.mem_cons, List.mem_singleton, List.not_mem_nil, not_or, or_false] at ht
  obtain ⟨t1, t2, t3, t4, t5, t6, t7, t8, t9, t10, t11, t12, t13, t14, t15, t16, t17, t18, t19,
    t20, t21⟩ := ht
  have hf : 3 * (tag :: s).length + 3 = (3 * s.length + 4) + 1 + 1 := by
    simp only [List.length_cons]; omega
  unfold ReadRaw
  rw [hf, ReadRawTo_cons, readRaw_succ]
  rw [if_neg (by tauto), if_neg t5, if_neg (by tauto), if_neg (by tauto), if_neg t13, if_neg t12,
    if_neg t14, if_neg t15, if_neg (by tauto), if_neg t18, if_neg t21]
  rfl

theorem ReadRaw_unexpectedTag_witness :
    ReadRaw (122 :: [49, 59])
      = rawResult.ret { stream := [49, 59], ostream := [], err := some (error.unexpectedTag 122) } :=
  ReadRaw_unexpectedTag 122 [49, 59] (by decide) (by decide)

/-! ## C9: a GUID cut short -/

theorem readRaw_guid (fuel : Nat) (s o : List Nat) :
    readRaw (fuel + 1) s o TagGuid = rawResult.ret (readGuidRaw s o TagGuid) := rfl

/-- C9 (what the code does). With the full 38 bytes after `g`, `ReadRaw`
copies the tag and the 38 bytes. With fewer, it returns no error: at the end
of the stream it returns the tag alone, and on a shorter payload it returns
the payload followed by zero bytes up to 38. -/
theorem ReadRaw_guid (p t : List Nat) :
    (p.length = 38 →
      ReadRaw (TagGuid :: (p ++ t))
        = rawResult.ret { stream := t, ostream := TagGuid :: p, err := none }) ∧
    ReadRaw [TagGuid] = rawResult.ret { stream := [], ostream := [TagGuid], err := none } ∧
    (p ≠ [] → p.length < 38 →
      ReadRaw (TagGuid :: p)
        = rawResult.ret { stream := [], ostream := TagGuid :: (p ++ List.replicate (38 - p.length) 0), err := none }) := by
  refine ⟨fun hp => ?_, by decide, fun hne hp => ?_⟩
  · have hf : 3 * (TagGuid :: (p ++ t)).length + 3 = (3 * (p ++ t).length + 4) + 1 + 1 := by
      simp only [List.length_cons]; omega
    unfold ReadRaw
    rw [hf, ReadRawTo_cons, readRaw_guid]
    cases p with
    | nil => simp at hp
    | cons x p =>
      have hrd : Read (x :: p ++ t) 38 = (x :: p, 38, none, t) := by
        simp only [Read, List.cons_append, List.length_cons, List.length_append]
        have h1 : 38 - (p.length + t.length + 1) = 0 := by
          simp only [List.length_cons] at hp; omega
        have h2 : min 38 (p.length + t.length + 1) = 38 := by
          simp only [List.length_cons] at hp; omega
        have h3 : (x :: (p ++ t)).take 38 = x :: p := by
          rw [← List.cons_append, List.take_left' hp]
        have h4 : (x :: (p ++ t)).drop 38 = t := by
          rw [← List.cons_append, List.drop_left' hp]
        rw [h1, h2, h3, h4]
        simp
      rw [readGuidRaw_ok _ _ _ _ _ _ hrd]
      simp
  · have hf : 3 * (TagGuid :: p).length + 3 = (3 * p.length + 4) + 1 + 1 := by
      simp only [List.length_cons]; omega
    unfold ReadRaw
    rw [hf, ReadRawTo_cons, readRaw_guid]
    cases p with
    | nil => exact absurd rfl hne
    | cons x p =>
      have hrd : Read (x :: p) 38
          = ((x :: p) ++ List.replicate (38 - (x :: p).length) 0, (x :: p).length, none, []) := by
        simp only [Read]
        have h2 : min 38 (x :: p).length = (x :: p).length := by omega
        have h3 : (x :: p).take 38 = x :: p := List.take_of_length_le (by omega)
        have h4 : (x :: p).drop 38 = [] := List.drop_of_length_le (by omega)
        rw [h2, h3, h4]
      rw [readGuidRaw_ok _ _ _ _ _ _ hrd]
      simp

theorem ReadRaw_guid_witness :
    ([103, 104].length = 38 →
      ReadRaw (TagGuid :: ([103, 104] ++ [110]))
        = rawResult.ret { stream := [110], ostream := TagGuid :: [103, 104], err := none }) ∧
    ReadRaw [TagGuid] = rawResult.ret { stream := [], ostream := [TagGuid], err := none } ∧
    ([103, 104] ≠ [] → [103, 104].length < 38 →
      ReadRaw (TagGuid :: [103, 104])
        = rawResult.ret { stream := [], ostream := TagGuid :: ([103, 104] ++ List.replicate (38 - [103, 104].length) 0), err := none }) :=
  ReadRaw_guid [103, 104] [110]

/-! ## C10: no references in simple mode -/

theorem writeStringSliceLoop_encode : ∀ (a : List (List Nat)) (w : writer),
    (∀ s ∈ a, validString s) → w.numbuf.length = 20 →
    ∃ w', w.writeStringSliceLoop a = some w' ∧
      w'.stream = w.stream ++ encodeList (a.map Value.string) ∧ w'.numbuf.length = 20 := by
  intro a
  induction a with
  | nil =>
    intro w _ hbuf
    exact ⟨w, rfl, by rw [List.map_nil, encodeList_nil, List.append_nil], hbuf⟩
  | cons s a ih =>
    intro w ha hbuf
    obtain ⟨w1, hw1, hs1, hl1⟩ :=
      WriteStringWithRef_encode w s (ha s (List.mem_cons_self _ _)) hbuf
    obtain ⟨w2, hw2, hs2, hl2⟩ := ih w1 (fun x hx => ha x (List.mem_cons_of_mem _ hx)) hl1
    refine ⟨w2, ?_, ?_, hl2⟩
    · rw [writer.writeStringSliceLoop, hw1]
      exact hw2
    · rw [hs2, hs1, List.map_cons, encodeList_cons, List.append_assoc]

/-- C10. The referer of a simple writer reports from `writeRef` that nothing
was written, and writes nothing. A slice of strings is therefore written in
full: `a`, the count (left out when the slice is empty), `{`, the encoding of
every string in order, `}`. A slice holding the string `ab` twice is written
as `a2{s2"ab"s2"ab"}`. -/
theorem writeStringSliceWithRef_full (w : writer) (a : List (List Nat))
    (ha : ∀ s ∈ a, validString s) (hn : a.length < 2 ^ 63) (hbuf : w.numbuf.length = 20) :
    w.writeRef = (w, false, none) ∧
    (∃ w', w.writeStringSliceWithRef a = some w' ∧
      w'.stream = w.stream ++ TagList :: ((if a.length > 0 then decimalText a.length else [])
        ++ TagOpenbrace :: (encodeList (a.map Value.string) ++ [TagClosebrace]))) ∧
    ((NewSimpleWriter []).writeStringSliceWithRef [[97, 98], [97, 98]]).map (fun w' => w'.stream)
      = some [97, 50, 123, 115, 50, 34, 97, 98, 34, 115, 50, 34, 97, 98, 34, 125] := by
  refine ⟨writer_writeRef w, ?_, by decide⟩
  unfold writer.writeStringSliceWithRef
  rw [writer_writeRef]
  simp only [and_self, if_true]
  unfold writer.writeStringSlice
  rw [writer_setRef]
  by_cases h0 : a.length > 0
  · obtain ⟨w1, hw1, hs1, hl1⟩ := writeInt_spec (w.WriteByte TagList) a.length hn
      (by simpa [writer.WriteByte] using hbuf)
    obtain ⟨w2, hw2, hs2, _⟩ := writeStringSliceLoop_encode a (w1.WriteByte TagOpenbrace) ha
      (by simpa [writer.WriteByte] using hl1)
    refine ⟨w2.WriteByte TagClosebrace, ?_, ?_⟩
    · simp only [if_pos h0, hw1, hw2]
    · simp only [writer.WriteByte, hs2, hs1, if_pos h0, List.append_assoc, List.singleton_append,
        List.cons_append, List.nil_append]
  · have ha0 : a = [] := by
      cases a with
      | nil => rfl
      | cons x a => simp at h0
    subst ha0
    refine ⟨((w.WriteByte TagList).WriteByte TagOpenbrace).WriteByte TagClosebrace, ?_, ?_⟩
    · simp
    · simp [writer.WriteByte, encodeList_nil]

theorem writeStringSliceWithRef_full_witness :
    (NewSimpleWriter []).writeRef = (NewSimpleWriter [], false, none) ∧
    (∃ w', (NewSimpleWriter []).writeStringSliceWithRef [utf8Bytes "héllo".data, utf8Bytes "héllo".data] = some w' ∧
      w'.stream = (NewSimpleWriter []).stream ++ TagList ::
        ((if [utf8Bytes "héllo".data, utf8Bytes "héllo".data].length > 0
            then decimalText [utf8Bytes "héllo".data, utf8Bytes "héllo".data].length else [])
        ++ TagOpenbrace :: (encodeList
            ([utf8Bytes "héllo".data, utf8Bytes "héllo".data].map Value.string)
          ++ [TagClosebrace]))) ∧
    ((NewSimpleWriter []).writeStringSliceWithRef [[97, 98], [97, 98]]).map (fun w' => w'.stream)
      = some [97, 50, 123, 115, 50, 34, 97, 98, 34, 115, 50, 34, 97, 98, 34, 125] :=
  writeStringSliceWithRef_full (NewSimpleWriter []) [utf8Bytes "héllo".data, utf8Bytes "héllo".data]
    (fun s hs => by
      simp only [List.mem_cons, List.mem_singleton, List.not_mem_nil, or_false, or_self] at hs
      subst hs
      exact ⟨⟨"héllo".data, rfl⟩, by decide⟩)
    (by decide) (by decide)

/-! ## C13: what `ReadInt64` accepts -/

theorem ReadStringDelim_until (delim : Nat) (t : List Nat) : ∀ (text : List Nat),
    delim ∉ text → ReadStringDelim delim (text ++ delim :: t) = (text ++ [delim], none, t) := by
  intro text
  induction text with
  | nil => intro _; simp [ReadStringDelim]
  | cons c text ih =>
    intro h
    simp only [List.mem_cons, not_or] at h
    have hc : c ≠ delim := fun e => h.1 e.symm
    simp [ReadStringDelim, hc, ih h.2]

theorem readUntil_text (r : reader) (tag : Nat) (text t : List Nat) (h : tag ∉ text) :
    reader.readUntil { r with stream := text ++ tag :: t } tag
      = (text, none, { r with stream := t }) := by
  simp [reader.readUntil, ReadStringDelim_until tag t text h]

theorem utf8Bytes_single (c : Char) : utf8Bytes [c] = EncodeRune c.toNat := by
  rw [utf8Bytes_cons]
  simp [utf8Bytes]

/-- C13. `ReadInt64` by first byte, for every choice of the library
parameters and every rest `t` of the stream: `n` gives 0 with `NilError`;
`e` and `f` give 0 and `t` gives 1 with no error; a digit gives its value;
`u` followed by one character gives its code point; a counted string gives
what `strconv.ParseInt` returns on its text; and each of the tags
`N I D T b g a m c o E` gives 0 with the error `cannot convert type <name
of the tag> to type int64`. -/
theorem ReadInt64_by_tag (d : Decoders) (t : List Nat) :
    reader.ReadInt64 d (NewSimpleReader (TagNull :: t))
      = (0, some error.NilError, NewSimpleReader t) ∧
    reader.ReadInt64 d (NewSimpleReader (TagEmpty :: t)) = (0, none, NewSimpleReader t) ∧
    reader.ReadInt64 d (NewSimpleReader (TagFalse :: t)) = (0, none, NewSimpleReader t) ∧
    reader.ReadInt64 d (NewSimpleReader (TagTrue :: t)) = (1, none, NewSimpleReader t) ∧
    (∀ k : Nat, k ≤ 9 →
      reader.ReadInt64 d (NewSimpleReader ((48 + k) :: t)) = ((k : Int), none, NewSimpleReader t)) ∧
    (∀ c : Char,
      reader.ReadInt64 d (NewSimpleReader (TagUTF8Char :: (utf8Bytes [c] ++ t)))
        = ((c.toNat : Int), none, NewSimpleReader t)) ∧
    (∀ cs : List Char, cs ≠ [] → (utf8Bytes cs).length < 2 ^ 63 →
      reader.ReadInt64 d (NewSimpleReader (TagString :: (decimalText (ulen (utf8Bytes cs))
          ++ TagQuote :: (utf8Bytes cs ++ TagQuote :: t))))
        = ((d.ParseInt (utf8Bytes cs)).1, (d.ParseInt (utf8Bytes cs)).2, NewSimpleReader t)) ∧
    (∀ p ∈ [(TagNaN, "NaN"), (TagInfinity, "Infinity"), (TagDate, "time.Time"),
        (TagTime, "time.Time"), (TagBytes, "[]byte"), (TagGuid, "uuid.UUID"), (TagList, "slice"),
        (TagMap, "map"), (TagClass, "struct type"), (TagObject, "struct value"),
        (TagError, "error")],
      reader.ReadInt64 d (NewSimpleReader (p.1 :: t))
        = (0, some (error.cannotConvert p.2 "int64"), NewSimpleReader t)) := by
  refine ⟨rfl, rfl, rfl, rfl, ?_, ?_, ?_, ?_⟩
  · intro k hk
    have h1 : 48 ≤ 48 + k ∧ 48 + k ≤ 57 := by omega
    simp only [reader.ReadInt64, NewSimpleReader, if_pos h1]
    congr 2
    omega
  · intro c
    have h1 : ¬ (48 ≤ TagUTF8Char ∧ TagUTF8Char ≤ 57) := by decide
    simp only [reader.ReadInt64, NewSimpleReader, if_neg h1, utf8Bytes_single,
      ReadRune_EncodeRune]
    rfl
  · intro cs hne hlen
    have hs := readStringWithoutTag_spec cs hne t hlen (NewSimpleReader [])
    simp only [NewSimpleReader] at hs
    have h1 : ¬ (48 ≤ TagString ∧ TagString ≤ 57) := by decide
    simp only [reader.ReadInt64, NewSimpleReader, if_neg h1]
    simp only [show ¬ (TagString = TagInteger ∨ TagString = TagLong) by decide,
      show ¬ (TagString = TagDouble) by decide, show ¬ (TagString = TagNull) by decide,
      show ¬ (TagString = TagEmpty ∨ TagString = TagFalse) by decide,
      show ¬ (TagString = TagTrue) by decide, show ¬ (TagString = TagUTF8Char) by decide,
      if_false, if_true, hs]
  · intro p hp
    simp only [List.mem_cons, List.mem_singleton, List.not_mem_nil, or_false] at hp
    rcases hp with rfl | rfl | rfl | rfl | rfl | rfl | rfl | rfl | rfl | rfl | rfl <;> rfl

theorem ReadInt64_by_tag_witness :
    reader.ReadInt64
        { ParseInt := fun _ => (42, none), Float64Int64 := fun s => (0, none, s),
          DateString := fun s => ([], none, s), TimeString := fun s => ([], none, s),
          UUIDString := fun s => ([], none, s) }
        (NewSimpleReader (TagString :: (decimalText (ulen (utf8Bytes "42".data))
          ++ TagQuote :: (utf8Bytes "42".data ++ TagQuote :: [110]))))
      = (42, none, NewSimpleReader [110]) :=
  (ReadInt64_by_tag _ [110]).2.2.2.2.2.2.1 "42".data (by decide) (by decide)

/-! ## C14: what `ReadBool` makes of numbers -/

/-- C14 (what the code does). `ReadBool` gives `false` on the digit `0` and
`true` on the digits `1` to `9`; on `i` or `l` followed by the decimal text
of an `int64` value `v` and `;` it gives `v ≠ 0`; on `N`, `I+` and `I-` it
gives `true`; on `e` and `f` it gives `false`. The integer is accumulated in
an `int64`, which wraps: on `l18446744073709551616;`, the text of `2^64`, it
gives `false` with no error. -/
theorem ReadBool_numbers {F T O : Type} (lib : Library F T O) (t : List Nat) :
    reader.ReadBool lib (NewSimpleReader (48 :: t)) = (false, none, NewSimpleReader t) ∧
    (∀ k : Nat, 1 ≤ k → k ≤ 9 →
      reader.ReadBool lib (NewSimpleReader ((48 + k) :: t)) = (true, none, NewSimpleReader t)) ∧
    (∀ v : Int, isInt64 v → ∀ tag, tag = TagInteger ∨ tag = TagLong →
      reader.ReadBool lib (NewSimpleReader (tag :: (decimalText v ++ TagSemicolon :: t)))
        = (decide (v ≠ 0), none, NewSimpleReader t)) ∧
    reader.ReadBool lib (NewSimpleReader (TagNaN :: t)) = (true, none, NewSimpleReader t) ∧
    reader.ReadBool lib (NewSimpleReader (TagInfinity :: TagPos :: t))
      = (true, none, NewSimpleReader t) ∧
    reader.ReadBool lib (NewSimpleReader (TagInfinity :: TagNeg :: t))
      = (true, none, NewSimpleReader t) ∧
    reader.ReadBool lib (NewSimpleReader (TagEmpty :: t)) = (false, none, NewSimpleReader t) ∧
    reader.ReadBool lib (NewSimpleReader (TagFalse :: t)) = (false, none, NewSimpleReader t) ∧
    reader.ReadBool lib (NewSimpleReader (TagLong :: ([49, 56, 52, 52, 54, 55, 52, 52, 48, 55,
        51, 55, 48, 57, 53, 53, 49, 54, 49, 54] ++ TagSemicolon :: t)))
      = (false, none, NewSimpleReader t) := by
  refine ⟨rfl, ?_, ?_, rfl, rfl, rfl, rfl, rfl, ?_⟩
  · intro k h1 h9
    have h0 : ¬ (48 + k = 48) := by omega
    have hk : 49 ≤ 48 + k ∧ 48 + k ≤ 57 := by omega
    simp only [reader.ReadBool, NewSimpleReader, if_neg h0, if_pos hk]
  · intro v hv tag htag
    have h0 : ¬ (tag = 48) := by rcases htag with rfl | rfl <;> decide
    have h1 : ¬ (49 ≤ tag ∧ tag ≤ 57) := by rcases htag with rfl | rfl <;> decide
    simp only [reader.ReadBool, NewSimpleReader, if_neg h0, if_neg h1, if_pos htag,
      reader.ReadInt64WithoutTag,
      readInt_decimalText TagSemicolon (by decide) (by decide) v hv t]
  · have h0 : ¬ (TagLong = 48) := by decide
    have h1 : ¬ (49 ≤ TagLong ∧ TagLong ≤ 57) := by decide
    have h2 : TagLong = TagInteger ∨ TagLong = TagLong := Or.inr rfl
    have hr : readInt TagSemicolon ([49, 56, 52, 52, 54, 55, 52, 52, 48, 55,
        51, 55, 48, 57, 53, 53, 49, 54, 49, 54] ++ TagSemicolon :: t) = (0, none, t) := by
      have hrd : readInt TagSemicolon ([49, 56, 52, 52, 54, 55, 52, 52, 48, 55,
          51, 55, 48, 57, 53, 53, 49, 54, 49, 54] ++ TagSemicolon :: t)
          = readIntLoop TagSemicolon 1 ([56, 52, 52, 54, 55, 52, 52, 48, 55,
            51, 55, 48, 57, 53, 53, 49, 54, 49, 54] ++ TagSemicolon :: t) 49 0 := by
        simp [readInt]
      have hds : ∀ x ∈ ([56, 52, 52, 54, 55, 52, 52, 48, 55,
          51, 55, 48, 57, 53, 53, 49, 54, 49, 54] : List Nat), 48 ≤ x ∧ x ≤ 57 := by
        intro x hx
        simp only [List.mem_cons, List.mem_singleton, List.not_mem_nil, or_false] at hx
        omega
      have hfold : ([49, 56, 52, 52, 54, 55, 52, 52, 48, 55,
          51, 55, 48, 57, 53, 53, 49, 54, 49, 54] : List Nat).foldl
          (fun (i : Int) (b : Nat) =>
            wrap64 (wrap64 (i * 10) + wrap64 (((b + 256 - 48) % 256 : Nat) * (1 : Int)))) 0
          = 0 := by
        simp only [List.foldl, wrap64]
        norm_num
      rw [hrd, readIntLoop_digits TagSemicolon 1 t (by decide) _ 49 0 (by decide) hds, hfold]
    simp only [reader.ReadBool, NewSimpleReader, if_neg h0, if_neg h1, if_pos h2,
      reader.ReadInt64WithoutTag, hr]
    rfl

theorem ReadBool_numbers_witness :
    reader.ReadBool
        exampleLibrary
        (NewSimpleReader (TagLong :: (decimalText (-9223372036854775808) ++ TagSemicolon :: [110])))
      = (decide ((-9223372036854775808 : Int) ≠ 0), none, NewSimpleReader [110]) :=
  (ReadBool_numbers _ [110]).2.2.1 (-9223372036854775808) (by decide) TagLong (Or.inr rfl)

/-! ## C15: what `ReadString` makes of scalars and blobs -/

theorem Read_prefix (b : List Nat) (x : Nat) (t : List Nat) :
    Read (b ++ x :: t) b.length = (b, b.length, none, x :: t) := by
  cases b with
  | nil => simp [Read]
  | cons y b =>
    have h := Read_full ((y :: b) ++ x :: t) (y :: b).length (by simp)
      (by simp only [List.length_append]; omega)
    rw [h, List.take_left, List.drop_left]

theorem ReadBytesWithoutTag_blob (r : reader) (b t : List Nat) (hb : b.length < 2 ^ 63) :
    reader.ReadBytesWithoutTag
        { r with stream := decimalText b.length ++ TagQuote :: (b ++ TagQuote :: t) }
      = some (b, none, { r with stream := t }) := by
  have hint : isInt64 (b.length : Int) := by unfold isInt64; omega
  have hri := readInt_decimalText TagQuote (by decide) (by decide) _ hint
    (b ++ TagQuote :: t)
  unfold reader.ReadBytesWithoutTag
  simp only [ReadInteger_eq, hri]
  have hneg : ¬ ((b.length : Int) < 0) := by omega
  rw [if_neg hneg, Int.toNat_ofNat, Read_prefix]
  cases r with
  | mk s rf => cases rf; simp [reader.CheckTag, unexpectedTag, reader.setRef]

/-- C15. `ReadString` by first byte, for every choice of the library
parameters and every rest `t` of the stream: a digit gives the one-character
string of that digit; `i`, `l` or `d` followed by a text without `;` and then
`;` gives that text; `t`, `f` and `N` give `true`, `false` and `NaN`; `e`
gives the empty string; `n` gives the empty string with `NilError`; and a
blob `b<count>"<bytes>"` gives its bytes, with the error `bad utf-8 encoding`
exactly when `utf8.Valid` rejects them. -/
theorem ReadString_scalars (d : Decoders) (t : List Nat) :
    (∀ k : Nat, k ≤ 9 →
      reader.ReadString d (NewSimpleReader ((48 + k) :: t))
        = some ([48 + k], none, NewSimpleReader t)) ∧
    (∀ tag, tag = TagInteger ∨ tag = TagLong ∨ tag = TagDouble →
      ∀ text : List Nat, TagSemicolon ∉ text →
      reader.ReadString d (NewSimpleReader (tag :: (text ++ TagSemicolon :: t)))
        = some (text, none, NewSimpleReader t)) ∧
    reader.ReadString d (NewSimpleReader (TagTrue :: t))
      = some (utf8Bytes "true".data, none, NewSimpleReader t) ∧
    reader.ReadString d (NewSimpleReader (TagFalse :: t))
      = some (utf8Bytes "false".data, none, NewSimpleReader t) ∧
    reader.ReadString d (NewSimpleReader (TagNaN :: t))
      = some (utf8Bytes "NaN".data, none, NewSimpleReader t) ∧
    reader.ReadString d (NewSimpleReader (TagEmpty :: t)) = some ([], none, NewSimpleReader t) ∧
    reader.ReadString d (NewSimpleReader (TagNull :: t))
      = some ([], some error.NilError, NewSimpleReader t) ∧
    (∀ b : List Nat, b.length < 2 ^ 63 →
      reader.ReadString d (NewSimpleReader (TagBytes :: (decimalText b.length
          ++ TagQuote :: (b ++ TagQuote :: t))))
        = some (b, if Valid b = true then none else some error.badEncodeError,
            NewSimpleReader t)) := by
  refine ⟨?_, ?_, rfl, rfl, rfl, rfl, rfl, ?_⟩
  · intro k hk
    have h1 : 48 ≤ 48 + k ∧ 48 + k ≤ 57 := by omega
    simp only [reader.ReadString, NewSimpleReader, if_pos h1]
  · intro tag htag text htext
    have h1 : ¬ (48 ≤ tag ∧ tag ≤ 57) := by rcases htag with rfl | rfl | rfl <;> decide
    have hu := readUntil_text (NewSimpleReader []) TagSemicolon text t htext
    simp only [NewSimpleReader] at hu
    simp only [reader.ReadString, NewSimpleReader, if_neg h1, if_pos htag, hu]
  · intro b hb
    have hbl := ReadBytesWithoutTag_blob (NewSimpleReader []) b t hb
    simp only [NewSimpleReader] at hbl
    have h1 : ¬ (48 ≤ TagBytes ∧ TagBytes ≤ 57) := by decide
    simp only [reader.ReadString, NewSimpleReader, if_neg h1]
    simp only [show ¬ (TagBytes = TagInteger ∨ TagBytes = TagLong ∨ TagBytes = TagDouble)
        by decide, show ¬ (TagBytes = TagNull) by decide, show ¬ (TagBytes = TagEmpty) by decide,
      show ¬ (TagBytes = TagTrue) by decide, show ¬ (TagBytes = TagFalse) by decide,
      show ¬ (TagBytes = TagNaN) by decide, show ¬ (TagBytes = TagInfinity) by decide,
      show ¬ (TagBytes = TagDate) by decide, show ¬ (TagBytes = TagTime) by decide,
      show ¬ (TagBytes = TagUTF8Char) by decide, show ¬ (TagBytes = TagString) by decide,
      show ¬ (TagBytes = TagGuid) by decide, if_false, if_true, hbl]
    by_cases hv : Valid b = true
    · simp [hv]
    · simp [hv]

theorem ReadString_scalars_witness :
    reader.ReadString exampleDecoders (NewSimpleReader (TagBytes :: (decimalText [104, 255].length
          ++ TagQuote :: ([104, 255] ++ TagQuote :: [110]))))
        = some ([104, 255], if Valid [104, 255] = true then none else some error.badEncodeError,
            NewSimpleReader [110]) :=
  (ReadString_scalars exampleDecoders [110]).2.2.2.2.2.2.2 [104, 255] (by decide)

/-! ## C16: the three forms `writeTime` chooses from -/

theorem formatDate_cons (year month day : Int) :
    ∃ tl, formatDate year month day = TagDate :: tl ∧ tl.length = 8 :=
  ⟨_, rfl, rfl⟩

theorem formatTime_cons (hour min sec nsec : Int) :
    ∃ tl, formatTime hour min sec nsec = TagTime :: tl ∧ 6 ≤ tl.length := by
  unfold formatTime
  by_cases h1 : nsec > 0
  · by_cases h2 : Int.tmod nsec 1000000 = 0
    · exact ⟨_, by simp only [if_pos h1, if_pos h2]; rfl, by simp⟩
    · by_cases h3 : Int.tmod nsec 1000 = 0
      · exact ⟨_, by simp only [if_pos h1, if_neg h2, if_pos h3]; rfl, by simp⟩
      · exact ⟨_, by simp only [if_pos h1, if_neg h2, if_neg h3]; rfl, by simp⟩
  · exact ⟨_, by simp only [if_neg h1]; rfl, by simp⟩

/-- C16 (as stated, refuted). The timestamp 0001-01-01 00:00:00 UTC has the
date 0001-01-01, and `writeTime` writes it in the date-only form
`D00010101Z`, which is not the time-only form. -/
theorem writeTime_zero_is_date_only :
    ∃ t : Time, (t.year = 1 ∧ t.month = 1 ∧ t.day = 1) ∧
      ((NewSimpleWriter []).writeTime t).stream
        = formatDate t.year t.month t.day ++ [TagUTC] ∧
      ((NewSimpleWriter []).writeTime t).stream
        ≠ formatTime t.hour t.min t.sec t.nsec ++ [TagUTC] :=
  ⟨{ year := 1, month := 1, day := 1, hour := 0, min := 0, sec := 0, nsec := 0, utc := true },
    by decide, by decide, by decide⟩

/-- C16 (amended). For every timestamp `t`, with the terminator `Z` for UTC
and `;` otherwise: `writeTime` appends the date-only form exactly when hour,
minute, second and nanosecond are all zero; it appends the time-only form
exactly when they are not all zero and the date is 0001-01-01; and it appends
the combined form exactly in the remaining case. -/
theorem writeTime_forms (w : writer) (t : Time) :
    ((w.writeTime t).stream
        = w.stream ++ (formatDate t.year t.month t.day
            ++ [if t.utc then TagUTC else TagSemicolon])
      ↔ (t.hour = 0 ∧ t.min = 0 ∧ t.sec = 0 ∧ t.nsec = 0)) ∧
    ((w.writeTime t).stream
        = w.stream ++ (formatTime t.hour t.min t.sec t.nsec
            ++ [if t.utc then TagUTC else TagSemicolon])
      ↔ (¬ (t.hour = 0 ∧ t.min = 0 ∧ t.sec = 0 ∧ t.nsec = 0)
          ∧ (t.year = 1 ∧ t.month = 1 ∧ t.day = 1))) ∧
    ((w.writeTime t).stream
        = w.stream ++ (formatDate t.year t.month t.day ++ (formatTime t.hour t.min t.sec t.nsec
            ++ [if t.utc then TagUTC else TagSemicolon]))
      ↔ (¬ (t.hour = 0 ∧ t.min = 0 ∧ t.sec = 0 ∧ t.nsec = 0)
          ∧ ¬ (t.year = 1 ∧ t.month = 1 ∧ t.day = 1))) := by
  obtain ⟨dt, hd, hdl⟩ := formatDate_cons t.year t.month t.day
  obtain ⟨tt, ht, htl⟩ := formatTime_cons t.hour t.min t.sec t.nsec
  have hDT : TagDate ≠ TagTime := by decide
  by_cases hz : t.hour = 0 ∧ t.min = 0 ∧ t.sec = 0 ∧ t.nsec = 0
  · have hout : (w.writeTime t).stream
        = w.stream ++ (formatDate t.year t.month t.day
            ++ [if t.utc then TagUTC else TagSemicolon]) := by
      simp only [writer.writeTime, writer_setRef, if_pos hz, writer.Write, writer.WriteByte,
        List.append_assoc]
    rw [hout]
    refine ⟨⟨fun _ => hz, fun _ => rfl⟩, ⟨fun h => ?_, fun h => absurd hz h.1⟩,
      ⟨fun h => ?_, fun h => absurd hz h.1⟩⟩
    · rw [hd, ht] at h
      simp only [List.append_cancel_left_eq, List.cons_append, List.cons.injEq] at h
      exact absurd h.1 hDT
    · simp only [List.append_cancel_left_eq] at h
      have hl := congrArg List.length h
      rw [ht] at hl
      simp only [List.length_append, List.length_cons, List.length_nil] at hl
      omega
  · by_cases h1 : t.year = 1 ∧ t.month = 1 ∧ t.day = 1
    · have hout : (w.writeTime t).stream
          = w.stream ++ (formatTime t.hour t.min t.sec t.nsec
              ++ [if t.utc then TagUTC else TagSemicolon]) := by
        simp only [writer.writeTime, writer_setRef, if_neg hz, if_pos h1, writer.Write,
          writer.WriteByte, List.append_assoc]
      rw [hout]
      refine ⟨⟨fun h => ?_, fun h => absurd h hz⟩, ⟨fun _ => ⟨hz, h1⟩, fun _ => rfl⟩,
        ⟨fun h => ?_, fun h => absurd h1 h.2⟩⟩
      · rw [hd, ht] at h
        simp only [List.append_cancel_left_eq, List.cons_append, List.cons.injEq] at h
        exact absurd h.1.symm hDT
      · rw [hd, ht] at h
        simp only [List.append_cancel_left_eq, List.cons_append, List.cons.injEq] at h
        exact absurd h.1.symm hDT
    · have hout : (w.writeTime t).stream
          = w.stream ++ (formatDate t.year t.month t.day
              ++ (formatTime t.hour t.min t.sec t.nsec
                ++ [if t.utc then TagUTC else TagSemicolon])) := by
        simp only [writer.writeTime, writer_setRef, if_neg hz, if_neg h1, writer.Write,
          writer.WriteByte, List.append_assoc]
      rw [hout]
      refine ⟨⟨fun h => ?_, fun h => absurd h hz⟩, ⟨fun h => ?_, fun h => absurd h.2 h1⟩,
        ⟨fun _ => ⟨hz, h1⟩, fun _ => rfl⟩⟩
      · simp only [List.append_cancel_left_eq] at h
        have hl := congrArg List.length h
        rw [ht] at hl
        simp only [List.length_append, List.length_cons, List.length_nil] at hl
        omega
      · rw [hd, ht] at h
        simp only [List.append_cancel_left_eq, List.cons_append, List.cons.injEq] at h
        exact absurd h.1 hDT

/-! ## C17: the bytes of `formatTime` -/

theorem toByte_digit (n k : Nat) (kz : Int) (hkz : kz = (k : Int)) (hk : 0 < k) :
    toByte (48 + Int.tmod (Int.tdiv (n : Int) kz) 10) = 48 + n / k % 10 := by
  subst hkz
  have h0 : (0 : Int) ≤ (n : Int) / (k : Int) := Int.ediv_nonneg (Int.ofNat_nonneg n) (by omega)
  rw [Int.tdiv_eq_ediv (Int.ofNat_nonneg n) (by omega), Int.tmod_eq_emod h0 (by decide)]
  unfold toByte
  have e : ((n : Int) / (k : Int)) = ((n / k : Nat) : Int) := by norm_cast
  rw [e]
  omega

theorem toByte_digit_low (n : Nat) : toByte (48 + Int.tmod (n : Int) 10) = 48 + n % 10 := by
  rw [Int.tmod_eq_emod (Int.ofNat_nonneg n) (by decide)]
  unfold toByte
  omega

theorem zeroPad_one (n : Nat) (h : n < 10) : zeroPad 1 n = [48 + n] := by
  unfold zeroPad
  rw [decimalText_ofNat, natText_lt n h]
  simp [Nat.add_comm]

theorem zeroPad_succ (k n : Nat) (hk : 0 < k) (h : n < 10 ^ (k + 1)) :
    zeroPad (k + 1) n = zeroPad k (n / 10) ++ [48 + n % 10] := by
  unfold zeroPad
  rw [decimalText_ofNat, decimalText_ofNat]
  by_cases h10 : n < 10
  · have h0 : n / 10 = 0 := by omega
    have hm : n % 10 = n := by omega
    rw [natText_lt n h10, h0, natText_lt 0 (by decide), hm]
    obtain ⟨j, rfl⟩ : ∃ j, k = j + 1 := ⟨k - 1, by omega⟩
    simp only [List.length_singleton, Nat.add_sub_cancel, Nat.zero_add, List.append_assoc,
      List.singleton_append]
    rw [List.replicate_succ']
    simp [Nat.add_comm]
  · have hq : n / 10 < 10 ^ k := by
      rw [Nat.pow_succ] at h
      omega
    have hl := natText_length (n / 10) k hq hk
    rw [natText_ge n (by omega)]
    simp only [List.length_append, List.length_singleton, List.append_assoc]
    have e : k + 1 - (((Nat.toDigits 10 (n / 10)).map Char.toNat).length + 1)
        = k - ((Nat.toDigits 10 (n / 10)).map Char.toNat).length := by omega
    rw [e, Nat.add_comm (n % 10) 48]

theorem zeroPad_two (n : Nat) (h : n < 100) : zeroPad 2 n = [48 + n / 10 % 10, 48 + n % 10] := by
  rw [zeroPad_succ 1 n (by decide) (by omega), zeroPad_one (n / 10) (by omega)]
  have e : n / 10 % 10 = n / 10 := by omega
  rw [e]
  rfl

theorem zeroPad_nine (n : Nat) (h : n < 1000000000) :
    zeroPad 9 n = [48 + n / 100000000 % 10, 48 + n / 10000000 % 10, 48 + n / 1000000 % 10,
      48 + n / 100000 % 10, 48 + n / 10000 % 10, 48 + n / 1000 % 10, 48 + n / 100 % 10,
      48 + n / 10 % 10, 48 + n % 10] := by
  rw [zeroPad_succ 8 n (by decide) (by omega),
    zeroPad_succ 7 _ (by decide) (by omega),
    zeroPad_succ 6 _ (by decide) (by omega),
    zeroPad_succ 5 _ (by decide) (by omega),
    zeroPad_succ 4 _ (by decide) (by omega),
    zeroPad_succ 3 _ (by decide) (by omega),
    zeroPad_succ 2 _ (by decide) (by omega),
    zeroPad_succ 1 _ (by decide) (by omega),
    zeroPad_one _ (by omega)]
  simp only [Nat.div_div_eq_div_mul, List.append_assoc, List.singleton_append, Nat.reduceMul]
  have e : n / 100000000 % 10 = n / 100000000 := by omega
  rw [e]
  rfl

/-- The bytes of `formatTime` on natural numbers, digit by digit. -/
theorem formatTime_nat (hour min sec nsec : Nat) :
    formatTime hour min sec nsec =
      [TagTime, 48 + hour / 10 % 10, 48 + hour % 10, 48 + min / 10 % 10, 48 + min % 10,
        48 + sec / 10 % 10, 48 + sec % 10]
      ++ (if nsec = 0 then []
          else if nsec % 1000000 = 0 then
            [TagPoint, 48 + nsec / 100000000 % 10, 48 + nsec / 10000000 % 10,
              48 + nsec / 1000000 % 10]
          else if nsec % 1000 = 0 then
            [TagPoint, 48 + nsec / 100000000 % 10, 48 + nsec / 10000000 % 10,
              48 + nsec / 1000000 % 10, 48 + nsec / 100000 % 10, 48 + nsec / 10000 % 10,
              48 + nsec / 1000 % 10]
          else
            [TagPoint, 48 + nsec / 100000000 % 10, 48 + nsec / 10000000 % 10,
              48 + nsec / 1000000 % 10, 48 + nsec / 100000 % 10, 48 + nsec / 10000 % 10,
              48 + nsec / 1000 % 10, 48 + nsec / 100 % 10, 48 + nsec / 10 % 10,
              48 + nsec % 10]) := by
  unfold formatTime
  simp only [toByte_digit _ 10 10 rfl (by decide), toByte_digit _ 100 100 rfl (by decide),
    toByte_digit _ 1000 1000 rfl (by decide), toByte_digit _ 10000 10000 rfl (by decide),
    toByte_digit _ 100000 100000 rfl (by decide), toByte_digit _ 1000000 1000000 rfl (by decide),
    toByte_digit _ 10000000 10000000 rfl (by decide),
    toByte_digit _ 100000000 100000000 rfl (by decide), toByte_digit_low]
  have m1 : Int.tmod (nsec : Int) 1000000 = ((nsec % 1000000 : Nat) : Int) := by
    rw [Int.tmod_eq_emod (Int.ofNat_nonneg nsec) (by decide)]; norm_cast
  have m2 : Int.tmod (nsec : Int) 1000 = ((nsec % 1000 : Nat) : Int) := by
    rw [Int.tmod_eq_emod (Int.ofNat_nonneg nsec) (by decide)]; norm_cast
  rw [m1, m2]
  by_cases h0 : nsec = 0
  · subst h0
    simp
  · have hpos : (nsec : Int) > 0 := by omega
    rw [if_pos hpos, if_neg h0]
    by_cases h1 : nsec % 1000000 = 0
    · have h1' : ((nsec % 1000000 : Nat) : Int) = 0 := by omega
      rw [if_pos h1, if_pos h1']
    · have h1' : ¬ ((nsec % 1000000 : Nat) : Int) = 0 := by omega
      rw [if_neg h1, if_neg h1']
      by_cases h2 : nsec % 1000 = 0
      · have h2' : ((nsec % 1000 : Nat) : Int) = 0 := by omega
        rw [if_pos h2, if_pos h2']
      · have h2' : ¬ ((nsec % 1000 : Nat) : Int) = 0 := by omega
        rw [if_neg h2, if_neg h2']

/-- C17. For hour up to 23, minute and second up to 59 and nanosecond below
`10^9`, `formatTime` gives `T`, the hour, minute and second as two digits
each, and then: nothing when the nanosecond is 0; `.` and the first three of
the nine zero-padded digits of the nanosecond when it is a multiple of
`10^6`; `.` and the first six when it is a multiple of `10^3` only; `.` and
all nine otherwise. -/
theorem formatTime_exact (hour min sec nsec : Nat) (hh : hour ≤ 23) (hm : min ≤ 59)
    (hs : sec ≤ 59) (hn : nsec < 1000000000) :
    formatTime hour min sec nsec =
      TagTime :: (zeroPad 2 hour ++ zeroPad 2 min ++ zeroPad 2 sec
        ++ (if nsec = 0 then []
            else if nsec % 1000000 = 0 then TagPoint :: (zeroPad 9 nsec).take 3
            else if nsec % 1000 = 0 then TagPoint :: (zeroPad 9 nsec).take 6
            else TagPoint :: zeroPad 9 nsec)) := by
  rw [formatTime_nat, zeroPad_two hour (by omega), zeroPad_two min (by omega),
    zeroPad_two sec (by omega), zeroPad_nine nsec hn]
  by_cases h0 : nsec = 0
  · simp [h0]
  · by_cases h1 : nsec % 1000000 = 0
    · simp [h0, h1]
    · by_cases h2 : nsec % 1000 = 0
      · simp [h0, h1, h2]
      · simp [h0, h1, h2]

theorem formatTime_exact_witness :
    formatTime (23 : Nat) (59 : Nat) (7 : Nat) (120000 : Nat) =
      TagTime :: (zeroPad 2 23 ++ zeroPad 2 59 ++ zeroPad 2 7
        ++ (if 120000 = 0 then []
            else if 120000 % 1000000 = 0 then TagPoint :: (zeroPad 9 120000).take 3
            else if 120000 % 1000 = 0 then TagPoint :: (zeroPad 9 120000).take 6
            else TagPoint :: zeroPad 9 120000)) :=
  formatTime_exact 23 59 7 120000 (by decide) (by decide) (by decide) (by decide)

/-! ## C18: dates and times read back -/

/-- The bytes of `formatDate` on natural numbers, digit by digit. -/
theorem formatDate_nat (year month day : Nat) :
    formatDate year month day =
      [TagDate, 48 + year / 1000 % 10, 48 + year / 100 % 10, 48 + year / 10 % 10, 48 + year % 10,
        48 + month / 10 % 10, 48 + month % 10, 48 + day / 10 % 10, 48 + day % 10] := by
  unfold formatDate
  simp only [toByte_digit _ 10 10 rfl (by decide), toByte_digit _ 100 100 rfl (by decide),
    toByte_digit _ 1000 1000 rfl (by decide), toByte_digit_low]

theorem byteDigit_digit (a : Nat) (h : a < 10) : byteDigit (48 + a) = (a : Int) := by
  unfold byteDigit
  congr 1
  omega

theorem readDateDigits_digits (a b c d e f g h : Nat) (ha : a < 10) (hb : b < 10) (hc : c < 10)
    (hd : d < 10) (he : e < 10) (hf : f < 10) (hg : g < 10) (hh : h < 10) (x : Nat)
    (rest : List Nat) :
    readDateDigits ((48 + a) :: (48 + b) :: (48 + c) :: (48 + d) :: (48 + e) :: (48 + f)
        :: (48 + g) :: (48 + h) :: x :: rest)
      = ((((a : Int) * 10 + b) * 10 + c) * 10 + d, (e : Int) * 10 + f, (g : Int) * 10 + h, x,
          none, rest) := by
  simp only [readDateDigits, ReadByte, byteDigit_digit _ ha, byteDigit_digit _ hb,
    byteDigit_digit _ hc, byteDigit_digit _ hd, byteDigit_digit _ he, byteDigit_digit _ hf,
    byteDigit_digit _ hg, byteDigit_digit _ hh]

theorem readTimeClock_digits (a b c d e f : Nat) (ha : a < 10) (hb : b < 10) (hc : c < 10)
    (hd : d < 10) (he : e < 10) (hf : f < 10) (x : Nat) (rest : List Nat) :
    readTimeClock ((48 + a) :: (48 + b) :: (48 + c) :: (48 + d) :: (48 + e) :: (48 + f)
        :: x :: rest)
      = ((a : Int) * 10 + b, (c : Int) * 10 + d, (e : Int) * 10 + f, x, none, rest) := by
  simp only [readTimeClock, ReadByte, byteDigit_digit _ ha, byteDigit_digit _ hb,
    byteDigit_digit _ hc, byteDigit_digit _ hd, byteDigit_digit _ he, byteDigit_digit _ hf]

theorem readTimeMilli_digits (a b c : Nat) (ha : a < 10) (hb : b < 10) (hc : c < 10) (x : Nat)
    (rest : List Nat) :
    readTimeMilli ((48 + a) :: (48 + b) :: (48 + c) :: x :: rest)
      = (((a : Int) * 10 + b) * 10 + c, x, none, rest) := by
  simp only [readTimeMilli, ReadByte, byteDigit_digit _ ha, byteDigit_digit _ hb,
    byteDigit_digit _ hc]

theorem readTimeGroup_digits (n : Int) (a b c : Nat) (ha : a < 10) (hb : b < 10) (hc : c < 10)
    (x : Nat) (rest : List Nat) :
    readTimeGroup n (48 + a) ((48 + b) :: (48 + c) :: x :: rest)
      = (((n * 10 + a) * 10 + b) * 10 + c, x, none, rest) := by
  have h1 : 48 ≤ 48 + a ∧ 48 + a ≤ 57 := by omega
  simp only [readTimeGroup, if_pos h1, ReadByte, byteDigit_digit _ ha, byteDigit_digit _ hb,
    byteDigit_digit _ hc]

theorem readTimeGroup_end (n : Int) (x : Nat) (hx : x = TagUTC ∨ x = TagSemicolon)
    (rest : List Nat) : readTimeGroup n x rest = (n * 1000, x, none, rest) := by
  have h1 : ¬ (48 ≤ x ∧ x ≤ 57) := by rcases hx with rfl | rfl <;> decide
  simp only [readTimeGroup, if_neg h1]

/-- What `readTime` makes of the bytes of `formatTime` after the `T`. -/
theorem readTime_formatTime (hour min sec nsec : Nat) (hh : hour ≤ 99) (hm : min ≤ 99)
    (hs : sec ≤ 99) (hn : nsec < 1000000000) (term : Nat)
    (hterm : term = TagUTC ∨ term = TagSemicolon) (t : List Nat) :
    readTime ((formatTime hour min sec nsec ++ term :: t).drop 1)
      = ((hour : Int), (min : Int), (sec : Int), (nsec : Int), term, none, t) := by
  have hpt : term ≠ TagPoint := by rcases hterm with rfl | rfl <;> decide
  have hclock : ∀ (x : Nat) (rest : List Nat),
      readTimeClock ((48 + hour / 10 % 10) :: (48 + hour % 10) :: (48 + min / 10 % 10)
          :: (48 + min % 10) :: (48 + sec / 10 % 10) :: (48 + sec % 10) :: x :: rest)
        = ((hour : Int), (min : Int), (sec : Int), x, none, rest) := by
    intro x rest
    rw [readTimeClock_digits _ _ _ _ _ _ (by omega) (by omega) (by omega) (by omega) (by omega)
      (by omega)]
    congr 1
    · omega
    · congr 1
      · omega
      · congr 1
        omega
  rw [formatTime_nat]
  by_cases h0 : nsec = 0
  · rw [if_pos h0]
    simp only [List.append_nil, List.cons_append, List.nil_append, List.drop_succ_cons,
      List.drop_zero]
    unfold readTime
    rw [hclock]
    simp only [if_neg hpt, h0]
    rfl
  · rw [if_neg h0]
    by_cases h1 : nsec % 1000000 = 0
    · rw [if_pos h1]
      simp only [List.cons_append, List.nil_append, List.drop_succ_cons, List.drop_zero]
      unfold readTime
      rw [hclock]
      simp only [if_true]
      rw [readTimeMilli_digits _ _ _ (by omega) (by omega) (by omega)]
      simp only [readTimeGroup_end _ term hterm]
      congr 4
      omega
    · rw [if_neg h1]
      by_cases h2 : nsec % 1000 = 0
      · rw [if_pos h2]
        simp only [List.cons_append, List.nil_append, List.drop_succ_cons, List.drop_zero]
        unfold readTime
        rw [hclock]
        simp only [if_true]
        rw [readTimeMilli_digits _ _ _ (by omega) (by omega) (by omega)]
        simp only [readTimeGroup_digits _ _ _ _ (Nat.mod_lt _ (by decide))
          (Nat.mod_lt _ (by decide)) (Nat.mod_lt _ (by decide)),
          readTimeGroup_end _ term hterm]
        congr 4
        omega
      · rw [if_neg h2]
        simp only [List.cons_append, List.nil_append, List.drop_succ_cons, List.drop_zero]
        unfold readTime
        rw [hclock]
        simp only [if_true]
        rw [readTimeMilli_digits _ _ _ (by omega) (by omega) (by omega)]
        simp only [readTimeGroup_digits _ _ _ _ (Nat.mod_lt _ (by decide))
          (Nat.mod_lt _ (by decide)) (Nat.mod_lt _ (by decide))]
        congr 4
        omega

theorem makeTime_terminator {F T O : Type} (lib : Library F T O) (r : reader)
    (year month day hour min sec nsec : Int) (term : Nat)
    (hterm : term = TagUTC ∨ term = TagSemicolon) :
    reader.makeTime lib r year month day hour min sec nsec term
      = (lib.Date year month day hour min sec nsec (decide (term = TagUTC)), none, r) := by
  have hr : r.setRef = r := by
    cases r with
    | mk s rf => cases rf; rfl
  rcases hterm with rfl | rfl
  · simp [reader.makeTime, hr]
  · simp [reader.makeTime, hr]

/-! ## C19: byte blobs written -/

/-- C19 (as stated, refuted). `WriteBytes` of the empty slice writes the
three bytes `b""`, with no count, and not `b0""`. -/
theorem WriteBytes_empty_no_count :
    ((NewSimpleWriter []).WriteBytes []).map (fun w' => w'.stream)
      = some [TagBytes, TagQuote, TagQuote] ∧
    [TagBytes, TagQuote, TagQuote]
      ≠ TagBytes :: (decimalText (([] : List Nat).length : Int)
          ++ TagQuote :: (([] : List Nat) ++ [TagQuote])) := by
  constructor
  · decide
  · decide

/-- C19 (amended). For every byte slice `B` (shorter than `2^63` bytes, as
every Go slice is) and every writer with its 20-byte scratch buffer,
`WriteBytes B` appends exactly `b`, the decimal byte count of `B` when `B` is
not empty and nothing when it is, a quote, the bytes of `B` unchanged, and a
quote. -/
theorem WriteBytes_exact (w : writer) (b : List Nat) (hb : b.length < 2 ^ 63)
    (hbuf : w.numbuf.length = 20) :
    ∃ w', w.WriteBytes b = some w' ∧
      w'.stream = w.stream ++ TagBytes ::
        ((if b.length > 0 then decimalText (b.length : Int) else [])
          ++ TagQuote :: (b ++ [TagQuote])) := by
  unfold writer.WriteBytes writer.writeBytes
  rw [writer_setRef]
  by_cases h0 : b.length > 0
  · obtain ⟨w1, hw1, hs1, _⟩ := writeInt_spec (w.WriteByte TagBytes) b.length hb
      (by simpa [writer.WriteByte] using hbuf)
    refine ⟨((w1.WriteByte TagQuote).Write b).WriteByte TagQuote, ?_, ?_⟩
    · simp only [if_pos h0, hw1]
    · simp only [writer.WriteByte, writer.Write, hs1, if_pos h0, List.append_assoc,
        List.singleton_append, List.cons_append, List.nil_append]
  · have hnil : b = [] := List.length_eq_zero.mp (by omega)
    subst hnil
    refine ⟨((w.WriteByte TagBytes).WriteByte TagQuote).WriteByte TagQuote, ?_, ?_⟩
    · simp
    · simp [writer.WriteByte]

theorem WriteBytes_exact_witness :
    ∃ w', (NewSimpleWriter []).WriteBytes [0, 255, 34] = some w' ∧
      w'.stream = (NewSimpleWriter []).stream ++ TagBytes ::
        ((if [0, 255, 34].length > 0 then decimalText ([0, 255, 34].length : Int) else [])
          ++ TagQuote :: ([0, 255, 34] ++ [TagQuote])) :=
  WriteBytes_exact (NewSimpleWriter []) [0, 255, 34] (by decide) (by decide)

/-! ## C20: integer slices written -/

theorem writeIntSliceLoop_encode : ∀ (a : List Int) (w : writer),
    (∀ x ∈ a, isInt64 x) → w.numbuf.length = 20 →
    ∃ w', w.writeIntSliceLoop a = some w' ∧
      w'.stream = w.stream ++ encodeList (a.map Value.int) ∧ w'.numbuf.length = 20 := by
  intro a
  induction a with
  | nil =>
    intro w _ hbuf
    exact ⟨w, rfl, by rw [List.map_nil, encodeList_nil, List.append_nil], hbuf⟩
  | cons x a ih =>
    intro w ha hbuf
    have hx := ha x (List.mem_cons_self _ _)
    obtain ⟨w1, hw1, hs1, hl1⟩ := WriteInt64_stream w x hx hbuf
    obtain ⟨w2, hw2, hs2, hl2⟩ := ih w1 (fun y hy => ha y (List.mem_cons_of_mem _ hy)) hl1
    refine ⟨w2, ?_, ?_, hl2⟩
    · rw [writer.writeIntSliceLoop, wrap64_eq x hx, hw1]
      exact hw2
    · rw [hs2, hs1, List.map_cons, encodeList_cons, encode_int, List.append_assoc]

/-- C20. For every slice `a` of `int` values (fewer than `2^63` of them, as
in every Go slice) and every writer with its 20-byte scratch buffer, the
serialization of `a` appends `a`, the decimal element count when `a` is not
empty and nothing when it is, `{`, the `WriteInt64` encoding of each element
in index order, and `}`. The empty slice is written as `a{}`. -/
theorem writeIntSliceWithRef_exact (w : writer) (a : List Int) (ha : ∀ x ∈ a, isInt64 x)
    (hn : a.length < 2 ^ 63) (hbuf : w.numbuf.length = 20) :
    (∃ w', w.writeIntSliceWithRef a = some w' ∧
      w'.stream = w.stream ++ TagList :: ((if a.length > 0 then decimalText a.length else [])
        ++ TagOpenbrace :: (encodeList (a.map Value.int) ++ [TagClosebrace]))) ∧
    ((NewSimpleWriter []).writeIntSliceWithRef []).map (fun w' => w'.stream)
      = some [TagList, TagOpenbrace, TagClosebrace] := by
  refine ⟨?_, by decide⟩
  unfold writer.writeIntSliceWithRef
  rw [writer_writeRef]
  simp only [and_self, if_true]
  unfold writer.writeIntSlice
  rw [writer_setRef]
  by_cases h0 : a.length > 0
  · obtain ⟨w1, hw1, hs1, hl1⟩ := writeInt_spec (w.WriteByte TagList) a.length hn
      (by simpa [writer.WriteByte] using hbuf)
    obtain ⟨w2, hw2, hs2, _⟩ := writeIntSliceLoop_encode a (w1.WriteByte TagOpenbrace) ha
      (by simpa [writer.WriteByte] using hl1)
    refine ⟨w2.WriteByte TagClosebrace, ?_, ?_⟩
    · simp only [if_pos h0, hw1, hw2]
    · simp only [writer.WriteByte, hs2, hs1, if_pos h0, List.append_assoc, List.singleton_append,
        List.cons_append, List.nil_append]
  · have ha0 : a = [] := by
      cases a with
      | nil => rfl
      | cons x a => simp at h0
    subst ha0
    refine ⟨((w.WriteByte TagList).WriteByte TagOpenbrace).WriteByte TagClosebrace, ?_, ?_⟩
    · simp
    · simp [writer.WriteByte, encodeList_nil]

theorem writeIntSliceWithRef_exact_witness :
    (∃ w', (NewSimpleWriter []).writeIntSliceWithRef [7, -12, 9223372036854775807] = some w' ∧
      w'.stream = (NewSimpleWriter []).stream ++ TagList ::
        ((if [(7 : Int), -12, 9223372036854775807].length > 0
            then decimalText [(7 : Int), -12, 9223372036854775807].length else [])
        ++ TagOpenbrace :: (encodeList ([(7 : Int), -12, 9223372036854775807].map Value.int)
          ++ [TagClosebrace]))) ∧
    ((NewSimpleWriter []).writeIntSliceWithRef []).map (fun w' => w'.stream)
      = some [TagList, TagOpenbrace, TagClosebrace] :=
  writeIntSliceWithRef_exact (NewSimpleWriter []) [7, -12, 9223372036854775807]
    (by
      intro x hx
      simp only [List.mem_cons, List.mem_singleton, List.not_mem_nil, or_false] at hx
      rcases hx with rfl | rfl | rfl <;> decide)
    (by decide) (by decide)

/-! ## C11: references met by a simple reader -/

theorem reader_readRef (r : reader) (i : Int) (e : Option error) :
    r.readRef i e = (none, refError) := by
  cases r with
  | mk s rf => cases rf; rfl

theorem refError_ne_none : refError ≠ none := by decide

/-- C11. For a reader made by `NewSimpleReader`, every choice of the library
parameters and every stream that starts with the tag `r` (whatever follows,
an index and `;` or not): `ReadInt`, `ReadInt64`, `ReadUint64`, `ReadBool`,
`ReadFloat64`, `ReadString`, `ReadBytes`, `ReadDateTime`, `ReadList` and
`readInterface` all return the error `refError`, which is not `nil`. -/
theorem simple_reader_rejects_ref {F T O : Type} (d : Decoders) (lib : Library F T O)
    (rest : List Nat) :
    refError = some (error.unexpectedTag TagRef) ∧
    (reader.ReadInt d (NewSimpleReader (TagRef :: rest))).2.1 = refError ∧
    (reader.ReadInt64 d (NewSimpleReader (TagRef :: rest))).2.1 = refError ∧
    (reader.ReadUint64 lib (NewSimpleReader (TagRef :: rest))).2.1 = refError ∧
    (reader.ReadBool lib (NewSimpleReader (TagRef :: rest))).2.1 = refError ∧
    (reader.ReadFloat64 lib (NewSimpleReader (TagRef :: rest))).2.1 = refError ∧
    (reader.ReadString d (NewSimpleReader (TagRef :: rest))).map (fun x => x.2.1)
      = some refError ∧
    (reader.ReadBytes lib (NewSimpleReader (TagRef :: rest))).map (fun x => x.2.1)
      = some refError ∧
    (reader.ReadDateTime lib (NewSimpleReader (TagRef :: rest))).2.1 = refError ∧
    (reader.ReadList lib (NewSimpleReader (TagRef :: rest))).map (fun x => x.2.1)
      = some refError ∧
    (reader.readInterface lib (NewSimpleReader (TagRef :: rest))).map (fun x => x.2.1)
      = some refError := by
  have hdig : ¬ (48 ≤ TagRef ∧ TagRef ≤ 57) := by decide
  have hdig1 : ¬ (49 ≤ TagRef ∧ TagRef ≤ 57) := by decide
  refine ⟨rfl, ?_, ?_, ?_, ?_, ?_, ?_, ?_, ?_, ?_, ?_⟩
  · simp [reader.ReadInt, NewSimpleReader, reader_readRef, refError, unexpectedTag, hdig, hdig1]
  · simp [reader.ReadInt64, NewSimpleReader, reader_readRef, refError, unexpectedTag, hdig, hdig1]
  · simp [reader.ReadUint64, NewSimpleReader, reader_readRef, refError, unexpectedTag, hdig, hdig1]
  · simp [reader.ReadBool, NewSimpleReader, reader_readRef, refError, unexpectedTag, hdig, hdig1]
  · simp [reader.ReadFloat64, NewSimpleReader, reader_readRef, refError, unexpectedTag, hdig, hdig1]
  · simp [reader.ReadString, NewSimpleReader, reader_readRef, refError, unexpectedTag, hdig, hdig1]
  · simp [reader.ReadBytes, NewSimpleReader, reader_readRef, refError, unexpectedTag, hdig, hdig1]
  · simp [reader.ReadDateTime, NewSimpleReader, reader_readRef, refError, unexpectedTag, hdig, hdig1]
  · simp [reader.ReadList, NewSimpleReader, reader_readRef, refError, unexpectedTag, hdig, hdig1]
  · simp [reader.readInterface, NewSimpleReader, reader_readRef, refError, unexpectedTag, hdig, hdig1]

/-! ## C12: the error `Unserialize` returns -/

/-- C12 (what the code does). For the destinations `*[]byte` and
`*list.List` and the pointers to pointers `**int`, `**int64`, `**uint64`,
`**float64`, `**bool`, `**time.Time` and `**string`, `Unserialize` returns
`nil` whenever it returns, whatever the read returned. On the one-byte stream
`g`, `ReadInt` returns the error `cannot convert type uuid.UUID to type int`
and `Unserialize` into a `**int` returns `nil`; on the stream `r0;` in simple
mode `ReadBytes` returns `refError` and `Unserialize` into a `*[]byte`
returns `nil`, while `Unserialize` into a `*int` returns `refError`. -/
theorem Unserialize_drops_error {F T O : Type} (d : Decoders) (lib : Library F T O) :
    (∀ (r : reader) (dest : Dest),
      dest ∈ [Dest.bytes, Dest.list, Dest.ptrInt, Dest.ptrInt64, Dest.ptrUint64,
        Dest.ptrFloat64, Dest.ptrBool, Dest.ptrTime, Dest.ptrString] →
      ∀ res, reader.Unserialize d lib r dest = some res → res.1 = none) ∧
    (reader.ReadInt d (NewSimpleReader [TagGuid])).2.1
      = some (error.cannotConvert "uuid.UUID" "int") ∧
    reader.Unserialize d lib (NewSimpleReader [TagGuid]) Dest.ptrInt
      = some (none, NewSimpleReader []) ∧
    (reader.ReadBytes lib (NewSimpleReader [TagRef, 48, TagSemicolon])).map (fun x => x.2.1)
      = some refError ∧
    reader.Unserialize d lib (NewSimpleReader [TagRef, 48, TagSemicolon]) Dest.bytes
      = some (none, NewSimpleReader []) ∧
    reader.Unserialize d lib (NewSimpleReader [TagRef, 48, TagSemicolon]) Dest.int
      = some (refError, NewSimpleReader []) := by
  refine ⟨?_, rfl, rfl, rfl, rfl, rfl⟩
  intro r dest hdest res hres
  simp only [List.mem_cons, List.mem_singleton, List.not_mem_nil, or_false] at hdest
  rcases hdest with rfl | rfl | rfl | rfl | rfl | rfl | rfl | rfl | rfl
  · unfold reader.Unserialize at hres
    cases h : reader.ReadBytes lib r with
    | none => rw [h] at hres; simp at hres
    | some x =>
      rw [h] at hres
      simp only [Option.some.injEq] at hres
      rw [← hres]
  · unfold reader.Unserialize at hres
    cases h : reader.ReadList lib r with
    | none => rw [h] at hres; simp at hres
    | some x =>
      rw [h] at hres
      simp only [Option.some.injEq] at hres
      rw [← hres]
  · unfold reader.Unserialize at hres
    simp only [Option.some.injEq] at hres
    rw [← hres]
  · unfold reader.Unserialize at hres
    simp only [Option.some.injEq] at hres
    rw [← hres]
  · unfold reader.Unserialize at hres
    simp only [Option.some.injEq] at hres
    rw [← hres]
  · unfold reader.Unserialize at hres
    simp only [Option.some.injEq] at hres
    rw [← hres]
  · unfold reader.Unserialize at hres
    simp only [Option.some.injEq] at hres
    rw [← hres]
  · unfold reader.Unserialize at hres
    simp only [Option.some.injEq] at hres
    rw [← hres]
  · unfold reader.Unserialize at hres
    cases h : reader.ReadString d r with
    | none => rw [h] at hres; simp at hres
    | some x =>
      rw [h] at hres
      simp only [Option.some.injEq] at hres
      rw [← hres]

theorem Unserialize_drops_error_witness :
    (reader.ReadBool exampleLibrary (NewSimpleReader [TagGuid, 123])).2.1
      = some (error.cannotConvert "uuid.UUID" "bool") ∧
    reader.Unserialize exampleDecoders exampleLibrary (NewSimpleReader [TagGuid, 123])
        Dest.ptrBool = some (none, NewSimpleReader [123]) ∧
    ((none : Option error), NewSimpleReader [123]).1 = none :=
  ⟨by decide, by decide,
    (Unserialize_drops_error exampleDecoders exampleLibrary).1 (NewSimpleReader [TagGuid, 123])
      Dest.ptrBool (by decide) (none, NewSimpleReader [123]) (by decide)⟩

/-! ## Class descriptors -/

theorem writeString_encodeCounted (w : writer) (s : List Nat) (hs : validString s)
    (hbuf : w.numbuf.length = 20) :
    ∃ w', w.writeString s = some w' ∧ w'.stream = w.stream ++ encodeCounted s ∧
      w'.numbuf.length = 20 := by
  obtain ⟨w', h1, h2, h3⟩ := writeStringWithRef_encodeCounted w s hs hbuf
  refine ⟨w', ?_, h2, h3⟩
  simpa [writer.writeStringWithRef, writer_writeRef] using h1

theorem validString_ulen (s : List Nat) (hs : validString s) : ulen s < 2 ^ 63 := by
  obtain ⟨⟨cs, rfl⟩, hlen⟩ := hs
  have := (ulen_bounds cs).2
  omega

theorem writeClassFields_spec : ∀ (fields : List field) (w : writer),
    (∀ f ∈ fields, validString f.Name) → w.numbuf.length = 20 →
    ∃ w', w.writeClassFields fields = some w' ∧
      w'.stream = w.stream ++ (fields.map (fun f => encodeCounted f.Name)).flatten ∧
      w'.numbuf.length = 20 := by
  intro fields
  induction fields with
  | nil =>
    intro w _ hbuf
    exact ⟨w, rfl, by simp, hbuf⟩
  | cons f fields ih =>
    intro w hf hbuf
    obtain ⟨w1, h1, hs1, hb1⟩ :=
      writeString_encodeCounted w f.Name (hf f (List.mem_cons_self _ _)) hbuf
    obtain ⟨w2, h2, hs2, hb2⟩ :=
      ih w1 (fun g hg => hf g (List.mem_cons_of_mem _ hg)) hb1
    refine ⟨w2, ?_, ?_, hb2⟩
    · simp only [writer.writeClassFields, writer.WriteString, h1]
      exact h2
    · rw [hs2, hs1]
      simp

theorem writeClassBody_spec (w : writer) (fields : List field)
    (hcount : fields.length < 2 ^ 63) (hf : ∀ f ∈ fields, validString f.Name)
    (hbuf : w.numbuf.length = 20) :
    ∃ w', w.writeClassBody fields = some w' ∧
      w'.stream = w.stream ++ ((if fields.length > 0 then decimalText fields.length else [])
        ++ TagOpenbrace :: ((fields.map (fun f => encodeCounted f.Name)).flatten
          ++ [TagClosebrace])) ∧
      w'.numbuf.length = 20 := by
  by_cases hpos : fields.length > 0
  · obtain ⟨w1, h1, hs1, hb1⟩ := writeInt_spec w fields.length hcount hbuf
    obtain ⟨w2, h2, hs2, hb2⟩ :=
      writeClassFields_spec fields (w1.WriteByte TagOpenbrace) hf
        (by simpa [writer.WriteByte] using hb1)
    refine ⟨w2.WriteByte TagClosebrace, ?_, ?_, ?_⟩
    · simp only [writer.writeClassBody, if_pos hpos, h1, h2]
    · simp [writer.WriteByte, hs2, hs1, hpos]
    · simpa [writer.WriteByte] using hb2
  · refine ⟨(w.WriteByte TagOpenbrace).WriteByte TagClosebrace, ?_, ?_, ?_⟩
    · simp only [writer.writeClassBody, if_neg hpos]
    · have h0 : fields = [] := List.length_eq_zero.mp (by omega)
      subst h0
      simp [writer.WriteByte]
    · simpa [writer.WriteByte] using hbuf

theorem writeClass_spec (w : writer) (t : classTables) (classref : List (List Nat × Nat))
    (classname : List Nat) (fields : List field) (ht : t.classref = some classref)
    (hname : validString classname) (hcount : fields.length < 2 ^ 63)
    (hf : ∀ f ∈ fields, validString f.Name) (hbuf : w.numbuf.length = 20) :
    ∃ w', w.writeClass t classname fields =
        some (w', { classref := some (mapSet classref classname t.fieldsref.length),
                    fieldsref := t.fieldsref ++ [fields] }, t.fieldsref.length) ∧
      w'.stream = w.stream ++ descriptor classname fields ∧ w'.numbuf.length = 20 := by
  obtain ⟨w1, h1, hs1, hb1⟩ :=
    writeInt_spec (w.WriteByte TagClass) (ulen classname) (validString_ulen classname hname)
      (by simpa [writer.WriteByte] using hbuf)
  obtain ⟨w2, h2, hs2, hb2⟩ :=
    writeClassBody_spec (((w1.WriteByte TagQuote).Write classname).WriteByte TagQuote) fields
      hcount hf (by simpa [writer.WriteByte, writer.Write] using hb1)
  refine ⟨w2, ?_, ?_, hb2⟩
  · unfold writer.writeClass
    rw [h1, Option.some_bind, h2]
    dsimp only
    rw [ht]
  · rw [hs2]
    unfold descriptor
    simp only [writer.WriteByte, writer.Write, hs1, List.append_assoc, List.cons_append,
      List.nil_append, List.singleton_append]

/-- C21 (counterexample): a class without fields, here `Empty`, is written
`c5"Empty"{}`: the field count is left out, where the specification's form
has `c5"Empty"0{}`. -/
theorem writeClass_no_fields_no_count :
    ((NewSimpleWriter []).writeClass { classref := some [], fieldsref := [] }
        [69, 109, 112, 116, 121] []).map (fun r => r.1.stream)
      = some [99, 53, 34, 69, 109, 112, 116, 121, 34, 123, 125] ∧
    specDescriptor [69, 109, 112, 116, 121] []
      = [99, 53, 34, 69, 109, 112, 116, 121, 34, 48, 123, 125] := by
  constructor
  · decide
  · decide

theorem encodeCounted_pos (s : List Nat) (hs : validString s) (hne : s ≠ []) :
    encodeCounted s = TagString :: (decimalText (ulen s) ++ TagQuote :: (s ++ [TagQuote])) := by
  obtain ⟨⟨cs, rfl⟩, _⟩ := hs
  have hcs : cs ≠ [] := by
    intro h
    subst h
    exact hne rfl
  have hpos : 0 < ulen (utf8Bytes cs) := by
    have := (ulen_bounds cs).1
    have : 0 < cs.length := List.length_pos.mpr hcs
    omega
  simp [encodeCounted, hpos]

/-- C21 (amended): for every class name and every list of fields, `writeClass`
on a writer whose class map is made returns the next index and appends
exactly `c`, the decimal UTF-16 length of the name, the name in quotes, the
decimal field count (left out when there are no fields), and in braces each
field name in order as `writeString` writes it (`s`, the decimal UTF-16
length, left out for an empty name, and the name in quotes). With at least
one field and no empty field name these are the bytes of the specification's
form. -/
theorem writeClass_exact (w : writer) (t : classTables) (classref : List (List Nat × Nat))
    (classname : List Nat) (fields : List field) (ht : t.classref = some classref)
    (hname : validString classname) (hcount : fields.length < 2 ^ 63)
    (hf : ∀ f ∈ fields, validString f.Name) (hbuf : w.numbuf.length = 20) :
    (∃ w' t', w.writeClass t classname fields = some (w', t', t.fieldsref.length) ∧
      w'.stream = w.stream ++ TagClass :: (decimalText (ulen classname) ++ TagQuote ::
        (classname ++ TagQuote ::
          ((if fields.length > 0 then decimalText fields.length else [])
            ++ TagOpenbrace :: ((fields.map (fun f => encodeCounted f.Name)).flatten
              ++ [TagClosebrace]))))) ∧
    (fields ≠ [] → (∀ f ∈ fields, f.Name ≠ []) →
      descriptor classname fields = specDescriptor classname (fields.map (fun f => f.Name))) := by
  constructor
  · obtain ⟨w', h1, h2, _⟩ := writeClass_spec w t classref classname fields ht hname hcount hf hbuf
    exact ⟨w', _, h1, h2⟩
  · intro hne hnames
    have hpos : fields.length > 0 := List.length_pos.mpr hne
    have hmap : fields.map (fun f => encodeCounted f.Name)
        = (fields.map (fun f => f.Name)).map
            (fun name => TagString :: (decimalText (ulen name) ++ TagQuote :: (name ++ [TagQuote]))) := by
      rw [List.map_map]
      apply List.map_congr_left
      intro f hmem
      exact encodeCounted_pos f.Name (hf f hmem) (hnames f hmem)
    unfold descriptor specDescriptor
    rw [if_pos hpos, hmap, List.length_map]

theorem writeClass_exact_witness :
    (∃ w' t', (NewSimpleWriter []).writeClass { classref := some [], fieldsref := [] }
        [85, 115, 101, 114] [{ Name := [110, 97, 109, 101], Index := [0] },
          { Name := [97, 103, 101], Index := [1] }] = some (w', t', 0) ∧
      w'.stream = [] ++ TagClass :: (decimalText (ulen [85, 115, 101, 114]) ++ TagQuote ::
        ([85, 115, 101, 114] ++ TagQuote ::
          ((if ([{ Name := [110, 97, 109, 101], Index := [0] },
                { Name := [97, 103, 101], Index := [1] }] : List field).length > 0
            then decimalText ([{ Name := [110, 97, 109, 101], Index := [0] },
                { Name := [97, 103, 101], Index := [1] }] : List field).length else [])
            ++ TagOpenbrace :: ((([{ Name := [110, 97, 109, 101], Index := [0] },
                { Name := [97, 103, 101], Index := [1] }] : List field).map
                  (fun f => encodeCounted f.Name)).flatten
              ++ [TagClosebrace]))))) ∧
    (([{ Name := [110, 97, 109, 101], Index := [0] },
        { Name := [97, 103, 101], Index := [1] }] : List field) ≠ [] →
      (∀ f ∈ ([{ Name := [110, 97, 109, 101], Index := [0] },
        { Name := [97, 103, 101], Index := [1] }] : List field), f.Name ≠ []) →
      descriptor [85, 115, 101, 114] [{ Name := [110, 97, 109, 101], Index := [0] },
          { Name := [97, 103, 101], Index := [1] }]
        = specDescriptor [85, 115, 101, 114]
            (([{ Name := [110, 97, 109, 101], Index := [0] },
              { Name := [97, 103, 101], Index := [1] }] : List field).map (fun f => f.Name))) :=
  writeClass_exact (NewSimpleWriter []) { classref := some [], fieldsref := [] } []
    [85, 115, 101, 114] [{ Name := [110, 97, 109, 101], Index := [0] },
      { Name := [97, 103, 101], Index := [1] }] rfl
    ⟨⟨"User".data, by decide⟩, by decide⟩ (by decide)
    (fun f hf => by
      simp only [List.mem_cons, List.mem_singleton, List.not_mem_nil, or_false] at hf
      rcases hf with h | h
      · subst h
        exact ⟨⟨"name".data, by decide⟩, by decide⟩
      · subst h
        exact ⟨⟨"age".data, by decide⟩, by decide⟩)
    (by decide)

/-! ## Class indices -/

theorem isInt64_wrap64 (x : Int) : isInt64 (wrap64 x) := by
  unfold isInt64 wrap64
  omega

theorem writeInt_total (w : writer) (n : Int) (hbuf : w.numbuf.length = 20) :
    ∃ w' digits, w.writeInt n = some w' ∧ w'.stream = w.stream ++ digits ∧
      w'.numbuf.length = 20 ∧ (isInt64 n → digits = decimalText n) := by
  obtain ⟨w', h1, h2, h3, _, _⟩ := writeInt64_spec w (wrap64 n) (isInt64_wrap64 n) hbuf
  exact ⟨w', _, h1, h2, h3, fun h => by rw [wrap64_eq n h]⟩

theorem mapGet_filter_ne {V : Type} (k name : List Nat) (hne : k ≠ name) :
    ∀ (m : List (List Nat × V)),
      mapGet (m.filter (fun p => decide (p.1 ≠ k))) name = mapGet m name := by
  intro m
  induction m with
  | nil => rfl
  | cons p m ih =>
    obtain ⟨k', v⟩ := p
    by_cases hk : k' = k
    · subst hk
      simp only [List.filter_cons, ne_eq, not_true_eq_false, decide_False, Bool.false_eq_true,
        if_false, mapGet, if_neg hne]
      exact ih
    · simp only [List.filter_cons, ne_eq, hk, not_false_eq_true, decide_True, if_true, mapGet]
      rw [ih]

theorem mapGet_mapSet {V : Type} (m : List (List Nat × V)) (k name : List Nat) (v : V) :
    mapGet (mapSet m k v) name = if k = name then some v else mapGet m name := by
  unfold mapSet
  by_cases h : k = name
  · simp [mapGet, h]
  · simp only [mapGet, if_neg h]
    exact mapGet_filter_ne k name h m

theorem emitted_append : ∀ (ds : List (List Nat)) (s x : List Nat),
    emitted s ds → emitted (s ++ x) ds := by
  intro ds
  induction ds with
  | nil => intro s x _; trivial
  | cons d ds ih =>
    intro s x h
    obtain ⟨pre, post, hs, hpost⟩ := h
    exact ⟨pre, post ++ x, by rw [hs]; simp, ih post x hpost⟩

theorem emitted_snoc : ∀ (ds : List (List Nat)) (s d : List Nat),
    emitted s ds → emitted (s ++ d) (ds ++ [d]) := by
  intro ds
  induction ds with
  | nil =>
    intro s d _
    exact ⟨s, [], by simp, trivial⟩
  | cons d0 ds ih =>
    intro s d h
    obtain ⟨pre, post, hs, hpost⟩ := h
    exact ⟨pre, post ++ d, by rw [hs]; simp, ih post d hpost⟩

theorem emitted_take : ∀ (ds : List (List Nat)) (s : List Nat) (k : Nat),
    emitted s ds → emitted s (ds.take k) := by
  intro ds
  induction ds with
  | nil => intro s k _; simp [emitted]
  | cons d ds ih =>
    intro s k h
    cases k with
    | zero => trivial
    | succ k =>
      obtain ⟨pre, post, hs, hpost⟩ := h
      exact ⟨pre, post, hs, ih post k hpost⟩

theorem classInvariant_append (s x : List Nat) (t : classTables)
    (descs : List (List Nat × List field)) (h : classInvariant s t descs) :
    classInvariant (s ++ x) t descs :=
  ⟨h.1, h.2.1, h.2.2.1, emitted_append _ s x h.2.2.2⟩

theorem classInvariant_index_lt (s : List Nat) (t : classTables)
    (descs : List (List Nat × List field)) (h : classInvariant s t descs)
    (classref : List (List Nat × Nat)) (name : List Nat) (index : Nat)
    (ht : t.classref = some classref) (hget : mapGet classref name = some index) :
    index < t.fieldsref.length := by
  obtain ⟨fields, hf⟩ := h.2.2.1 classref name index ht hget
  have := (List.get?_eq_some.mp hf).1
  rw [h.2.1, List.length_map]
  exact this

theorem classInvariant_writeClass (s : List Nat) (t : classTables)
    (descs : List (List Nat × List field)) (h : classInvariant s t descs)
    (classref : List (List Nat × Nat)) (ht : t.classref = some classref)
    (classname : List Nat) (fields : List field) :
    classInvariant (s ++ descriptor classname fields)
      { classref := some (mapSet classref classname t.fieldsref.length),
        fieldsref := t.fieldsref ++ [fields] }
      (descs ++ [(classname, fields)]) := by
  obtain ⟨_, h2, h3, h4⟩ := h
  have hlen : t.fieldsref.length = descs.length := by rw [h2, List.length_map]
  refine ⟨?_, ?_, ?_, ?_⟩
  · intro hnone
    cases hnone
  · simp [h2]
  · intro classref' name index hc hget
    simp only [Option.some.injEq] at hc
    subst hc
    rw [mapGet_mapSet] at hget
    by_cases hk : classname = name
    · rw [if_pos hk] at hget
      simp only [Option.some.injEq] at hget
      subst hk
      refine ⟨fields, ?_⟩
      rw [← hget, hlen]
      simp
    · rw [if_neg hk] at hget
      obtain ⟨fields', hf'⟩ := h3 classref name index ht hget
      refine ⟨fields', ?_⟩
      have hlt := (List.get?_eq_some.mp hf').1
      simp only [List.get?_eq_getElem?] at hf' ⊢
      rw [List.getElem?_append_left hlt]
      exact hf'
  · have := emitted_snoc _ s (descriptor classname fields) h4
    simpa using this

theorem writeObjectFields_spec
    (WriteField : List Int → writer → classTables → Option (writer × classTables))
    (hfield : keepsClassInvariant WriteField) :
    ∀ (fields : List field) (w : writer) (t : classTables)
      (descs : List (List Nat × List field)),
      classInvariant w.stream t descs → t.classref ≠ none → w.numbuf.length = 20 →
      ∃ w' t' out more, writer.writeObjectFields WriteField fields w t = some (w', t') ∧
        w'.stream = w.stream ++ out ∧ classInvariant w'.stream t' (descs ++ more) ∧
        t'.classref ≠ none ∧ w'.numbuf.length = 20 := by
  intro fields
  induction fields with
  | nil =>
    intro w t descs hinv hne hbuf
    exact ⟨w, t, [], [], rfl, by simp, by simpa using hinv, hne, hbuf⟩
  | cons f fields ih =>
    intro w t descs hinv hne hbuf
    obtain ⟨w1, t1, out1, more1, h1, hs1, hinv1, hne1, hb1⟩ := hfield f.Index w t descs hinv hne hbuf
    obtain ⟨w2, t2, out2, more2, h2, hs2, hinv2, hne2, hb2⟩ :=
      ih w1 t1 (descs ++ more1) hinv1 hne1 hb1
    refine ⟨w2, t2, out1 ++ out2, more1 ++ more2, ?_, ?_, ?_, hne2, hb2⟩
    · simp only [writer.writeObjectFields, h1]
      exact h2
    · rw [hs2, hs1, List.append_assoc]
    · rw [← List.append_assoc]
      exact hinv2

theorem writeObjectBody_spec
    (WriteField : List Int → writer → classTables → Option (writer × classTables))
    (hfield : keepsClassInvariant WriteField) (w : writer) (t : classTables)
    (descs : List (List Nat × List field)) (index : Nat) (fields : List field)
    (hinv : classInvariant w.stream t descs) (hne : t.classref ≠ none)
    (hbuf : w.numbuf.length = 20) :
    ∃ w' t' digits post more, writer.writeObjectBody w t index fields WriteField = some (w', t') ∧
      w'.stream = w.stream ++ TagObject :: (digits ++ TagOpenbrace :: post) ∧
      (index < 2 ^ 63 → digits = decimalText index) ∧
      classInvariant w'.stream t' (descs ++ more) ∧ t'.classref ≠ none ∧
      w'.numbuf.length = 20 := by
  obtain ⟨w1, digits, h1, hs1, hb1, hdigits⟩ :=
    writeInt_total (w.setRef.WriteByte TagObject) index
      (by rw [writer_setRef]; simpa [writer.WriteByte] using hbuf)
  have hs1' : (w1.WriteByte TagOpenbrace).stream
      = w.stream ++ (TagObject :: (digits ++ [TagOpenbrace])) := by
    rw [writer_setRef] at hs1
    simp only [writer.WriteByte, hs1, List.append_assoc, List.cons_append, List.nil_append,
      List.singleton_append]
  obtain ⟨w2, t2, out, more, h2, hs2, hinv2, hne2, hb2⟩ :=
    writeObjectFields_spec WriteField hfield fields (w1.WriteByte TagOpenbrace) t descs
      (by rw [hs1']; exact classInvariant_append _ _ _ _ hinv) hne
      (by simpa [writer.WriteByte] using hb1)
  refine ⟨w2.WriteByte TagClosebrace, t2, digits, out ++ [TagClosebrace], more, ?_, ?_, ?_, ?_,
    hne2, ?_⟩
  · unfold writer.writeObjectBody
    rw [h1, Option.some_bind, h2]
  · rw [show (w2.WriteByte TagClosebrace).stream = w2.stream ++ [TagClosebrace] from rfl, hs2,
      hs1']
    simp only [List.append_assoc, List.cons_append, List.nil_append]
  · intro hlt
    exact hdigits (by unfold isInt64; omega)
  · have : (w2.WriteByte TagClosebrace).stream = w2.stream ++ [TagClosebrace] := rfl
    rw [this]
    exact classInvariant_append _ _ _ _ hinv2
  · simpa [writer.WriteByte] using hb2

theorem classInvariant_made (s : List Nat) (t : classTables)
    (descs : List (List Nat × List field)) (h : classInvariant s t descs) :
    ∃ t0 classref, (if t.classref = none then { classref := some [], fieldsref := [] } else t) = t0
      ∧ t0.classref = some classref ∧ classInvariant s t0 descs := by
  cases hc : t.classref with
  | none =>
    refine ⟨{ classref := some [], fieldsref := [] }, [], by simp, rfl, ?_⟩
    have hd : descs = [] := h.1 hc
    subst hd
    refine ⟨(fun hn => Option.noConfusion hn), rfl, ?_, trivial⟩
    intro classref name index hcr hget
    have hcr : some ([] : List (List Nat × Nat)) = some classref := hcr
    simp only [Option.some.injEq] at hcr
    subst hcr
    simp [mapGet] at hget
  | some classref =>
    exact ⟨t, classref, by simp, hc, h⟩

theorem writeObject_spec
    (WriteField : List Int → writer → classTables → Option (writer × classTables))
    (writeObjectAsMap : writer → classTables → List field → Option (writer × classTables))
    (hfield : keepsClassInvariant WriteField) (w : writer) (t : classTables)
    (descs : List (List Nat × List field)) (classname : List Nat) (typeFields : List field)
    (hinv : classInvariant w.stream t descs) (hbuf : w.numbuf.length = 20)
    (hname : validString classname) (hcount : typeFields.length < 2 ^ 63)
    (hf : ∀ f ∈ typeFields, validString f.Name) :
    ∃ w' t', ∃ index : Nat, ∃ fields pre digits post more,
      w.writeObject t classname typeFields false WriteField writeObjectAsMap = some (w', t') ∧
      w'.stream = w.stream ++ (pre ++ TagObject :: (digits ++ TagOpenbrace :: post)) ∧
      (index < 2 ^ 63 → digits = decimalText index) ∧
      classInvariant w'.stream t' (descs ++ more) ∧ t'.classref ≠ none ∧
      w'.numbuf.length = 20 ∧ index ≤ descs.length ∧ index < (descs ++ more).length ∧
      (descs ++ more).get? index = some (classname, fields) ∧
      emitted (w.stream ++ pre)
        (((descs ++ more).take (index + 1)).map (fun d => descriptor d.1 d.2)) := by
  obtain ⟨t0, classref, ht0, hc0, hinv0⟩ := classInvariant_made w.stream t descs hinv
  have hne0 : t0.classref ≠ none := by rw [hc0]; exact fun h => by cases h
  cases hget : mapGet classref classname with
  | some index =>
    obtain ⟨fields, hfields⟩ := hinv0.2.2.1 classref classname index hc0 hget
    have hlt : index < descs.length := (List.get?_eq_some.mp hfields).1
    have hfr : t0.fieldsref.get? index = some fields := by
      rw [hinv0.2.1, List.get?_eq_getElem?, List.getElem?_map]
      rw [List.get?_eq_getElem?] at hfields
      rw [hfields]
      rfl
    obtain ⟨w', t', digits, post, more, h1, hs1, hd1, hinv1, hne1, hb1⟩ :=
      writeObjectBody_spec WriteField hfield w t0 descs index fields hinv0 hne0 hbuf
    refine ⟨w', t', index, fields, [], digits, post, more, ?_, ?_, hd1, hinv1, hne1, hb1,
      by omega, ?_, ?_, ?_⟩
    · unfold writer.writeObject
      simp only [ht0, hc0, hget, hfr]
      exact h1
    · simpa using hs1
    · rw [List.length_append]; omega
    · simp only [List.get?_eq_getElem?] at hfields ⊢
      rw [List.getElem?_append_left hlt]
      exact hfields
    · rw [List.append_nil, List.take_append_of_le_length (by omega)]
      rw [List.map_take]
      exact emitted_take _ _ _ hinv0.2.2.2
  | none =>
    obtain ⟨w1, h1, hs1, hb1⟩ :=
      writeClass_spec w t0 classref classname typeFields hc0 hname hcount hf hbuf
    have hlen : t0.fieldsref.length = descs.length := by rw [hinv0.2.1, List.length_map]
    have hinv1 := classInvariant_writeClass w.stream t0 descs hinv0 classref hc0 classname
      typeFields
    rw [← hs1] at hinv1
    obtain ⟨w', t', digits, post, more, h2, hs2, hd2, hinv2, hne2, hb2⟩ :=
      writeObjectBody_spec WriteField hfield w1 _ (descs ++ [(classname, typeFields)])
        t0.fieldsref.length typeFields hinv1 (fun h => by cases h) hb1
    refine ⟨w', t', descs.length, typeFields, descriptor classname typeFields, digits, post,
      (classname, typeFields) :: more, ?_, ?_, ?_, ?_, hne2, hb2, le_refl _, ?_, ?_, ?_⟩
    · unfold writer.writeObject
      simp only [ht0, hc0, hget, if_true, h1]
      exact h2
    · rw [hs2, hs1]
      simp only [List.append_assoc]
    · rw [← hlen]
      exact hd2
    · simpa using hinv2
    · simp
    · rw [List.get?_eq_getElem?, List.getElem?_append_right (le_refl _)]
      simp
    · have h4 := hinv1.2.2.2
      rw [hs1] at h4
      have htake : (descs ++ (classname, typeFields) :: more).take (descs.length + 1)
          = descs ++ [(classname, typeFields)] := by
        rw [List.take_append_eq_append_take]
        simp
      rw [htake]
      exact h4

theorem classInvariant_new (s : List Nat) : classInvariant s classTables.new [] :=
  ⟨fun _ => rfl, rfl, fun _ _ _ h _ => Option.noConfusion h, trivial⟩

theorem classInvariant_Reset (s : List Nat) (t : classTables)
    (descs : List (List Nat × List field)) (h : classInvariant s t descs) :
    classInvariant s t.Reset [] := by
  unfold classTables.Reset
  by_cases hc : t.classref ≠ none
  · rw [if_pos hc]
    exact classInvariant_new s
  · rw [if_neg hc]
    have hn : t.classref = none := by
      by_contra hne
      exact hc hne
    have hd : descs = [] := h.1 hn
    subst hd
    exact h

theorem WriteValue_keeps : ∀ (v : OValue), v.wellFormed →
    ∀ (w : writer) (t : classTables) (descs : List (List Nat × List field)),
      classInvariant w.stream t descs → t.classref ≠ none → w.numbuf.length = 20 →
      ∃ w' t' out more, writer.WriteValue v w t = some (w', t') ∧ w'.stream = w.stream ++ out ∧
        classInvariant w'.stream t' (descs ++ more) ∧ t'.classref ≠ none ∧
        w'.numbuf.length = 20 := by
  intro v
  induction v with
  | plain v =>
    intro hv w t descs hinv hne hbuf
    obtain ⟨w', h1, h2, h3⟩ := Serialize_encode v w hv hbuf
    refine ⟨w', t, encode v, [], ?_, h2, ?_, hne, h3⟩
    · simp only [writer.WriteValue, h1]
    · rw [h2, List.append_nil]
      exact classInvariant_append _ _ _ _ hinv
  | object classname typeFields FieldByIndex ih =>
    intro hv w t descs hinv hne hbuf
    obtain ⟨hname, hcount, hf, hfields⟩ := hv
    have hfield : keepsClassInvariant
        (fun index w t => writer.WriteValue (FieldByIndex index) w t) :=
      fun index w t descs hinv hne hbuf => ih index (hfields index) w t descs hinv hne hbuf
    obtain ⟨w', t', index, fields, pre, digits, post, more, h1, hs1, _, hinv1, hne1, hb1, _⟩ :=
      writeObject_spec _ (fun _ _ _ => none) hfield w t descs classname typeFields hinv hbuf
        hname (by omega) hf
    refine ⟨w', t', _, more, ?_, hs1, hinv1, hne1, hb1⟩
    simp only [writer.WriteValue, writer.writeObjectWithRef, writer_writeRef]
    simpa using h1

/-- C22: on one writer the class indices follow the order of emission. With
`descs` the descriptors written since the tables were made (none after
`Reset`), `writeClass` returns their number, appends the descriptor, stores
that index under the class name and keeps every stored index below the
length of the field table; `writeObject` returns and appends `o`, the index
`i` and `{` only after the first `i + 1` descriptors stand in the stream in
order, the one at position `i` being that of the class of the object. -/
theorem writeClass_indices_in_order (w : writer) (t : classTables)
    (descs : List (List Nat × List field)) (classname : List Nat) (typeFields : List field)
    (WriteField : List Int → writer → classTables → Option (writer × classTables))
    (writeObjectAsMap : writer → classTables → List field → Option (writer × classTables))
    (hinv : classInvariant w.stream t descs) (hbuf : w.numbuf.length = 20)
    (hname : validString classname) (hcount : typeFields.length < 2 ^ 63)
    (hf : ∀ f ∈ typeFields, validString f.Name) (hdescs : descs.length < 2 ^ 63)
    (hfield : keepsClassInvariant WriteField) :
    classInvariant w.stream t.Reset [] ∧
    (∀ classref, t.classref = some classref →
      ∃ w' t' classref', w.writeClass t classname typeFields = some (w', t', descs.length) ∧
        w'.stream = w.stream ++ descriptor classname typeFields ∧
        t'.classref = some classref' ∧ mapGet classref' classname = some descs.length ∧
        classInvariant w'.stream t' (descs ++ [(classname, typeFields)]) ∧
        (∀ name index, mapGet classref' name = some index → index < t'.fieldsref.length)) ∧
    (∃ w' t', ∃ index : Nat, ∃ fields pre post more,
      w.writeObject t classname typeFields false WriteField writeObjectAsMap = some (w', t') ∧
      w'.stream = w.stream ++ (pre ++ TagObject :: (decimalText index ++ TagOpenbrace :: post)) ∧
      classInvariant w'.stream t' (descs ++ more) ∧
      (descs ++ more).get? index = some (classname, fields) ∧
      emitted (w.stream ++ pre)
        (((descs ++ more).take (index + 1)).map (fun d => descriptor d.1 d.2))) := by
  refine ⟨classInvariant_Reset _ _ _ hinv, ?_, ?_⟩
  · intro classref ht
    obtain ⟨w', h1, h2, _⟩ :=
      writeClass_spec w t classref classname typeFields ht hname hcount hf hbuf
    have hlen : t.fieldsref.length = descs.length := by rw [hinv.2.1, List.length_map]
    have hinv' := classInvariant_writeClass w.stream t descs hinv classref ht classname
      typeFields
    rw [← h2] at hinv'
    refine ⟨w', _, _, ?_, h2, rfl, ?_, hinv', ?_⟩
    · rw [← hlen]
      exact h1
    · rw [mapGet_mapSet, if_pos rfl, hlen]
    · intro name index hget
      exact classInvariant_index_lt _ _ _ hinv' _ name index rfl hget
  · obtain ⟨w', t', index, fields, pre, digits, post, more, h1, hs1, hd, hinv1, _, _, hle, _,
      hget, hem⟩ :=
      writeObject_spec WriteField writeObjectAsMap hfield w t descs classname typeFields hinv
        hbuf hname hcount hf
    refine ⟨w', t', index, fields, pre, post, more, h1, ?_, hinv1, hget, hem⟩
    rw [hs1, hd (by omega)]

theorem writeClass_indices_in_order_witness :
    classInvariant (NewSimpleWriter []).stream
      (classTables.Reset { classref := some [], fieldsref := [] }) [] ∧
    (∀ classref, ({ classref := some [], fieldsref := [] } : classTables).classref
        = some classref →
      ∃ w' t' classref', (NewSimpleWriter []).writeClass { classref := some [], fieldsref := [] }
          [85, 115, 101, 114] [{ Name := [105, 100], Index := [0] }]
          = some (w', t', ([] : List (List Nat × List field)).length) ∧
        w'.stream = (NewSimpleWriter []).stream
          ++ descriptor [85, 115, 101, 114] [{ Name := [105, 100], Index := [0] }] ∧
        t'.classref = some classref' ∧
        mapGet classref' [85, 115, 101, 114]
          = some ([] : List (List Nat × List field)).length ∧
        classInvariant w'.stream t'
          ([] ++ [([85, 115, 101, 114], [{ Name := [105, 100], Index := [0] }])]) ∧
        (∀ name index, mapGet classref' name = some index → index < t'.fieldsref.length)) ∧
    (∃ w' t', ∃ index : Nat, ∃ fields pre post more,
      (NewSimpleWriter []).writeObject { classref := some [], fieldsref := [] }
          [85, 115, 101, 114] [{ Name := [105, 100], Index := [0] }] false
          (fun _ w t => writer.WriteValue (OValue.plain (Value.int 7)) w t)
          (fun _ _ _ => none) = some (w', t') ∧
      w'.stream = (NewSimpleWriter []).stream
        ++ (pre ++ TagObject :: (decimalText index ++ TagOpenbrace :: post)) ∧
      classInvariant w'.stream t' (([] : List (List Nat × List field)) ++ more) ∧
      (([] : List (List Nat × List field)) ++ more).get? index
        = some ([85, 115, 101, 114], fields) ∧
      emitted ((NewSimpleWriter []).stream ++ pre)
        (((([] : List (List Nat × List field)) ++ more).take (index + 1)).map
          (fun d => descriptor d.1 d.2))) :=
  writeClass_indices_in_order (NewSimpleWriter []) { classref := some [], fieldsref := [] } []
    [85, 115, 101, 114] [{ Name := [105, 100], Index := [0] }]
    (fun _ w t => writer.WriteValue (OValue.plain (Value.int 7)) w t) (fun _ _ _ => none)
    ⟨fun h => Option.noConfusion h, rfl, fun _ _ _ h hget => by
        simp only [Option.some.injEq] at h
        subst h
        simp [mapGet] at hget, trivial⟩
    (by decide) ⟨⟨"User".data, by decide⟩, by decide⟩ (by decide)
    (fun f hf => by
      simp only [List.mem_singleton] at hf
      subst hf
      exact ⟨⟨"id".data, by decide⟩, by decide⟩)
    (by decide)
    (fun _ w t descs hinv hne hbuf =>
      WriteValue_keeps (OValue.plain (Value.int 7)) (by
        show Value.wellFormed (Value.int 7)
        rw [wellFormed_int]
        decide) w t descs hinv hne hbuf)

/-- The bytes of the object of the witness above: the descriptor `c4"User"1{s2"id"}`
and then `o0{7}`. -/
theorem writeObject_example :
    ((NewSimpleWriter []).writeObject classTables.new [85, 115, 101, 114]
        [{ Name := [105, 100], Index := [0] }] false
        (fun _ w t => writer.WriteValue (OValue.plain (Value.int 7)) w t)
        (fun _ _ _ => none)).map (fun r => r.1.stream)
      = some [99, 52, 34, 85, 115, 101, 114, 34, 49, 123, 115, 50, 34, 105, 100, 34, 125,
              111, 48, 123, 55, 125] := by
  decide

/-! ## Registration and lookup of methods -/

theorem AddFunction_some (ToLower : List Nat → List Nat) (methods : Methods) (name : List Nat)
    (f : Func) (options : List AddOption) (resultMode : ResultMode) (simpleMode : Bool)
    (ns : List Nat) (hname : name ≠ [])
    (hopts : addOptions options (ResultMode.Normal, false, []) = some (resultMode, simpleMode, ns)) :
    methods.AddFunction ToLower name (FunctionArg.func f) options
      = some { MethodNames := methods.MethodNames
                 ++ [if ns ≠ [] ∧ name ≠ [42] then ns ++ ([95] ++ name) else name],
               RemoteMethods := mapSet methods.RemoteMethods
                 (ToLower (if ns ≠ [] ∧ name ≠ [42] then ns ++ ([95] ++ name) else name))
                 { Function := f, ResultMode := resultMode, SimpleMode := simpleMode } } := by
  unfold Methods.AddFunction
  rw [if_neg hname]
  simp only [hopts]

/-- C23: after `AddFunction(name, f, options...)` the lookup
`RemoteMethods[ToLower(n)]` of `doInvoke` yields the method that holds `f`
for every requested name `n` whose lower-cased form is that of the
registered name (`name`, or `prefix_name` with a name space), and the call
goes to `f`; other names are looked up as before; a later registration under
the same lower-cased name takes the place of this one. -/
theorem AddFunction_lookup (ToLower : List Nat → List Nat) (methods : Methods)
    (name : List Nat) (f : Func) (options : List AddOption) (resultMode : ResultMode)
    (simpleMode : Bool) (ns : List Nat) (hname : name ≠ [])
    (hopts : addOptions options (ResultMode.Normal, false, []) = some (resultMode, simpleMode, ns)) :
    ∃ methods', methods.AddFunction ToLower name (FunctionArg.func f) options = some methods' ∧
      (∀ n, ToLower n
          = ToLower (if ns ≠ [] ∧ name ≠ [42] then ns ++ ([95] ++ name) else name) →
        mapGet methods'.RemoteMethods (ToLower n)
            = some { Function := f, ResultMode := resultMode, SimpleMode := simpleMode } ∧
        ∀ (e : Option error) (args : List Value),
          BaseService.invoke { Methods := methods', IOError := e } n
              (mapGet methods'.RemoteMethods (ToLower n)) args
            = match f.Call args with
              | Outcome.panics text => invoked.err text
              | Outcome.returns (result, last) args =>
                invoked.called { Function := f, ResultMode := resultMode, SimpleMode := simpleMode }
                  result last args) ∧
      (∀ n, ToLower n
          ≠ ToLower (if ns ≠ [] ∧ name ≠ [42] then ns ++ ([95] ++ name) else name) →
        mapGet methods'.RemoteMethods (ToLower n) = mapGet methods.RemoteMethods (ToLower n)) ∧
      (∀ (name2 : List Nat) (f2 : Func), name2 ≠ [] →
        ToLower name2
          = ToLower (if ns ≠ [] ∧ name ≠ [42] then ns ++ ([95] ++ name) else name) →
        ∃ methods'', methods'.AddFunction ToLower name2 (FunctionArg.func f2) [] = some methods'' ∧
          ∀ n, ToLower n = ToLower name2 →
            mapGet methods''.RemoteMethods (ToLower n)
              = some { Function := f2, ResultMode := ResultMode.Normal, SimpleMode := false }) := by
  refine ⟨_, AddFunction_some ToLower methods name f options resultMode simpleMode ns hname hopts,
    ?_, ?_, ?_⟩
  · intro n hn
    have hget : mapGet (mapSet methods.RemoteMethods
        (ToLower (if ns ≠ [] ∧ name ≠ [42] then ns ++ ([95] ++ name) else name))
        ({ Function := f, ResultMode := resultMode, SimpleMode := simpleMode } : Method))
        (ToLower n)
        = some { Function := f, ResultMode := resultMode, SimpleMode := simpleMode } := by
      rw [mapGet_mapSet, if_pos hn.symm]
    refine ⟨hget, ?_⟩
    intro e args
    simp only [hget, BaseService.invoke]
  · intro n hn
    rw [mapGet_mapSet, if_neg (fun h => hn h.symm)]
  · intro name2 f2 hname2 hlow
    refine ⟨_, AddFunction_some ToLower _ name2 f2 [] ResultMode.Normal false [] hname2 rfl, ?_⟩
    intro n hn
    simp only [ne_eq, not_true_eq_false, false_and, if_false]
    rw [mapGet_mapSet, if_pos hn.symm]

theorem AddFunction_lookup_witness :
    ∃ methods', NewMethods.AddFunction exampleToLower (stringBytes "Hello")
        (FunctionArg.func helloFunc) [AddOption.string (stringBytes "test")] = some methods' ∧
      (∀ n, exampleToLower n
          = exampleToLower (if stringBytes "test" ≠ [] ∧ stringBytes "Hello" ≠ [42]
              then stringBytes "test" ++ ([95] ++ stringBytes "Hello") else stringBytes "Hello") →
        mapGet methods'.RemoteMethods (exampleToLower n)
            = some { Function := helloFunc, ResultMode := ResultMode.Normal, SimpleMode := false } ∧
        ∀ (e : Option error) (args : List Value),
          BaseService.invoke { Methods := methods', IOError := e } n
              (mapGet methods'.RemoteMethods (exampleToLower n)) args
            = match helloFunc.Call args with
              | Outcome.panics text => invoked.err text
              | Outcome.returns (result, last) args =>
                invoked.called
                  { Function := helloFunc, ResultMode := ResultMode.Normal, SimpleMode := false }
                  result last args) ∧
      (∀ n, exampleToLower n
          ≠ exampleToLower (if stringBytes "test" ≠ [] ∧ stringBytes "Hello" ≠ [42]
              then stringBytes "test" ++ ([95] ++ stringBytes "Hello") else stringBytes "Hello") →
        mapGet methods'.RemoteMethods (exampleToLower n)
          = mapGet NewMethods.RemoteMethods (exampleToLower n)) ∧
      (∀ (name2 : List Nat) (f2 : Func), name2 ≠ [] →
        exampleToLower name2
          = exampleToLower (if stringBytes "test" ≠ [] ∧ stringBytes "Hello" ≠ [42]
              then stringBytes "test" ++ ([95] ++ stringBytes "Hello") else stringBytes "Hello") →
        ∃ methods'', methods'.AddFunction exampleToLower name2 (FunctionArg.func f2) []
            = some methods'' ∧
          ∀ n, exampleToLower n = exampleToLower name2 →
            mapGet methods''.RemoteMethods (exampleToLower n)
              = some { Function := f2, ResultMode := ResultMode.Normal, SimpleMode := false }) :=
  AddFunction_lookup exampleToLower NewMethods (stringBytes "Hello") helloFunc
    [AddOption.string (stringBytes "test")] ResultMode.Normal false (stringBytes "test")
    (by decide) rfl

/-! ## The service: one call -/

theorem sendError_frame (service : BaseService) (ostream msg : List Nat)
    (hs : validString msg) :
    service.sendError ostream msg
      = some (ostream ++ TagError :: (encodeCounted msg ++ [TagEnd])) := by
  obtain ⟨w', h1, h2, _⟩ :=
    writeString_encodeCounted ((NewSimpleWriter []).WriteByte TagError) msg hs (by decide)
  unfold BaseService.sendError
  simp only [writer.WriteString, h1, BaseService.responseEnd]
  have h3 : (w'.WriteByte TagEnd).stream = w'.stream ++ [TagEnd] := rfl
  rw [h3, h2]
  rfl

theorem Read_one (b : Nat) (s : List Nat) : Read (b :: s) 1 = ([b], 1, none, s) := by
  have h := Read_full (b :: s) 1 (by decide) (by simp)
  simpa using h

theorem handleBody_call (service : BaseService) (lib : ServiceLibrary)
    (istream ostream : List Nat) :
    service.handleBody lib (TagCall :: istream) ostream = service.doInvoke lib istream ostream := by
  unfold BaseService.handleBody
  rw [Read_one]
  simp

theorem doInvoke_stop (service s : BaseService) (lib : ServiceLibrary)
    (istream ostream o : List Nat) (f : Flow)
    (h : service.doInvokeCall lib istream ostream [] = callFlow.stop s o f) :
    service.doInvoke lib istream ostream = (s, o, f) := by
  unfold BaseService.doInvoke
  rw [BaseService.doInvokeLoop, h]

theorem doInvoke_last (service s : BaseService) (lib : ServiceLibrary)
    (istream ostream buf rest : List Nat) (tag : Nat)
    (h : service.doInvokeCall lib istream ostream [] = callFlow.next s buf tag rest)
    (htag : tag ≠ TagCall) :
    service.doInvoke lib istream ostream = (s, ostream ++ (buf ++ [TagEnd]), Flow.nil) := by
  unfold BaseService.doInvoke
  rw [BaseService.doInvokeLoop, h]
  simp only [if_pos htag, BaseService.responseEnd]

theorem doInvokeCall_eq (service : BaseService) (lib : ServiceLibrary)
    (istream ostream buf name : List Nat) (n : Nat) (args : List Value) (byref : Bool)
    (tag : Nat) (rest : List Nat)
    (hname : lib.ReadString istream = some (name, none, n))
    (hargs : readArguments lib (mapGet service.Methods.RemoteMethods (lib.ToLower name))
      (istream.drop n) = argsRead.ok args byref tag rest) :
    service.doInvokeCall lib istream ostream buf
      = service.answer lib ostream buf byref tag rest
          (service.invoke name (mapGet service.Methods.RemoteMethods (lib.ToLower name)) args) := by
  unfold BaseService.doInvokeCall
  simp only [hname, hargs]

theorem Handle_err (service s : BaseService) (lib : ServiceLibrary)
    (istream ostream o msg : List Nat)
    (h : service.handleBody lib istream ostream = (s, o, Flow.err msg))
    (hs : validString msg) :
    service.Handle lib istream ostream
      = some (s, o ++ TagError :: (encodeCounted msg ++ [TagEnd])) := by
  unfold BaseService.Handle
  rw [h]
  simp only [sendError_frame s o msg hs, Option.map_some']

theorem Handle_panic (service s : BaseService) (lib : ServiceLibrary)
    (istream ostream o text : List Nat)
    (h : service.handleBody lib istream ostream = (s, o, Flow.panic text))
    (hs : validString text) :
    service.Handle lib istream ostream
      = some (s, o ++ TagError :: (encodeCounted text ++ [TagEnd])) := by
  unfold BaseService.Handle
  rw [h]
  simp only [sendError_frame s o text hs, Option.map_some']

theorem Handle_nil (service s : BaseService) (lib : ServiceLibrary)
    (istream ostream o : List Nat)
    (h : service.handleBody lib istream ostream = (s, o, Flow.nil)) :
    service.Handle lib istream ostream = some (s, o) := by
  unfold BaseService.Handle
  rw [h]

theorem WriteArray_encode (w : writer) (v : List Value) (hv : wellFormedList v)
    (hn : v.length < 2 ^ 63) (hbuf : w.numbuf.length = 20) :
    ∃ w', w.WriteArray v = some w' ∧ w'.stream = w.stream ++ encode (Value.slice v) ∧
      w'.numbuf.length = 20 := by
  unfold writer.WriteArray
  rw [writer_setRef, encode_slice]
  by_cases h0 : v.length > 0
  · obtain ⟨w1, hw1, hs1, hl1⟩ := writeInt_spec (w.WriteByte TagList) v.length hn
      (by simpa [writer.WriteByte] using hbuf)
    obtain ⟨w2, hw2, hs2, hl2⟩ := writeObjectSliceLoop_encode v (w1.WriteByte TagOpenbrace) hv
      (by simpa [writer.WriteByte] using hl1)
    refine ⟨w2.WriteByte TagClosebrace, ?_, ?_, by simpa [writer.WriteByte] using hl2⟩
    · simp only [if_pos h0, hw1, hw2]
    · simp only [writer.WriteByte, hs2, hs1, if_pos h0, List.append_assoc,
        List.singleton_append, List.cons_append, List.nil_append]
  · have hv0 : v = [] := List.length_eq_zero.mp (by omega)
    subst hv0
    refine ⟨((w.WriteByte TagList).WriteByte TagOpenbrace).WriteByte TagClosebrace, ?_, ?_,
      by simpa [writer.WriteByte] using hbuf⟩
    · simp
    · simp [writer.WriteByte, encodeList_nil]

/-! ## The service: the answer of one call -/

theorem writeResults_encode (w : writer) (result : List Value) (hv : wellFormedList result)
    (hn : result.length < 2 ^ 63) (hbuf : w.numbuf.length = 20) :
    ∃ w', w.writeResults result = some w' ∧ w'.stream = w.stream ++ encodeResults result ∧
      w'.numbuf.length = 20 := by
  cases result with
  | nil => exact Serialize_encode Value.null w trivial hbuf
  | cons v rest =>
    cases rest with
    | nil =>
      rw [wellFormedList_cons] at hv
      exact Serialize_encode v w hv.1 hbuf
    | cons v2 rest => exact WriteArray_encode w (v :: v2 :: rest) hv hn hbuf

theorem writeResponse_simple (lib : ServiceLibrary) (m : Method) (result : List Value)
    (data : List Nat) (byref : Bool) (args : List Value) (buf : List Nat)
    (hmode : m.ResultMode = ResultMode.Normal) (hsimple : m.SimpleMode = true)
    (hv : wellFormedList result) (hn : result.length < 2 ^ 63)
    (ha : byref = true → wellFormedList args ∧ args.length < 2 ^ 63) :
    writeResponse lib m result data byref args buf
      = some (buf ++ TagResult :: (encodeResults result
          ++ (if byref = true then TagArgument :: encode (Value.slice args) else []))) := by
  obtain ⟨w1, h1, hs1, hb1⟩ :=
    writeResults_encode ((NewSimpleWriter buf).WriteByte TagResult) result hv hn rfl
  have hs1' : w1.stream = buf ++ TagResult :: encodeResults result := by
    rw [hs1]
    simp [NewSimpleWriter, writer.WriteByte]
  unfold writeResponse
  rw [hmode, hsimple]
  simp only [if_true, h1, reduceCtorEq, if_false]
  cases byref with
  | false => simp [hs1']
  | true =>
    obtain ⟨w2, h2, hs2, _⟩ :=
      WriteArray_encode (w1.WriteByte TagArgument) args (ha rfl).1 (ha rfl).2
        (by simpa [writer.WriteByte] using hb1)
    have hs2' : w2.stream
        = buf ++ TagResult :: (encodeResults result ++ TagArgument :: encode (Value.slice args)) := by
      rw [hs2, show (w1.WriteByte TagArgument).stream = w1.stream ++ [TagArgument] from rfl, hs1']
      simp
    simp only [if_true, h2, hs2']

theorem writeResponse_tracked (lib : ServiceLibrary) (m : Method) (result : List Value)
    (data : List Nat) (byref : Bool) (args : List Value) (buf body abody : List Nat)
    (hmode : m.ResultMode = ResultMode.Normal) (hsimple : m.SimpleMode = false)
    (hbody : lib.writeResults result = some body)
    (ha : byref = true → lib.WriteArray args = some abody) :
    writeResponse lib m result data byref args buf
      = some (buf ++ TagResult :: (body
          ++ (if byref = true then TagArgument :: abody else []))) := by
  unfold writeResponse
  rw [hmode, hsimple, hbody]
  simp only [reduceCtorEq, if_false, Bool.false_eq_true, Option.map_some']
  cases byref with
  | false => simp
  | true => simp [ha rfl]

theorem answer_err (service : BaseService) (lib : ServiceLibrary) (ostream buf : List Nat)
    (byref : Bool) (tag : Nat) (rest msg : List Nat) :
    service.answer lib ostream buf byref tag rest (invoked.err msg)
      = callFlow.stop service ostream (Flow.err msg) := rfl

theorem answer_called_error (service : BaseService) (lib : ServiceLibrary)
    (ostream buf : List Nat) (byref : Bool) (tag : Nat) (rest msg : List Nat) (m : Method)
    (result args : List Value) :
    service.answer lib ostream buf byref tag rest (invoked.called m result (some (some msg)) args)
      = callFlow.stop service ostream (Flow.err msg) := rfl

theorem answer_called_nil (service : BaseService) (lib : ServiceLibrary)
    (ostream buf : List Nat) (byref : Bool) (tag : Nat) (rest : List Nat) (m : Method)
    (result args : List Value) :
    service.answer lib ostream buf byref tag rest (invoked.called m result (some none) args)
      = service.answer lib ostream buf byref tag rest (invoked.called m result none args) := rfl

theorem answer_called_normal (service : BaseService) (lib : ServiceLibrary)
    (ostream buf buf' : List Nat) (byref : Bool) (tag : Nat) (rest : List Nat) (m : Method)
    (result args : List Value) (hmode : m.ResultMode = ResultMode.Normal)
    (hw : writeResponse lib m result [] byref args buf = some buf') :
    service.answer lib ostream buf byref tag rest (invoked.called m result none args)
      = callFlow.next service buf' tag rest := by
  simp only [BaseService.answer, hmode, ne_eq, not_true_eq_false, if_false, hw]

theorem Handle_stop_err (service : BaseService) (lib : ServiceLibrary)
    (istream ostream msg : List Nat)
    (h : service.doInvokeCall lib istream ostream [] = callFlow.stop service ostream (Flow.err msg))
    (hs : validString msg) :
    service.Handle lib (TagCall :: istream) ostream
      = some (service, ostream ++ TagError :: (encodeCounted msg ++ [TagEnd])) :=
  Handle_err service service lib _ ostream ostream msg
    (by rw [handleBody_call]; exact doInvoke_stop service service lib istream ostream ostream _ h) hs

theorem Handle_next (service : BaseService) (lib : ServiceLibrary)
    (istream ostream buf rest : List Nat) (tag : Nat)
    (h : service.doInvokeCall lib istream ostream [] = callFlow.next service buf tag rest)
    (htag : tag ≠ TagCall) :
    service.Handle lib (TagCall :: istream) ostream
      = some (service, ostream ++ (buf ++ [TagEnd])) :=
  Handle_nil service service lib _ ostream _
    (by rw [handleBody_call]
        exact doInvoke_last service service lib istream ostream buf rest tag h htag)

theorem invoke_called (service : BaseService) (name : List Nat) (m : Method)
    (args args' result : List Value) (last : Option (Option (List Nat)))
    (hcall : m.Function.Call args = Outcome.returns (result, last) args') :
    service.invoke name (some m) args = invoked.called m result last args' := by
  simp only [BaseService.invoke, hcall]

theorem invoke_panics (service : BaseService) (name : List Nat) (m : Method)
    (args : List Value) (text : List Nat)
    (hcall : m.Function.Call args = Outcome.panics text) :
    service.invoke name (some m) args = invoked.err text := by
  simp only [BaseService.invoke, hcall]

theorem specErrorFrame_eq (msg : List Nat) (hs : validString msg) (hne : msg ≠ []) :
    TagError :: (encodeCounted msg ++ [TagEnd]) = specErrorFrame msg := by
  unfold specErrorFrame specCounted
  rw [encodeCounted_pos msg hs hne]

/-- C24 (counterexample): a method that returns `errors.New("")` is answered
with `Es""z`; the frame with the count, `Es0""z`, is not what is written. -/
theorem returned_error_empty_message :
    ((serviceOf [102, 97, 105, 108] emptyErrorFunc []).Handle exampleServiceLibrary
        [67, 115, 52, 34, 102, 97, 105, 108, 34, 122] []).map (fun r => r.2)
      = some [69, 115, 34, 34, 122] ∧
    specErrorFrame [] = [69, 115, 48, 34, 34, 122] := by
  constructor
  · decide
  · decide

/-- C24 (amended): when the last declared result of the invoked method is of
the error kind and its value is an error with message `m`, the service
writes exactly one frame, `E`, then `m` as `writeString` writes it (`s`, the
decimal UTF-16 length, left out when `m` is empty, and `m` in quotes), then
`z`, and nothing else; for a message that is not empty this is the frame
`E s<ulen(m)>"m" z`. When the value of that slot is `nil`, the answer is that
of the same results without the slot: for the last call of a request to a
`Normal` mode method in simple mode, `R`, the results, the arguments after
`A` when the call is by reference, and `z`. -/
theorem returned_error_frame (service : BaseService) (lib : ServiceLibrary)
    (istream ostream name : List Nat) (n : Nat) (args : List Value) (byref : Bool) (tag : Nat)
    (rest : List Nat) (m : Method) (result : List Value) (e : Option (List Nat))
    (args' : List Value)
    (hname : lib.ReadString istream = some (name, none, n))
    (hm : mapGet service.Methods.RemoteMethods (lib.ToLower name) = some m)
    (hargs : readArguments lib (some m) (istream.drop n) = argsRead.ok args byref tag rest)
    (hcall : m.Function.Call args = Outcome.returns (result, some e) args') :
    (∀ msg, e = some msg → validString msg →
      service.Handle lib (TagCall :: istream) ostream
        = some (service, ostream ++ TagError :: (encodeCounted msg ++ [TagEnd])) ∧
      (msg ≠ [] → TagError :: (encodeCounted msg ++ [TagEnd]) = specErrorFrame msg)) ∧
    (e = none →
      service.doInvokeCall lib istream ostream []
        = service.answer lib ostream [] byref tag rest (invoked.called m result none args') ∧
      (tag ≠ TagCall → m.ResultMode = ResultMode.Normal → m.SimpleMode = true →
        wellFormedList result → result.length < 2 ^ 63 →
        (byref = true → wellFormedList args' ∧ args'.length < 2 ^ 63) →
        service.Handle lib (TagCall :: istream) ostream
          = some (service, ostream ++ (TagResult :: (encodeResults result
              ++ (if byref = true then TagArgument :: encode (Value.slice args') else []))
              ++ [TagEnd])))) := by
  have hcallEq := doInvokeCall_eq service lib istream ostream [] name n args byref tag rest hname
    (by rw [hm]; exact hargs)
  rw [hm, invoke_called service name m args args' result (some e) hcall] at hcallEq
  constructor
  · intro msg he hmsg
    subst he
    rw [answer_called_error] at hcallEq
    exact ⟨Handle_stop_err service lib istream ostream msg hcallEq hmsg,
      specErrorFrame_eq msg hmsg⟩
  · intro he
    subst he
    rw [answer_called_nil] at hcallEq
    refine ⟨hcallEq, ?_⟩
    intro htag hmode hsimple hv hn ha
    have hw := writeResponse_simple lib m result [] byref args' [] hmode hsimple hv hn ha
    rw [answer_called_normal service lib ostream [] _ byref tag rest m result args' hmode hw]
      at hcallEq
    have := Handle_next service lib istream ostream _ rest tag hcallEq htag
    simpa using this

theorem returned_error_frame_witness :
    (∀ msg, some (stringBytes "Requires at least two parameters") = some msg →
      validString msg →
      (testService true).Handle exampleServiceLibrary
          (TagCall :: [115, 51, 34, 83, 117, 109, 34, 97, 49, 123, 49, 125, 122]) []
        = some (testService true, [] ++ TagError :: (encodeCounted msg ++ [TagEnd])) ∧
      (msg ≠ [] → TagError :: (encodeCounted msg ++ [TagEnd]) = specErrorFrame msg)) ∧
    (some (stringBytes "Requires at least two parameters") = none →
      (testService true).doInvokeCall exampleServiceLibrary
          [115, 51, 34, 83, 117, 109, 34, 97, 49, 123, 49, 125, 122] [] []
        = (testService true).answer exampleServiceLibrary [] [] false TagEnd []
            (invoked.called { Function := SumFunc, ResultMode := ResultMode.Normal,
                              SimpleMode := true } [Value.int 0] none [Value.int 1]) ∧
      (TagEnd ≠ TagCall →
        ({ Function := SumFunc, ResultMode := ResultMode.Normal,
           SimpleMode := true } : Method).ResultMode = ResultMode.Normal →
        ({ Function := SumFunc, ResultMode := ResultMode.Normal,
           SimpleMode := true } : Method).SimpleMode = true →
        wellFormedList [Value.int 0] → [Value.int 0].length < 2 ^ 63 →
        (false = true → wellFormedList [Value.int 1] ∧ [Value.int 1].length < 2 ^ 63) →
        (testService true).Handle exampleServiceLibrary
            (TagCall :: [115, 51, 34, 83, 117, 109, 34, 97, 49, 123, 49, 125, 122]) []
          = some (testService true, [] ++ (TagResult :: (encodeResults [Value.int 0]
              ++ (if false = true then TagArgument :: encode (Value.slice [Value.int 1]) else []))
              ++ [TagEnd])))) :=
  returned_error_frame (testService true) exampleServiceLibrary
    [115, 51, 34, 83, 117, 109, 34, 97, 49, 123, 49, 125, 122] [] [83, 117, 109] 7
    [Value.int 1] false TagEnd []
    { Function := SumFunc, ResultMode := ResultMode.Normal, SimpleMode := true }
    [Value.int 0] (some (stringBytes "Requires at least two parameters")) [Value.int 1]
    rfl rfl rfl rfl

/-- C25: when the body of the invoked method panics with a value whose text
is `text`, `Handle` returns (the panic does not leave it) and the service
writes exactly the frame `E`, the text as `writeString` writes it (`s`, the
decimal UTF-16 length and the text in quotes; for a text that is not empty
this is the specification's frame), `z`. The test method `PanicTest`, which
panics with "I'm crazy", is answered with `Es9"I'm crazy"z`, from which the
client's reader of the error frame takes the text "I'm crazy". -/
theorem panic_error_frame (service : BaseService) (lib : ServiceLibrary)
    (istream ostream name : List Nat) (n : Nat) (args : List Value) (byref : Bool) (tag : Nat)
    (rest : List Nat) (m : Method) (text : List Nat)
    (hname : lib.ReadString istream = some (name, none, n))
    (hm : mapGet service.Methods.RemoteMethods (lib.ToLower name) = some m)
    (hargs : readArguments lib (some m) (istream.drop n) = argsRead.ok args byref tag rest)
    (hcall : m.Function.Call args = Outcome.panics text) (htext : validString text) :
    service.Handle lib (TagCall :: istream) ostream
      = some (service, ostream ++ TagError :: (encodeCounted text ++ [TagEnd])) ∧
    (text ≠ [] → TagError :: (encodeCounted text ++ [TagEnd]) = specErrorFrame text) ∧
    ((testService false).Handle exampleServiceLibrary
        [67, 115, 57, 34, 80, 97, 110, 105, 99, 84, 101, 115, 116, 34, 122] []).map (fun r => r.2)
      = some [69, 115, 57, 34, 73, 39, 109, 32, 99, 114, 97, 122, 121, 34, 122] ∧
    doIntputError exampleServiceLibrary
        [115, 57, 34, 73, 39, 109, 32, 99, 114, 97, 122, 121, 34, 122]
      = some [73, 39, 109, 32, 99, 114, 97, 122, 121] := by
  have hcallEq := doInvokeCall_eq service lib istream ostream [] name n args byref tag rest hname
    (by rw [hm]; exact hargs)
  rw [hm, invoke_panics service name m args text hcall, answer_err] at hcallEq
  exact ⟨Handle_stop_err service lib istream ostream text hcallEq htext,
    specErrorFrame_eq text htext, by decide, by decide⟩

theorem panic_error_frame_witness :
    (testService false).Handle exampleServiceLibrary
        (TagCall :: [115, 57, 34, 80, 97, 110, 105, 99, 84, 101, 115, 116, 34, 122]) []
      = some (testService false,
          [] ++ TagError :: (encodeCounted (stringBytes "I'm crazy") ++ [TagEnd])) ∧
    (stringBytes "I'm crazy" ≠ [] →
      TagError :: (encodeCounted (stringBytes "I'm crazy") ++ [TagEnd])
        = specErrorFrame (stringBytes "I'm crazy")) ∧
    ((testService false).Handle exampleServiceLibrary
        [67, 115, 57, 34, 80, 97, 110, 105, 99, 84, 101, 115, 116, 34, 122] []).map (fun r => r.2)
      = some [69, 115, 57, 34, 73, 39, 109, 32, 99, 114, 97, 122, 121, 34, 122] ∧
    doIntputError exampleServiceLibrary
        [115, 57, 34, 73, 39, 109, 32, 99, 114, 97, 122, 121, 34, 122]
      = some [73, 39, 109, 32, 99, 114, 97, 122, 121] :=
  panic_error_frame (testService false) exampleServiceLibrary
    [115, 57, 34, 80, 97, 110, 105, 99, 84, 101, 115, 116, 34, 122] []
    [80, 97, 110, 105, 99, 84, 101, 115, 116] 13 [] false TagEnd []
    { Function := PanicTestFunc, ResultMode := ResultMode.Normal, SimpleMode := false }
    (stringBytes "I'm crazy") rfl rfl rfl rfl ⟨⟨"I'm crazy".data, rfl⟩, by decide⟩

/-- The frames of the two cases of C26 on the service of the tests: the
call of `nope` is answered with `Es27"Can't find this method nope"z`, and
with the catch-all that returns the name, with `Rs4"nope"z`. -/
theorem missing_method_example :
    ((testService true).Handle exampleServiceLibrary
        [67, 115, 52, 34, 110, 111, 112, 101, 34, 122] []).map (fun r => r.2)
      = some [69, 115, 50, 55, 34, 67, 97, 110, 39, 116, 32, 102, 105, 110, 100, 32, 116, 104,
              105, 115, 32, 109, 101, 116, 104, 111, 100, 32, 110, 111, 112, 101, 34, 122] ∧
    ((serviceOf [42] echoMissingMethod [AddOption.bool true]).Handle exampleServiceLibrary
        [67, 115, 52, 34, 110, 111, 112, 101, 34, 122] []).map (fun r => r.2)
      = some [82, 115, 52, 34, 110, 111, 112, 101, 34, 122] := by
  constructor
  · decide
  · decide

/-- The three modes of C27 on a method `raw` that returns the bytes `1`: the
call `Cs3"raw"z` is answered with `1z` in `Raw` mode, `1` in `RawWithEndTag`
mode and `R1z` in `Serialized` mode. -/
theorem result_modes_example :
    ((serviceOf [114, 97, 119] (dataFunc [49]) [AddOption.resultMode ResultMode.Raw]).Handle
        exampleServiceLibrary [67, 115, 51, 34, 114, 97, 119, 34, 122] []).map (fun r => r.2)
      = some [49, 122] ∧
    ((serviceOf [114, 97, 119] (dataFunc [49])
        [AddOption.resultMode ResultMode.RawWithEndTag]).Handle
        exampleServiceLibrary [67, 115, 51, 34, 114, 97, 119, 34, 122] []).map (fun r => r.2)
      = some [49] ∧
    ((serviceOf [114, 97, 119] (dataFunc [49])
        [AddOption.resultMode ResultMode.Serialized]).Handle
        exampleServiceLibrary [67, 115, 51, 34, 114, 97, 119, 34, 122] []).map (fun r => r.2)
      = some [82, 49, 122] := by
  refine ⟨?_, ?_, ?_⟩
  · decide
  · decide
  · decide

/-- C28 (counterexample): the call `Swap(1, 2)` by reference,
`Cs4"Swap"a2{12}tz`, is answered with `Ra2{21}Aa2{12}z`: the arguments follow
the results, and the answer is not `Ra2{21}z`. -/
theorem normal_results_by_reference :
    ((testService true).Handle exampleServiceLibrary
        [67, 115, 52, 34, 83, 119, 97, 112, 34, 97, 50, 123, 49, 50, 125, 116, 122] []).map
        (fun r => r.2)
      = some [82, 97, 50, 123, 50, 49, 125, 65, 97, 50, 123, 49, 50, 125, 122] ∧
    TagResult :: (encodeResults [Value.int 2, Value.int 1] ++ [TagEnd])
      = [82, 97, 50, 123, 50, 49, 125, 122] := by
  constructor
  · decide
  · decide

/-- C28 (amended): for a `Normal` mode method with the results `result` left
after a `nil` trailing error is removed, the answer to the last call of a
request is `R`, then `n` for no result, the encoding of the one result, or
the list `a<k>{...}` of the `k >= 2` results in order, then, only when the
call is by reference, `A` and the list of the arguments, then `z`. With the
simple writer the encodings are those of `encode`; with `NewWriter` they are
the bytes that writer appends. The call `Cs5"hello"a1{s5"World"}z` to the
function `hello` is answered with `Rs12"Hello World!"z`, and `Swap(1, 2)`
with `Ra2{21}z`. -/
theorem normal_results_frame (service : BaseService) (lib : ServiceLibrary)
    (istream ostream name : List Nat) (n : Nat) (args : List Value) (byref : Bool) (tag : Nat)
    (rest : List Nat) (m : Method) (result : List Value) (last : Option (Option (List Nat)))
    (args' : List Value)
    (hname : lib.ReadString istream = some (name, none, n))
    (hm : mapGet service.Methods.RemoteMethods (lib.ToLower name) = some m)
    (hargs : readArguments lib (some m) (istream.drop n) = argsRead.ok args byref tag rest)
    (hcall : m.Function.Call args = Outcome.returns (result, last) args')
    (hlast : last = none ∨ last = some none) (hmode : m.ResultMode = ResultMode.Normal)
    (htag : tag ≠ TagCall) :
    (m.SimpleMode = true → wellFormedList result → result.length < 2 ^ 63 →
      (byref = true → wellFormedList args' ∧ args'.length < 2 ^ 63) →
      service.Handle lib (TagCall :: istream) ostream
        = some (service, ostream ++ (TagResult :: (encodeResults result
            ++ (if byref = true then TagArgument :: encode (Value.slice args') else []))
            ++ [TagEnd]))) ∧
    (m.SimpleMode = false → ∀ body abody, lib.writeResults result = some body →
      (byref = true → lib.WriteArray args' = some abody) →
      service.Handle lib (TagCall :: istream) ostream
        = some (service, ostream ++ (TagResult :: (body
            ++ (if byref = true then TagArgument :: abody else [])) ++ [TagEnd]))) ∧
    ((testService false).Handle exampleServiceLibrary
        [67, 115, 53, 34, 104, 101, 108, 108, 111, 34, 97, 49, 123, 115, 53, 34, 87, 111, 114,
         108, 100, 34, 125, 122] []).map (fun r => r.2)
      = some [82, 115, 49, 50, 34, 72, 101, 108, 108, 111, 32, 87, 111, 114, 108, 100, 33, 34,
              122] ∧
    ((testService false).Handle exampleServiceLibrary
        [67, 115, 52, 34, 83, 119, 97, 112, 34, 97, 50, 123, 49, 50, 125, 122] []).map
        (fun r => r.2)
      = some [82, 97, 50, 123, 50, 49, 125, 122] := by
  have hcallEq := doInvokeCall_eq service lib istream ostream [] name n args byref tag rest hname
    (by rw [hm]; exact hargs)
  rw [hm, invoke_called service name m args args' result last hcall] at hcallEq
  have hcallEq' : service.doInvokeCall lib istream ostream []
      = service.answer lib ostream [] byref tag rest (invoked.called m result none args') := by
    rcases hlast with h | h
    · rw [h] at hcallEq
      exact hcallEq
    · rw [h, answer_called_nil] at hcallEq
      exact hcallEq
  refine ⟨?_, ?_, by decide, by decide⟩
  · intro hsimple hv hn ha
    have hw := writeResponse_simple lib m result [] byref args' [] hmode hsimple hv hn ha
    rw [answer_called_normal service lib ostream [] _ byref tag rest m result args' hmode hw]
      at hcallEq'
    have := Handle_next service lib istream ostream _ rest tag hcallEq' htag
    simpa using this
  · intro hsimple body abody hbody ha
    have hw := writeResponse_tracked lib m result [] byref args' [] body abody hmode hsimple
      hbody ha
    rw [answer_called_normal service lib ostream [] _ byref tag rest m result args' hmode hw]
      at hcallEq'
    have := Handle_next service lib istream ostream _ rest tag hcallEq' htag
    simpa using this

theorem normal_results_frame_witness :
    (({ Function := SwapFunc, ResultMode := ResultMode.Normal,
        SimpleMode := true } : Method).SimpleMode = true →
      wellFormedList [Value.int 2, Value.int 1] → [Value.int 2, Value.int 1].length < 2 ^ 63 →
      (true = true → wellFormedList [Value.int 1, Value.int 2]
        ∧ [Value.int 1, Value.int 2].length < 2 ^ 63) →
      (testService true).Handle exampleServiceLibrary
          (TagCall :: [115, 52, 34, 83, 119, 97, 112, 34, 97, 50, 123, 49, 50, 125, 116, 122]) []
        = some (testService true, [] ++ (TagResult :: (encodeResults [Value.int 2, Value.int 1]
            ++ (if true = true then TagArgument :: encode (Value.slice [Value.int 1, Value.int 2])
                else []))
            ++ [TagEnd]))) ∧
    (({ Function := SwapFunc, ResultMode := ResultMode.Normal,
        SimpleMode := true } : Method).SimpleMode = false →
      ∀ body abody,
      exampleServiceLibrary.writeResults [Value.int 2, Value.int 1] = some body →
      (true = true → exampleServiceLibrary.WriteArray [Value.int 1, Value.int 2] = some abody) →
      (testService true).Handle exampleServiceLibrary
          (TagCall :: [115, 52, 34, 83, 119, 97, 112, 34, 97, 50, 123, 49, 50, 125, 116, 122]) []
        = some (testService true, [] ++ (TagResult :: (body
            ++ (if true = true then TagArgument :: abody else [])) ++ [TagEnd]))) ∧
    ((testService false).Handle exampleServiceLibrary
        [67, 115, 53, 34, 104, 101, 108, 108, 111, 34, 97, 49, 123, 115, 53, 34, 87, 111, 114,
         108, 100, 34, 125, 122] []).map (fun r => r.2)
      = some [82, 115, 49, 50, 34, 72, 101, 108, 108, 111, 32, 87, 111, 114, 108, 100, 33, 34,
              122] ∧
    ((testService false).Handle exampleServiceLibrary
        [67, 115, 52, 34, 83, 119, 97, 112, 34, 97, 50, 123, 49, 50, 125, 122] []).map
        (fun r => r.2)
      = some [82, 97, 50, 123, 50, 49, 125, 122] :=
  normal_results_frame (testService true) exampleServiceLibrary
    [115, 52, 34, 83, 119, 97, 112, 34, 97, 50, 123, 49, 50, 125, 116, 122] []
    [83, 119, 97, 112] 8 [Value.int 1, Value.int 2] true TagEnd []
    { Function := SwapFunc, ResultMode := ResultMode.Normal, SimpleMode := true }
    [Value.int 2, Value.int 1] none [Value.int 1, Value.int 2] rfl rfl rfl rfl (Or.inl rfl) rfl
    (by decide)

/-! ## Discovery frame and call frame -/

/-- The discovery frame of the service of the tests:
`Fa4{s5"hello"s9"PanicTest"s3"Sum"s4"Swap"}z`. -/
theorem function_list_example :
    ((testService false).Handle exampleServiceLibrary [122] []).map (fun r => r.2)
      = some [70, 97, 52, 123, 115, 53, 34, 104, 101, 108, 108, 111, 34, 115, 57, 34, 80, 97,
              110, 105, 99, 84, 101, 115, 116, 34, 115, 51, 34, 83, 117, 109, 34, 115, 52, 34,
              83, 119, 97, 112, 34, 125, 122] := by
  decide

/-- C30 (counterexample): for the empty method name and no arguments the
client builds `Cs""z`; the frame with the count, `Cs0""z`, is not what is
built. -/
theorem doOutput_empty_name :
    BaseClient.doOutput { ByRef := false, SimpleMode := true } exampleServiceLibrary [] none
        { ByRef := none, SimpleMode := none, ResultMode := ResultMode.Normal }
      = some [67, 115, 34, 34, 122] ∧
    specCallFrame [] [] false false = [67, 115, 48, 34, 34, 122] := by
  constructor
  · decide
  · decide

/-- C30 (amended): for every method name, argument list and by-reference
flag, the bytes the client builds in `doOutput` are exactly `C`, the name as
`writeString` writes it (`s`, the decimal UTF-16 length, left out for the
empty name, and the name in quotes), then, only when the argument list is
not `nil` and is either not empty or sent by reference, the list encoding of
the arguments followed by `t` if and only if the call is by reference, then
`z`. With the simple writer the list encoding is that of `encode`; with
`NewWriter` it is the bytes that writer appends. For a name that is not
empty this is the specification's frame, and for the name `hello` and the
one argument `World` it is `Cs5"hello"a1{s5"World"}z`. -/
theorem doOutput_frame (client : BaseClient) (lib : ServiceLibrary) (name : List Nat)
    (options : InvokeOptions) (hname : validString name) :
    client.doOutput lib name none options = some (TagCall :: (encodeCounted name ++ [TagEnd])) ∧
    (∀ a : List Value, ¬ (a.length > 0 ∨ options.ByRef.getD client.ByRef = true) →
      client.doOutput lib name (some a) options
        = some (TagCall :: (encodeCounted name ++ [TagEnd]))) ∧
    (∀ a : List Value, a.length > 0 ∨ options.ByRef.getD client.ByRef = true →
      options.SimpleMode.getD client.SimpleMode = true → wellFormedList a →
      a.length < 2 ^ 63 →
      client.doOutput lib name (some a) options
        = some (TagCall :: (encodeCounted name ++ (encode (Value.slice a)
            ++ ((if options.ByRef.getD client.ByRef = true then [TagTrue] else [])
              ++ [TagEnd]))))) ∧
    (∀ (a : List Value) (body : List Nat),
      a.length > 0 ∨ options.ByRef.getD client.ByRef = true →
      options.SimpleMode.getD client.SimpleMode = false → lib.WriteArray a = some body →
      client.doOutput lib name (some a) options
        = some (TagCall :: (encodeCounted name ++ (body
            ++ ((if options.ByRef.getD client.ByRef = true then [TagTrue] else [])
              ++ [TagEnd]))))) ∧
    (name ≠ [] → ∀ (list : List Nat) (withArgs byref : Bool),
      TagCall :: (encodeCounted name ++ ((if withArgs then list
          ++ (if byref then [TagTrue] else []) else []) ++ [TagEnd]))
        = specCallFrame name list withArgs byref) ∧
    BaseClient.doOutput { ByRef := false, SimpleMode := true } exampleServiceLibrary
        [104, 101, 108, 108, 111] (some [Value.string [87, 111, 114, 108, 100]])
        { ByRef := none, SimpleMode := none, ResultMode := ResultMode.Normal }
      = some [67, 115, 53, 34, 104, 101, 108, 108, 111, 34, 97, 49, 123, 115, 53, 34, 87, 111,
              114, 108, 100, 34, 125, 122] := by
  obtain ⟨w1, h1, hs1, hb1⟩ :=
    writeString_encodeCounted ((NewSimpleWriter []).WriteByte TagCall) name hname rfl
  have hs1' : w1.stream = TagCall :: encodeCounted name := by
    rw [hs1]
    rfl
  have hend : (w1.WriteByte TagEnd).stream = TagCall :: (encodeCounted name ++ [TagEnd]) := by
    rw [show (w1.WriteByte TagEnd).stream = w1.stream ++ [TagEnd] from rfl, hs1']
    rfl
  refine ⟨?_, ?_, ?_, ?_, ?_, by decide⟩
  · unfold BaseClient.doOutput
    simp only [writer.WriteString, h1, hend]
  · intro a hno
    unfold BaseClient.doOutput
    simp only [writer.WriteString, h1, hend, if_neg hno]
  · intro a hyes hsimple hv hn
    obtain ⟨w2, h2, hs2, _⟩ := WriteArray_encode w1 a hv hn hb1
    unfold BaseClient.doOutput
    simp only [writer.WriteString, h1, if_pos hyes, hsimple, if_true, h2]
    cases hb : options.ByRef.getD client.ByRef with
    | false =>
      simp only [Bool.false_eq_true, if_false, Option.some.injEq]
      rw [show (w2.WriteByte TagEnd).stream = w2.stream ++ [TagEnd] from rfl, hs2, hs1']
      simp
    | true =>
      simp only [if_true, writer.WriteBool, Option.some.injEq]
      rw [show ((w2.WriteByte TagTrue).WriteByte TagEnd).stream
        = w2.stream ++ [TagTrue] ++ [TagEnd] from rfl, hs2, hs1']
      simp
  · intro a body hyes hsimple hbody
    unfold BaseClient.doOutput
    simp only [writer.WriteString, h1, if_pos hyes, hsimple, Bool.false_eq_true, if_false, hbody,
      Option.map_some']
    cases hb : options.ByRef.getD client.ByRef with
    | false =>
      simp only [Bool.false_eq_true, if_false, Option.some.injEq]
      rw [show ((w1.Write body).WriteByte TagEnd).stream = w1.stream ++ body ++ [TagEnd] from rfl,
        hs1']
      simp
    | true =>
      simp only [if_true, writer.WriteBool, Option.some.injEq]
      rw [show (((w1.Write body).WriteByte TagTrue).WriteByte TagEnd).stream
        = w1.stream ++ body ++ [TagTrue] ++ [TagEnd] from rfl, hs1']
      simp
  · intro hne list withArgs byref
    unfold specCallFrame specCounted
    rw [encodeCounted_pos name hname hne]

theorem doOutput_frame_witness :
    BaseClient.doOutput { ByRef := true, SimpleMode := true } exampleServiceLibrary
        [83, 119, 97, 112] none
        { ByRef := none, SimpleMode := none, ResultMode := ResultMode.Normal }
      = some (TagCall :: (encodeCounted [83, 119, 97, 112] ++ [TagEnd])) ∧
    (∀ a : List Value,
      ¬ (a.length > 0 ∨ (none : Option Bool).getD true = true) →
      BaseClient.doOutput { ByRef := true, SimpleMode := true } exampleServiceLibrary
          [83, 119, 97, 112] (some a)
          { ByRef := none, SimpleMode := none, ResultMode := ResultMode.Normal }
        = some (TagCall :: (encodeCounted [83, 119, 97, 112] ++ [TagEnd]))) ∧
    (∀ a : List Value, a.length > 0 ∨ (none : Option Bool).getD true = true →
      (none : Option Bool).getD true = true → wellFormedList a → a.length < 2 ^ 63 →
      BaseClient.doOutput { ByRef := true, SimpleMode := true } exampleServiceLibrary
          [83, 119, 97, 112] (some a)
          { ByRef := none, SimpleMode := none, ResultMode := ResultMode.Normal }
        = some (TagCall :: (encodeCounted [83, 119, 97, 112] ++ (encode (Value.slice a)
            ++ ((if (none : Option Bool).getD true = true then [TagTrue] else [])
              ++ [TagEnd]))))) ∧
    (∀ (a : List Value) (body : List Nat),
      a.length > 0 ∨ (none : Option Bool).getD true = true →
      (none : Option Bool).getD true = false →
      exampleServiceLibrary.WriteArray a = some body →
      BaseClient.doOutput { ByRef := true, SimpleMode := true } exampleServiceLibrary
          [83, 119, 97, 112] (some a)
          { ByRef := none, SimpleMode := none, ResultMode := ResultMode.Normal }
        = some (TagCall :: (encodeCounted [83, 119, 97, 112] ++ (body
            ++ ((if (none : Option Bool).getD true = true then [TagTrue] else [])
              ++ [TagEnd]))))) ∧
    ([83, 119, 97, 112] ≠ [] → ∀ (list : List Nat) (withArgs byref : Bool),
      TagCall :: (encodeCounted [83, 119, 97, 112] ++ ((if withArgs then list
          ++ (if byref then [TagTrue] else []) else []) ++ [TagEnd]))
        = specCallFrame [83, 119, 97, 112] list withArgs byref) ∧
    BaseClient.doOutput { ByRef := false, SimpleMode := true } exampleServiceLibrary
        [104, 101, 108, 108, 111] (some [Value.string [87, 111, 114, 108, 100]])
        { ByRef := none, SimpleMode := none, ResultMode := ResultMode.Normal }
      = some [67, 115, 53, 34, 104, 101, 108, 108, 111, 34, 97, 49, 123, 115, 53, 34, 87, 111,
              114, 108, 100, 34, 125, 122] :=
  doOutput_frame { ByRef := true, SimpleMode := true } exampleServiceLibrary [83, 119, 97, 112]
    { ByRef := none, SimpleMode := none, ResultMode := ResultMode.Normal }
    ⟨⟨"Swap".data, rfl⟩, by decide⟩

/-- The call frame of C30 by reference: `Swap(1, 2)` with the flag is
`Cs4"Swap"a2{12}tz`. -/
theorem doOutput_example :
    BaseClient.doOutput { ByRef := true, SimpleMode := true } exampleServiceLibrary
        [83, 119, 97, 112] (some [Value.int 1, Value.int 2])
        { ByRef := none, SimpleMode := none, ResultMode := ResultMode.Normal }
      = some [67, 115, 52, 34, 83, 119, 97, 112, 34, 97, 50, 123, 49, 50, 125, 116, 122] := by
  decide

/-! ## The loop of `doInvoke` ends -/

theorem ReadIntegerLoop_length (tag : Nat) (sign : Int) : ∀ (s : List Nat) (b : Nat) (i : Int),
    (ReadIntegerLoop tag sign s b i).2.2.length ≤ s.length := by
  intro s
  induction s with
  | nil =>
    intro b i
    unfold ReadIntegerLoop
    by_cases hb : b = tag
    · simp [hb]
    · simp [hb]
  | cons x s ih =>
    intro b i
    unfold ReadIntegerLoop
    by_cases hb : b = tag
    · simp [hb]
    · simp only [hb, if_false]
      have := ih x (wrap64 (wrap64 (i * 10) + wrap64 (((b + 256 - 48) % 256 : Nat) * sign)))
      simp only [List.length_cons]
      omega

theorem ReadInteger_length (tag : Nat) (s : List Nat) :
    (ReadInteger tag s).2.2.length ≤ s.length := by
  unfold ReadInteger
  cases s with
  | nil => simp
  | cons b s =>
    simp only [List.length_cons]
    by_cases h1 : b = tag
    · simp [h1]
    · simp only [h1, if_false]
      by_cases h2 : b = TagNeg
      · simp only [h2, if_true]
        cases s with
        | nil => simp
        | cons c s =>
          have := ReadIntegerLoop_length tag (-1) s c 0
          simp only [List.length_cons]
          omega
      · simp only [h2, if_false]
        by_cases h3 : b = TagPos
        · simp only [h3, if_true]
          cases s with
          | nil => simp
          | cons c s =>
            have := ReadIntegerLoop_length tag 1 s c 0
            simp only [List.length_cons]
            omega
        · simp only [h3, if_false]
          have := ReadIntegerLoop_length tag 1 s b 0
          omega

theorem CheckTags_length (s expectTags : List Nat) (tag : Nat) (rest : List Nat)
    (h : CheckTags s expectTags = (tag, none, rest)) : rest.length + 1 = s.length := by
  unfold CheckTags at h
  cases s with
  | nil => simp at h
  | cons b s =>
    simp only at h
    cases hu : unexpectedTag b (some expectTags) with
    | none =>
      rw [hu] at h
      simp only [Prod.mk.injEq, true_and] at h
      rw [← h.2]
      rfl
    | some err =>
      rw [hu] at h
      simp at h

theorem readArray_length (lib : ServiceLibrary) (remoteMethod : Option Method) (count : Nat)
    (istream : List Nat) (args : List Value) (err : Option error) (rest : List Nat)
    (h : readArray lib remoteMethod count istream = Except.ok (args, err, rest)) :
    rest.length ≤ istream.length := by
  unfold readArray at h
  cases remoteMethod with
  | none =>
    simp only at h
    cases hr : lib.ReadArray none count istream with
    | none => rw [hr] at h; simp at h
    | some r =>
      obtain ⟨a, e, k⟩ := r
      rw [hr] at h
      simp only [Except.ok.injEq, Prod.mk.injEq] at h
      rw [← h.2.2]
      simp
  | some m =>
    simp only at h
    cases hr : lib.ReadArray (some m) count istream with
    | none =>
      rw [hr] at h
      simp only at h
      split_ifs at h
    | some r =>
      obtain ⟨a, e, k⟩ := r
      rw [hr] at h
      simp only at h
      split_ifs at h <;> first | (cases h; done) | (cases h; simp)

theorem readArguments_length (lib : ServiceLibrary) (remoteMethod : Option Method)
    (istream : List Nat) (args : List Value) (byref : Bool) (tag : Nat) (rest : List Nat)
    (h : readArguments lib remoteMethod istream = argsRead.ok args byref tag rest) :
    rest.length < istream.length := by
  unfold readArguments at h
  rcases hc : CheckTags istream [TagList, TagEnd, TagCall] with ⟨tag1, e1, s1⟩
  rw [hc] at h
  cases e1 with
  | some err => simp at h
  | none =>
    have hl1 := CheckTags_length istream _ tag1 s1 hc
    simp only at h
    by_cases htag : tag1 = TagList
    · rw [if_pos htag] at h
      rcases hi : ReadInteger TagOpenbrace s1 with ⟨count, e2, s2⟩
      have hl2 : s2.length ≤ s1.length := by
        have := ReadInteger_length TagOpenbrace s1
        rw [hi] at this
        exact this
      rw [hi] at h
      cases e2 with
      | some err => simp at h
      | none =>
        simp only at h
        by_cases hneg : count < 0
        · rw [if_pos hneg] at h
          cases h
        · rw [if_neg hneg] at h
          cases ha : readArray lib remoteMethod count.toNat s2 with
          | error p => rw [ha] at h; cases h
          | ok r =>
            obtain ⟨args3, e3, s3⟩ := r
            have hl3 := readArray_length lib remoteMethod count.toNat s2 args3 e3 s3 ha
            rw [ha] at h
            cases e3 with
            | some err => simp at h
            | none =>
              simp only at h
              rcases hc4 : CheckTags s3 [TagTrue, TagEnd, TagCall] with ⟨tag4, e4, s4⟩
              rw [hc4] at h
              cases e4 with
              | some err => simp at h
              | none =>
                have hl4 := CheckTags_length s3 _ tag4 s4 hc4
                simp only at h
                by_cases ht : tag4 = TagTrue
                · rw [if_pos ht] at h
                  rcases hc5 : CheckTags s4 [TagEnd, TagCall] with ⟨tag5, e5, s5⟩
                  rw [hc5] at h
                  cases e5 with
                  | some err => simp at h
                  | none =>
                    have hl5 := CheckTags_length s4 _ tag5 s5 hc5
                    simp only [argsRead.ok.injEq] at h
                    rw [← h.2.2.2]
                    omega
                · rw [if_neg ht] at h
                  simp only [argsRead.ok.injEq] at h
                  rw [← h.2.2.2]
                  omega
    · rw [if_neg htag] at h
      simp only [argsRead.ok.injEq] at h
      rw [← h.2.2.2]
      omega

theorem answer_next (service : BaseService) (lib : ServiceLibrary) (ostream buf : List Nat)
    (byref : Bool) (tag : Nat) (istream : List Nat) (r : invoked) (s : BaseService)
    (buf' : List Nat) (tag' : Nat) (rest : List Nat)
    (h : service.answer lib ostream buf byref tag istream r = callFlow.next s buf' tag' rest) :
    rest = istream := by
  cases r with
  | err msg => cases h
  | called m result last args =>
    rcases last with _ | _ | msg
    · simp only [BaseService.answer] at h
      repeat' split at h
      all_goals first | (cases h; done) | (cases h; rfl)
    · simp only [BaseService.answer] at h
      repeat' split at h
      all_goals first | (cases h; done) | (cases h; rfl)
    · cases h
  | missing m result args =>
    simp only [BaseService.answer] at h
    repeat' split at h
    all_goals first | (cases h; done) | (cases h; rfl)

theorem doInvokeCall_length (service : BaseService) (lib : ServiceLibrary)
    (istream ostream buf : List Nat) (s : BaseService) (buf' : List Nat) (tag : Nat)
    (rest : List Nat)
    (h : service.doInvokeCall lib istream ostream buf = callFlow.next s buf' tag rest) :
    rest.length < istream.length := by
  unfold BaseService.doInvokeCall at h
  cases hr : lib.ReadString istream with
  | none => rw [hr] at h; cases h
  | some r =>
    obtain ⟨name, e, n⟩ := r
    rw [hr] at h
    cases e with
    | some err => cases h
    | none =>
      simp only at h
      cases ha : readArguments lib (mapGet service.Methods.RemoteMethods (lib.ToLower name))
          (istream.drop n) with
      | err e => rw [ha] at h; cases h
      | panic p => rw [ha] at h; cases h
      | ok args byref tag1 rest1 =>
        rw [ha] at h
        simp only at h
        have h1 := readArguments_length lib _ _ args byref tag1 rest1 ha
        have h2 := answer_next service lib ostream buf byref tag1 rest1 _ s buf' tag rest h
        rw [h2]
        have h3 : (istream.drop n).length ≤ istream.length := by simp
        omega

theorem answer_flow (service : BaseService) (lib : ServiceLibrary) (ostream buf : List Nat)
    (byref : Bool) (tag : Nat) (istream : List Nat) (r : invoked) (s : BaseService)
    (o : List Nat) (h : service.answer lib ostream buf byref tag istream r
      = callFlow.stop s o Flow.outOfFuel) : False := by
  cases r with
  | err msg => cases h
  | called m result last args =>
    rcases last with _ | _ | msg
    · simp only [BaseService.answer] at h
      repeat' split at h
      all_goals cases h
    · simp only [BaseService.answer] at h
      repeat' split at h
      all_goals cases h
    · cases h
  | missing m result args =>
    simp only [BaseService.answer] at h
    repeat' split at h
    all_goals cases h

theorem doInvokeCall_flow (service : BaseService) (lib : ServiceLibrary)
    (istream ostream buf : List Nat) (s : BaseService) (o : List Nat)
    (h : service.doInvokeCall lib istream ostream buf = callFlow.stop s o Flow.outOfFuel) :
    False := by
  unfold BaseService.doInvokeCall at h
  cases hr : lib.ReadString istream with
  | none => rw [hr] at h; cases h
  | some r =>
    obtain ⟨name, e, n⟩ := r
    rw [hr] at h
    cases e with
    | some err => cases h
    | none =>
      simp only at h
      cases ha : readArguments lib (mapGet service.Methods.RemoteMethods (lib.ToLower name))
          (istream.drop n) with
      | err e => rw [ha] at h; cases h
      | panic p => rw [ha] at h; cases h
      | ok args byref tag1 rest1 =>
        rw [ha] at h
        exact answer_flow service lib ostream buf byref tag1 rest1 _ s o h

theorem doInvokeLoop_fuel (lib : ServiceLibrary) : ∀ (fuel : Nat) (service : BaseService)
    (istream ostream buf : List Nat), istream.length < fuel →
    (BaseService.doInvokeLoop lib fuel service istream ostream buf).2.2 ≠ Flow.outOfFuel := by
  intro fuel
  induction fuel with
  | zero => intro service istream ostream buf h; omega
  | succ fuel ih =>
    intro service istream ostream buf h
    rw [BaseService.doInvokeLoop]
    cases hc : service.doInvokeCall lib istream ostream buf with
    | stop s o f =>
      simp only
      intro hf
      subst hf
      exact doInvokeCall_flow service lib istream ostream buf s o hc
    | next s buf' tag rest =>
      simp only
      have hlen := doInvokeCall_length service lib istream ostream buf s buf' tag rest hc
      by_cases htag : tag ≠ TagCall
      · rw [if_pos htag]
        simp
      · rw [if_neg htag]
        exact ih s rest ostream buf' (by omega)

/-- The loop of `doInvoke` ends within the rounds the embedding gives it:
every round reads at least one byte of the request. -/
theorem doInvoke_fuel (service : BaseService) (lib : ServiceLibrary)
    (istream ostream : List Nat) :
    (service.doInvoke lib istream ostream).2.2 ≠ Flow.outOfFuel :=
  doInvokeLoop_fuel lib (istream.length + 1) service istream ostream [] (by omega)

/-- `Handle` returns on every request whenever the texts of the errors are
valid strings: it leaves by a panic only if `sendError` does. -/
theorem handleBody_fuel (service : BaseService) (lib : ServiceLibrary)
    (istream ostream : List Nat) :
    (service.handleBody lib istream ostream).2.2 ≠ Flow.outOfFuel := by
  unfold BaseService.handleBody
  rcases hr : Read istream 1 with ⟨buf, k, e, rest⟩
  cases e with
  | some err => simp
  | none =>
    simp only
    split_ifs
    · exact doInvoke_fuel service lib rest ostream
    · unfold BaseService.doFunctionList
      simp only
      split <;> simp
    · simp

/-! ## Unsigned, narrow and arbitrary-precision integers -/

theorem writeUint64Loop_signed : ∀ (off i : Nat) (numbuf : List Nat),
    writeUint64Loop off i numbuf = writeInt64Loop off (i : Int) 1 numbuf := by
  intro off
  induction off with
  | zero =>
    intro i numbuf
    rw [writeUint64Loop, writeInt64Loop]
    by_cases hi : i = 0
    · simp [hi]
    · have hi' : (i : Int) ≠ 0 := by omega
      simp [hi, hi']
  | succ off ih =>
    intro i numbuf
    rw [writeUint64Loop, writeInt64Loop]
    by_cases hi : i = 0
    · simp [hi]
    · have hi' : (i : Int) ≠ 0 := by omega
      simp only [hi, hi', if_false]
      have hb : toByte (Int.tmod (i : Int) 10 * 1 + 48) = (i % 10 + 48) % 256 := by
        rw [tmod_sign_digit (i : Int) 1 (by omega) (fun _ => rfl)]
        simp only [Int.natAbs_ofNat]
        omega
      have hd : Int.tdiv (i : Int) 10 = ((i / 10 : Nat) : Int) := rfl
      rw [hb, hd, ih]

theorem writeUint64_spec (w : writer) (i : Nat) (hv : i < 2 ^ 64) (hbuf : w.numbuf.length = 20) :
    ∃ w', w.writeUint64 i = some w' ∧ w'.stream = w.stream ++ decimalText (i : Int) := by
  have htext : decimalText (i : Int) = (Nat.toDigits 10 i).map Char.toNat := by
    have h0 : ¬ ((i : Int) < 0) := by omega
    simp [decimalText, h0]
  by_cases hd : i ≤ 9
  · refine ⟨w.WriteByte ((i + 48) % 256), by simp [writer.writeUint64, hd], ?_⟩
    rw [htext, natText_lt i (by omega)]
    have e : (i + 48) % 256 = i + 48 := by omega
    rw [e]
    rfl
  · have hlt : (i : Int).natAbs < 10 ^ 20 := by
      simp only [Int.natAbs_ofNat]
      have : (2 : Nat) ^ 64 < 10 ^ 20 := by decide
      omega
    obtain ⟨off', numbuf', hrun, _, _, hdrop⟩ :=
      writeInt64Loop_spec 20 (i : Int) 1 w.numbuf (by omega) (fun _ => rfl) (by omega) hlt
    have hi0 : (i : Int) ≠ 0 := by omega
    rw [if_neg hi0] at hdrop
    have hnil : List.drop 20 w.numbuf = [] := List.drop_of_length_le (by omega)
    rw [hnil, List.append_nil] at hdrop
    refine ⟨{ w with numbuf := numbuf', stream := w.stream ++ numbuf'.drop off' }, ?_, ?_⟩
    · simp only [writer.writeUint64, hd, if_false, writeUint64Loop_signed, hrun]
    · simp only [hdrop, htext, Int.natAbs_ofNat]

theorem wrap64_step (a : Int) (d : Nat) (sign : Int) (hs : sign = 1 ∨ sign = -1) :
    wrap64 (wrap64 (wrap64 a * 10) + wrap64 ((d : Int) * sign))
      = wrap64 (a * 10 + (d : Int) * sign) := by
  unfold wrap64
  rcases hs with rfl | rfl <;> omega

theorem wrap8_step (a : Int) (d : Nat) (sign : Int) (hs : sign = 1 ∨ sign = -1) :
    wrap8 (wrap8 (wrap8 a * 10) + wrap8 (wrap8 (d : Int) * sign))
      = wrap8 (a * 10 + (d : Int) * sign) := by
  unfold wrap8
  rcases hs with rfl | rfl <;> omega

/-- The digits of a number, folded with the wrapping step of `readInt`, give
the number reduced to `int64`. -/
theorem foldl_natText_wrap64 (sign : Int) (hs : sign = 1 ∨ sign = -1) :
    ∀ (n : Nat),
    ((Nat.toDigits 10 n).map Char.toNat).foldl
      (fun i b => wrap64 (wrap64 (i * 10) + wrap64 (((b + 256 - 48) % 256 : Nat) * sign))) 0
      = wrap64 (sign * n) := by
  intro n
  induction n using Nat.strong_induction_on with
  | _ n ih =>
    by_cases h : n < 10
    · rw [natText_lt n h]
      simp only [List.foldl_cons, List.foldl_nil]
      have e : ((n + 48 + 256 - 48) % 256 : Nat) = n := by omega
      rw [e]
      have h0 : (0 : Int) * 10 = wrap64 0 * 10 := by decide
      rw [h0, wrap64_step 0 n sign hs]
      congr 1
      rcases hs with rfl | rfl <;> omega
    · rw [natText_ge n (by omega), List.foldl_append, ih (n / 10) (by omega)]
      simp only [List.foldl_cons, List.foldl_nil]
      have e : ((n % 10 + 48 + 256 - 48) % 256 : Nat) = n % 10 := by omega
      rw [e, wrap64_step _ _ sign hs]
      congr 1
      rcases hs with rfl | rfl <;> omega

/-- The digits of a number, folded with the wrapping step of `readInt8`,
give the number reduced to `int8`. -/
theorem foldl_natText_wrap8 (sign : Int) (hs : sign = 1 ∨ sign = -1) :
    ∀ (n : Nat),
    ((Nat.toDigits 10 n).map Char.toNat).foldl
      (fun i b => wrap8 (wrap8 (i * 10) + wrap8 (wrap8 ((b + 256 - 48) % 256 : Nat) * sign))) 0
      = wrap8 (sign * n) := by
  intro n
  induction n using Nat.strong_induction_on with
  | _ n ih =>
    by_cases h : n < 10
    · rw [natText_lt n h]
      simp only [List.foldl_cons, List.foldl_nil]
      have e : ((n + 48 + 256 - 48) % 256 : Nat) = n := by omega
      rw [e]
      have h0 : (0 : Int) * 10 = wrap8 0 * 10 := by decide
      rw [h0, wrap8_step 0 n sign hs]
      congr 1
      rcases hs with rfl | rfl <;> omega
    · rw [natText_ge n (by omega), List.foldl_append, ih (n / 10) (by omega)]
      simp only [List.foldl_cons, List.foldl_nil]
      have e : ((n % 10 + 48 + 256 - 48) % 256 : Nat) = n % 10 := by omega
      rw [e, wrap8_step _ _ sign hs]
      congr 1
      rcases hs with rfl | rfl <;> omega

/-- `readInt` on the base-10 text of any integer, whatever its size: the
number reduced to `int64`. -/
theorem readInt_decimalText_wrap (tag : Nat) (htag : tag < 48 ∨ 57 < tag) (h45 : tag ≠ 45)
    (v : Int) (t : List Nat) :
    readInt tag (decimalText v ++ tag :: t) = (wrap64 v, none, t) := by
  obtain ⟨b, ds, hbd⟩ := List.exists_cons_of_ne_nil (natText_ne_nil v.natAbs)
  have hdig := natText_digits v.natAbs
  rw [hbd] at hdig
  have hb := hdig b (List.mem_cons_self _ _)
  have hds : ∀ x ∈ ds, 48 ≤ x ∧ x ≤ 57 := fun x hx => hdig x (List.mem_cons_of_mem _ hx)
  by_cases hneg : v < 0
  · have hfold := foldl_natText_wrap64 (-1) (Or.inr rfl) v.natAbs
    rw [hbd] at hfold
    have e : decimalText v = 45 :: b :: ds := by simp [decimalText, hneg, hbd]
    rw [e]
    have hrd : readInt tag ((45 :: b :: ds) ++ tag :: t)
        = readIntLoop tag (-1) (ds ++ tag :: t) b 0 := by
      simp [readInt, Ne.symm h45]
    rw [hrd, readIntLoop_digits tag (-1) t htag ds b 0 hb hds, hfold]
    congr 2; omega
  · have hfold := foldl_natText_wrap64 1 (Or.inl rfl) v.natAbs
    rw [hbd] at hfold
    have e : decimalText v = b :: ds := by simp [decimalText, hneg, hbd]
    rw [e]
    have hrd : readInt tag ((b :: ds) ++ tag :: t)
        = readIntLoop tag 1 (ds ++ tag :: t) b 0 := by
      have h1 : b ≠ tag := by omega
      have h2 : b ≠ TagNeg := by simp only [TagNeg]; omega
      have h3 : b ≠ TagPos := by simp only [TagPos]; omega
      simp [readInt, h1, h2, h3]
    rw [hrd, readIntLoop_digits tag 1 t htag ds b 0 hb hds, hfold]
    congr 2; omega

theorem readInt8Loop_digits (tag : Nat) (sign : Int) (t : List Nat) (htag : tag < 48 ∨ 57 < tag) :
    ∀ (ds : List Nat) (b : Nat) (i : Int), (48 ≤ b ∧ b ≤ 57) → (∀ x ∈ ds, 48 ≤ x ∧ x ≤ 57) →
    readInt8Loop tag sign (ds ++ tag :: t) b i
      = ((b :: ds).foldl
          (fun i b => wrap8 (wrap8 (i * 10) + wrap8 (wrap8 ((b + 256 - 48) % 256 : Nat) * sign)))
          i, none, t) := by
  intro ds
  induction ds with
  | nil =>
    intro b i hb _
    have hbt : b ≠ tag := by omega
    simp [readInt8Loop, hbt]
  | cons x ds ih =>
    intro b i hb hds
    have hbt : b ≠ tag := by omega
    rw [List.cons_append, readInt8Loop]
    simp only [hbt, if_false]
    rw [ih x _ (hds x (List.mem_cons_self _ _)) (fun y hy => hds y (List.mem_cons_of_mem _ hy))]
    simp

/-- `readInt8` on the base-10 text of any integer: the number reduced to
`int8`. -/
theorem readInt8_decimalText (tag : Nat) (htag : tag < 48 ∨ 57 < tag) (h45 : tag ≠ 45)
    (v : Int) (t : List Nat) :
    readInt8 tag (decimalText v ++ tag :: t) = (wrap8 v, none, t) := by
  obtain ⟨b, ds, hbd⟩ := List.exists_cons_of_ne_nil (natText_ne_nil v.natAbs)
  have hdig := natText_digits v.natAbs
  rw [hbd] at hdig
  have hb := hdig b (List.mem_cons_self _ _)
  have hds : ∀ x ∈ ds, 48 ≤ x ∧ x ≤ 57 := fun x hx => hdig x (List.mem_cons_of_mem _ hx)
  by_cases hneg : v < 0
  · have hfold := foldl_natText_wrap8 (-1) (Or.inr rfl) v.natAbs
    rw [hbd] at hfold
    have e : decimalText v = 45 :: b :: ds := by simp [decimalText, hneg, hbd]
    rw [e]
    have hrd : readInt8 tag ((45 :: b :: ds) ++ tag :: t)
        = readInt8Loop tag (-1) (ds ++ tag :: t) b 0 := by
      simp [readInt8, Ne.symm h45]
    rw [hrd, readInt8Loop_digits tag (-1) t htag ds b 0 hb hds, hfold]
    congr 2; omega
  · have hfold := foldl_natText_wrap8 1 (Or.inl rfl) v.natAbs
    rw [hbd] at hfold
    have e : decimalText v = b :: ds := by simp [decimalText, hneg, hbd]
    rw [e]
    have hrd : readInt8 tag ((b :: ds) ++ tag :: t)
        = readInt8Loop tag 1 (ds ++ tag :: t) b 0 := by
      have h1 : b ≠ tag := by omega
      have h2 : b ≠ TagNeg := by simp only [TagNeg]; omega
      have h3 : b ≠ TagPos := by simp only [TagPos]; omega
      simp [readInt8, h1, h2, h3]
    rw [hrd, readInt8Loop_digits tag 1 t htag ds b 0 hb hds, hfold]
    congr 2; omega

theorem ReadBigIntLoop_digits (tag : Nat) (t : List Nat) (htag : tag < 48 ∨ 57 < tag) :
    ∀ (ds : List Nat) (b : Nat) (i : Int), (48 ≤ b ∧ b ≤ 57) → (∀ x ∈ ds, 48 ≤ x ∧ x ≤ 57) →
    ReadBigIntLoop tag (ds ++ tag :: t) b i
      = some ((b :: ds).foldl (fun i b => i * 10 + (((b + 256 - 48) % 256 : Nat) : Int)) i,
          none, t) := by
  intro ds
  induction ds with
  | nil =>
    intro b i hb _
    have hbt : b ≠ tag := by omega
    have hd : (b + 256 - 48) % 256 < 10 := by omega
    rw [List.nil_append, ReadBigIntLoop]
    simp only [hbt, hd, if_false, if_true]
    rw [ReadBigIntLoop]
    simp
  | cons x ds ih =>
    intro b i hb hds
    have hbt : b ≠ tag := by omega
    have hd : (b + 256 - 48) % 256 < 10 := by omega
    rw [List.cons_append, ReadBigIntLoop]
    simp only [hbt, hd, if_false, if_true]
    rw [ih x _ (hds x (List.mem_cons_self _ _)) (fun y hy => hds y (List.mem_cons_of_mem _ hy))]
    simp

theorem foldl_natText_exact : ∀ (n : Nat),
    ((Nat.toDigits 10 n).map Char.toNat).foldl
      (fun i b => i * 10 + (((b + 256 - 48) % 256 : Nat) : Int)) 0 = (n : Int) := by
  intro n
  induction n using Nat.strong_induction_on with
  | _ n ih =>
    by_cases h : n < 10
    · rw [natText_lt n h]
      simp only [List.foldl_cons, List.foldl_nil]
      have e : ((n + 48 + 256 - 48) % 256 : Nat) = n := by omega
      rw [e]
      omega
    · rw [natText_ge n (by omega), List.foldl_append, ih (n / 10) (by omega)]
      simp only [List.foldl_cons, List.foldl_nil]
      have e : ((n % 10 + 48 + 256 - 48) % 256 : Nat) = n % 10 := by omega
      rw [e]
      omega

/-- `ReadBigIntWithoutTag` on the base-10 text of any integer: the number
itself. -/
theorem ReadBigIntWithoutTag_decimalText (v : Int) (t : List Nat) :
    ReadBigIntWithoutTag (decimalText v ++ TagSemicolon :: t) = some (v, none, t) := by
  obtain ⟨b, ds, hbd⟩ := List.exists_cons_of_ne_nil (natText_ne_nil v.natAbs)
  have hdig := natText_digits v.natAbs
  rw [hbd] at hdig
  have hb := hdig b (List.mem_cons_self _ _)
  have hds : ∀ x ∈ ds, 48 ≤ x ∧ x ≤ 57 := fun x hx => hdig x (List.mem_cons_of_mem _ hx)
  have hfold := foldl_natText_exact v.natAbs
  rw [hbd] at hfold
  have htag : TagSemicolon < 48 ∨ 57 < TagSemicolon := by decide
  by_cases hneg : v < 0
  · have e : decimalText v = 45 :: b :: ds := by simp [decimalText, hneg, hbd]
    rw [e]
    have hloop := ReadBigIntLoop_digits TagSemicolon t htag ds b 0 hb hds
    rw [hfold] at hloop
    simp [ReadBigIntWithoutTag, TagNeg, hloop]
    rw [abs_of_neg hneg]
    omega
  · have e : decimalText v = b :: ds := by simp [decimalText, hneg, hbd]
    rw [e]
    have hrd : ReadBigIntWithoutTag ((b :: ds) ++ TagSemicolon :: t)
        = ReadBigIntLoop TagSemicolon (ds ++ TagSemicolon :: t) b 0 := by
      have h1 : b ≠ TagSemicolon := by simp only [TagSemicolon]; omega
      have h2 : b ≠ TagNeg := by simp only [TagNeg]; omega
      have h3 : b ≠ TagPos := by simp only [TagPos]; omega
      simp [ReadBigIntWithoutTag, h1, h2, h3]
    rw [hrd, ReadBigIntLoop_digits TagSemicolon t htag ds b 0 hb hds, hfold]
    congr 2
    omega

/-- C34: for every `uint64` value `v`, `WriteUint64(v)` writes the digit for
`v ≤ 9` and otherwise `i` (up to `2^31 - 1`) or `l`, the base-10 text of `v`
and `;`; `ReadUint64` applied to these bytes, followed by any bytes `t`,
returns `v` with no error and leaves `t`. Above `2^63 - 1` the digits go
through the wrapping `int64` accumulator of `readInt` and the conversion to
`uint64` gives `v` back. -/
theorem ReadUint64_WriteUint64 {F T O : Type} (lib : Library F T O) (v : Nat) (hv : v < 2 ^ 64)
    (t : List Nat) :
    ∃ w', (NewSimpleWriter []).WriteUint64 v = some w' ∧
      w'.stream = (if v ≤ 9 then [48 + v]
        else (if v ≤ 2147483647 then TagInteger else TagLong)
          :: (decimalText (v : Int) ++ [TagSemicolon])) ∧
      reader.ReadUint64 lib (NewSimpleReader (w'.stream ++ t)) = (v, none, NewSimpleReader t) := by
  by_cases hd : v ≤ 9
  · refine ⟨(NewSimpleWriter []).WriteByte ((v + 48) % 256), by simp [writer.WriteUint64, hd],
      ?_, ?_⟩
    · have e : (v + 48) % 256 = 48 + v := by omega
      simp only [hd, if_true, e]
      rfl
    · have e : (v + 48) % 256 = 48 + v := by omega
      have hs : ((NewSimpleWriter []).WriteByte ((v + 48) % 256)).stream = [48 + v] := by
        rw [e]; rfl
      rw [hs]
      have h1 : 48 ≤ 48 + v ∧ 48 + v ≤ 57 := by omega
      have h2 : (48 + v + 256 - 48) % 256 = v := by omega
      simp only [reader.ReadUint64, NewSimpleReader, List.singleton_append, h1, and_self,
        if_true, h2]
  · obtain ⟨tag, htag, hw0⟩ : ∃ tag, (tag = TagInteger ∨ tag = TagLong) ∧
        (if v ≤ 2147483647 then (NewSimpleWriter []).WriteByte TagInteger
          else (NewSimpleWriter []).WriteByte TagLong) = (NewSimpleWriter []).WriteByte tag ∧
        (if v ≤ 2147483647 then TagInteger else TagLong) = tag := by
      by_cases h31 : v ≤ 2147483647
      · exact ⟨TagInteger, Or.inl rfl, by simp [h31], by simp [h31]⟩
      · exact ⟨TagLong, Or.inr rfl, by simp [h31], by simp [h31]⟩
    obtain ⟨hw1, hw2⟩ := hw0
    obtain ⟨w', hrun, hstream⟩ :=
      writeUint64_spec ((NewSimpleWriter []).WriteByte tag) v hv rfl
    refine ⟨w'.WriteByte TagSemicolon, ?_, ?_, ?_⟩
    · simp only [writer.WriteUint64, hd, if_false, hw1, hrun]
    · have hs : (w'.WriteByte TagSemicolon).stream = w'.stream ++ [TagSemicolon] := rfl
      rw [hs, hstream, if_neg hd, hw2]
      rfl
    · have hs : (w'.WriteByte TagSemicolon).stream = w'.stream ++ [TagSemicolon] := rfl
      have h0 : ((NewSimpleWriter []).WriteByte tag).stream = [tag] := rfl
      rw [hs, hstream, h0]
      have hnd : ¬ (48 ≤ tag ∧ tag ≤ 57) := by
        rcases htag with h | h <;> subst h <;> decide
      have hri := readInt_decimalText_wrap TagSemicolon (by decide) (by decide) (v : Int) t
      have hval : (wrap64 (v : Int) % 2 ^ 64).toNat = v := by
        unfold wrap64
        omega
      simp only [reader.ReadUint64, NewSimpleReader, List.append_assoc, List.singleton_append,
        List.cons_append, List.nil_append, hnd, if_false, htag, if_true,
        reader.ReadUint64WithoutTag, hri, hval]

theorem ReadUint64_WriteUint64_witness :
    ∃ w', (NewSimpleWriter []).WriteUint64 18446744073709551615 = some w' ∧
      w'.stream = (if 18446744073709551615 ≤ 9 then [48 + 18446744073709551615]
        else (if 18446744073709551615 ≤ 2147483647 then TagInteger else TagLong)
          :: (decimalText ((18446744073709551615 : Nat) : Int) ++ [TagSemicolon])) ∧
      reader.ReadUint64 exampleLibrary (NewSimpleReader (w'.stream ++ [122]))
        = (18446744073709551615, none, NewSimpleReader [122]) :=
  ReadUint64_WriteUint64 exampleLibrary 18446744073709551615 (by decide) [122]

/-- `WriteUint64` on the largest `uint64`, on `2^63` and on `10`: the bytes
written, and what `ReadUint64` makes of them. -/
theorem WriteUint64_example :
    ((NewSimpleWriter []).WriteUint64 18446744073709551615).map (fun w => w.stream)
      = some [108, 49, 56, 52, 52, 54, 55, 52, 52, 48, 55, 51, 55, 48, 57, 53, 53, 49, 54, 49,
              53, 59] ∧
    (reader.ReadUint64 exampleLibrary (NewSimpleReader
      [108, 49, 56, 52, 52, 54, 55, 52, 52, 48, 55, 51, 55, 48, 57, 53, 53, 49, 54, 49,
        53, 59])).1 = 18446744073709551615 ∧
    ((NewSimpleWriter []).WriteUint64 10).map (fun w => w.stream) = some [105, 49, 48, 59] := by
  refine ⟨?_, ?_, rfl⟩
  · set_option maxRecDepth 8000 in
    decide
  · set_option maxRecDepth 8000 in
    decide

/-- C35: for every integer `v`, of any size and sign, `WriteBigInt(v)` writes
`l`, the base-10 text of `v` and `;` (never a bare digit, never the tag
`i`), and `ReadBigInt` applied to these bytes, followed by any bytes `t`,
returns `v` with no error and leaves `t`. -/
theorem ReadBigInt_WriteBigInt (d : Decoders) (n : NarrowDecoders) (v : Int) (t : List Nat) :
    ((NewSimpleWriter []).WriteBigInt v).stream = TagLong :: (decimalText v ++ [TagSemicolon]) ∧
    reader.ReadBigInt d n (NewSimpleReader (((NewSimpleWriter []).WriteBigInt v).stream ++ t))
      = some (some v, none, NewSimpleReader t) := by
  have hs : ((NewSimpleWriter []).WriteBigInt v).stream
      = TagLong :: (decimalText v ++ [TagSemicolon]) := by
    simp [writer.WriteBigInt, writer.WriteByte, writer.Write, NewSimpleWriter]
  refine ⟨hs, ?_⟩
  rw [hs]
  have hr := ReadBigIntWithoutTag_decimalText v t
  have hnd : ¬ (48 ≤ TagLong ∧ TagLong ≤ 57) := by decide
  simp only [reader.ReadBigInt, NewSimpleReader, List.cons_append, List.append_assoc,
    List.singleton_append, List.nil_append, hnd, if_false, or_true, if_true, hr]

/-- `WriteBigInt` on `0`, `7`, `-1` and `2^64`: always the `l` form. -/
theorem WriteBigInt_example :
    ((NewSimpleWriter []).WriteBigInt 0).stream = [108, 48, 59] ∧
    ((NewSimpleWriter []).WriteBigInt 7).stream = [108, 55, 59] ∧
    ((NewSimpleWriter []).WriteBigInt (-1)).stream = [108, 45, 49, 59] ∧
    reader.ReadBigInt exampleDecoders exampleNarrowDecoders (NewSimpleReader [108, 45, 49, 59])
      = some (some (-1), none, NewSimpleReader []) := by
  refine ⟨by decide, by decide, by decide, by decide⟩

/-- C38: for every integer `v` written as `i` or `l`, its base-10 text and
`;`, `ReadInt8` returns with no error the `int8` congruent to `v` modulo
`2^8`, and `ReadUint8` returns with no error the `uint8` congruent to `v`
modulo `2^8`: the digits are accumulated in an `int8` that wraps. For `v` in
`0..255` `ReadUint8` returns `v` itself. -/
theorem ReadInt8_ReadUint8_wrap (d : Decoders) (n : NarrowDecoders) (tag : Nat)
    (htag : tag = TagInteger ∨ tag = TagLong) (v : Int) (t : List Nat) :
    reader.ReadInt8 d n (NewSimpleReader (tag :: (decimalText v ++ TagSemicolon :: t)))
      = (wrap8 v, none, NewSimpleReader t) ∧
    (-128 ≤ wrap8 v ∧ wrap8 v ≤ 127 ∧ (wrap8 v - v) % 256 = 0) ∧
    reader.ReadUint8 n (NewSimpleReader (tag :: (decimalText v ++ TagSemicolon :: t)))
      = ((v % 256).toNat, none, NewSimpleReader t) ∧
    (((v % 256).toNat : Int) < 256 ∧ (((v % 256).toNat : Int) - v) % 256 = 0) ∧
    (0 ≤ v ∧ v ≤ 255 → ((v % 256).toNat : Int) = v) := by
  have hnd : ¬ (48 ≤ tag ∧ tag ≤ 57) := by
    rcases htag with h | h <;> subst h <;> decide
  have hri := readInt8_decimalText TagSemicolon (by decide) (by decide) v t
  have hu : (wrap8 v % 256).toNat = (v % 256).toNat := by
    unfold wrap8
    omega
  refine ⟨?_, ?_, ?_, ?_, ?_⟩
  · simp only [reader.ReadInt8, NewSimpleReader, hnd, if_false, htag, if_true,
      reader.ReadInt8WithoutTag, hri]
  · unfold wrap8
    omega
  · simp only [reader.ReadUint8, NewSimpleReader, hnd, if_false, htag, if_true,
      reader.ReadUint8WithoutTag, readUint8, hri, hu]
  · omega
  · omega

theorem ReadInt8_ReadUint8_wrap_witness :
    reader.ReadInt8 exampleDecoders exampleNarrowDecoders
        (NewSimpleReader (TagLong :: (decimalText 200 ++ TagSemicolon :: [122])))
      = (wrap8 200, none, NewSimpleReader [122]) ∧
    (-128 ≤ wrap8 200 ∧ wrap8 200 ≤ 127 ∧ (wrap8 200 - 200) % 256 = 0) ∧
    reader.ReadUint8 exampleNarrowDecoders
        (NewSimpleReader (TagLong :: (decimalText 200 ++ TagSemicolon :: [122])))
      = (((200 : Int) % 256).toNat, none, NewSimpleReader [122]) ∧
    ((((200 : Int) % 256).toNat : Int) < 256 ∧
      ((((200 : Int) % 256).toNat : Int) - 200) % 256 = 0) ∧
    (0 ≤ (200 : Int) ∧ (200 : Int) ≤ 255 → (((200 : Int) % 256).toNat : Int) = 200) :=
  ReadInt8_ReadUint8_wrap exampleDecoders exampleNarrowDecoders TagLong (Or.inr rfl) 200 [122]

/-- The narrow readers on `i200;`, `i300;`, `i-129;` and `l255;`. -/
theorem ReadInt8_example :
    (reader.ReadInt8 exampleDecoders exampleNarrowDecoders
      (NewSimpleReader [105, 50, 48, 48, 59])).1 = -56 ∧
    (reader.ReadUint8 exampleNarrowDecoders (NewSimpleReader [105, 50, 48, 48, 59])).1 = 200 ∧
    (reader.ReadInt8 exampleDecoders exampleNarrowDecoders
      (NewSimpleReader [105, 51, 48, 48, 59])).1 = 44 ∧
    (reader.ReadInt8 exampleDecoders exampleNarrowDecoders
      (NewSimpleReader [105, 45, 49, 50, 57, 59])).1 = 127 ∧
    (reader.ReadUint8 exampleNarrowDecoders (NewSimpleReader [108, 50, 53, 53, 59]))
      = (255, none, NewSimpleReader []) := by
  refine ⟨by decide, by decide, by decide, by decide, by decide⟩

/-! ## Client: declaration tags, `UseService`, `invoke` -/

theorem getFlag_first (ToLower Tag : List Nat → List Nat) : ∀ (keys : List (List Nat)),
    getFlag ToLower Tag keys = keys.findSome? (fun key => specFlag (ToLower (Tag key))) := by
  intro keys
  induction keys with
  | nil => rfl
  | cons key keys ih =>
    rw [getFlag, List.findSome?_cons]
    by_cases h1 : ToLower (Tag key) = stringBytes "true" ∨ ToLower (Tag key) = stringBytes "t"
        ∨ ToLower (Tag key) = stringBytes "1"
    · have hs : specFlag (ToLower (Tag key)) = some true := by
        simp only [specFlag, List.mem_cons, List.mem_singleton, List.not_mem_nil, or_false, h1,
          if_true]
      rw [if_pos h1, hs]
    · by_cases h2 : ToLower (Tag key) = stringBytes "false"
          ∨ ToLower (Tag key) = stringBytes "f" ∨ ToLower (Tag key) = stringBytes "0"
      · have hs : specFlag (ToLower (Tag key)) = some false := by
          simp only [specFlag, List.mem_cons, List.mem_singleton, List.not_mem_nil, or_false,
            h1, h2, if_true, if_false]
        rw [if_neg h1, if_pos h2, hs]
      · have hs : specFlag (ToLower (Tag key)) = none := by
          simp only [specFlag, List.mem_cons, List.mem_singleton, List.not_mem_nil, or_false,
            h1, h2, if_false]
        rw [if_neg h1, if_neg h2, hs, ih]

theorem getResultModeLoop_first (ToLower Tag : List Nat → List Nat) :
    ∀ (keys : List (List Nat)),
    getResultModeLoop ToLower Tag keys
      = (keys.findSome? (fun key => specResultMode (ToLower (Tag key)))).getD
          ResultMode.Normal := by
  intro keys
  induction keys with
  | nil => rfl
  | cons key keys ih =>
    rw [getResultModeLoop, List.findSome?_cons]
    by_cases h1 : ToLower (Tag key) = stringBytes "normal"
    · have hs : specResultMode (ToLower (Tag key)) = some ResultMode.Normal := by
        unfold specResultMode; rw [if_pos h1]
      rw [if_pos h1, hs]; rfl
    · by_cases h2 : ToLower (Tag key) = stringBytes "serialized"
      · have hs : specResultMode (ToLower (Tag key)) = some ResultMode.Serialized := by
          unfold specResultMode; rw [if_neg h1, if_pos h2]
        rw [if_neg h1, if_pos h2, hs]; rfl
      · by_cases h3 : ToLower (Tag key) = stringBytes "raw"
        · have hs : specResultMode (ToLower (Tag key)) = some ResultMode.Raw := by
            unfold specResultMode; rw [if_neg h1, if_neg h2, if_pos h3]
          rw [if_neg h1, if_neg h2, if_pos h3, hs]; rfl
        · by_cases h4 : ToLower (Tag key) = stringBytes "rawwithendtag"
          · have hs : specResultMode (ToLower (Tag key)) = some ResultMode.RawWithEndTag := by
              unfold specResultMode; rw [if_neg h1, if_neg h2, if_neg h3]; rw [if_pos h4]
            rw [if_neg h1, if_neg h2, if_neg h3]; rw [if_pos h4, hs]; rfl
          · have hs : specResultMode (ToLower (Tag key)) = none := by
              unfold specResultMode; rw [if_neg h1, if_neg h2, if_neg h3]; rw [if_neg h4]
            rw [if_neg h1, if_neg h2, if_neg h3]; rw [if_neg h4, hs, ih]

/-- With every key but `key` missing, the first recognised value among the
keys is the value of `key`. -/
theorem findSome_single {β : Type} (f : List Nat → Option β) (key : List Nat)
    (Tag : List Nat → List Nat) (g : List Nat → List Nat)
    (hf : ∀ k, f (g (Tag k)) = none ∨ k = key) :
    ∀ (keys : List (List Nat)), key ∈ keys →
      keys.findSome? (fun k => f (g (Tag k))) = f (g (Tag key)) := by
  intro keys
  induction keys with
  | nil => intro h; cases h
  | cons k keys ih =>
    intro hmem
    rw [List.findSome?_cons]
    rcases hf k with hk | hk
    · rw [hk]
      rcases List.mem_cons.mp hmem with h | h
      · subst h; rw [hk]
        clear ih hmem
        induction keys with
        | nil => rfl
        | cons k' keys ih' =>
          rw [List.findSome?_cons]
          rcases hf k' with hk' | hk'
          · rw [hk']; exact ih'
          · subst hk'; rw [hk]; exact ih'
      · exact ih h
    · subst hk
      cases hv : f (g (Tag k)) with
      | some v => rfl
      | none =>
        clear ih hmem
        induction keys with
        | nil => rfl
        | cons k' keys ih' =>
          rw [List.findSome?_cons]
          rcases hf k' with hk' | hk'
          · rw [hk']; exact ih'
          · subst hk'; rw [hv]; exact ih'

/-- C32: `getByRef` and `getSimpleMode` return the value of the first of
their keys (`byref`, `byRef`, `Byref`, `ByRef`; `simple`, `Simple`,
`simpleMode`, `SimpleMode`) whose tag value, in lower case, is one of `true`,
`t`, `1` (giving `true`) or `false`, `f`, `0` (giving `false`), and `nil`
when there is none; `getResultMode` returns the mode named by the first of
`result`, `Result`, `resultMode`, `ResultMode` whose value in lower case is
`normal`, `serialized`, `raw` or `rawwithendtag`, and `Normal` when there is
none. So for a tag that holds one of the keys, the result is decided by its
value alone, and a missing tag gives `nil`, `nil` and `Normal`. -/
theorem tag_getters (ToLower Tag : List Nat → List Nat) (hempty : ToLower [] = []) :
    getByRef ToLower Tag
      = [stringBytes "byref", stringBytes "byRef", stringBytes "Byref", stringBytes "ByRef"].findSome?
          (fun key => specFlag (ToLower (Tag key))) ∧
    getSimpleMode ToLower Tag
      = [stringBytes "simple", stringBytes "Simple", stringBytes "simpleMode",
          stringBytes "SimpleMode"].findSome? (fun key => specFlag (ToLower (Tag key))) ∧
    getResultMode ToLower Tag
      = ([stringBytes "result", stringBytes "Result", stringBytes "resultMode",
          stringBytes "ResultMode"].findSome?
            (fun key => specResultMode (ToLower (Tag key)))).getD ResultMode.Normal ∧
    (∀ key value,
      key ∈ [stringBytes "byref", stringBytes "byRef", stringBytes "Byref", stringBytes "ByRef"] →
      getByRef ToLower (fun k => if k = key then value else []) = specFlag (ToLower value)) ∧
    (∀ key value,
      key ∈ [stringBytes "simple", stringBytes "Simple", stringBytes "simpleMode",
        stringBytes "SimpleMode"] →
      getSimpleMode ToLower (fun k => if k = key then value else [])
        = specFlag (ToLower value)) ∧
    (∀ key value,
      key ∈ [stringBytes "result", stringBytes "Result", stringBytes "resultMode",
        stringBytes "ResultMode"] →
      getResultMode ToLower (fun k => if k = key then value else [])
        = (specResultMode (ToLower value)).getD ResultMode.Normal) ∧
    (getByRef ToLower (fun _ => []) = none ∧ getSimpleMode ToLower (fun _ => []) = none ∧
      getResultMode ToLower (fun _ => []) = ResultMode.Normal) := by
  have hflag : specFlag (ToLower []) = none := by rw [hempty]; decide
  have hmode : specResultMode (ToLower []) = none := by rw [hempty]; decide
  have hone : ∀ {β : Type} (f : List Nat → Option β), f (ToLower []) = none →
      ∀ (key value : List Nat) (keys : List (List Nat)), key ∈ keys →
      keys.findSome? (fun k => f (ToLower ((fun k => if k = key then value else []) k)))
        = f (ToLower value) := by
    intro β f hf key value keys hmem
    have h := findSome_single (fun s => f s) key
      (fun k => if k = key then value else []) ToLower
      (by
        intro k
        by_cases hk : k = key
        · exact Or.inr hk
        · left; simp only [hk, if_false]; exact hf) keys hmem
    simpa using h
  have hnone : ∀ {β : Type} (f : List Nat → Option β), f (ToLower []) = none →
      ∀ (keys : List (List Nat)),
      keys.findSome? (fun k => f (ToLower ((fun _ => ([] : List Nat)) k))) = none := by
    intro β f hf keys
    induction keys with
    | nil => rfl
    | cons k keys ih => rw [List.findSome?_cons]; simp only [hf] at ih ⊢; exact ih
  refine ⟨getFlag_first ToLower Tag _, getFlag_first ToLower Tag _,
    getResultModeLoop_first ToLower Tag _, ?_, ?_, ?_, ?_, ?_, ?_⟩
  · intro key value hmem
    unfold getByRef
    rw [getFlag_first]
    exact hone specFlag hflag key value _ hmem
  · intro key value hmem
    unfold getSimpleMode
    rw [getFlag_first]
    exact hone specFlag hflag key value _ hmem
  · intro key value hmem
    unfold getResultMode
    rw [getResultModeLoop_first, hone specResultMode hmode key value _ hmem]
  · unfold getByRef
    rw [getFlag_first]
    exact hnone specFlag hflag _
  · unfold getSimpleMode
    rw [getFlag_first]
    exact hnone specFlag hflag _
  · unfold getResultMode
    rw [getResultModeLoop_first, hnone specResultMode hmode _]
    rfl

theorem tag_getters_witness :
    getByRef exampleToLower (exampleTag (stringBytes "byRef") (stringBytes "TRUE"))
      = [stringBytes "byref", stringBytes "byRef", stringBytes "Byref", stringBytes "ByRef"].findSome?
          (fun key => specFlag (exampleToLower
            (exampleTag (stringBytes "byRef") (stringBytes "TRUE") key))) ∧
    getSimpleMode exampleToLower (exampleTag (stringBytes "byRef") (stringBytes "TRUE"))
      = [stringBytes "simple", stringBytes "Simple", stringBytes "simpleMode",
          stringBytes "SimpleMode"].findSome? (fun key => specFlag (exampleToLower
            (exampleTag (stringBytes "byRef") (stringBytes "TRUE") key))) ∧
    getResultMode exampleToLower (exampleTag (stringBytes "byRef") (stringBytes "TRUE"))
      = ([stringBytes "result", stringBytes "Result", stringBytes "resultMode",
          stringBytes "ResultMode"].findSome?
            (fun key => specResultMode (exampleToLower
              (exampleTag (stringBytes "byRef") (stringBytes "TRUE") key)))).getD
          ResultMode.Normal ∧
    (∀ key value,
      key ∈ [stringBytes "byref", stringBytes "byRef", stringBytes "Byref", stringBytes "ByRef"] →
      getByRef exampleToLower (fun k => if k = key then value else [])
        = specFlag (exampleToLower value)) ∧
    (∀ key value,
      key ∈ [stringBytes "simple", stringBytes "Simple", stringBytes "simpleMode",
        stringBytes "SimpleMode"] →
      getSimpleMode exampleToLower (fun k => if k = key then value else [])
        = specFlag (exampleToLower value)) ∧
    (∀ key value,
      key ∈ [stringBytes "result", stringBytes "Result", stringBytes "resultMode",
        stringBytes "ResultMode"] →
      getResultMode exampleToLower (fun k => if k = key then value else [])
        = (specResultMode (exampleToLower value)).getD ResultMode.Normal) ∧
    (getByRef exampleToLower (fun _ => []) = none ∧
      getSimpleMode exampleToLower (fun _ => []) = none ∧
      getResultMode exampleToLower (fun _ => []) = ResultMode.Normal) :=
  tag_getters exampleToLower (exampleTag (stringBytes "byRef") (stringBytes "TRUE")) rfl

/-- The getters on tags that hold one key: `byRef:"TRUE"`, `ByRef:"0"`,
`byref:"yes"`, `simple:"T"`, `result:"RawWithEndTag"`, `Result:"fast"`; and
on a tag that holds both `byref:"maybe"` and `ByRef:"f"`. -/
theorem tag_getters_example :
    getByRef exampleToLower (exampleTag (stringBytes "byRef") (stringBytes "TRUE")) = some true ∧
    getByRef exampleToLower (exampleTag (stringBytes "ByRef") (stringBytes "0")) = some false ∧
    getByRef exampleToLower (exampleTag (stringBytes "byref") (stringBytes "yes")) = none ∧
    getSimpleMode exampleToLower (exampleTag (stringBytes "simple") (stringBytes "T"))
      = some true ∧
    getResultMode exampleToLower
        (exampleTag (stringBytes "result") (stringBytes "RawWithEndTag"))
      = ResultMode.RawWithEndTag ∧
    getResultMode exampleToLower (exampleTag (stringBytes "Result") (stringBytes "fast"))
      = ResultMode.Normal ∧
    getByRef exampleToLower
        (fun k => if k = stringBytes "byref" then stringBytes "maybe"
          else if k = stringBytes "ByRef" then stringBytes "f" else [])
      = some false := by
  refine ⟨by decide, by decide, by decide, by decide, by decide, by decide, by decide⟩

/-- C33 (what the code does). With a uri that `url.Parse` accepts and a
non-nil pointer to a struct (or to a struct pointer) that
`createRemoteObject` fills, `UseService(uri)` sets the uri and returns,
`UseService(remoteObject)` fills the stub and returns, and
`UseService(uri, remoteObject)` sets the uri, fills the stub and then panics
with `Wrong arguments.`: the third shape of the doc comment never returns. -/
theorem UseService_shapes {U R : Type} (Parse : List Nat → Option U) (create : R → Option R)
    (state : UseState U R) (uri : List Nat) (u : U) (ro o : R) (toStruct : Bool)
    (hu : Parse uri = some u) (hc : create ro = some o) (hs : toStruct = true) :
    BaseClient.UseService Parse create state [Argument.string uri]
      = UseResult.returns { state with uri := some u } ∧
    BaseClient.UseService Parse create state [Argument.stringPointer (some uri)]
      = UseResult.returns { state with uri := some u } ∧
    BaseClient.UseService Parse create state [Argument.pointer false toStruct ro]
      = UseResult.returns { state with remoteObject := some o } ∧
    BaseClient.UseService Parse create state
        [Argument.string uri, Argument.pointer false toStruct ro]
      = UseResult.panics (UsePanic.text "Wrong arguments.")
          { uri := some u, remoteObject := some o } ∧
    BaseClient.UseService Parse create state
        [Argument.stringPointer (some uri), Argument.pointer false toStruct ro]
      = UseResult.panics (UsePanic.text "Wrong arguments.")
          { uri := some u, remoteObject := some o } := by
  subst hs
  refine ⟨?_, ?_, ?_, ?_, ?_⟩
  · simp only [BaseClient.UseService, BaseClient.SetUri, hu]
  · simp only [BaseClient.UseService, BaseClient.SetUri, hu]
  · simp [BaseClient.UseService, BaseClient.createRemoteObject, hc]
  · simp [BaseClient.UseService, BaseClient.SetUri, hu, isStructPointer,
      BaseClient.createRemoteObject, hc]
  · simp [BaseClient.UseService, BaseClient.SetUri, hu, isStructPointer,
      BaseClient.createRemoteObject, hc]

theorem UseService_shapes_witness :
    BaseClient.UseService (fun s => some s) (fun (r : Nat) => some (r + 1))
        { uri := none, remoteObject := none } [Argument.string [104]]
      = UseResult.returns
          { ({ uri := none, remoteObject := none } : UseState (List Nat) Nat)
            with uri := some [104] } ∧
    BaseClient.UseService (fun s => some s) (fun (r : Nat) => some (r + 1))
        { uri := none, remoteObject := none } [Argument.stringPointer (some [104])]
      = UseResult.returns
          { ({ uri := none, remoteObject := none } : UseState (List Nat) Nat)
            with uri := some [104] } ∧
    BaseClient.UseService (fun s => some s) (fun (r : Nat) => some (r + 1))
        { uri := none, remoteObject := none } [Argument.pointer false true 0]
      = UseResult.returns
          { ({ uri := none, remoteObject := none } : UseState (List Nat) Nat)
            with remoteObject := some 1 } ∧
    BaseClient.UseService (fun s => some s) (fun (r : Nat) => some (r + 1))
        { uri := none, remoteObject := none }
        [Argument.string [104], Argument.pointer false true 0]
      = UseResult.panics (UsePanic.text "Wrong arguments.")
          { uri := some [104], remoteObject := some 1 } ∧
    BaseClient.UseService (fun s => some s) (fun (r : Nat) => some (r + 1))
        { uri := none, remoteObject := none }
        [Argument.stringPointer (some [104]), Argument.pointer false true 0]
      = UseResult.panics (UsePanic.text "Wrong arguments.")
          { uri := some [104], remoteObject := some 1 } :=
  UseService_shapes (fun s => some s) (fun (r : Nat) => some (r + 1))
    { uri := none, remoteObject := none } [104] [104] 0 1 true rfl rfl rfl

/-- The other argument shapes of `UseService`: no argument, three
arguments, a nil first argument, a first argument that is no string, a
second argument that is no struct pointer, and a value whose kind has no
nil, on which `isStructPointer` panics inside `reflect`. -/
theorem UseService_other_shapes {U R : Type} (Parse : List Nat → Option U)
    (create : R → Option R) (state : UseState U R) (a b c : Argument R) (uri : List Nat) (u : U)
    (hu : Parse uri = some u) :
    BaseClient.UseService Parse create state []
      = UseResult.panics (UsePanic.text "Wrong arguments.") state ∧
    BaseClient.UseService Parse create state [a, b, c]
      = UseResult.panics (UsePanic.text "Wrong arguments.") state ∧
    BaseClient.UseService Parse create state [Argument.nil]
      = UseResult.panics (UsePanic.text "The arguments can't be nil.") state ∧
    BaseClient.UseService Parse create state [Argument.nilable false, b]
      = UseResult.panics (UsePanic.text "Wrong arguments.") state ∧
    BaseClient.UseService Parse create state [Argument.string uri, Argument.nilable false]
      = UseResult.panics (UsePanic.text "Wrong arguments.") { state with uri := some u } ∧
    BaseClient.UseService Parse create state [Argument.value]
      = UseResult.panics UsePanic.runtime state ∧
    BaseClient.UseService Parse create state [Argument.string uri, Argument.value]
      = UseResult.panics UsePanic.runtime { state with uri := some u } := by
  refine ⟨rfl, rfl, rfl, rfl, ?_, rfl, ?_⟩
  · simp [BaseClient.UseService, BaseClient.SetUri, hu, isStructPointer]
  · simp [BaseClient.UseService, BaseClient.SetUri, hu, isStructPointer]

theorem invokeAsync_chans : ∀ (chans : List Kind), (∀ k ∈ chans, k = Kind.Chan) →
    ∀ (rest : List Kind) (async : Bool),
    invokeAsync (chans ++ rest) async = invokeAsync rest (if chans = [] then async else true) := by
  intro chans
  induction chans with
  | nil => intro _ rest async; rfl
  | cons k chans ih =>
    intro h rest async
    have hk : k = Kind.Chan := h k (List.mem_cons_self _ _)
    rw [List.cons_append, invokeAsync, if_pos hk,
      ih (fun x hx => h x (List.mem_cons_of_mem _ hx)) rest true]
    by_cases hn : chans = []
    · simp [hn]
    · simp [hn]

theorem invokeAsync_others : ∀ (others : List Kind), (∀ k ∈ others, k ≠ Kind.Chan) →
    ∀ (rest : List Kind),
    invokeAsync (others ++ rest) false = invokeAsync rest false := by
  intro others
  induction others with
  | nil => intro _ rest; rfl
  | cons k others ih =>
    intro h rest
    have hk : k ≠ Kind.Chan := h k (List.mem_cons_self _ _)
    rw [List.cons_append, invokeAsync, if_neg hk]
    simp only [Bool.false_eq_true, if_false]
    exact ih (fun x hx => h x (List.mem_cons_of_mem _ hx)) rest

theorem invokeAsync_after_chan (k : Kind) (hk : k ≠ Kind.Chan) (rest : List Kind) :
    invokeAsync (k :: rest) true = none := by
  rw [invokeAsync, if_neg hk]
  simp

/-- C36 (what the code does). `invoke` panics with `The out parameters must
be all chan or all non-chan type.` when a result that is not a channel comes
after one that is. When the results that are not channels all come before
the channels, the loop ends with `async` set and without a panic, and
`invoke` goes on to `asyncInvoke` (or to the panic about `ByRef`): this
mixed list is not rejected. Lists of channels only and of non-channels only
are accepted. -/
theorem invoke_mixed_results (client : BaseClient) (args : List Kind)
    (options : Option InvokeOptions) (chans others : List Kind)
    (hc : ∀ k ∈ chans, k = Kind.Chan) (ho : ∀ k ∈ others, k ≠ Kind.Chan)
    (hc0 : chans ≠ []) (ho0 : others ≠ []) :
    (∀ post, client.invoke args options (chans ++ (others ++ post))
      = invokePath.panics "The out parameters must be all chan or all non-chan type.") ∧
    client.invoke args options (others ++ chans)
      = (if ((options.getD InvokeOptions.new).ByRef.getD client.ByRef
              && !checkRefArgs args) = true then
          invokePath.panics "The elements in args must be pointer when options.ByRef is true."
        else invokePath.asyncInvoke) ∧
    client.invoke args options chans
      ≠ invokePath.panics "The out parameters must be all chan or all non-chan type." ∧
    client.invoke args options others
      ≠ invokePath.panics "The out parameters must be all chan or all non-chan type." := by
  have h1 : ∀ post, invokeAsync (chans ++ (others ++ post)) false = none := by
    intro post
    rw [invokeAsync_chans chans hc, if_neg hc0]
    obtain ⟨k, rest, hk⟩ := List.exists_cons_of_ne_nil ho0
    subst hk
    exact invokeAsync_after_chan k (ho k (List.mem_cons_self _ _)) _
  have h2 : invokeAsync (others ++ chans) false = some true := by
    rw [invokeAsync_others others ho]
    have h := invokeAsync_chans chans hc [] false
    rw [List.append_nil, if_neg hc0] at h
    rw [h]; rfl
  have h3 : invokeAsync chans false = some true := by
    have h := invokeAsync_chans chans hc [] false
    rw [List.append_nil, if_neg hc0] at h
    rw [h]; rfl
  have h4 : invokeAsync others false = some false := by
    have h := invokeAsync_others others ho []
    rw [List.append_nil] at h
    rw [h]; rfl
  refine ⟨?_, ?_, ?_, ?_⟩
  · intro post
    simp only [BaseClient.invoke, h1 post]
  · simp only [BaseClient.invoke, h2]
    split_ifs <;> rfl
  · simp only [BaseClient.invoke, h3]
    split_ifs <;> decide
  · simp only [BaseClient.invoke, h4]
    split_ifs <;> decide

theorem invoke_mixed_results_witness :
    (∀ post, ({ ByRef := false, SimpleMode := false } : BaseClient).invoke [] none
        ([Kind.Chan] ++ ([Kind.Other] ++ post))
      = invokePath.panics "The out parameters must be all chan or all non-chan type.") ∧
    ({ ByRef := false, SimpleMode := false } : BaseClient).invoke [] none
        ([Kind.Other] ++ [Kind.Chan])
      = (if (((none : Option InvokeOptions).getD InvokeOptions.new).ByRef.getD
                ({ ByRef := false, SimpleMode := false } : BaseClient).ByRef
              && !checkRefArgs []) = true then
          invokePath.panics "The elements in args must be pointer when options.ByRef is true."
        else invokePath.asyncInvoke) ∧
    ({ ByRef := false, SimpleMode := false } : BaseClient).invoke [] none [Kind.Chan]
      ≠ invokePath.panics "The out parameters must be all chan or all non-chan type." ∧
    ({ ByRef := false, SimpleMode := false } : BaseClient).invoke [] none [Kind.Other]
      ≠ invokePath.panics "The out parameters must be all chan or all non-chan type." :=
  invoke_mixed_results { ByRef := false, SimpleMode := false } [] none [Kind.Chan] [Kind.Other]
    (by decide) (by decide) (by decide) (by decide)

/-- `invoke` on a value result followed by a channel, and on a channel
followed by a value result. -/
theorem invoke_example :
    ({ ByRef := false, SimpleMode := false } : BaseClient).invoke [] none
        [Kind.Other, Kind.Chan] = invokePath.asyncInvoke ∧
    ({ ByRef := false, SimpleMode := false } : BaseClient).invoke [] none
        [Kind.Chan, Kind.Other]
      = invokePath.panics "The out parameters must be all chan or all non-chan type." ∧
    ({ ByRef := false, SimpleMode := false } : BaseClient).invoke [] none
        [Kind.Ptr, Kind.Other, Kind.Chan, Kind.Chan] = invokePath.asyncInvoke := by
  refine ⟨by decide, by decide, by decide⟩

/-! ## Reader: objects and the class table -/

theorem readClass_appends {C : Type} (d : Decoders) (GetClass : List Nat → Option C)
    (r r' : reader) (t t' : readerClasses C)
    (h : reader.readClass d GetClass r t = some (none, r', t')) :
    (t'.classref.getD []).length = (t.classref.getD []).length + 1 := by
  unfold reader.readClass at h
  repeat' split at h
  all_goals first
    | (cases h; done)
    | (simp only [Option.some.injEq, Prod.mk.injEq, true_and] at h
       obtain ⟨_, h⟩ := h
       subst h
       simp)

/-- C39 (what the code does). `readObjectWithoutTag` reads the index and
looks it up in `classref` with no test against the length of the table: when
the index is negative or not below the number of entries, the lookup is out
of range and the function panics; it does not return an error. After `Reset`
the table is empty, so every index panics; each `readClass` that succeeds
adds one entry; for an index in range the function goes on with the entry. -/
theorem readObjectWithoutTag_index {C : Type}
    (readObjectBody : classKey C → Nat → readerClasses C → reader → Option (Option error × reader))
    (r : reader) (t : readerClasses C) (index : Int) (s : List Nat)
    (hread : ReadInteger TagOpenbrace r.stream = (index, none, s)) :
    (index < 0 ∨ ((t.classref.getD []).length : Int) ≤ index →
      reader.readObjectWithoutTag readObjectBody r t = none) ∧
    reader.readObjectWithoutTag readObjectBody r t.Reset = none ∧
    (∀ key, 0 ≤ index → (t.classref.getD [])[index.toNat]? = some key →
      reader.readObjectWithoutTag readObjectBody r t
        = readObjectBody key index.toNat t { r with stream := s }) ∧
    (∀ (d : Decoders) (GetClass : List Nat → Option C) (r0 r1 : reader) (t1 : readerClasses C),
      reader.readClass d GetClass r0 t = some (none, r1, t1) →
      (t1.classref.getD []).length = (t.classref.getD []).length + 1) := by
  refine ⟨?_, ?_, ?_, ?_⟩
  · intro h
    unfold reader.readObjectWithoutTag
    rw [hread]
    by_cases hneg : index < 0
    · simp only [hneg, if_true]
    · have hge : (t.classref.getD []).length ≤ index.toNat := by omega
      simp only [hneg, if_false, List.getElem?_eq_none hge]
  · unfold reader.readObjectWithoutTag
    rw [hread]
    by_cases hneg : index < 0
    · simp only [hneg, if_true]
    · have he : t.Reset.classref = none := by
        unfold readerClasses.Reset
        cases hc : t.classref with
        | none => simp only [hc]
        | some c => rfl
      simp only [hneg, if_false, he, Option.getD_none, List.getElem?_nil]
  · intro key h0 hkey
    unfold reader.readObjectWithoutTag
    rw [hread]
    have hneg : ¬ index < 0 := by omega
    simp only [hneg, if_false, hkey]
  · intro d GetClass r0 r1 t1 h
    exact readClass_appends d GetClass r0 r1 t t1 h

theorem readObjectWithoutTag_index_witness :
    ((0 : Int) < 0 ∨ ((((readerClasses.new Unit).classref.getD []).length : Nat) : Int) ≤ 0 →
      reader.readObjectWithoutTag (fun _ _ _ r => some (none, r)) (NewSimpleReader [48, 123])
        (readerClasses.new Unit) = none) ∧
    reader.readObjectWithoutTag (fun _ _ _ r => some (none, r)) (NewSimpleReader [48, 123])
        (readerClasses.new Unit).Reset = none ∧
    (∀ key, 0 ≤ (0 : Int) →
      ((readerClasses.new Unit).classref.getD [])[(0 : Int).toNat]? = some key →
      reader.readObjectWithoutTag (fun _ _ _ r => some (none, r)) (NewSimpleReader [48, 123])
          (readerClasses.new Unit)
        = (fun _ _ _ r => some (none, r)) key (0 : Int).toNat (readerClasses.new Unit)
            { NewSimpleReader [48, 123] with stream := [] }) ∧
    (∀ (d : Decoders) (GetClass : List Nat → Option Unit) (r0 r1 : reader)
        (t1 : readerClasses Unit),
      reader.readClass d GetClass r0 (readerClasses.new Unit) = some (none, r1, t1) →
      (t1.classref.getD []).length = ((readerClasses.new Unit).classref.getD []).length + 1) :=
  readObjectWithoutTag_index (fun _ _ _ r => some (none, r)) (NewSimpleReader [48, 123])
    (readerClasses.new Unit) 0 [] (by decide)

/-- The object `0{}` on a reader that has read no class, the object `1{}`
and the object `-1{}` on a reader that has read one class (`c1"A"0{}`): a
panic each time; the object `0{}` on that reader reaches the entry. -/
theorem readObjectWithoutTag_example :
    reader.readObjectWithoutTag (fun _ _ _ r => some (none, r)) (NewSimpleReader [48, 123, 125])
        (readerClasses.new Unit) = none ∧
    (reader.readClass exampleDecoders (fun _ => none)
        (NewSimpleReader [49, 34, 65, 34, 48, 123, 125]) (readerClasses.new Unit)).map
        (fun res => (res.1, (res.2.2.classref.getD []).length)) = some (none, 1) ∧
    ((reader.readClass exampleDecoders (fun _ => none)
        (NewSimpleReader [49, 34, 65, 34, 48, 123, 125]) (readerClasses.new Unit)).bind
      (fun res => reader.readObjectWithoutTag (fun _ _ _ r => some (none, r))
        (NewSimpleReader [49, 123, 125]) res.2.2)) = none ∧
    ((reader.readClass exampleDecoders (fun _ => none)
        (NewSimpleReader [49, 34, 65, 34, 48, 123, 125]) (readerClasses.new Unit)).bind
      (fun res => reader.readObjectWithoutTag (fun _ _ _ r => some (none, r))
        (NewSimpleReader [45, 49, 123, 125]) res.2.2)) = none ∧
    ((reader.readClass exampleDecoders (fun _ => none)
        (NewSimpleReader [49, 34, 65, 34, 48, 123, 125]) (readerClasses.new Unit)).bind
      (fun res => reader.readObjectWithoutTag (fun _ _ _ r => some (none, r))
        (NewSimpleReader [48, 123, 125]) res.2.2)) = some (none, NewSimpleReader [125]) := by
  refine ⟨by decide, by decide, by decide, by decide, by decide⟩

/-! ## C40: the raw reader terminates -/

theorem then_mono {first first' : rawResult} {next next' : rawOut → rawResult}
    {res res' : rawResult}
    (hres : res = (match first with
      | rawResult.ret mid => if mid.err = none then next mid else rawResult.ret mid
      | r => r))
    (hres' : res' = (match first' with
      | rawResult.ret mid => if mid.err = none then next' mid else rawResult.ret mid
      | r => r))
    (h : res ≠ rawResult.outOfFuel)
    (h1 : first ≠ rawResult.outOfFuel → first' = first)
    (h2 : ∀ mid, first = rawResult.ret mid → mid.err = none →
      next mid ≠ rawResult.outOfFuel → next' mid = next mid) :
    res' = res := by
  subst hres hres'
  cases first with
  | ret mid =>
    have hf := h1 (by simp)
    subst hf
    simp only at h ⊢
    by_cases hm : mid.err = none
    · rw [if_pos hm] at h
      rw [if_pos hm, if_pos hm]
      exact h2 mid rfl hm h
    · rw [if_neg hm, if_neg hm]
  | panic => rw [h1 (by simp)]
  | outOfFuel => exact absurd rfl h

theorem readRaw_mono_step (n : Nat)
    (ih1 : ∀ (s o : List Nat), ReadRawTo n s o ≠ rawResult.outOfFuel →
      ReadRawTo (n + 1) s o = ReadRawTo n s o)
    (ih3 : ∀ (s o : List Nat) (tag : Nat), readComplexRaw n s o tag ≠ rawResult.outOfFuel →
      readComplexRaw (n + 1) s o tag = readComplexRaw n s o tag)
    (s o : List Nat) (tag : Nat) (h : readRaw (n + 1) s o tag ≠ rawResult.outOfFuel) :
    readRaw (n + 1 + 1) s o tag = readRaw (n + 1) s o tag := by
  rw [readRaw_succ (n + 1), readRaw_succ n]
  rw [readRaw_succ n] at h
  by_cases h1 : (48 ≤ tag ∧ tag ≤ 57) ∨ tag = TagNull ∨ tag = TagEmpty ∨ tag = TagTrue
      ∨ tag = TagFalse ∨ tag = TagNaN
  · rw [if_pos h1, if_pos h1]
  rw [if_neg h1] at h
  rw [if_neg h1, if_neg h1]
  by_cases h2 : tag = TagInfinity
  · rw [if_pos h2, if_pos h2]
  rw [if_neg h2] at h
  rw [if_neg h2, if_neg h2]
  by_cases h3 : tag = TagInteger ∨ tag = TagLong ∨ tag = TagDouble ∨ tag = TagRef
  · rw [if_pos h3, if_pos h3]
  rw [if_neg h3] at h
  rw [if_neg h3, if_neg h3]
  by_cases h4 : tag = TagDate ∨ tag = TagTime
  · rw [if_pos h4, if_pos h4]
  rw [if_neg h4] at h
  rw [if_neg h4, if_neg h4]
  by_cases h5 : tag = TagUTF8Char
  · rw [if_pos h5, if_pos h5]
  rw [if_neg h5] at h
  rw [if_neg h5, if_neg h5]
  by_cases h6 : tag = TagBytes
  · rw [if_pos h6, if_pos h6]
  rw [if_neg h6] at h
  rw [if_neg h6, if_neg h6]
  by_cases h7 : tag = TagString
  · rw [if_pos h7, if_pos h7]
  rw [if_neg h7] at h
  rw [if_neg h7, if_neg h7]
  by_cases h8 : tag = TagGuid
  · rw [if_pos h8, if_pos h8]
  rw [if_neg h8] at h
  rw [if_neg h8, if_neg h8]
  by_cases h9 : tag = TagList ∨ tag = TagMap ∨ tag = TagObject
  · rw [if_pos h9] at h
    rw [if_pos h9, if_pos h9]
    exact ih3 s o tag h
  rw [if_neg h9] at h
  rw [if_neg h9, if_neg h9]
  by_cases h10 : tag = TagClass
  · rw [if_pos h10] at h
    rw [if_pos h10, if_pos h10]
    exact @then_mono (readComplexRaw n s o tag) (readComplexRaw (n + 1) s o tag)
      (fun mid => ReadRawTo n mid.stream mid.ostream)
      (fun mid => ReadRawTo (n + 1) mid.stream mid.ostream) _ _ rfl rfl h
      (fun hf => ih3 s o tag hf) (fun mid _ _ hn => ih1 _ _ hn)
  rw [if_neg h10] at h
  rw [if_neg h10, if_neg h10]
  by_cases h11 : tag = TagError
  · rw [if_pos h11] at h
    rw [if_pos h11, if_pos h11]
    exact ih1 s _ h
  rw [if_neg h11, if_neg h11]

theorem readComplexRaw_mono_step (n : Nat)
    (ih4 : ∀ (s o : List Nat), readComplexRawBody n s o ≠ rawResult.outOfFuel →
      readComplexRawBody (n + 1) s o = readComplexRawBody n s o)
    (s o : List Nat) (tag : Nat) (h : readComplexRaw (n + 1) s o tag ≠ rawResult.outOfFuel) :
    readComplexRaw (n + 1 + 1) s o tag = readComplexRaw (n + 1) s o tag := by
  rw [readComplexRaw_succ (n + 1), readComplexRaw_succ n]
  rw [readComplexRaw_succ n] at h
  by_cases hb : tag ≠ TagOpenbrace
  · simp only [if_pos hb] at h ⊢
    by_cases hm : (readComplexRawHead s (o ++ [tag])).err = none
    · rw [if_pos hm] at h
      rw [if_pos hm, if_pos hm]
      exact ih4 _ _ h
    · rw [if_neg hm, if_neg hm]
  · simp only [if_neg hb, if_true] at h ⊢
    exact ih4 _ _ h

theorem readComplexRawBody_mono_step (n : Nat)
    (ih2 : ∀ (s o : List Nat) (tag : Nat), readRaw n s o tag ≠ rawResult.outOfFuel →
      readRaw (n + 1) s o tag = readRaw n s o tag)
    (ih4 : ∀ (s o : List Nat), readComplexRawBody n s o ≠ rawResult.outOfFuel →
      readComplexRawBody (n + 1) s o = readComplexRawBody n s o)
    (s o : List Nat) (h : readComplexRawBody (n + 1) s o ≠ rawResult.outOfFuel) :
    readComplexRawBody (n + 1 + 1) s o = readComplexRawBody (n + 1) s o := by
  cases s with
  | nil => rw [readComplexRawBody_nil, readComplexRawBody_nil]
  | cons tag s =>
    rw [readComplexRawBody_cons (n + 1), readComplexRawBody_cons n]
    rw [readComplexRawBody_cons n] at h
    by_cases hb : tag = TagClosebrace
    · rw [if_pos hb, if_pos hb]
    · rw [if_neg hb] at h
      rw [if_neg hb, if_neg hb]
      exact @then_mono (readRaw n s o tag) (readRaw (n + 1) s o tag)
        (fun mid => readComplexRawBody n mid.stream mid.ostream)
        (fun mid => readComplexRawBody (n + 1) mid.stream mid.ostream) _ _ rfl rfl h
        (fun hf => ih2 s o tag hf) (fun mid _ _ hn => ih4 _ _ hn)

/-- A larger budget does not change what the four mutually recursive
functions of the raw reader return, once the budget is enough. -/
theorem raw_mono_all : ∀ (fuel : Nat),
    (∀ (s o : List Nat), ReadRawTo fuel s o ≠ rawResult.outOfFuel →
      ReadRawTo (fuel + 1) s o = ReadRawTo fuel s o) ∧
    (∀ (s o : List Nat) (tag : Nat), readRaw fuel s o tag ≠ rawResult.outOfFuel →
      readRaw (fuel + 1) s o tag = readRaw fuel s o tag) ∧
    (∀ (s o : List Nat) (tag : Nat), readComplexRaw fuel s o tag ≠ rawResult.outOfFuel →
      readComplexRaw (fuel + 1) s o tag = readComplexRaw fuel s o tag) ∧
    (∀ (s o : List Nat), readComplexRawBody fuel s o ≠ rawResult.outOfFuel →
      readComplexRawBody (fuel + 1) s o = readComplexRawBody fuel s o) := by
  intro fuel
  induction fuel with
  | zero =>
    refine ⟨?_, ?_, ?_, ?_⟩
    · intro s o h; exact absurd rfl h
    · intro s o tag h; exact absurd rfl h
    · intro s o tag h; exact absurd rfl h
    · intro s o h; exact absurd rfl h
  | succ n ih =>
    obtain ⟨ih1, ih2, ih3, ih4⟩ := ih
    refine ⟨?_, readRaw_mono_step n ih1 ih3, readComplexRaw_mono_step n ih4,
      readComplexRawBody_mono_step n ih2 ih4⟩
    intro s o h
    cases s with
    | nil => rw [ReadRawTo_nil, ReadRawTo_nil]
    | cons tag s =>
      rw [ReadRawTo_cons] at h
      rw [ReadRawTo_cons, ReadRawTo_cons]
      exact ih2 s o tag h

theorem ReadRawTo_mono (s o : List Nat) : ∀ (k fuel : Nat),
    ReadRawTo fuel s o ≠ rawResult.outOfFuel → ReadRawTo (fuel + k) s o = ReadRawTo fuel s o := by
  intro k
  induction k with
  | zero => intro fuel _; rfl
  | succ k ih =>
    intro fuel h
    have h1 := ih fuel h
    have h2 : ReadRawTo (fuel + k) s o ≠ rawResult.outOfFuel := by rw [h1]; exact h
    have h3 := (raw_mono_all (fuel + k)).1 s o h2
    rw [← Nat.add_assoc, h3, h1]

/-- C40: `ReadRaw` terminates on every input. The budget of three calls per
input byte (plus three) that the embedding gives to the recursion of
`ReadRawTo`, `readRaw` and `readComplexRaw` is never used up, so on every
input `ReadRaw` returns or panics; any larger budget gives the same result;
and a call that succeeds leaves strictly fewer bytes than it was given. -/
theorem ReadRaw_terminates (input : List Nat) :
    ReadRaw input ≠ rawResult.outOfFuel ∧
    (∀ fuel, 3 * input.length + 3 ≤ fuel → ReadRawTo fuel input [] = ReadRaw input) ∧
    (∀ out, ReadRaw input = rawResult.ret out → out.err = none →
      out.stream.length < input.length) := by
  have hfuel : ReadRaw input ≠ rawResult.outOfFuel := (raw_fuel_all _).1 input [] (by omega)
  refine ⟨hfuel, ?_, ?_⟩
  · intro fuel hle
    obtain ⟨k, rfl⟩ : ∃ k, fuel = 3 * input.length + 3 + k := ⟨fuel - (3 * input.length + 3), by omega⟩
    exact ReadRawTo_mono input [] k _ hfuel
  · intro out hret herr
    unfold ReadRaw at hret
    cases input with
    | nil =>
      rw [ReadRawTo_nil] at hret
      cases hret
      cases herr
    | cons tag s =>
      rw [ReadRawTo_cons] at hret
      have hl := rawCopies_length ((raw_copies_all _).2.1 s [] tag out hret herr)
      simp only [List.length_cons]
      omega

/-- The raw reader on nested containers that are never closed, on a class
followed by nothing, and on an error tag repeated to the end: it returns,
with the error of the end of the input. -/
theorem ReadRaw_unterminated_example :
    (match ReadRaw [97, 123, 97, 123, 109, 123, 97] with
      | rawResult.ret out => out.err
      | _ => none) = some error.EOF ∧
    (match ReadRaw [99, 49, 34, 65, 34, 48, 123, 125] with
      | rawResult.ret out => out.err
      | _ => none) = some error.EOF ∧
    (match ReadRaw [69, 69, 69, 69] with
      | rawResult.ret out => out.err
      | _ => none) = some error.EOF := by
  refine ⟨by decide, by decide, by decide⟩

/-! ## C37: a failure in a pipelined request -/

theorem answer_keeps (service : BaseService) (lib : ServiceLibrary) (ostream buf : List Nat)
    (byref : Bool) (tag : Nat) (istream : List Nat) (r : invoked) (s : BaseService)
    (o : List Nat) (f : Flow)
    (h : service.answer lib ostream buf byref tag istream r = callFlow.stop s o f)
    (hf : f ≠ Flow.nil) : o = ostream := by
  cases r with
  | err msg => cases h; rfl
  | called m result last args =>
    rcases last with _ | _ | msg
    · simp only [BaseService.answer] at h
      repeat' split at h
      all_goals first | (cases h; done) | (cases h; rfl) | (cases h; exact absurd rfl hf)
    · simp only [BaseService.answer] at h
      repeat' split at h
      all_goals first | (cases h; done) | (cases h; rfl) | (cases h; exact absurd rfl hf)
    · cases h; rfl
  | missing m result args =>
    simp only [BaseService.answer] at h
    repeat' split at h
    all_goals first | (cases h; done) | (cases h; rfl) | (cases h; exact absurd rfl hf)

theorem doInvokeCall_keeps (service : BaseService) (lib : ServiceLibrary)
    (istream ostream buf : List Nat) (s : BaseService) (o : List Nat) (f : Flow)
    (h : service.doInvokeCall lib istream ostream buf = callFlow.stop s o f)
    (hf : f ≠ Flow.nil) : o = ostream := by
  unfold BaseService.doInvokeCall at h
  cases hr : lib.ReadString istream with
  | none => rw [hr] at h; cases h; rfl
  | some r =>
    obtain ⟨name, e, n⟩ := r
    rw [hr] at h
    cases e with
    | some err => cases h; rfl
    | none =>
      simp only at h
      cases ha : readArguments lib (mapGet service.Methods.RemoteMethods (lib.ToLower name))
          (istream.drop n) with
      | err e => rw [ha] at h; cases h; rfl
      | panic p => rw [ha] at h; cases h; rfl
      | ok args byref tag rest =>
        rw [ha] at h
        exact answer_keeps service lib ostream buf byref tag rest _ s o f h hf

theorem doInvokeLoop_keeps (lib : ServiceLibrary) : ∀ (fuel : Nat) (service : BaseService)
    (istream ostream buf : List Nat) (s : BaseService) (o : List Nat) (f : Flow),
    BaseService.doInvokeLoop lib fuel service istream ostream buf = (s, o, f) →
    f ≠ Flow.nil → o = ostream := by
  intro fuel
  induction fuel with
  | zero =>
    intro service istream ostream buf s o f h _
    rw [BaseService.doInvokeLoop] at h
    cases h; rfl
  | succ fuel ih =>
    intro service istream ostream buf s o f h hf
    rw [BaseService.doInvokeLoop] at h
    cases hc : service.doInvokeCall lib istream ostream buf with
    | stop s' o' f' =>
      rw [hc] at h
      cases h
      exact doInvokeCall_keeps service lib istream ostream buf s o f hc hf
    | next s' buf' tag rest =>
      rw [hc] at h
      simp only at h
      by_cases ht : tag ≠ TagCall
      · rw [if_pos ht] at h
        cases h
        exact absurd rfl hf
      · rw [if_neg ht] at h
        exact ih s' rest ostream buf' s o f h hf

theorem handleBody_keeps (service : BaseService) (lib : ServiceLibrary)
    (istream ostream : List Nat) (s : BaseService) (o : List Nat) (f : Flow)
    (h : service.handleBody lib istream ostream = (s, o, f)) (hf : f ≠ Flow.nil) :
    o = ostream := by
  unfold BaseService.handleBody at h
  rcases hr : Read istream 1 with ⟨buf, k, e, rest⟩
  rw [hr] at h
  cases e with
  | some err => cases h; rfl
  | none =>
    simp only at h
    split_ifs at h
    · exact doInvokeLoop_keeps lib _ service rest ostream [] s o f h hf
    · unfold BaseService.doFunctionList at h
      simp only at h
      split at h
      · cases h; rfl
      · cases h; exact absurd rfl hf
    · cases h; rfl

/-- Pipelined requests to the test service. A call of `hello` followed by a
call of `PanicTest`, of the unknown method `nope`, or of `Sum` without
arguments (which returns an error) is answered with the `E` frame of the
failure alone; two calls of `hello` are answered with both results. -/
theorem pipelined_failure_example :
    ((testService true).Handle exampleServiceLibrary
        [67, 115, 53, 34, 104, 101, 108, 108, 111, 34, 97, 49, 123, 115, 53, 34, 87, 111, 114,
         108, 100, 34, 125, 67, 115, 57, 34, 80, 97, 110, 105, 99, 84, 101, 115, 116, 34, 122] []).map (fun r => r.2)
      = some
        [69, 115, 57, 34, 73, 39, 109, 32, 99, 114, 97, 122, 121, 34, 122] ∧
    ((testService true).Handle exampleServiceLibrary
        [67, 115, 53, 34, 104, 101, 108, 108, 111, 34, 97, 49, 123, 115, 53, 34, 87, 111, 114,
         108, 100, 34, 125, 67, 115, 52, 34, 110, 111, 112, 101, 34, 122] []).map (fun r => r.2)
      = some
        [69, 115, 50, 55, 34, 67, 97, 110, 39, 116, 32, 102, 105, 110, 100, 32, 116, 104, 105,
         115, 32, 109, 101, 116, 104, 111, 100, 32, 110, 111, 112, 101, 34, 122] ∧
    ((testService true).Handle exampleServiceLibrary
        [67, 115, 53, 34, 104, 101, 108, 108, 111, 34, 97, 49, 123, 115, 53, 34, 87, 111, 114,
         108, 100, 34, 125, 67, 115, 51, 34, 83, 117, 109, 34, 122] []).map (fun r => r.2)
      = some
        [69, 115, 51, 50, 34, 82, 101, 113, 117, 105, 114, 101, 115, 32, 97, 116, 32, 108, 101,
         97, 115, 116, 32, 116, 119, 111, 32, 112, 97, 114, 97, 109, 101, 116, 101, 114, 115,
         34, 122] ∧
    ((testService true).Handle exampleServiceLibrary
        [67, 115, 53, 34, 104, 101, 108, 108, 111, 34, 97, 49, 123, 115, 53, 34, 87, 111, 114,
         108, 100, 34, 125, 67, 115, 53, 34, 104, 101, 108, 108, 111, 34, 97, 49, 123, 115, 53,
         34, 84, 104, 101, 114, 101, 34, 125, 122] []).map (fun r => r.2)
      = some
        [82, 115, 49, 50, 34, 72, 101, 108, 108, 111, 32, 87, 111, 114, 108, 100, 33, 34, 82,
         115, 49, 50, 34, 72, 101, 108, 108, 111, 32, 84, 104, 101, 114, 101, 33, 34, 122] := by
  refine ⟨by decide, by decide, by decide, by decide⟩

/-! ## C31: the error frame read back by the client -/

/-- `ReadString` on the counted form of a valid string gives the string
back. -/
theorem ReadString_encodeCounted (d : Decoders) (m : List Nat) (hm : validString m)
    (t : List Nat) :
    reader.ReadString d (NewSimpleReader (encodeCounted m ++ t))
      = some (m, none, NewSimpleReader t) := by
  obtain ⟨⟨cs, rfl⟩, hlen⟩ := hm
  have hnd : ¬ (48 ≤ TagString ∧ TagString ≤ 57) := by decide
  by_cases hnil : cs = []
  · subst hnil
    have he : encodeCounted (utf8Bytes []) ++ t = TagString :: TagQuote :: TagQuote :: t := rfl
    rw [he]
    rfl
  · have hb := ulen_bounds cs
    have hpos : 0 < ulen (utf8Bytes cs) := by
      have : 0 < cs.length := List.length_pos.mpr hnil
      omega
    have hrs := readStringWithoutTag_spec cs hnil t (by omega) (NewSimpleReader [])
    simp only [NewSimpleReader] at hrs
    have he : encodeCounted (utf8Bytes cs) ++ t
        = TagString :: (decimalText (ulen (utf8Bytes cs))
            ++ TagQuote :: (utf8Bytes cs ++ TagQuote :: t)) := by
      simp [encodeCounted, hpos]
    rw [he]
    simp [NewSimpleReader, reader.ReadString, TagString, hrs]

/-- C31: for every error message `m` that is valid UTF-8 (the empty message
and the messages of one character among them), `doIntput` in `Normal` or
`Serialized` mode, applied to the frame that `sendError` writes for `m`,
returns an error whose text is exactly `m`. -/
theorem doIntput_sendError (client : BaseClient) (lib : ClientLibrary) (d : Decoders)
    (options : InvokeOptions) (lenResult lenArgs : Nat) (service : BaseService) (m : List Nat)
    (hm : validString m)
    (hmode : options.ResultMode = ResultMode.Normal
      ∨ options.ResultMode = ResultMode.Serialized) :
    ∃ frame err, service.sendError [] m = some frame ∧
      client.doIntput lib d options lenResult lenArgs frame
        = inputFlow.returns (some err) [] ∧
      err.Error = m := by
  refine ⟨[] ++ TagError :: (encodeCounted m ++ [TagEnd]), error.text m,
    sendError_frame service [] m hm, ?_, rfl⟩
  have hrs := ReadString_encodeCounted d m hm [TagEnd]
  have hct : CheckTags (TagError :: (encodeCounted m ++ [TagEnd]))
      [TagResult, TagArgument, TagError, TagEnd]
      = (TagError, none, encodeCounted m ++ [TagEnd]) := rfl
  have h1 : ¬ (TagError = TagEnd) := by decide
  have h2 : ¬ (TagError = TagResult) := by decide
  have h3 : ¬ (TagError = TagArgument) := by decide
  have hck : (NewSimpleReader [TagEnd]).CheckTag TagEnd = (none, NewSimpleReader []) := rfl
  unfold BaseClient.doIntput
  rw [List.nil_append, List.length_cons, doIntputLoop]
  unfold doIntputRound
  rw [hct]
  dsimp only
  rw [if_neg h1, if_neg h2, if_neg h3, if_pos rfl]
  rcases hmode with h | h
  · rw [h]
    simp only [hrs, hck]
  · rw [h]
    simp only [hrs, hck]

theorem doIntput_sendError_witness :
    ∃ frame err, NewBaseService.sendError [] [] = some frame ∧
      ({ ByRef := false, SimpleMode := false } : BaseClient).doIntput exampleClientLibrary
          exampleDecoders InvokeOptions.new 1 0 frame
        = inputFlow.returns (some err) [] ∧
      err.Error = [] :=
  doIntput_sendError { ByRef := false, SimpleMode := false } exampleClientLibrary
    exampleDecoders InvokeOptions.new 1 0 NewBaseService []
    ⟨⟨[], rfl⟩, by decide⟩ (Or.inl rfl)

/-- The frames of the empty message, of the message `x` and of the message
`I'm crazy`, and what `doIntput` returns on them in `Normal` mode. In the
mode `Raw` the frame is copied to the buffer and no error is returned. -/
theorem doIntput_sendError_example :
    NewBaseService.sendError [] [] = some [69, 115, 34, 34, 122] ∧
    ({ ByRef := false, SimpleMode := false } : BaseClient).doIntput exampleClientLibrary
        exampleDecoders InvokeOptions.new 1 0 [69, 115, 34, 34, 122]
      = inputFlow.returns (some (error.text [])) [] ∧
    NewBaseService.sendError [] [120] = some [69, 115, 49, 34, 120, 34, 122] ∧
    ({ ByRef := false, SimpleMode := false } : BaseClient).doIntput exampleClientLibrary
        exampleDecoders InvokeOptions.new 1 0 [69, 115, 49, 34, 120, 34, 122]
      = inputFlow.returns (some (error.text [120])) [] ∧
    ({ ByRef := false, SimpleMode := false } : BaseClient).doIntput exampleClientLibrary
        exampleDecoders InvokeOptions.new 1 0
        [69, 115, 57, 34, 73, 39, 109, 32, 99, 114, 97, 122, 121, 34, 122]
      = inputFlow.returns (some (error.text [73, 39, 109, 32, 99, 114, 97, 122, 121])) [] ∧
    ({ ByRef := false, SimpleMode := false } : BaseClient).doIntput exampleClientLibrary
        exampleDecoders { ByRef := none, SimpleMode := none, ResultMode := ResultMode.Raw } 1 0
        [69, 115, 49, 34, 120, 34, 122]
      = inputFlow.returns none [69, 115, 49, 34, 120, 34] := by
  refine ⟨by decide, by decide, by decide, by decide, by decide, by decide⟩

/-- C6 (as stated, refuted). The Go string of the one byte `0xFF` is a string
the simple writer encodes: `Serialize` writes `u` and the byte, which is also
what the specification's encoding gives. `ReadRaw` on these bytes, followed
by `n`, succeeds and leaves the `n`, but returns `u` and the three bytes
`EF BF BD` of U+FFFD: not the encoding. The same happens inside the counted
form, for the string of the bytes `a` and `0xFF`. -/
theorem ReadRaw_Serialize_invalid_utf8 :
    ((NewSimpleWriter []).Serialize (Value.string [255])).map (fun w => w.stream)
      = some [117, 255] ∧
    encode (Value.string [255]) = [117, 255] ∧
    ReadRaw ([117, 255] ++ [110])
      = rawResult.ret { stream := [110], ostream := [117, 239, 191, 189], err := none } ∧
    ([117, 239, 191, 189] : List Nat) ≠ [117, 255] ∧
    ((NewSimpleWriter []).Serialize (Value.string [97, 255])).map (fun w => w.stream)
      = some [115, 50, 34, 97, 255, 34] ∧
    ReadRaw ([115, 50, 34, 97, 255, 34] ++ [110])
      = rawResult.ret
          { stream := [110], ostream := [115, 50, 34, 97, 239, 191, 189, 34], err := none } := by
  refine ⟨by decide, by decide, by decide, by decide, by decide, by decide⟩

/-- The rounds that answer the earlier calls of a pipelined request leave
the loop of `doInvoke` at the call at hand, with budget to spare. -/
theorem answered_loop (lib : ServiceLibrary) (ostream : List Nat) (s : BaseService)
    (i b : List Nat) (s1 : BaseService) (i1 b1 : List Nat)
    (h : answered lib ostream s i b s1 i1 b1) :
    ∀ fuel, i.length < fuel → ∃ fuel1, i1.length < fuel1 ∧
      BaseService.doInvokeLoop lib fuel s i ostream b
        = BaseService.doInvokeLoop lib fuel1 s1 i1 ostream b1 := by
  induction h with
  | none s i b => intro fuel hf; exact ⟨fuel, hf, rfl⟩
  | call s i b s1 i1 b1 s2 i2 b2 first _ ih =>
    intro fuel hf
    obtain ⟨f, rfl⟩ : ∃ f, fuel = f + 1 := ⟨fuel - 1, by omega⟩
    have hl := doInvokeCall_length s lib i ostream b s1 b1 TagCall i1 first
    obtain ⟨fuel1, h1, h2⟩ := ih f (by omega)
    refine ⟨fuel1, h1, ?_⟩
    rw [BaseService.doInvokeLoop, first]
    simp only [ne_eq, not_true_eq_false, if_false]
    exact h2

/-- A call that fails stops the loop of `doInvoke` with its error and with
the output stream as it was, whatever the buffer holds. -/
theorem doInvokeLoop_failing_call (lib : ServiceLibrary) (fuel : Nat) (s1 : BaseService)
    (i1 ostream b1 msg name : List Nat) (n : Nat) (args : List Value) (byref : Bool) (tag : Nat)
    (rest : List Nat)
    (hname : lib.ReadString i1 = some (name, none, n))
    (hargs : readArguments lib (mapGet s1.Methods.RemoteMethods (lib.ToLower name))
      (i1.drop n) = argsRead.ok args byref tag rest)
    (hfail : (mapGet s1.Methods.RemoteMethods (lib.ToLower name) = none
        ∧ mapGet s1.Methods.RemoteMethods [42] = none
        ∧ msg = stringBytes "Can't find this method " ++ name)
      ∨ (∃ m, mapGet s1.Methods.RemoteMethods (lib.ToLower name) = some m
        ∧ m.Function.Call args = Outcome.panics msg)
      ∨ (∃ m result args', mapGet s1.Methods.RemoteMethods (lib.ToLower name) = some m
        ∧ m.Function.Call args = Outcome.returns (result, some (some msg)) args')) :
    BaseService.doInvokeLoop lib (fuel + 1) s1 i1 ostream b1 = (s1, ostream, Flow.err msg) := by
  have hcall := doInvokeCall_eq s1 lib i1 ostream b1 name n args byref tag rest hname hargs
  have hstop : s1.doInvokeCall lib i1 ostream b1 = callFlow.stop s1 ostream (Flow.err msg) := by
    rw [hcall]
    rcases hfail with ⟨h1, h2, h3⟩ | ⟨m, h1, h2⟩ | ⟨m, result, args', h1, h2⟩
    · rw [h1, h3]
      simp only [BaseService.invoke, h2]
      rfl
    · rw [h1]
      simp only [BaseService.invoke, h2]
      rfl
    · rw [h1]
      simp only [BaseService.invoke, h2]
      rfl
  rw [BaseService.doInvokeLoop, hstop]

/-- C37: in a pipelined request, when a call fails after any number of calls
that were answered (the rounds `answered`), the service writes exactly one
`E` frame, the one of that failure, after what the output stream held: the
buffer with the `R` bytes of the earlier calls is never written. The failing
call is given by what is read of it: its name, its arguments, and either no
method of that name and no catch-all (the text is `Can't find this method`
and the name), or a method that panics with the text, or a method that
returns an error with the text. More generally, whenever the handling of a
request does not end normally, the output stream is as it was before. -/
theorem pipelined_failure_frame (service : BaseService) (lib : ServiceLibrary)
    (istream ostream msg : List Nat) (s1 : BaseService) (i1 b1 name : List Nat) (n : Nat)
    (args : List Value) (byref : Bool) (tag : Nat) (rest : List Nat)
    (hmsg : validString msg)
    (hbefore : answered lib ostream service istream [] s1 i1 b1)
    (hname : lib.ReadString i1 = some (name, none, n))
    (hargs : readArguments lib (mapGet s1.Methods.RemoteMethods (lib.ToLower name))
      (i1.drop n) = argsRead.ok args byref tag rest)
    (hfail : (mapGet s1.Methods.RemoteMethods (lib.ToLower name) = none
        ∧ mapGet s1.Methods.RemoteMethods [42] = none
        ∧ msg = stringBytes "Can't find this method " ++ name)
      ∨ (∃ m, mapGet s1.Methods.RemoteMethods (lib.ToLower name) = some m
        ∧ m.Function.Call args = Outcome.panics msg)
      ∨ (∃ m result args', mapGet s1.Methods.RemoteMethods (lib.ToLower name) = some m
        ∧ m.Function.Call args = Outcome.returns (result, some (some msg)) args')) :
    service.Handle lib (TagCall :: istream) ostream
      = some (s1, ostream ++ TagError :: (encodeCounted msg ++ [TagEnd])) ∧
    (∀ (request : List Nat) (s : BaseService) (o : List Nat) (f : Flow),
      service.handleBody lib request ostream = (s, o, f) → f ≠ Flow.nil → o = ostream) := by
  refine ⟨?_, fun request s o f h hf => handleBody_keeps service lib request ostream s o f h hf⟩
  obtain ⟨fuel1, hf1, hloop⟩ :=
    answered_loop lib ostream service istream [] s1 i1 b1 hbefore (istream.length + 1) (by omega)
  obtain ⟨g, rfl⟩ : ∃ g, fuel1 = g + 1 := ⟨fuel1 - 1, by omega⟩
  have hstop := doInvokeLoop_failing_call lib g s1 i1 ostream b1 msg name n args byref tag rest
    hname hargs hfail
  have hbody : service.handleBody lib (TagCall :: istream) ostream
      = (s1, ostream, Flow.err msg) := by
    rw [handleBody_call]
    unfold BaseService.doInvoke
    rw [hloop, hstop]
  exact Handle_err service s1 lib _ ostream ostream msg hbody hmsg

theorem pipelined_failure_frame_witness :
    (testService true).Handle exampleServiceLibrary
        (TagCall ::
          [115, 53, 34, 104, 101, 108, 108, 111, 34, 97, 49, 123, 115, 53, 34, 87, 111, 114,
           108, 100, 34, 125, 67, 115, 57, 34, 80, 97, 110, 105, 99, 84, 101, 115, 116, 34, 122]) []
      = some (testService true,
          [] ++ TagError :: (encodeCounted (stringBytes "I'm crazy") ++ [TagEnd])) ∧
    (∀ (request : List Nat) (s : BaseService) (o : List Nat) (f : Flow),
      (testService true).handleBody exampleServiceLibrary request [] = (s, o, f) →
      f ≠ Flow.nil → o = []) :=
  pipelined_failure_frame (testService true) exampleServiceLibrary
    [115, 53, 34, 104, 101, 108, 108, 111, 34, 97, 49, 123, 115, 53, 34, 87, 111, 114, 108,
     100, 34, 125, 67, 115, 57, 34, 80, 97, 110, 105, 99, 84, 101, 115, 116, 34, 122] []
    (stringBytes "I'm crazy") (testService true)
    [115, 57, 34, 80, 97, 110, 105, 99, 84, 101, 115, 116, 34, 122]
    [82, 115, 49, 50, 34, 72, 101, 108, 108, 111, 32, 87, 111, 114, 108, 100, 33, 34]
    [80, 97, 110, 105, 99, 84, 101, 115, 116] 13 [] false TagEnd []
    ⟨⟨"I'm crazy".data, rfl⟩, by decide⟩
    (answered.call _ _ _ _ _ _ _ _ _ rfl (answered.none _ _ _)) rfl rfl
    (Or.inr (Or.inl
      ⟨{ Function := PanicTestFunc, ResultMode := ResultMode.Normal, SimpleMode := true },
        rfl, rfl⟩))

/-! ## C18: reading back a written time -/

/-- C18 (as stated, refuted). Year 2024, month 2, day 30 lie in the ranges of
the claim. The writer's forms give `D20240230T120000Z`; `ReadDateWithoutTag`
on the bytes after the `D` hands exactly these fields to `time.Date`, which
normalises them: the time read is the first of March, not month 2 and day
30. In the same way the 29th of February 2023 reads back as the first of
March and the 31st of April as the first of May. -/
theorem read_formatted_time_february_30 :
    formatDate 2024 2 30 ++ (formatTime 12 0 0 0 ++ [TagUTC])
      = [68, 50, 48, 50, 52, 48, 50, 51, 48, 84, 49, 50, 48, 48, 48, 48, 90] ∧
    reader.ReadDateWithoutTag calendarLibrary (NewSimpleReader
        ((formatDate 2024 2 30 ++ (formatTime 12 0 0 0 ++ [TagUTC])).drop 1))
      = (some { year := 2024, month := 3, day := 1, hour := 12, min := 0, sec := 0, nsec := 0,
                utc := true }, none, NewSimpleReader []) ∧
    (reader.ReadDateWithoutTag calendarLibrary (NewSimpleReader
        ((formatDate 2023 2 29 ++ (formatTime 12 0 0 0 ++ [TagSemicolon])).drop 1))).1
      = some { year := 2023, month := 3, day := 1, hour := 12, min := 0, sec := 0, nsec := 0,
               utc := false } ∧
    (reader.ReadDateWithoutTag calendarLibrary (NewSimpleReader
        ((formatDate 2023 4 31 ++ (formatTime 12 0 0 0 ++ [TagUTC])).drop 1))).1
      = some { year := 2023, month := 5, day := 1, hour := 12, min := 0, sec := 0, nsec := 0,
               utc := true } := by
  refine ⟨by decide, by decide, by decide, by decide⟩

/-- C18 (amended). For year up to 9999, two-digit month, day, hour, minute
and second, nanosecond below `10^9`, terminator `Z` or `;` and every rest
`t` of the stream: `ReadDateWithoutTag` on the bytes after the `D` of
`formatDate ++ formatTime ++ terminator` returns `time.Date` of exactly the
seven fields that were written, and `readTime` and `ReadTimeWithoutTag` on
the bytes after the `T` of `formatTime ++ terminator` return exactly hour,
minute, second and nanosecond; the location is UTC exactly when the
terminator is `Z`; there is no error and `t` is left unread. With the
calendar of `time.Date`, the time read has exactly the year, month, day,
hour, minute, second and nanosecond that were written whenever the month is
1..12, the day is one that the month has in that year, the hour is at most
23 and minute and second at most 59 (for the terminator `;` in a local zone
whose clocks are not changed at that time). -/
theorem read_formatted_time {F T O : Type} (lib : Library F T O)
    (year month day hour min sec nsec : Nat) (hy : year ≤ 9999) (hmo : month ≤ 99)
    (hd : day ≤ 99) (hh : hour ≤ 99) (hm : min ≤ 99) (hs : sec ≤ 99)
    (hn : nsec < 1000000000) (term : Nat) (hterm : term = TagUTC ∨ term = TagSemicolon)
    (t : List Nat) :
    reader.ReadDateWithoutTag lib (NewSimpleReader
        ((formatDate year month day ++ (formatTime hour min sec nsec ++ term :: t)).drop 1))
      = (lib.Date year month day hour min sec nsec (decide (term = TagUTC)), none,
          NewSimpleReader t) ∧
    readTime ((formatTime hour min sec nsec ++ term :: t).drop 1)
      = ((hour : Int), (min : Int), (sec : Int), (nsec : Int), term, none, t) ∧
    reader.ReadTimeWithoutTag lib (NewSimpleReader
        ((formatTime hour min sec nsec ++ term :: t).drop 1))
      = (lib.Date 1 1 1 hour min sec nsec (decide (term = TagUTC)), none, NewSimpleReader t) ∧
    (1 ≤ month ∧ month ≤ 12 ∧ 1 ≤ day ∧ (day : Int) ≤ daysIn year month ∧ hour ≤ 23 ∧ min ≤ 59
        ∧ sec ≤ 59 →
      reader.ReadDateWithoutTag calendarLibrary (NewSimpleReader
          ((formatDate year month day ++ (formatTime hour min sec nsec ++ term :: t)).drop 1))
        = (some { year := year, month := month, day := day, hour := hour, min := min,
                  sec := sec, nsec := nsec, utc := decide (term = TagUTC) }, none,
            NewSimpleReader t)) ∧
    (hour ≤ 23 ∧ min ≤ 59 ∧ sec ≤ 59 →
      reader.ReadTimeWithoutTag calendarLibrary (NewSimpleReader
          ((formatTime hour min sec nsec ++ term :: t).drop 1))
        = (some { year := 1, month := 1, day := 1, hour := hour, min := min, sec := sec,
                  nsec := nsec, utc := decide (term = TagUTC) }, none, NewSimpleReader t)) := by
  have hgen : ∀ {F T O : Type} (lib : Library F T O),
      reader.ReadDateWithoutTag lib (NewSimpleReader
          ((formatDate year month day ++ (formatTime hour min sec nsec ++ term :: t)).drop 1))
        = (lib.Date year month day hour min sec nsec (decide (term = TagUTC)), none,
            NewSimpleReader t) ∧
      readTime ((formatTime hour min sec nsec ++ term :: t).drop 1)
        = ((hour : Int), (min : Int), (sec : Int), (nsec : Int), term, none, t) ∧
      reader.ReadTimeWithoutTag lib (NewSimpleReader
          ((formatTime hour min sec nsec ++ term :: t).drop 1))
        = (lib.Date 1 1 1 hour min sec nsec (decide (term = TagUTC)), none,
            NewSimpleReader t) := by
    intro F T O lib
    have hrt := readTime_formatTime hour min sec nsec hh hm hs hn term hterm t
    refine ⟨?_, hrt, ?_⟩
    · obtain ⟨tl, htl, _⟩ := formatTime_cons hour min sec nsec
      have hrt' : readTime (tl ++ term :: t)
          = ((hour : Int), (min : Int), (sec : Int), (nsec : Int), term, none, t) := by
        rw [htl] at hrt
        simpa using hrt
      rw [formatDate_nat, htl]
      simp only [List.cons_append, List.nil_append, List.drop_succ_cons, List.drop_zero]
      unfold reader.ReadDateWithoutTag
      simp only [NewSimpleReader]
      rw [readDateDigits_digits _ _ _ _ _ _ _ _ (by omega) (by omega) (by omega) (by omega)
        (by omega) (by omega) (by omega) (by omega)]
      simp only [if_true, hrt']
      rw [makeTime_terminator lib _ _ _ _ _ _ _ _ term hterm]
      congr 2
      · omega
      · omega
      · omega
    · unfold reader.ReadTimeWithoutTag
      simp only [NewSimpleReader, hrt]
      rw [makeTime_terminator lib _ _ _ _ _ _ _ _ term hterm]
  obtain ⟨h1, h2, h3⟩ := hgen lib
  refine ⟨h1, h2, h3, ?_, ?_⟩
  · rintro ⟨hm1, hm12, hd1, hdin, hh23, hm59, hs59⟩
    rw [(hgen calendarLibrary).1]
    have hd31 : (day : Int) ≤ 31 := by
      have : daysIn year month ≤ 31 := by
        unfold daysIn
        split_ifs <;> omega
      omega
    have hr : (1 : Int) ≤ month ∧ (month : Int) ≤ 12 ∧ (1 : Int) ≤ day ∧ (day : Int) ≤ 31
        ∧ (0 : Int) ≤ hour ∧ (hour : Int) ≤ 23 ∧ (0 : Int) ≤ min ∧ (min : Int) ≤ 59
        ∧ (0 : Int) ≤ sec ∧ (sec : Int) ≤ 59 ∧ (0 : Int) ≤ nsec ∧ (nsec : Int) ≤ 999999999 := by
      omega
    have hdate : calendarLibrary.Date year month day hour min sec nsec (decide (term = TagUTC))
        = dateFields year month day hour min sec nsec (decide (term = TagUTC)) := rfl
    rw [hdate]
    unfold dateFields
    rw [if_pos hr, if_pos hdin]
  · rintro ⟨hh23, hm59, hs59⟩
    rw [(hgen calendarLibrary).2.2]
    have hr : (1 : Int) ≤ 1 ∧ (1 : Int) ≤ 12 ∧ (1 : Int) ≤ 1 ∧ (1 : Int) ≤ 31
        ∧ (0 : Int) ≤ hour ∧ (hour : Int) ≤ 23 ∧ (0 : Int) ≤ min ∧ (min : Int) ≤ 59
        ∧ (0 : Int) ≤ sec ∧ (sec : Int) ≤ 59 ∧ (0 : Int) ≤ nsec ∧ (nsec : Int) ≤ 999999999 := by
      omega
    have hdate : calendarLibrary.Date 1 1 1 hour min sec nsec (decide (term = TagUTC))
        = dateFields 1 1 1 hour min sec nsec (decide (term = TagUTC)) := rfl
    rw [hdate]
    unfold dateFields
    rw [if_pos hr, if_pos (by decide)]

theorem read_formatted_time_witness :
    reader.ReadDateWithoutTag calendarLibrary (NewSimpleReader
        ((formatDate (2024 : Nat) (2 : Nat) (29 : Nat)
          ++ (formatTime (23 : Nat) (59 : Nat) (7 : Nat) (120000 : Nat) ++ TagUTC :: [110])).drop 1))
      = (some { year := ((2024 : Nat) : Int), month := ((2 : Nat) : Int),
                day := ((29 : Nat) : Int), hour := ((23 : Nat) : Int),
                min := ((59 : Nat) : Int), sec := ((7 : Nat) : Int),
                nsec := ((120000 : Nat) : Int), utc := decide (TagUTC = TagUTC) }, none,
          NewSimpleReader [110]) ∧
    readTime ((formatTime (23 : Nat) (59 : Nat) (7 : Nat) (120000 : Nat) ++ TagUTC :: [110]).drop 1)
      = (((23 : Nat) : Int), ((59 : Nat) : Int), ((7 : Nat) : Int), ((120000 : Nat) : Int),
          TagUTC, none, [110]) ∧
    reader.ReadTimeWithoutTag calendarLibrary (NewSimpleReader
        ((formatTime (23 : Nat) (59 : Nat) (7 : Nat) (120000 : Nat) ++ TagUTC :: [110]).drop 1))
      = (some { year := 1, month := 1, day := 1, hour := ((23 : Nat) : Int),
                min := ((59 : Nat) : Int), sec := ((7 : Nat) : Int),
                nsec := ((120000 : Nat) : Int), utc := decide (TagUTC = TagUTC) }, none,
          NewSimpleReader [110]) :=
  have h := read_formatted_time calendarLibrary 2024 2 29 23 59 7 120000 (by decide) (by decide)
    (by decide) (by decide) (by decide) (by decide) (by decide) TagUTC (Or.inl rfl) [110]
  ⟨h.2.2.2.1 ⟨by decide, by decide, by decide, by decide, by decide, by decide, by decide⟩,
    h.2.1, h.2.2.2.2 ⟨by decide, by decide, by decide⟩⟩

/-- The calendar on the leap day of 2024 and on days that do not exist. -/
theorem dateFields_example :
    dateFields 2024 2 29 0 0 0 0 true
      = some { year := 2024, month := 2, day := 29, hour := 0, min := 0, sec := 0, nsec := 0,
               utc := true } ∧
    dateFields 2023 2 29 0 0 0 0 true
      = some { year := 2023, month := 3, day := 1, hour := 0, min := 0, sec := 0, nsec := 0,
               utc := true } ∧
    dateFields 1900 2 29 0 0 0 0 true
      = some { year := 1900, month := 3, day := 1, hour := 0, min := 0, sec := 0, nsec := 0,
               utc := true } ∧
    dateFields 2000 2 29 0 0 0 0 true
      = some { year := 2000, month := 2, day := 29, hour := 0, min := 0, sec := 0, nsec := 0,
               utc := true } ∧
    dateFields 2023 11 31 0 0 0 0 false
      = some { year := 2023, month := 12, day := 1, hour := 0, min := 0, sec := 0, nsec := 0,
               utc := false } := by
  refine ⟨by decide, by decide, by decide, by decide, by decide⟩

/-! ## C7: the raw reader on the forms of section 4.2 -/

end Hprose
